import Mathlib

/-!
# BusTub storage core: clock replacer, buffer pool manager, linear-probe hash table

A shallow embedding of

* `src/buffer/clock_replacer.cpp`
* `src/buffer/buffer_pool_manager.cpp`
* `src/storage/page/hash_table_block_page.cpp`, `src/storage/page/hash_table_header_page.cpp`
* `src/container/hash/linear_probe_hash_table.cpp`

Every operation is embedded as a sequential state transformer: the mutexes and
reader/writer latches are taken and released inside each operation and play no
role in a single-threaded run (`latch_.try_lock()` in a public operation of the
buffer pool succeeds, the nested `try_lock` in `GetUsableFrameImpl` fails because
the caller holds the latch, which is the branch that does the work).

Conventions.
* A frame id (`frame_id_t`) is a `Nat`; the sentinel `-1` ("no frame") and a null
  `Page*` are `none`. A non-null `Page*` is `&pages_[f]` and is represented by the
  frame id `f`.
* A page id (`page_id_t`) is an `Int`, `INVALID_PAGE_ID = -1`.
* `pin_count_` is an `Int` (a C++ `int`; more than `2^31 - 1` outstanding pins of one
  page are outside the embedding), `size_` and `clock_hand_` are `Nat` (`size_t`;
  `size_--` is only executed on a frame with `free = true`, see `ClockReplacer.WF`).
* An unbounded loop of the source is embedded with a fuel argument and the
  result `none` stands for "the loop does not return within the fuel".
* Runs of the buffer pool: `BufferPoolManager.PublicRun` holds of every state
  reachable from construction through the public operations, with any arguments
  and any disk manager. `BufferPoolManager.Reachable` is the subset in which
  `NewPage` is never handed a page id that is resident (the source installs the
  id without looking it up); only there every frame is free-listed or mapped
  (`WF.cover`). `BufferPoolManager.ReachableValid` is the subset of `PublicRun` in
  which `INVALID_PAGE_ID` is never fetched.
-/

namespace bustub

/-- Modelled from the spec: the sentinel page id of a frame that holds no page
(`common/config.h` is not part of the sources; the value is the reserved id -1). -/
def INVALID_PAGE_ID : Int := -1

/-! ## Clock replacer (`clock_replacer.cpp`) -/

/-- Per-frame record of the clock replacer: `free` (the frame is an eviction
candidate) and `ref` (the clock reference bit). -/
structure ClockReplacerFrameInfo where
  free : Bool
  ref : Bool
  deriving DecidableEq, Repr

/-- State of `ClockReplacer`: `frame_infos_` is the vector of `num_pages`
records (`num_pages = frame_infos_.size()`), `clock_hand_` the cursor and
`size_` the counter returned by `Size()`. -/
structure ClockReplacer where
  num_pages : Nat
  frame_infos_ : Nat → ClockReplacerFrameInfo
  clock_hand_ : Nat
  size_ : Nat

namespace ClockReplacer

/-- Modelled from the spec: the default member values declared in
`clock_replacer.h`, which is not part of the sources: "every frame is
`free=false, ref=false`", the hand starts at position 0 and `Size()` at 0. -/
def initialFrameInfo : ClockReplacerFrameInfo := { free := false, ref := false }

/-- `ClockReplacer::ClockReplacer(num_pages)`: `num_pages` default-constructed
records, `clock_hand_` and `size_` at their default 0. -/
def new (num_pages : Nat) : ClockReplacer :=
  { num_pages := num_pages
    frame_infos_ := fun _ => initialFrameInfo
    clock_hand_ := 0
    size_ := 0 }

/-- `ClockReplacer::Step`. -/
def Step (r : ClockReplacer) : ClockReplacer :=
  { r with clock_hand_ := (r.clock_hand_ + 1) % r.num_pages }

/-- `ClockReplacer::FindVictim`: the `for (;;)` sweep. One unit of fuel is one
visited clock position; `none` means the sweep has not returned within the fuel. -/
def FindVictim : Nat → ClockReplacer → Option (Nat × ClockReplacer)
  | 0, _ => none
  | fuel + 1, r =>
    if (r.frame_infos_ r.clock_hand_).free then
      if (r.frame_infos_ r.clock_hand_).ref then
        let info : ClockReplacerFrameInfo := { free := (r.frame_infos_ r.clock_hand_).free, ref := false }
        FindVictim fuel (Step { r with frame_infos_ := Function.update r.frame_infos_ r.clock_hand_ info })
      else
        some (r.clock_hand_, Step r)
    else
      FindVictim fuel (Step r)

/-- `ClockReplacer::Victim`. The result is `some (none, r)` for `return false`,
`some (some f, r)` for `return true` with `*frame_id = f`; the outer `none` means
that the sweep of `FindVictim` does not return within `2 * num_pages` positions. -/
def Victim (r : ClockReplacer) : Option (Option Nat × ClockReplacer) :=
  if r.size_ = 0 then some (none, r)
  else
    match FindVictim (2 * r.num_pages) r with
    | none => none
    | some (f, r1) =>
      let info : ClockReplacerFrameInfo := { free := false, ref := (r1.frame_infos_ f).ref }
      some (some f,
        { r1 with
          frame_infos_ := Function.update r1.frame_infos_ f info
          size_ := r1.size_ - 1 })

/-- `ClockReplacer::Pin`. -/
def Pin (r : ClockReplacer) (frame_id : Nat) : ClockReplacer :=
  if !(r.frame_infos_ frame_id).free then r
  else
    let info : ClockReplacerFrameInfo := { free := false, ref := (r.frame_infos_ frame_id).ref }
    { r with
      frame_infos_ := Function.update r.frame_infos_ frame_id info
      size_ := r.size_ - 1 }

/-- `ClockReplacer::Unpin`. -/
def Unpin (r : ClockReplacer) (frame_id : Nat) : ClockReplacer :=
  if (r.frame_infos_ frame_id).free then r
  else
    { r with
      frame_infos_ := Function.update r.frame_infos_ frame_id { free := true, ref := true }
      size_ := r.size_ + 1 }

/-- `ClockReplacer::Size`. -/
def Size (r : ClockReplacer) : Nat := r.size_

/-- The eviction candidates: the frames of the vector with `free = true`. -/
def candidates (r : ClockReplacer) : Finset Nat :=
  (Finset.range r.num_pages).filter (fun f => (r.frame_infos_ f).free = true)

/-- Well-formedness of a replacer state: the hand is inside the vector, only
frames of the vector are candidates, and `size_` counts the candidates. -/
structure WF (r : ClockReplacer) : Prop where
  hand : r.num_pages = 0 ∨ r.clock_hand_ < r.num_pages
  range : ∀ f, (r.frame_infos_ f).free = true → f < r.num_pages
  size : r.size_ = (candidates r).card

end ClockReplacer

/-! ## Buffer pool manager (`buffer_pool_manager.cpp`) -/

/-- In-memory page of a frame; `D` is the type of a `PAGE_SIZE`-byte image and
`0 : D` the zeroed image. -/
structure Page (D : Type) where
  data_ : D
  page_id_ : Int
  pin_count_ : Int
  is_dirty_ : Bool

/-- Modelled from the spec: the disk manager (its source is not part of the
repository slice). `ReadPage`/`WritePage` access a stored image per page id and
`AllocatePage` hands out `next_page_id_` and advances it ("monotonic"). -/
structure DiskManager (D : Type) where
  image : Int → D
  next_page_id_ : Int

namespace DiskManager

variable {D : Type}

def ReadPage (d : DiskManager D) (page_id : Int) : D := d.image page_id

def WritePage (d : DiskManager D) (page_id : Int) (data : D) : DiskManager D :=
  { d with image := Function.update d.image page_id data }

def AllocatePage (d : DiskManager D) : Int × DiskManager D :=
  (d.next_page_id_, { d with next_page_id_ := d.next_page_id_ + 1 })

end DiskManager

/-- The `std::unordered_map<page_id_t, frame_id_t>` page table as an
association list; the list order is the iteration order. -/
abbrev PageTable := List (Int × Nat)

namespace PageTable

/-- `page_table_.find(page_id)`. -/
def find : PageTable → Int → Option Nat
  | [], _ => none
  | (p, f) :: rest, page_id => if p = page_id then some f else find rest page_id

/-- `page_table_.erase(page_id)`. -/
def erase (pt : PageTable) (page_id : Int) : PageTable :=
  pt.filter (fun e => decide (e.1 ≠ page_id))

/-- `page_table_[page_id] = frame_id`. -/
def assign (pt : PageTable) (page_id : Int) (frame_id : Nat) : PageTable :=
  (page_id, frame_id) :: erase pt page_id

end PageTable

/-- State of `BufferPoolManager` together with the disk manager it drives. -/
structure BufferPoolManager (D : Type) where
  pool_size_ : Nat
  pages_ : Nat → Page D
  replacer_ : ClockReplacer
  free_list_ : List Nat
  page_table_ : PageTable
  disk_manager_ : DiskManager D

namespace BufferPoolManager

variable {D : Type} [Zero D]

/-- Modelled from the spec: a default-constructed `Page` (`page.h` is not part of
the sources): zeroed bytes, `page_id = INVALID_PAGE_ID`, `pin_count = 0`, not dirty. -/
def initialPage : Page D :=
  { data_ := 0, page_id_ := INVALID_PAGE_ID, pin_count_ := 0, is_dirty_ := false }

/-- `BufferPoolManager::BufferPoolManager`: `pool_size` default pages, a fresh
replacer and every frame in the free list in increasing order. -/
def new (pool_size : Nat) (disk_manager : DiskManager D) : BufferPoolManager D :=
  { pool_size_ := pool_size
    pages_ := fun _ => initialPage
    replacer_ := ClockReplacer.new pool_size
    free_list_ := List.range pool_size
    page_table_ := []
    disk_manager_ := disk_manager }

/-- The victim branch of `GetUsableFrameImpl` once `replacer_->Victim` has
returned the frame `frame_id` and left the replacer in state `r`: the page of the
frame is erased from the page table and, if dirty, written back and marked clean. -/
def evictVictim (s : BufferPoolManager D) (frame_id : Nat) (r : ClockReplacer) :
    BufferPoolManager D :=
  let page := s.pages_ frame_id
  { s with
    replacer_ := r
    page_table_ := s.page_table_.erase page.page_id_
    disk_manager_ :=
      if page.is_dirty_ then s.disk_manager_.WritePage page.page_id_ page.data_
      else s.disk_manager_
    pages_ :=
      if page.is_dirty_ then Function.update s.pages_ frame_id { page with is_dirty_ := false }
      else s.pages_ }

/-- `BufferPoolManager::GetUsableFrameImpl` (called with the latch held). -/
def GetUsableFrameImpl (s : BufferPoolManager D) : Option (Option Nat × BufferPoolManager D) :=
  match s.free_list_ with
  | frame_id :: rest => some (some frame_id, { s with free_list_ := rest })
  | [] =>
    match s.replacer_.Victim with
    | none => none
    | some (none, r) => some (none, { s with replacer_ := r })
    | some (some frame_id, r) => some (some frame_id, evictVictim s frame_id r)

/-- `BufferPoolManager::FetchPageImpl`. -/
def FetchPageImpl (s : BufferPoolManager D) (page_id : Int) :
    Option (Option Nat × BufferPoolManager D) :=
  match s.page_table_.find page_id with
  | some frame_id =>
    let page := s.pages_ frame_id
    let r := if page.pin_count_ = 0 then s.replacer_.Pin frame_id else s.replacer_
    some (some frame_id,
      { s with
        replacer_ := r
        pages_ := Function.update s.pages_ frame_id { page with pin_count_ := page.pin_count_ + 1 } })
  | none =>
    match GetUsableFrameImpl s with
    | none => none
    | some (none, s1) => some (none, s1)
    | some (some frame_id, s1) =>
      let page := s1.pages_ frame_id
      some (some frame_id,
        { s1 with
          page_table_ := s1.page_table_.assign page_id frame_id
          replacer_ := s1.replacer_.Pin frame_id
          pages_ := Function.update s1.pages_ frame_id
            { page with
              page_id_ := page_id
              pin_count_ := 1
              data_ := s1.disk_manager_.ReadPage page_id } })

/-- `BufferPoolManager::UnpinPageImpl`. -/
def UnpinPageImpl (s : BufferPoolManager D) (page_id : Int) (is_dirty : Bool) :
    Bool × BufferPoolManager D :=
  match s.page_table_.find page_id with
  | some frame_id =>
    let page := s.pages_ frame_id
    if 0 < page.pin_count_ then
      let pin_count := page.pin_count_ - 1
      let r := if pin_count = 0 then s.replacer_.Unpin frame_id else s.replacer_
      let dirty := if is_dirty then is_dirty else page.is_dirty_
      (true,
        { s with
          replacer_ := r
          pages_ := Function.update s.pages_ frame_id
            { page with pin_count_ := pin_count, is_dirty_ := dirty } })
    else (false, s)
  | none => (false, s)

/-- `BufferPoolManager::FlushPageImpl`. -/
def FlushPageImpl (s : BufferPoolManager D) (page_id : Int) : Bool × BufferPoolManager D :=
  match s.page_table_.find page_id with
  | some frame_id =>
    let page := s.pages_ frame_id
    (true,
      { s with
        disk_manager_ := s.disk_manager_.WritePage page_id page.data_
        pages_ := Function.update s.pages_ frame_id { page with is_dirty_ := false } })
  | none => (false, s)

/-- `BufferPoolManager::NewPageImpl`; the second component of a successful
result is the page id stored through the out-parameter. -/
def NewPageImpl (s : BufferPoolManager D) :
    Option (Option (Nat × Int) × BufferPoolManager D) :=
  match GetUsableFrameImpl s with
  | none => none
  | some (none, s1) => some (none, s1)
  | some (some frame_id, s1) =>
    let (page_id, dm) := s1.disk_manager_.AllocatePage
    some (some (frame_id, page_id),
      { s1 with
        page_table_ := s1.page_table_.assign page_id frame_id
        disk_manager_ := dm.WritePage page_id 0
        replacer_ := s1.replacer_.Pin frame_id
        pages_ := Function.update s1.pages_ frame_id
          { data_ := 0, page_id_ := page_id, pin_count_ := 1, is_dirty_ := false } })

/-- `BufferPoolManager::DeletePageImpl`. -/
def DeletePageImpl (s : BufferPoolManager D) (page_id : Int) : Bool × BufferPoolManager D :=
  match s.page_table_.find page_id with
  | some frame_id =>
    let page := s.pages_ frame_id
    if page.pin_count_ = 0 then
      (true,
        { s with
          page_table_ := s.page_table_.erase page_id
          free_list_ := s.free_list_ ++ [frame_id]
          disk_manager_ :=
            if page.is_dirty_ then s.disk_manager_.WritePage page_id page.data_ else s.disk_manager_
          pages_ := Function.update s.pages_ frame_id
            { page with page_id_ := INVALID_PAGE_ID, pin_count_ := 0, is_dirty_ := false } })
    else (false, s)
  | none => (true, s)

/-- One iteration of the loop of `FlushAllPagesImpl` for the page-table entry
`p`: the image of the frame is written under `pages_->page_id_`, the page id of
frame 0. -/
def FlushAllPagesStep (s : BufferPoolManager D) (p : Int × Nat) : BufferPoolManager D :=
  let frame_id := p.2
  let page := s.pages_ frame_id
  { s with
    disk_manager_ := s.disk_manager_.WritePage (s.pages_ 0).page_id_ page.data_
    pages_ := Function.update s.pages_ frame_id { page with is_dirty_ := false } }

/-- `BufferPoolManager::FlushAllPagesImpl`: `for (auto p : page_table_)`. -/
def FlushAllPagesImpl (s : BufferPoolManager D) : BufferPoolManager D :=
  s.page_table_.foldl FlushAllPagesStep s

/-- A caller that holds the handle `&pages_[frame_id]` overwrites the bytes of
the page (`page->GetData()`); the buffer pool itself is not involved. -/
def WriteData (s : BufferPoolManager D) (frame_id : Nat) (data : D) : BufferPoolManager D :=
  { s with pages_ := Function.update s.pages_ frame_id { (s.pages_ frame_id) with data_ := data } }

/-- The part of the buffer-pool invariant that also holds between
`GetUsableFrameImpl` and the installation of the new page. -/
structure Core (s : BufferPoolManager D) : Prop where
  rep : s.replacer_.WF
  rep_n : s.replacer_.num_pages = s.pool_size_
  keys_nodup : (s.page_table_.map Prod.fst).Nodup
  entry : ∀ p f, (p, f) ∈ s.page_table_ → f < s.pool_size_ ∧ (s.pages_ f).page_id_ = p
  free_nodup : s.free_list_.Nodup
  free_range : ∀ f, f ∈ s.free_list_ → f < s.pool_size_
  disjoint : ∀ f, f ∈ s.free_list_ → ∀ p, (p, f) ∉ s.page_table_
  cand_pin : ∀ f, (s.replacer_.frame_infos_ f).free = true → (s.pages_ f).pin_count_ = 0
  pin_nonneg : ∀ p f, (p, f) ∈ s.page_table_ → 0 ≤ (s.pages_ f).pin_count_
  unpinned_cand : ∀ p f, (p, f) ∈ s.page_table_ → (s.pages_ f).pin_count_ = 0 →
    (s.replacer_.frame_infos_ f).free = true
  free_clean : ∀ f, f ∈ s.free_list_ →
    (s.pages_ f).pin_count_ = 0 ∧ (s.pages_ f).is_dirty_ = false

/-- The invariant of the buffer pool between public operations. -/
structure WF (s : BufferPoolManager D) : Prop where
  core : Core s
  cover : ∀ f, f < s.pool_size_ → f ∈ s.free_list_ ∨ ∃ p, (p, f) ∈ s.page_table_

/-- The invariant right after `GetUsableFrameImpl` has handed out frame `f`:
the frame is neither free-listed nor mapped, unpinned and clean. -/
structure Hole (s : BufferPoolManager D) (f : Nat) : Prop where
  core : Core s
  lt : f < s.pool_size_
  not_free : f ∉ s.free_list_
  not_mapped : ∀ p, (p, f) ∉ s.page_table_
  unpinned : (s.pages_ f).pin_count_ = 0
  clean : (s.pages_ f).is_dirty_ = false
  cover : ∀ g, g < s.pool_size_ → g ≠ f → g ∈ s.free_list_ ∨ ∃ p, (p, g) ∈ s.page_table_

/-- The states reachable from construction through the public operations.
`NewPage` is taken only when the id the disk manager is about to hand out is not
resident; `write` is a caller overwriting the bytes of a frame it holds. -/
inductive Reachable : BufferPoolManager D → Prop
  | init (pool_size : Nat) (disk_manager : DiskManager D) :
      Reachable (BufferPoolManager.new pool_size disk_manager)
  | fetch (s : BufferPoolManager D) (page_id : Int) (res : Option Nat) (s1 : BufferPoolManager D) :
      Reachable s → FetchPageImpl s page_id = some (res, s1) → Reachable s1
  | new_page (s : BufferPoolManager D) (res : Option (Nat × Int)) (s1 : BufferPoolManager D) :
      Reachable s → s.page_table_.find s.disk_manager_.next_page_id_ = none →
      NewPageImpl s = some (res, s1) → Reachable s1
  | unpin (s : BufferPoolManager D) (page_id : Int) (is_dirty : Bool) :
      Reachable s → Reachable (UnpinPageImpl s page_id is_dirty).2
  | flush (s : BufferPoolManager D) (page_id : Int) :
      Reachable s → Reachable (FlushPageImpl s page_id).2
  | flush_all (s : BufferPoolManager D) :
      Reachable s → Reachable (FlushAllPagesImpl s)
  | delete (s : BufferPoolManager D) (page_id : Int) :
      Reachable s → Reachable (DeletePageImpl s page_id).2
  | write (s : BufferPoolManager D) (frame_id : Nat) (data : D) :
      Reachable s → Reachable (WriteData s frame_id data)

/-- The states of a run of public operations in which `INVALID_PAGE_ID` is never
brought into the pool: the disk manager starts with a next page id that is not
negative and `FetchPage` is never called with `INVALID_PAGE_ID`. Nothing else is
assumed of the page ids. -/
inductive ReachableValid : BufferPoolManager D → Prop
  | init (pool_size : Nat) (disk_manager : DiskManager D) :
      0 ≤ disk_manager.next_page_id_ →
      ReachableValid (BufferPoolManager.new pool_size disk_manager)
  | fetch (s : BufferPoolManager D) (page_id : Int) (res : Option Nat) (s1 : BufferPoolManager D) :
      ReachableValid s → page_id ≠ INVALID_PAGE_ID →
      FetchPageImpl s page_id = some (res, s1) → ReachableValid s1
  | new_page (s : BufferPoolManager D) (res : Option (Nat × Int)) (s1 : BufferPoolManager D) :
      ReachableValid s → NewPageImpl s = some (res, s1) → ReachableValid s1
  | unpin (s : BufferPoolManager D) (page_id : Int) (is_dirty : Bool) :
      ReachableValid s → ReachableValid (UnpinPageImpl s page_id is_dirty).2
  | flush (s : BufferPoolManager D) (page_id : Int) :
      ReachableValid s → ReachableValid (FlushPageImpl s page_id).2
  | flush_all (s : BufferPoolManager D) :
      ReachableValid s → ReachableValid (FlushAllPagesImpl s)
  | delete (s : BufferPoolManager D) (page_id : Int) :
      ReachableValid s → ReachableValid (DeletePageImpl s page_id).2
  | write (s : BufferPoolManager D) (frame_id : Nat) (data : D) :
      ReachableValid s → ReachableValid (WriteData s frame_id data)

/-- The invariant right after `GetUsableFrameImpl` has handed out frame `f`, in a
run with arbitrary page ids: the frame is neither free-listed nor mapped,
unpinned and clean. Other frames may be neither free-listed nor mapped. -/
structure Vacant (s : BufferPoolManager D) (f : Nat) : Prop where
  core : Core s
  lt : f < s.pool_size_
  not_free : f ∉ s.free_list_
  not_mapped : ∀ p, (p, f) ∉ s.page_table_
  unpinned : (s.pages_ f).pin_count_ = 0
  clean : (s.pages_ f).is_dirty_ = false

/-- The states reachable from construction through the public operations with
any arguments and any disk manager: unlike in `Reachable`, `NewPage` is also
taken when the id the disk manager hands out is resident (the source does not
look the id up before `page_table_[*page_id] = frame_id`). -/
inductive PublicRun : BufferPoolManager D → Prop
  | init (pool_size : Nat) (disk_manager : DiskManager D) :
      PublicRun (BufferPoolManager.new pool_size disk_manager)
  | fetch (s : BufferPoolManager D) (page_id : Int) (res : Option Nat) (s1 : BufferPoolManager D) :
      PublicRun s → FetchPageImpl s page_id = some (res, s1) → PublicRun s1
  | new_page (s : BufferPoolManager D) (res : Option (Nat × Int)) (s1 : BufferPoolManager D) :
      PublicRun s → NewPageImpl s = some (res, s1) → PublicRun s1
  | unpin (s : BufferPoolManager D) (page_id : Int) (is_dirty : Bool) :
      PublicRun s → PublicRun (UnpinPageImpl s page_id is_dirty).2
  | flush (s : BufferPoolManager D) (page_id : Int) :
      PublicRun s → PublicRun (FlushPageImpl s page_id).2
  | flush_all (s : BufferPoolManager D) :
      PublicRun s → PublicRun (FlushAllPagesImpl s)
  | delete (s : BufferPoolManager D) (page_id : Int) :
      PublicRun s → PublicRun (DeletePageImpl s page_id).2
  | write (s : BufferPoolManager D) (frame_id : Nat) (data : D) :
      PublicRun s → PublicRun (WriteData s frame_id data)

end BufferPoolManager

/-! ## Hash table pages (`hash_table_header_page.cpp`, `hash_table_block_page.cpp`) -/

/-- The header page: `page_id_`, `size_`, `next_ind_` and the inline array
`block_page_ids_` (the `lsn_` field is never read by the hash table). -/
structure HashTableHeaderPage where
  page_id_ : Int
  size_ : Nat
  next_ind_ : Nat
  block_page_ids_ : Nat → Int

namespace HashTableHeaderPage

def GetBlockPageId (h : HashTableHeaderPage) (index : Nat) : Int := h.block_page_ids_ index

def GetPageId (h : HashTableHeaderPage) : Int := h.page_id_

def SetPageId (h : HashTableHeaderPage) (page_id : Int) : HashTableHeaderPage :=
  { h with page_id_ := page_id }

def AddBlockPageId (h : HashTableHeaderPage) (page_id : Int) : HashTableHeaderPage :=
  { h with
    block_page_ids_ := Function.update h.block_page_ids_ h.next_ind_ page_id
    next_ind_ := h.next_ind_ + 1 }

def NumBlocks (h : HashTableHeaderPage) : Nat := h.next_ind_

def SetSize (h : HashTableHeaderPage) (size : Nat) : HashTableHeaderPage := { h with size_ := size }

def GetSize (h : HashTableHeaderPage) : Nat := h.size_

/-- A zeroed page read as a header page. -/
def zeroed : HashTableHeaderPage :=
  { page_id_ := 0, size_ := 0, next_ind_ := 0, block_page_ids_ := fun _ => 0 }

end HashTableHeaderPage

/-- A block page. Bit `bucket_ind % 8` of byte `bucket_ind / 8` of the bitmaps
`occupied_` and `readable_` is the flag of slot `bucket_ind`; the embedding keeps
one Boolean per slot. `array_` is the slot array. -/
structure HashTableBlockPage (K V : Type) where
  occupied_ : Nat → Bool
  readable_ : Nat → Bool
  array_ : Nat → K × V

namespace HashTableBlockPage

variable {K V : Type}

def KeyAt (b : HashTableBlockPage K V) (bucket_ind : Nat) : K := (b.array_ bucket_ind).1

def ValueAt (b : HashTableBlockPage K V) (bucket_ind : Nat) : V := (b.array_ bucket_ind).2

def IsOccupied (b : HashTableBlockPage K V) (bucket_ind : Nat) : Bool := b.occupied_ bucket_ind

def IsReadable (b : HashTableBlockPage K V) (bucket_ind : Nat) : Bool := b.readable_ bucket_ind

def SetOccupied (b : HashTableBlockPage K V) (bucket_ind : Nat) (occupied : Bool) :
    HashTableBlockPage K V :=
  if occupied then { b with occupied_ := Function.update b.occupied_ bucket_ind true }
  else { b with occupied_ := Function.update b.occupied_ bucket_ind false }

def SetReadable (b : HashTableBlockPage K V) (bucket_ind : Nat) (readable : Bool) :
    HashTableBlockPage K V :=
  if readable then { b with readable_ := Function.update b.readable_ bucket_ind true }
  else { b with readable_ := Function.update b.readable_ bucket_ind false }

/-- `HashTableBlockPage::Insert`. -/
def Insert (b : HashTableBlockPage K V) (bucket_ind : Nat) (key : K) (value : V) :
    Bool × HashTableBlockPage K V :=
  if !b.IsReadable bucket_ind then
    let b1 : HashTableBlockPage K V :=
      { b with array_ := Function.update b.array_ bucket_ind (key, value) }
    (true, (b1.SetOccupied bucket_ind true).SetReadable bucket_ind true)
  else (false, b)

/-- `HashTableBlockPage::Remove`. -/
def Remove (b : HashTableBlockPage K V) (bucket_ind : Nat) : HashTableBlockPage K V :=
  b.SetReadable bucket_ind false

/-- A zeroed page read as a block page: both bitmaps are clear. -/
def zeroed [Inhabited K] [Inhabited V] : HashTableBlockPage K V :=
  { occupied_ := fun _ => false, readable_ := fun _ => false, array_ := fun _ => default }

end HashTableBlockPage

/-! ## Linear-probe hash table (`linear_probe_hash_table.cpp`)

The table reaches its pages through the buffer pool. The embedding of the table
takes the pool to be large enough that `FetchPage` and `NewPage` never return
null: a fetched page is then the current image of that page id, `NewPage` hands
out a fresh zeroed page, and the scoped latches (which unpin on scope exit) and
`DeletePage` have no effect on the images. The images are kept per page id,
separately for the two ways a page is read (as a header page, as a block page).
The capacity of the inline array `block_page_ids_` of the header page is not
bounded in the embedding. The operations are meant for tables with at least one
bucket and one block page (with `num_buckets = 0` the source computes
`hash_val % 0`). `BLOCK_ARRAY_SIZE` is the parameter `B`. -/

/-- How a `for` loop over the buckets of one block page ends: a `return` inside
the loop, `cycle = true; break;`, or the loop bound is reached (with the value
of `first` at that point). `σ` is the state the loop carries. -/
inductive ScanExit (ρ σ : Type) where
  | returned : ρ → ScanExit ρ σ
  | cycled : σ → ScanExit ρ σ
  | finished : Bool → σ → ScanExit ρ σ

/-- State of `LinearProbeHashTable`: the members `header_page_id_`, `size_`,
`comparator_`, `hash_fn_` and the page images behind `buffer_pool_manager_`. -/
structure LinearProbeHashTable (K V : Type) where
  header_page_id_ : Int
  size_ : Nat
  comparator_ : K → K → Int
  hash_fn_ : K → Nat
  header_pages : Int → HashTableHeaderPage
  block_pages : Int → HashTableBlockPage K V
  next_page_id_ : Int

namespace LinearProbeHashTable

variable {K V : Type} [Inhabited K] [Inhabited V] [DecidableEq V]

/-- `buffer_pool_manager_->NewPage(&page_id)` seen from the table: a fresh page
id whose image is zeroed. -/
def NewPage (t : LinearProbeHashTable K V) : Int × LinearProbeHashTable K V :=
  (t.next_page_id_,
    { t with
      next_page_id_ := t.next_page_id_ + 1
      header_pages := Function.update t.header_pages t.next_page_id_ HashTableHeaderPage.zeroed
      block_pages := Function.update t.block_pages t.next_page_id_ HashTableBlockPage.zeroed })

/-- The loop `for (index = 0; index < num_blocks; index++)` that allocates the
block pages and appends their ids to the header page `header_page_id`
(constructor and `Resize`). -/
def allocateBlocks (header_page_id : Int) :
    Nat → LinearProbeHashTable K V → LinearProbeHashTable K V
  | 0, t => t
  | n + 1, t =>
    let (block_page_id, t1) := t.NewPage
    allocateBlocks header_page_id n
      { t1 with
        header_pages := Function.update t1.header_pages header_page_id
          ((t1.header_pages header_page_id).AddBlockPageId block_page_id) }

/-- `LinearProbeHashTable::LinearProbeHashTable`; `B` is `BLOCK_ARRAY_SIZE` and
`first_page_id` the next id the disk manager hands out. -/
def new (B : Nat) (comparator : K → K → Int) (num_buckets : Nat) (hash_fn : K → Nat)
    (first_page_id : Int) : LinearProbeHashTable K V :=
  let t0 : LinearProbeHashTable K V :=
    { header_page_id_ := 0
      size_ := 0
      comparator_ := comparator
      hash_fn_ := hash_fn
      header_pages := fun _ => HashTableHeaderPage.zeroed
      block_pages := fun _ => HashTableBlockPage.zeroed
      next_page_id_ := first_page_id }
  let (header_page_id, t1) := t0.NewPage
  let t2 : LinearProbeHashTable K V :=
    { t1 with
      header_page_id_ := header_page_id
      header_pages := Function.update t1.header_pages header_page_id
        (((t1.header_pages header_page_id).SetPageId header_page_id).SetSize num_buckets)
      size_ := num_buckets }
  let num_blocks := if num_buckets % B = 0 then num_buckets / B else num_buckets / B + 1
  allocateBlocks header_page_id num_blocks t2

/-- `max_bucket_index` of `GetValue`, `Insert` and `Remove`. -/
def maxBucketIndex (B num_buckets num_blocks cur_block_index : Nat) : Nat :=
  if num_buckets % B ≠ 0 ∧ cur_block_index = num_blocks - 1 then num_buckets % B else B

/-- The `for` loop of `GetValue` over one block page, `n` iterations left,
`i` the loop variable; the carried state is `result`. -/
def getValueScan (comparator : K → K → Int) (key : K) (page : HashTableBlockPage K V)
    (block_index bucket_index cur_block_index : Nat) :
    Nat → Nat → Bool → List V → ScanExit (List V) (List V)
  | 0, _, first, result => ScanExit.finished first result
  | n + 1, i, first, result =>
    let at_start := decide (cur_block_index = block_index ∧ i = bucket_index)
    if at_start && !first then ScanExit.cycled result
    else
      let first1 := if at_start then false else first
      if page.IsOccupied i then
        if page.IsReadable i then
          if comparator key (page.KeyAt i) = 0 then
            getValueScan comparator key page block_index bucket_index cur_block_index
              n (i + 1) first1 (result ++ [page.ValueAt i])
          else
            getValueScan comparator key page block_index bucket_index cur_block_index
              n (i + 1) first1 result
        else
          getValueScan comparator key page block_index bucket_index cur_block_index
            n (i + 1) first1 result
      else ScanExit.returned result

/-- The `do ... while (!cycle)` loop of `GetValue`; one unit of fuel is one
fetched block page. -/
def getValueProbe (B : Nat) (t : LinearProbeHashTable K V) (key : K)
    (hash_table_header_page : HashTableHeaderPage) (num_buckets num_blocks block_index bucket_index : Nat) :
    Nat → Nat → Nat → Bool → List V → Option (Bool × List V)
  | 0, _, _, _, _ => none
  | fuel + 1, cur_block_index, cur_bucket_index, first, result =>
    let cur_block_page_id := hash_table_header_page.GetBlockPageId cur_block_index
    let cur_hash_table_block_page := t.block_pages cur_block_page_id
    let max_bucket_index := maxBucketIndex B num_buckets num_blocks cur_block_index
    match getValueScan t.comparator_ key cur_hash_table_block_page block_index bucket_index
        cur_block_index (max_bucket_index - cur_bucket_index) cur_bucket_index first result with
    | ScanExit.returned r => some (true, r)
    | ScanExit.cycled r => some (true, r)
    | ScanExit.finished first1 r =>
      getValueProbe B t key hash_table_header_page num_buckets num_blocks block_index bucket_index
        fuel ((cur_block_index + 1) % num_blocks) 0 first1 r

/-- `LinearProbeHashTable::GetValue`, called with an empty `result` vector:
the returned flag and the values pushed to `result`. `none`: the probe loop does
not end within `num_blocks + 1` fetched block pages. -/
def GetValue (B : Nat) (t : LinearProbeHashTable K V) (key : K) : Option (Bool × List V) :=
  let hash_table_header_page := t.header_pages t.header_page_id_
  let hash_val := t.hash_fn_ key
  let num_buckets := hash_table_header_page.GetSize
  let num_blocks := hash_table_header_page.NumBlocks
  let block_index := (hash_val % num_buckets) / B
  let bucket_index := (hash_val % num_buckets) % B
  getValueProbe B t key hash_table_header_page num_buckets num_blocks block_index bucket_index
    (num_blocks + 1) block_index bucket_index true []

/-- The `for` loop of `Insert` (and of `InsertToNew`) over one block page: the
result of a `return` is the returned flag and the block page as left behind. -/
def insertScan (comparator : K → K → Int) (key : K) (value : V) (page : HashTableBlockPage K V)
    (block_index bucket_index cur_block_index : Nat) :
    Nat → Nat → Bool → ScanExit (Bool × HashTableBlockPage K V) Unit
  | 0, _, first => ScanExit.finished first ()
  | n + 1, i, first =>
    let at_start := decide (cur_block_index = block_index ∧ i = bucket_index)
    if at_start && !first then ScanExit.cycled ()
    else
      let first1 := if at_start then false else first
      if page.IsReadable i then
        if comparator key (page.KeyAt i) = 0 ∧ value = page.ValueAt i then
          ScanExit.returned (false, page)
        else
          insertScan comparator key value page block_index bucket_index cur_block_index
            n (i + 1) first1
      else ScanExit.returned (true, (page.Insert i key value).2)

/-- The `do ... while (!cycle)` loop of `Insert`: `some (some b)` is `return b`
inside the loop, `some none` is a full cycle (the loop is left with
`cycle = true`), `none` is fuel exhausted. -/
def insertProbe (B : Nat) (t : LinearProbeHashTable K V) (key : K) (value : V)
    (hash_table_header_page : HashTableHeaderPage) (num_buckets num_blocks block_index bucket_index : Nat) :
    Nat → Nat → Nat → Bool → Option (Option Bool × LinearProbeHashTable K V)
  | 0, _, _, _ => none
  | fuel + 1, cur_block_index, cur_bucket_index, first =>
    let cur_block_page_id := hash_table_header_page.GetBlockPageId cur_block_index
    let cur_hash_table_block_page := t.block_pages cur_block_page_id
    let max_bucket_index := maxBucketIndex B num_buckets num_blocks cur_block_index
    match insertScan t.comparator_ key value cur_hash_table_block_page block_index bucket_index
        cur_block_index (max_bucket_index - cur_bucket_index) cur_bucket_index first with
    | ScanExit.returned (b, page) =>
      some (some b, { t with block_pages := Function.update t.block_pages cur_block_page_id page })
    | ScanExit.cycled _ => some (none, t)
    | ScanExit.finished first1 _ =>
      insertProbe B t key value hash_table_header_page num_buckets num_blocks block_index bucket_index
        fuel ((cur_block_index + 1) % num_blocks) 0 first1

/-- The `do ... while (!cycle)` loop of the lambda `InsertToNew` of `Resize`:
every block page is scanned up to `BLOCK_ARRAY_SIZE`. -/
def insertToNewProbe (B : Nat) (t : LinearProbeHashTable K V) (key : K) (value : V)
    (new_hash_table_header_page : HashTableHeaderPage) (num_blocks block_index bucket_index : Nat) :
    Nat → Nat → Nat → Bool → Option (Bool × LinearProbeHashTable K V)
  | 0, _, _, _ => none
  | fuel + 1, cur_block_index, cur_bucket_index, first =>
    let cur_block_page_id := new_hash_table_header_page.GetBlockPageId cur_block_index
    let cur_hash_table_block_page := t.block_pages cur_block_page_id
    match insertScan t.comparator_ key value cur_hash_table_block_page block_index bucket_index
        cur_block_index (B - cur_bucket_index) cur_bucket_index first with
    | ScanExit.returned (b, page) =>
      some (b, { t with block_pages := Function.update t.block_pages cur_block_page_id page })
    | ScanExit.cycled _ => some (false, t)
    | ScanExit.finished first1 _ =>
      insertToNewProbe B t key value new_hash_table_header_page num_blocks block_index bucket_index
        fuel ((cur_block_index + 1) % num_blocks) 0 first1

/-- The lambda `InsertToNew` of `Resize` for the new header page
`new_header_page_id`. -/
def InsertToNew (B : Nat) (new_header_page_id : Int) (t : LinearProbeHashTable K V)
    (key : K) (value : V) : Option (Bool × LinearProbeHashTable K V) :=
  let new_hash_table_header_page := t.header_pages new_header_page_id
  let hash_val := t.hash_fn_ key
  let num_buckets := new_hash_table_header_page.GetSize
  let num_blocks := new_hash_table_header_page.NumBlocks
  let block_index := (hash_val % num_buckets) / B
  let bucket_index := (hash_val % num_buckets) % B
  insertToNewProbe B t key value new_hash_table_header_page num_blocks block_index bucket_index
    (num_blocks + 1) block_index bucket_index true

/-- The loop `for (bucket_index = 0; bucket_index < BLOCK_ARRAY_SIZE; bucket_index++)`
of `Resize` over the old block page `block_page_id`: `n` iterations left. -/
def resizeBuckets (B : Nat) (new_header_page_id block_page_id : Int) :
    Nat → Nat → LinearProbeHashTable K V → Option (LinearProbeHashTable K V)
  | 0, _, t => some t
  | n + 1, bucket_index, t =>
    let hash_table_block_page := t.block_pages block_page_id
    if hash_table_block_page.IsReadable bucket_index then
      match InsertToNew B new_header_page_id t
          (hash_table_block_page.KeyAt bucket_index) (hash_table_block_page.ValueAt bucket_index) with
      | none => none
      | some (_, t1) => resizeBuckets B new_header_page_id block_page_id n (bucket_index + 1) t1
    else resizeBuckets B new_header_page_id block_page_id n (bucket_index + 1) t

/-- The loop `for (index = 0; index < hash_table_header_page->NumBlocks(); index++)`
of `Resize` that re-inserts every readable slot of the old table. -/
def resizeBlocks (B : Nat) (new_header_page_id : Int) (hash_table_header_page : HashTableHeaderPage) :
    Nat → Nat → LinearProbeHashTable K V → Option (LinearProbeHashTable K V)
  | 0, _, t => some t
  | n + 1, index, t =>
    let block_page_id := hash_table_header_page.GetBlockPageId index
    match resizeBuckets B new_header_page_id block_page_id B 0 t with
    | none => none
    | some t1 => resizeBlocks B new_header_page_id hash_table_header_page n (index + 1) t1

/-- `LinearProbeHashTable::Resize`. -/
def Resize (B : Nat) (t : LinearProbeHashTable K V) (initial_size : Nat) :
    Option (LinearProbeHashTable K V) :=
  if initial_size ≤ t.size_ then some t
  else
    let hash_table_header_page := t.header_pages t.header_page_id_
    let (new_header_page_id, t1) := t.NewPage
    let t2 : LinearProbeHashTable K V :=
      { t1 with
        header_pages := Function.update t1.header_pages new_header_page_id
          (((t1.header_pages new_header_page_id).SetPageId new_header_page_id).SetSize initial_size) }
    let num_blocks := initial_size / B + 1
    let t3 := allocateBlocks new_header_page_id num_blocks t2
    match resizeBlocks B new_header_page_id hash_table_header_page
        hash_table_header_page.NumBlocks 0 t3 with
    | none => none
    | some t4 => some { t4 with header_page_id_ := new_header_page_id, size_ := initial_size }

/-- `LinearProbeHashTable::Insert`. The first argument bounds the number of
probe passes (the call itself and the recursive calls after a `Resize`);
`none`: a loop does not end within its fuel. -/
def Insert (B : Nat) : Nat → LinearProbeHashTable K V → K → V →
    Option (Bool × LinearProbeHashTable K V)
  | 0, _, _, _ => none
  | passes + 1, t, key, value =>
    let hash_table_header_page := t.header_pages t.header_page_id_
    let hash_val := t.hash_fn_ key
    let num_buckets := hash_table_header_page.GetSize
    let num_blocks := hash_table_header_page.NumBlocks
    let block_index := (hash_val % num_buckets) / B
    let bucket_index := (hash_val % num_buckets) % B
    match insertProbe B t key value hash_table_header_page num_buckets num_blocks block_index
        bucket_index (num_blocks + 1) block_index bucket_index true with
    | none => none
    | some (some b, t1) => some (b, t1)
    | some (none, t1) =>
      match Resize B t1 (t1.size_ * 2) with
      | none => none
      | some t2 => Insert B passes t2 key value

/-- The `for` loop of `Remove` over one block page. -/
def removeScan (comparator : K → K → Int) (key : K) (value : V) (page : HashTableBlockPage K V)
    (block_index bucket_index cur_block_index : Nat) :
    Nat → Nat → Bool → ScanExit (Bool × HashTableBlockPage K V) Unit
  | 0, _, first => ScanExit.finished first ()
  | n + 1, i, first =>
    let at_start := decide (cur_block_index = block_index ∧ i = bucket_index)
    if at_start && !first then ScanExit.cycled ()
    else
      let first1 := if at_start then false else first
      if page.IsOccupied i then
        if page.IsReadable i then
          if comparator key (page.KeyAt i) = 0 ∧ value = page.ValueAt i then
            ScanExit.returned (true, page.Remove i)
          else
            removeScan comparator key value page block_index bucket_index cur_block_index
              n (i + 1) first1
        else
          removeScan comparator key value page block_index bucket_index cur_block_index
            n (i + 1) first1
      else ScanExit.returned (false, page)

/-- The `do ... while (!cycle)` loop of `Remove`. -/
def removeProbe (B : Nat) (t : LinearProbeHashTable K V) (key : K) (value : V)
    (hash_table_header_page : HashTableHeaderPage) (num_buckets num_blocks block_index bucket_index : Nat) :
    Nat → Nat → Nat → Bool → Option (Bool × LinearProbeHashTable K V)
  | 0, _, _, _ => none
  | fuel + 1, cur_block_index, cur_bucket_index, first =>
    let cur_block_page_id := hash_table_header_page.GetBlockPageId cur_block_index
    let cur_hash_table_block_page := t.block_pages cur_block_page_id
    let max_bucket_index := maxBucketIndex B num_buckets num_blocks cur_block_index
    match removeScan t.comparator_ key value cur_hash_table_block_page block_index bucket_index
        cur_block_index (max_bucket_index - cur_bucket_index) cur_bucket_index first with
    | ScanExit.returned (b, page) =>
      some (b, { t with block_pages := Function.update t.block_pages cur_block_page_id page })
    | ScanExit.cycled _ => some (false, t)
    | ScanExit.finished first1 _ =>
      removeProbe B t key value hash_table_header_page num_buckets num_blocks block_index bucket_index
        fuel ((cur_block_index + 1) % num_blocks) 0 first1

/-- `LinearProbeHashTable::Remove`. -/
def Remove (B : Nat) (t : LinearProbeHashTable K V) (key : K) (value : V) :
    Option (Bool × LinearProbeHashTable K V) :=
  let hash_table_header_page := t.header_pages t.header_page_id_
  let hash_val := t.hash_fn_ key
  let num_buckets := hash_table_header_page.GetSize
  let num_blocks := hash_table_header_page.NumBlocks
  let block_index := (hash_val % num_buckets) / B
  let bucket_index := (hash_val % num_buckets) % B
  removeProbe B t key value hash_table_header_page num_buckets num_blocks block_index bucket_index
    (num_blocks + 1) block_index bucket_index true

/-- `LinearProbeHashTable::GetSize`. -/
def GetSize (t : LinearProbeHashTable K V) : Nat := t.size_

end LinearProbeHashTable

/-! ## Concrete scenarios -/

namespace Scenario

open BufferPoolManager

/-- An empty disk: every image is zeroed and the next page id is 0. A page image
is a number, 0 the zeroed image. -/
def disk0 : DiskManager Nat := { image := fun _ => 0, next_page_id_ := 0 }

/-- The state after `NewPage` (the state itself if the call does not return). -/
def afterNewPage (s : BufferPoolManager Nat) : BufferPoolManager Nat :=
  match NewPageImpl s with
  | some (_, s1) => s1
  | none => s

/-- The state after `FetchPage(page_id)`. -/
def afterFetchPage (s : BufferPoolManager Nat) (page_id : Int) : BufferPoolManager Nat :=
  match FetchPageImpl s page_id with
  | some (_, s1) => s1
  | none => s

/-- A pool of one frame. -/
def pool1 : BufferPoolManager Nat := BufferPoolManager.new 1 disk0

/-- `NewPage(&p1)`: page 0 in frame 0, pinned. -/
def pool1A : BufferPoolManager Nat := afterNewPage pool1

/-- The holder of page 0 writes the image 42 and calls `UnpinPage(0, true)`. -/
def pool1B : BufferPoolManager Nat := (UnpinPageImpl (WriteData pool1A 0 42) 0 true).2

/-- `NewPage(&p2)`: frame 0 is evicted and reused for page 1. -/
def pool1C : BufferPoolManager Nat := afterNewPage pool1B

/-- `UnpinPage(1, false)`. -/
def pool1D : BufferPoolManager Nat := (UnpinPageImpl pool1C 1 false).2

/-- The holder of page 0 calls `UnpinPage(0, false)` without writing. -/
def pool1E : BufferPoolManager Nat := (UnpinPageImpl pool1A 0 false).2

/-- A pool of two frames with pages 0 and 1 in frames 0 and 1, both pinned. -/
def pool2A : BufferPoolManager Nat := afterNewPage (afterNewPage (BufferPoolManager.new 2 disk0))

/-- The holder of page 1 writes the image 77. -/
def pool2B : BufferPoolManager Nat := WriteData pool2A 1 77

/-- A pool of one frame after `FetchPage(INVALID_PAGE_ID)`, whose holder writes
the image 42. -/
def poolInvalid : BufferPoolManager Nat :=
  WriteData (afterFetchPage pool1 INVALID_PAGE_ID) 0 42

/-- A pool of two frames on the empty disk after `FetchPage(0)`: page 0 in
frame 0, pinned; the disk manager has allocated no id yet. -/
def poolReuseA : BufferPoolManager Nat := afterFetchPage (BufferPoolManager.new 2 disk0) 0

/-- `UnpinPage(0, false)`: frame 0 is a replacer candidate. -/
def poolReuseB : BufferPoolManager Nat := (UnpinPageImpl poolReuseA 0 false).2

/-- `NewPage`: frame 1 comes from the free list and the disk manager hands out
the resident id 0, so page 0 is remapped to frame 1 (pinned) while frame 0 keeps
`page_id_ = 0` and stays a candidate. -/
def poolReuseC : BufferPoolManager Nat := afterNewPage poolReuseB

/-- `FetchPage(5)`: the victim is frame 0 and `page_table_.erase(0)` removes the
entry of the pinned page 0. -/
def poolReuseD : BufferPoolManager Nat := afterFetchPage poolReuseC 5

/-- In `poolReuseC` the holder of page 0 (frame 1) calls `UnpinPage(0, false)`. -/
def poolReuseE : BufferPoolManager Nat := (UnpinPageImpl poolReuseC 0 false).2

/-- The comparator of the `<int, int, IntComparator>` instantiation of the hash
table: -1, 0 or 1. -/
def IntComparator (lhs rhs : Int) : Int := if lhs < rhs then -1 else if rhs < lhs then 1 else 0

/-- A hash function under which a non-negative key hashes to itself. -/
def idHash (key : Int) : Nat := key.toNat

/-- A freshly constructed `<int, int>` table; `BLOCK_ARRAY_SIZE` is 496 for
8-byte slots in a 4096-byte page (`4 * 4096 / (4 * 8 + 1)`). -/
def emptyTable (num_buckets : Nat) : LinearProbeHashTable Int Int :=
  LinearProbeHashTable.new 496 IntComparator num_buckets idHash 0

/-- The table after `Insert(key, value)` (at most one `Resize`). -/
def afterInsert (t : LinearProbeHashTable Int Int) (key value : Int) : LinearProbeHashTable Int Int :=
  match LinearProbeHashTable.Insert 496 2 t key value with
  | some (_, t1) => t1
  | none => t

/-- The table after `Remove(key, value)`. -/
def afterRemove (t : LinearProbeHashTable Int Int) (key value : Int) : LinearProbeHashTable Int Int :=
  match LinearProbeHashTable.Remove 496 t key value with
  | some (_, t1) => t1
  | none => t

/-- The table after `Resize(initial_size)`. -/
def afterResize (t : LinearProbeHashTable Int Int) (initial_size : Nat) : LinearProbeHashTable Int Int :=
  match LinearProbeHashTable.Resize 496 t initial_size with
  | some t1 => t1
  | none => t

/-- The block page with index `index` of a table. -/
def blockOf (t : LinearProbeHashTable Int Int) (index : Nat) : HashTableBlockPage Int Int :=
  t.block_pages ((t.header_pages t.header_page_id_).GetBlockPageId index)

/-- Four buckets; `Insert(7, 100)` lands in slot 3 and `Insert(15, 200)` wraps to slot 0. -/
def tableC1 : LinearProbeHashTable Int Int := afterInsert (afterInsert (emptyTable 4) 7 100) 15 200

/-- Four buckets; `Insert(0, 1)`, `Insert(0, 2)`, `Remove(0, 1)`: slot 0 is a
tombstone and slot 1 holds `(0, 2)`. -/
def tableC2 : LinearProbeHashTable Int Int :=
  afterRemove (afterInsert (afterInsert (emptyTable 4) 0 1) 0 2) 0 1

/-- Four buckets filled by `Insert(7, 100)`, `Insert(15, 200)`, `Insert(1, 300)`,
`Insert(2, 400)`. -/
def tableC3 : LinearProbeHashTable Int Int :=
  afterInsert (afterInsert (afterInsert (afterInsert (emptyTable 4) 7 100) 15 200) 1 300) 2 400

/-- Two buckets filled by `Insert(3, 30)` and `Insert(7, 70)`. -/
def tableC4 : LinearProbeHashTable Int Int := afterInsert (afterInsert (emptyTable 2) 3 30) 7 70

end Scenario

namespace ScanExit

/-- The list carried by an exit of the bucket loop of `GetValue`. -/
def values {V : Type} : ScanExit (List V) (List V) → List V
  | returned r => r
  | cycled r => r
  | finished _ r => r

end ScanExit

namespace LinearProbeHashTable

variable {K V : Type} [Inhabited K] [Inhabited V] [DecidableEq V]

/-- The geometry of a table with `num_buckets` buckets in `num_blocks` block
pages of `B` slots that the constructor and `Resize` establish: at least one
bucket, and the last block page is the one that holds bucket `num_buckets - 1`
when `num_buckets` is no multiple of `B` (`Resize` attaches one block page more
than needed when it is). -/
structure Geometry (B num_buckets num_blocks : Nat) : Prop where
  block_pos : 0 < B
  buckets_pos : 0 < num_buckets
  partial_last : num_buckets % B ≠ 0 → num_blocks = num_buckets / B + 1
  full_last : num_buckets % B = 0 → num_buckets / B ≤ num_blocks

/-- Well-formedness of a table: the header page has the geometry above, the
member `size_` is the size stored in the header page, and the header page id
has been handed out already. -/
structure TableWF (B : Nat) (t : LinearProbeHashTable K V) : Prop where
  geometry : Geometry B (t.header_pages t.header_page_id_).GetSize
    (t.header_pages t.header_page_id_).NumBlocks
  size_eq : t.size_ = (t.header_pages t.header_page_id_).GetSize
  header_lt : t.header_page_id_ < t.next_page_id_

/-- The table states reachable from construction (with at least one bucket)
through `Insert`, `Remove` and `Resize`. -/
inductive Reachable (B : Nat) : LinearProbeHashTable K V → Prop
  | init (comparator : K → K → Int) (num_buckets : Nat) (hash_fn : K → Nat) (first_page_id : Int) :
      0 < B → 0 < num_buckets →
      Reachable B (LinearProbeHashTable.new B comparator num_buckets hash_fn first_page_id)
  | insert (t : LinearProbeHashTable K V) (passes : Nat) (key : K) (value : V) (b : Bool)
      (t1 : LinearProbeHashTable K V) :
      Reachable B t → Insert B passes t key value = some (b, t1) → Reachable B t1
  | remove (t : LinearProbeHashTable K V) (key : K) (value : V) (b : Bool)
      (t1 : LinearProbeHashTable K V) :
      Reachable B t → Remove B t key value = some (b, t1) → Reachable B t1
  | resize (t : LinearProbeHashTable K V) (initial_size : Nat) (t1 : LinearProbeHashTable K V) :
      Reachable B t → Resize B t initial_size = some t1 → Reachable B t1

end LinearProbeHashTable

namespace LinearProbeHashTable

/-- The value of `first` after an iteration of a bucket loop at bucket `i` that
does not break: cleared at the start position, unchanged elsewhere. -/
def nextFirst (block_index bucket_index cur_block_index i : Nat) (first : Bool) : Bool :=
  if decide (cur_block_index = block_index ∧ i = bucket_index) = true then false else first

end LinearProbeHashTable

namespace LinearProbeHashTable

variable {K V : Type}

/-- The table `t1` differs from `t` at most in the images of block pages. -/
structure SameMeta (t t1 : LinearProbeHashTable K V) : Prop where
  header_pages : t1.header_pages = t.header_pages
  header_page_id : t1.header_page_id_ = t.header_page_id_
  next_page_id : t1.next_page_id_ = t.next_page_id_
  size : t1.size_ = t.size_
  comparator : t1.comparator_ = t.comparator_
  hash_fn : t1.hash_fn_ = t.hash_fn_

end LinearProbeHashTable

namespace Scenario

/-- Four buckets; `Insert(3, 30)` lands in its home slot 3 and `Insert(7, 70)`,
whose home slot is 3 as well, wraps to slot 0. -/
def tableC18 : LinearProbeHashTable Int Int := afterInsert (afterInsert (emptyTable 4) 3 30) 7 70

end Scenario

namespace Scenario

/-- The table `tableC3` (four buckets, full) after `Insert(4, 500)`, which
resizes it to 8 buckets, and `Insert(0, 600)`, `Insert(3, 700)`, `Insert(5, 800)`,
`Insert(6, 900)`, which fill the remaining slots below 8. -/
def tableC19 : LinearProbeHashTable Int Int :=
  afterInsert (afterInsert (afterInsert (afterInsert (afterInsert tableC3 4 500) 0 600) 3 700)
    5 800) 6 900

end Scenario

/-! ## `Resize` on the buffer pool: up to the new header page

The embedding of the hash table above takes `FetchPage` and `NewPage` never to
fail. The definitions below run the opening statements of
`LinearProbeHashTable::Resize` on the buffer pool itself, failures included. -/

/-- How the opening statements of `LinearProbeHashTable::Resize` end: with one
of the three `return` statements, or with the new header page allocated, in
which case the function goes on. Each case carries the buffer pool as left at
that point. -/
inductive ResizeOpening (D : Type) where
  | returned : BufferPoolManager D → ResizeOpening D
  | goes_on : Int → BufferPoolManager D → ResizeOpening D

namespace ResizeOpening

variable {D : Type}

def pool : ResizeOpening D → BufferPoolManager D
  | returned s => s
  | goes_on _ s => s

def isReturn : ResizeOpening D → Bool
  | returned _ => true
  | goes_on _ _ => false

end ResizeOpening

namespace LinearProbeHashTable

/-- The statements of `LinearProbeHashTable::Resize` from its entry to the test
of `new_header_page`, for a table with the members `header_page_id_` and
`size_`: the test `initial_size <= size_`, `FetchPage(header_page_id_)` with its
null test, `NewPage(&new_header_page_id)` with its null test. No scoped latch
is built for `header_page` in `Resize`. `none`: the victim search of the
replacer runs out of fuel. -/
def ResizeOpen {D : Type} [Zero D] (s : BufferPoolManager D) (header_page_id_ : Int)
    (size_ initial_size : Nat) : Option (ResizeOpening D) :=
  if initial_size ≤ size_ then some (ResizeOpening.returned s)
  else
    match BufferPoolManager.FetchPageImpl s header_page_id_ with
    | none => none
    | some (none, s1) => some (ResizeOpening.returned s1)
    | some (some _, s1) =>
      match BufferPoolManager.NewPageImpl s1 with
      | none => none
      | some (none, s2) => some (ResizeOpening.returned s2)
      | some (some (_, new_header_page_id), s2) =>
        some (ResizeOpening.goes_on new_header_page_id s2)

end LinearProbeHashTable

namespace Scenario

/-- A pool of two frames holding page 0 (unpinned, the header page of a table)
and page 1 (pinned by its holder). -/
def pool2C : BufferPoolManager Nat := (BufferPoolManager.UnpinPageImpl pool2A 0 true).2

end Scenario

namespace ClockReplacer

/-- The replacer states of a run: the constructor followed by `Victim`, `Pin`
and `Unpin` calls with frame ids inside the vector `frame_infos_`. -/
inductive Reachable : ClockReplacer → Prop
  | init (num_pages : Nat) : Reachable (ClockReplacer.new num_pages)
  | victim (r : ClockReplacer) (res : Option Nat) (r1 : ClockReplacer) :
      Reachable r → Victim r = some (res, r1) → Reachable r1
  | pin (r : ClockReplacer) (frame_id : Nat) :
      Reachable r → frame_id < r.num_pages → Reachable (Pin r frame_id)
  | unpin (r : ClockReplacer) (frame_id : Nat) :
      Reachable r → frame_id < r.num_pages → Reachable (Unpin r frame_id)

end ClockReplacer

namespace Scenario

/-- A replacer of size 3 after `Unpin(0)`, `Unpin(1)`, `Unpin(2)`, `Pin(1)`. -/
def replacer3 : ClockReplacer :=
  ClockReplacer.Pin (ClockReplacer.Unpin (ClockReplacer.Unpin (ClockReplacer.Unpin
    (ClockReplacer.new 3) 0) 1) 2) 1

/-- The replacer after a `Victim` call. -/
def afterVictim (r : ClockReplacer) : ClockReplacer :=
  match ClockReplacer.Victim r with
  | some (_, r1) => r1
  | none => r

end Scenario

namespace Scenario

/-- The full four-bucket table `tableC3` after `Insert(4, 500)`, which resizes
it to 8 buckets. -/
def tableC27 : LinearProbeHashTable Int Int := afterInsert tableC3 4 500

/-- The pool `pool1E` (page 0 resident in frame 0, unpinned) after
`DeletePage(0)`. -/
def pool1F : BufferPoolManager Nat := (BufferPoolManager.DeletePageImpl pool1E 0).2

end Scenario

namespace LinearProbeHashTable

variable {K V : Type}

/-! ### The probe sequence in the words of the specification

"Probe sequence: increment `bucket_index` within a block; on overflow, move to
`(block_index+1) mod num_blocks`, `bucket_index=0`. Probing wraps around the
whole table." A slot is a pair of a block index and a bucket index; a block
overflows at its `max_bucket_index`. These definitions follow the specification,
not the loops of the source; the theorems compare the two. -/

/-- The slot that follows `slot` in probe order. -/
def nextSlot (B num_buckets num_blocks : Nat) (slot : Nat × Nat) : Nat × Nat :=
  if slot.2 + 1 < maxBucketIndex B num_buckets num_blocks slot.1 then (slot.1, slot.2 + 1)
  else ((slot.1 + 1) % num_blocks, 0)

/-- The slot reached from `start` after `j` steps in probe order. -/
def probeSlot (B num_buckets num_blocks : Nat) (start : Nat × Nat) : Nat → Nat × Nat
  | 0 => start
  | j + 1 => nextSlot B num_buckets num_blocks (probeSlot B num_buckets num_blocks start j)

/-- A slot of the table that the probe loops can reach: a block of the table
and a bucket below the `max_bucket_index` of that block. -/
def SlotValid (B num_buckets num_blocks : Nat) (slot : Nat × Nat) : Prop :=
  slot.1 < num_blocks ∧ slot.2 < maxBucketIndex B num_buckets num_blocks slot.1

/-- The number of slots the probe loops can reach: `BLOCK_ARRAY_SIZE` in every
block but the last, `max_bucket_index` in the last. -/
def probeCapacity (B num_buckets num_blocks : Nat) : Nat :=
  (num_blocks - 1) * B + maxBucketIndex B num_buckets num_blocks (num_blocks - 1)

/-- The home slot of `key`: `(block_index, bucket_index)` as computed by
`GetValue`, `Insert` and `Remove`. -/
def homeSlot (B : Nat) (t : LinearProbeHashTable K V) (key : K) : Nat × Nat :=
  ((t.hash_fn_ key % (t.header_pages t.header_page_id_).GetSize) / B,
    (t.hash_fn_ key % (t.header_pages t.header_page_id_).GetSize) % B)

/-- The block page with index `cur_block_index` of the table. -/
def blockAt (t : LinearProbeHashTable K V) (cur_block_index : Nat) : HashTableBlockPage K V :=
  t.block_pages ((t.header_pages t.header_page_id_).GetBlockPageId cur_block_index)

/-- The first `probeCapacity` slots of the probe sequence of `key`. -/
def probeSlots (B : Nat) (t : LinearProbeHashTable K V) (key : K) : List (Nat × Nat) :=
  (List.range (probeCapacity B (t.header_pages t.header_page_id_).GetSize
    (t.header_pages t.header_page_id_).NumBlocks)).map
    (probeSlot B (t.header_pages t.header_page_id_).GetSize
      (t.header_pages t.header_page_id_).NumBlocks (homeSlot B t key))

/-- What one pass over the slots `slots` in this order collects for `key`,
in the words of the specification: "if `occupied=0` terminate (miss-chain end);
if `readable=1` and keys compare equal, append value to result". -/
def collectValues (comparator : K → K → Int) (key : K) (page : Nat → HashTableBlockPage K V) :
    List (Nat × Nat) → List V
  | [] => []
  | slot :: rest =>
    if (page slot.1).IsOccupied slot.2 then
      if (page slot.1).IsReadable slot.2 ∧ comparator key ((page slot.1).KeyAt slot.2) = 0 then
        (page slot.1).ValueAt slot.2 :: collectValues comparator key page rest
      else collectValues comparator key page rest
    else []

end LinearProbeHashTable

namespace Scenario

/-- Four buckets and three keys with home slot 3: `Insert(3, 30)`,
`Insert(7, 70)`, `Insert(11, 110)` fill the slots 3, 0, 1. -/
def tableC26 : LinearProbeHashTable Int Int := afterInsert tableC18 11 110

end Scenario

namespace LinearProbeHashTable

variable {K V : Type} [Inhabited K] [Inhabited V] [DecidableEq V]

/-- The table states of a run without a `Resize`: the constructor followed by
`Remove` calls and by `Insert` calls that return from their first probe pass
(with a bound of one pass `Insert` cannot reach its `Resize` and the retry). -/
inductive ReachableNoResize (B : Nat) : LinearProbeHashTable K V → Prop
  | init (comparator : K → K → Int) (num_buckets : Nat) (hash_fn : K → Nat) (first_page_id : Int) :
      0 < B → 0 < num_buckets →
      ReachableNoResize B (new B comparator num_buckets hash_fn first_page_id)
  | insert (t : LinearProbeHashTable K V) (key : K) (value : V) (b : Bool)
      (t1 : LinearProbeHashTable K V) :
      ReachableNoResize B t → Insert B 1 t key value = some (b, t1) → ReachableNoResize B t1
  | remove (t : LinearProbeHashTable K V) (key : K) (value : V) (b : Bool)
      (t1 : LinearProbeHashTable K V) :
      ReachableNoResize B t → Remove B t key value = some (b, t1) → ReachableNoResize B t1

/-- The probe-chain invariant, stated per page id: a readable slot is occupied
and lies on the probe sequence of its key, with every slot of that sequence up
to it occupied; the block page ids of the table are pairwise different. -/
structure ProbeChain (B : Nat) (t : LinearProbeHashTable K V) : Prop where
  wf : TableWF B t
  readable_occupied : ∀ id j, (t.block_pages id).IsReadable j = true →
    (t.block_pages id).IsOccupied j = true
  chain : ∀ id j, (t.block_pages id).IsReadable j = true →
    ∃ cb m, (t.header_pages t.header_page_id_).GetBlockPageId cb = id ∧
      probeSlot B (t.header_pages t.header_page_id_).GetSize
        (t.header_pages t.header_page_id_).NumBlocks
        (homeSlot B t ((t.block_pages id).KeyAt j)) m = (cb, j) ∧
      ∀ i, i ≤ m →
        (blockAt t (probeSlot B (t.header_pages t.header_page_id_).GetSize
          (t.header_pages t.header_page_id_).NumBlocks
          (homeSlot B t ((t.block_pages id).KeyAt j)) i).1).IsOccupied
          (probeSlot B (t.header_pages t.header_page_id_).GetSize
          (t.header_pages t.header_page_id_).NumBlocks
          (homeSlot B t ((t.block_pages id).KeyAt j)) i).2 = true
  ids_injective : ∀ cb cb1, cb < (t.header_pages t.header_page_id_).NumBlocks →
    cb1 < (t.header_pages t.header_page_id_).NumBlocks →
    (t.header_pages t.header_page_id_).GetBlockPageId cb =
      (t.header_pages t.header_page_id_).GetBlockPageId cb1 → cb = cb1

end LinearProbeHashTable

/-! ## The hash table with checked indices

The operations of the hash table once more, with the checks that the C++ source
leaves to its caller made explicit: `block_page_ids_[index]` in
`GetBlockPageId` is checked for `index < NumBlocks()`, every slot access of a
block page (`IsOccupied`, `IsReadable`, `KeyAt`, `ValueAt`, `Insert`, `Remove`)
for `bucket_ind < BLOCK_ARRAY_SIZE`, and every `%` for a divisor other than 0.
A failed check ends the run with `fault`; `timeout` is fuel exhausted. Apart
from the checks the definitions are those of the section on the linear-probe
hash table. -/

/-- Outcome of a run with checked indices. -/
inductive Checked (α : Type) where
  | ok : α → Checked α
  | fault : Checked α
  | timeout : Checked α
  deriving DecidableEq

namespace Checked

/-- A run without checks read as a checked run: `none` is fuel exhausted. -/
def ofOption {α : Type} : Option α → Checked α
  | some a => ok a
  | none => timeout

end Checked

namespace LinearProbeHashTable

variable {K V : Type} [Inhabited K] [Inhabited V] [DecidableEq V]

/-- The `for` loop of `GetValue` over one block page, bucket index checked. -/
def getValueScanChecked (B : Nat) (comparator : K → K → Int) (key : K)
    (page : HashTableBlockPage K V) (block_index bucket_index cur_block_index : Nat) :
    Nat → Nat → Bool → List V → Checked (ScanExit (List V) (List V))
  | 0, _, first, result => Checked.ok (ScanExit.finished first result)
  | n + 1, i, first, result =>
    let at_start := decide (cur_block_index = block_index ∧ i = bucket_index)
    if at_start && !first then Checked.ok (ScanExit.cycled result)
    else if i < B then
      let first1 := if at_start then false else first
      if page.IsOccupied i then
        if page.IsReadable i then
          if comparator key (page.KeyAt i) = 0 then
            getValueScanChecked B comparator key page block_index bucket_index cur_block_index
              n (i + 1) first1 (result ++ [page.ValueAt i])
          else
            getValueScanChecked B comparator key page block_index bucket_index cur_block_index
              n (i + 1) first1 result
        else
          getValueScanChecked B comparator key page block_index bucket_index cur_block_index
            n (i + 1) first1 result
      else Checked.ok (ScanExit.returned result)
    else Checked.fault

/-- The `do ... while (!cycle)` loop of `GetValue`, block index checked. -/
def getValueProbeChecked (B : Nat) (t : LinearProbeHashTable K V) (key : K)
    (hash_table_header_page : HashTableHeaderPage) (num_buckets num_blocks block_index bucket_index : Nat) :
    Nat → Nat → Nat → Bool → List V → Checked (Bool × List V)
  | 0, _, _, _, _ => Checked.timeout
  | fuel + 1, cur_block_index, cur_bucket_index, first, result =>
    if cur_block_index < hash_table_header_page.NumBlocks then
      let cur_block_page_id := hash_table_header_page.GetBlockPageId cur_block_index
      let cur_hash_table_block_page := t.block_pages cur_block_page_id
      let max_bucket_index := maxBucketIndex B num_buckets num_blocks cur_block_index
      match getValueScanChecked B t.comparator_ key cur_hash_table_block_page block_index
          bucket_index cur_block_index (max_bucket_index - cur_bucket_index) cur_bucket_index
          first result with
      | Checked.ok (ScanExit.returned r) => Checked.ok (true, r)
      | Checked.ok (ScanExit.cycled r) => Checked.ok (true, r)
      | Checked.ok (ScanExit.finished first1 r) =>
        if num_blocks = 0 then Checked.fault
        else
          getValueProbeChecked B t key hash_table_header_page num_buckets num_blocks block_index
            bucket_index fuel ((cur_block_index + 1) % num_blocks) 0 first1 r
      | Checked.fault => Checked.fault
      | Checked.timeout => Checked.timeout
    else Checked.fault

/-- `LinearProbeHashTable::GetValue` with checked indices. -/
def GetValueChecked (B : Nat) (t : LinearProbeHashTable K V) (key : K) : Checked (Bool × List V) :=
  let hash_table_header_page := t.header_pages t.header_page_id_
  let hash_val := t.hash_fn_ key
  let num_buckets := hash_table_header_page.GetSize
  let num_blocks := hash_table_header_page.NumBlocks
  if num_buckets = 0 then Checked.fault
  else
    let block_index := (hash_val % num_buckets) / B
    let bucket_index := (hash_val % num_buckets) % B
    getValueProbeChecked B t key hash_table_header_page num_buckets num_blocks block_index
      bucket_index (num_blocks + 1) block_index bucket_index true []

/-- The `for` loop of `Insert` and of `InsertToNew` over one block page, bucket
index checked. -/
def insertScanChecked (B : Nat) (comparator : K → K → Int) (key : K) (value : V)
    (page : HashTableBlockPage K V) (block_index bucket_index cur_block_index : Nat) :
    Nat → Nat → Bool → Checked (ScanExit (Bool × HashTableBlockPage K V) Unit)
  | 0, _, first => Checked.ok (ScanExit.finished first ())
  | n + 1, i, first =>
    let at_start := decide (cur_block_index = block_index ∧ i = bucket_index)
    if at_start && !first then Checked.ok (ScanExit.cycled ())
    else if i < B then
      let first1 := if at_start then false else first
      if page.IsReadable i then
        if comparator key (page.KeyAt i) = 0 ∧ value = page.ValueAt i then
          Checked.ok (ScanExit.returned (false, page))
        else
          insertScanChecked B comparator key value page block_index bucket_index cur_block_index
            n (i + 1) first1
      else Checked.ok (ScanExit.returned (true, (page.Insert i key value).2))
    else Checked.fault

/-- The `do ... while (!cycle)` loop of `Insert`, block index checked. -/
def insertProbeChecked (B : Nat) (t : LinearProbeHashTable K V) (key : K) (value : V)
    (hash_table_header_page : HashTableHeaderPage) (num_buckets num_blocks block_index bucket_index : Nat) :
    Nat → Nat → Nat → Bool → Checked (Option Bool × LinearProbeHashTable K V)
  | 0, _, _, _ => Checked.timeout
  | fuel + 1, cur_block_index, cur_bucket_index, first =>
    if cur_block_index < hash_table_header_page.NumBlocks then
      let cur_block_page_id := hash_table_header_page.GetBlockPageId cur_block_index
      let cur_hash_table_block_page := t.block_pages cur_block_page_id
      let max_bucket_index := maxBucketIndex B num_buckets num_blocks cur_block_index
      match insertScanChecked B t.comparator_ key value cur_hash_table_block_page block_index
          bucket_index cur_block_index (max_bucket_index - cur_bucket_index) cur_bucket_index
          first with
      | Checked.ok (ScanExit.returned (b, page)) =>
        Checked.ok (some b,
          { t with block_pages := Function.update t.block_pages cur_block_page_id page })
      | Checked.ok (ScanExit.cycled _) => Checked.ok (none, t)
      | Checked.ok (ScanExit.finished first1 _) =>
        if num_blocks = 0 then Checked.fault
        else
          insertProbeChecked B t key value hash_table_header_page num_buckets num_blocks
            block_index bucket_index fuel ((cur_block_index + 1) % num_blocks) 0 first1
      | Checked.fault => Checked.fault
      | Checked.timeout => Checked.timeout
    else Checked.fault

/-- The `do ... while (!cycle)` loop of the lambda `InsertToNew`, block index
checked. -/
def insertToNewProbeChecked (B : Nat) (t : LinearProbeHashTable K V) (key : K) (value : V)
    (new_hash_table_header_page : HashTableHeaderPage) (num_blocks block_index bucket_index : Nat) :
    Nat → Nat → Nat → Bool → Checked (Bool × LinearProbeHashTable K V)
  | 0, _, _, _ => Checked.timeout
  | fuel + 1, cur_block_index, cur_bucket_index, first =>
    if cur_block_index < new_hash_table_header_page.NumBlocks then
      let cur_block_page_id := new_hash_table_header_page.GetBlockPageId cur_block_index
      let cur_hash_table_block_page := t.block_pages cur_block_page_id
      match insertScanChecked B t.comparator_ key value cur_hash_table_block_page block_index
          bucket_index cur_block_index (B - cur_bucket_index) cur_bucket_index first with
      | Checked.ok (ScanExit.returned (b, page)) =>
        Checked.ok (b,
          { t with block_pages := Function.update t.block_pages cur_block_page_id page })
      | Checked.ok (ScanExit.cycled _) => Checked.ok (false, t)
      | Checked.ok (ScanExit.finished first1 _) =>
        if num_blocks = 0 then Checked.fault
        else
          insertToNewProbeChecked B t key value new_hash_table_header_page num_blocks
            block_index bucket_index fuel ((cur_block_index + 1) % num_blocks) 0 first1
      | Checked.fault => Checked.fault
      | Checked.timeout => Checked.timeout
    else Checked.fault

/-- The lambda `InsertToNew` of `Resize` with checked indices. -/
def InsertToNewChecked (B : Nat) (new_header_page_id : Int) (t : LinearProbeHashTable K V)
    (key : K) (value : V) : Checked (Bool × LinearProbeHashTable K V) :=
  let new_hash_table_header_page := t.header_pages new_header_page_id
  let hash_val := t.hash_fn_ key
  let num_buckets := new_hash_table_header_page.GetSize
  let num_blocks := new_hash_table_header_page.NumBlocks
  if num_buckets = 0 then Checked.fault
  else
    let block_index := (hash_val % num_buckets) / B
    let bucket_index := (hash_val % num_buckets) % B
    insertToNewProbeChecked B t key value new_hash_table_header_page num_blocks block_index
      bucket_index (num_blocks + 1) block_index bucket_index true

/-- The loop of `Resize` over the buckets of the old block page `block_page_id`,
bucket index checked. -/
def resizeBucketsChecked (B : Nat) (new_header_page_id block_page_id : Int) :
    Nat → Nat → LinearProbeHashTable K V → Checked (LinearProbeHashTable K V)
  | 0, _, t => Checked.ok t
  | n + 1, bucket_index, t =>
    if bucket_index < B then
      let hash_table_block_page := t.block_pages block_page_id
      if hash_table_block_page.IsReadable bucket_index then
        match InsertToNewChecked B new_header_page_id t
            (hash_table_block_page.KeyAt bucket_index)
            (hash_table_block_page.ValueAt bucket_index) with
        | Checked.ok (_, t1) =>
          resizeBucketsChecked B new_header_page_id block_page_id n (bucket_index + 1) t1
        | Checked.fault => Checked.fault
        | Checked.timeout => Checked.timeout
      else resizeBucketsChecked B new_header_page_id block_page_id n (bucket_index + 1) t
    else Checked.fault

/-- The loop of `Resize` over the block pages of the old table, block index
checked. -/
def resizeBlocksChecked (B : Nat) (new_header_page_id : Int)
    (hash_table_header_page : HashTableHeaderPage) :
    Nat → Nat → LinearProbeHashTable K V → Checked (LinearProbeHashTable K V)
  | 0, _, t => Checked.ok t
  | n + 1, index, t =>
    if index < hash_table_header_page.NumBlocks then
      let block_page_id := hash_table_header_page.GetBlockPageId index
      match resizeBucketsChecked B new_header_page_id block_page_id B 0 t with
      | Checked.ok t1 =>
        resizeBlocksChecked B new_header_page_id hash_table_header_page n (index + 1) t1
      | Checked.fault => Checked.fault
      | Checked.timeout => Checked.timeout
    else Checked.fault

/-- `LinearProbeHashTable::Resize` with checked indices. -/
def ResizeChecked (B : Nat) (t : LinearProbeHashTable K V) (initial_size : Nat) :
    Checked (LinearProbeHashTable K V) :=
  if initial_size ≤ t.size_ then Checked.ok t
  else
    let hash_table_header_page := t.header_pages t.header_page_id_
    let (new_header_page_id, t1) := t.NewPage
    let t2 : LinearProbeHashTable K V :=
      { t1 with
        header_pages := Function.update t1.header_pages new_header_page_id
          (((t1.header_pages new_header_page_id).SetPageId new_header_page_id).SetSize initial_size) }
    let num_blocks := initial_size / B + 1
    let t3 := allocateBlocks new_header_page_id num_blocks t2
    match resizeBlocksChecked B new_header_page_id hash_table_header_page
        hash_table_header_page.NumBlocks 0 t3 with
    | Checked.ok t4 =>
      Checked.ok { t4 with header_page_id_ := new_header_page_id, size_ := initial_size }
    | Checked.fault => Checked.fault
    | Checked.timeout => Checked.timeout

/-- `LinearProbeHashTable::Insert` with checked indices. -/
def InsertChecked (B : Nat) : Nat → LinearProbeHashTable K V → K → V →
    Checked (Bool × LinearProbeHashTable K V)
  | 0, _, _, _ => Checked.timeout
  | passes + 1, t, key, value =>
    let hash_table_header_page := t.header_pages t.header_page_id_
    let hash_val := t.hash_fn_ key
    let num_buckets := hash_table_header_page.GetSize
    let num_blocks := hash_table_header_page.NumBlocks
    if num_buckets = 0 then Checked.fault
    else
      let block_index := (hash_val % num_buckets) / B
      let bucket_index := (hash_val % num_buckets) % B
      match insertProbeChecked B t key value hash_table_header_page num_buckets num_blocks
          block_index bucket_index (num_blocks + 1) block_index bucket_index true with
      | Checked.ok (some b, t1) => Checked.ok (b, t1)
      | Checked.ok (none, t1) =>
        match ResizeChecked B t1 (t1.size_ * 2) with
        | Checked.ok t2 => InsertChecked B passes t2 key value
        | Checked.fault => Checked.fault
        | Checked.timeout => Checked.timeout
      | Checked.fault => Checked.fault
      | Checked.timeout => Checked.timeout

/-- The `for` loop of `Remove` over one block page, bucket index checked. -/
def removeScanChecked (B : Nat) (comparator : K → K → Int) (key : K) (value : V)
    (page : HashTableBlockPage K V) (block_index bucket_index cur_block_index : Nat) :
    Nat → Nat → Bool → Checked (ScanExit (Bool × HashTableBlockPage K V) Unit)
  | 0, _, first => Checked.ok (ScanExit.finished first ())
  | n + 1, i, first =>
    let at_start := decide (cur_block_index = block_index ∧ i = bucket_index)
    if at_start && !first then Checked.ok (ScanExit.cycled ())
    else if i < B then
      let first1 := if at_start then false else first
      if page.IsOccupied i then
        if page.IsReadable i then
          if comparator key (page.KeyAt i) = 0 ∧ value = page.ValueAt i then
            Checked.ok (ScanExit.returned (true, page.Remove i))
          else
            removeScanChecked B comparator key value page block_index bucket_index cur_block_index
              n (i + 1) first1
        else
          removeScanChecked B comparator key value page block_index bucket_index cur_block_index
            n (i + 1) first1
      else Checked.ok (ScanExit.returned (false, page))
    else Checked.fault

/-- The `do ... while (!cycle)` loop of `Remove`, block index checked. -/
def removeProbeChecked (B : Nat) (t : LinearProbeHashTable K V) (key : K) (value : V)
    (hash_table_header_page : HashTableHeaderPage) (num_buckets num_blocks block_index bucket_index : Nat) :
    Nat → Nat → Nat → Bool → Checked (Bool × LinearProbeHashTable K V)
  | 0, _, _, _ => Checked.timeout
  | fuel + 1, cur_block_index, cur_bucket_index, first =>
    if cur_block_index < hash_table_header_page.NumBlocks then
      let cur_block_page_id := hash_table_header_page.GetBlockPageId cur_block_index
      let cur_hash_table_block_page := t.block_pages cur_block_page_id
      let max_bucket_index := maxBucketIndex B num_buckets num_blocks cur_block_index
      match removeScanChecked B t.comparator_ key value cur_hash_table_block_page block_index
          bucket_index cur_block_index (max_bucket_index - cur_bucket_index) cur_bucket_index
          first with
      | Checked.ok (ScanExit.returned (b, page)) =>
        Checked.ok (b,
          { t with block_pages := Function.update t.block_pages cur_block_page_id page })
      | Checked.ok (ScanExit.cycled _) => Checked.ok (false, t)
      | Checked.ok (ScanExit.finished first1 _) =>
        if num_blocks = 0 then Checked.fault
        else
          removeProbeChecked B t key value hash_table_header_page num_buckets num_blocks
            block_index bucket_index fuel ((cur_block_index + 1) % num_blocks) 0 first1
      | Checked.fault => Checked.fault
      | Checked.timeout => Checked.timeout
    else Checked.fault

/-- `LinearProbeHashTable::Remove` with checked indices. -/
def RemoveChecked (B : Nat) (t : LinearProbeHashTable K V) (key : K) (value : V) :
    Checked (Bool × LinearProbeHashTable K V) :=
  let hash_table_header_page := t.header_pages t.header_page_id_
  let hash_val := t.hash_fn_ key
  let num_buckets := hash_table_header_page.GetSize
  let num_blocks := hash_table_header_page.NumBlocks
  if num_buckets = 0 then Checked.fault
  else
    let block_index := (hash_val % num_buckets) / B
    let bucket_index := (hash_val % num_buckets) % B
    removeProbeChecked B t key value hash_table_header_page num_buckets num_blocks block_index
      bucket_index (num_blocks + 1) block_index bucket_index true

end LinearProbeHashTable

namespace Checked

/-- The result of a checked run, if it has one. -/
def toOption {α : Type} : Checked α → Option α
  | ok a => some a
  | fault => none
  | timeout => none

end Checked

end bustub

/-! # Theorems -/

namespace bustub

/-! ## The clock sweep -/

namespace ClockReplacer

theorem Step_hand (r : ClockReplacer) (h : r.clock_hand_ < r.num_pages) :
    (Step r).clock_hand_ < r.num_pages := by
  simp only [Step]
  exact Nat.mod_lt _ (by omega)

theorem FindVictim_sound (fuel : Nat) : ∀ (r : ClockReplacer) (f : Nat) (r1 : ClockReplacer),
    r.clock_hand_ < r.num_pages → FindVictim fuel r = some (f, r1) →
    f < r.num_pages ∧ (r.frame_infos_ f).free = true ∧ r1.num_pages = r.num_pages ∧
    r1.size_ = r.size_ ∧ r1.clock_hand_ < r.num_pages ∧
    (∀ g, (r1.frame_infos_ g).free = (r.frame_infos_ g).free) := by
  induction fuel with
  | zero => intro r f r1 _ h; simp [FindVictim] at h
  | succ n ih =>
    intro r f r1 hh h
    rw [FindVictim] at h
    by_cases hf : (r.frame_infos_ r.clock_hand_).free = true
    · by_cases hr : (r.frame_infos_ r.clock_hand_).ref = true
      · simp only [hf, hr, if_true] at h
        have := ih _ f r1 (by simpa [Step] using Nat.mod_lt _ (by omega : 0 < r.num_pages)) h
        simp only [Step] at this
        obtain ⟨h1, h2, h3, h4, h5, h6⟩ := this
        refine ⟨h1, ?_, h3, h4, h5, ?_⟩
        · by_cases e : f = r.clock_hand_
          · rw [e]; exact hf
          · simpa [Function.update_apply, e] using h2
        · intro g
          rw [h6 g]
          by_cases e : g = r.clock_hand_
          · rw [e]; simp [hf]
          · simp [Function.update_apply, e]
      · simp only [hf, hr, if_true] at h
        simp at h
        obtain ⟨h1, h2⟩ := h
        subst h1; subst h2
        exact ⟨hh, hf, rfl, rfl, Step_hand r hh, fun _ => rfl⟩
    · simp only [hf] at h
      have := ih _ f r1 (by simpa [Step] using Nat.mod_lt _ (by omega : 0 < r.num_pages)) h
      simpa [Step] using this


theorem FindVictim_of_clear (d : Nat) : ∀ (r : ClockReplacer) (k : Nat),
    r.clock_hand_ < r.num_pages →
    (r.frame_infos_ ((r.clock_hand_ + d) % r.num_pages)).free = true →
    (r.frame_infos_ ((r.clock_hand_ + d) % r.num_pages)).ref = false →
    ∃ res, FindVictim (d + 1 + k) r = some res := by
  induction d with
  | zero =>
    intro r k hh hf hr
    rw [Nat.add_zero, Nat.mod_eq_of_lt hh] at hf hr
    rw [show 0 + 1 + k = k + 1 by omega, FindVictim]
    simp [hf, hr]
  | succ d ih =>
    intro r k hh hf hr
    have hN : 0 < r.num_pages := by omega
    rw [show d + 1 + 1 + k = (d + 1 + k) + 1 by omega, FindVictim]
    by_cases hf0 : (r.frame_infos_ r.clock_hand_).free = true
    · by_cases hr0 : (r.frame_infos_ r.clock_hand_).ref = true
      · simp only [hf0, hr0, if_true]
        have hne : (r.clock_hand_ + (d + 1)) % r.num_pages ≠ r.clock_hand_ := by
          intro e; rw [e] at hr; rw [hr] at hr0; exact Bool.noConfusion hr0
        apply ih
        · simpa [Step] using Nat.mod_lt _ hN
        · simp only [Step, Nat.mod_add_mod]
          rw [show r.clock_hand_ + 1 + d = r.clock_hand_ + (d + 1) by omega]
          simpa [Function.update_apply, hne] using hf
        · simp only [Step, Nat.mod_add_mod]
          rw [show r.clock_hand_ + 1 + d = r.clock_hand_ + (d + 1) by omega]
          simpa [Function.update_apply, hne] using hr
      · simp [hf0, hr0]
    · simp only [hf0]
      apply ih
      · simpa [Step] using Nat.mod_lt _ hN
      · simp only [Step, Nat.mod_add_mod]
        rw [show r.clock_hand_ + 1 + d = r.clock_hand_ + (d + 1) by omega]
        exact hf
      · simp only [Step, Nat.mod_add_mod]
        rw [show r.clock_hand_ + 1 + d = r.clock_hand_ + (d + 1) by omega]
        exact hr

theorem FindVictim_of_candidate (d : Nat) : ∀ (r : ClockReplacer) (k : Nat),
    r.clock_hand_ < r.num_pages →
    (r.frame_infos_ ((r.clock_hand_ + d) % r.num_pages)).free = true →
    ∃ res, FindVictim (d + 1 + r.num_pages + k) r = some res := by
  induction d with
  | zero =>
    intro r k hh hf
    have hN : 0 < r.num_pages := by omega
    rw [Nat.add_zero, Nat.mod_eq_of_lt hh] at hf
    rw [show 0 + 1 + r.num_pages + k = (r.num_pages + k) + 1 by omega, FindVictim]
    by_cases hr0 : (r.frame_infos_ r.clock_hand_).ref = true
    · simp only [hf, hr0, if_true]
      have key : ((r.clock_hand_ + 1) % r.num_pages + (r.num_pages - 1)) % r.num_pages
          = r.clock_hand_ := by
        rw [Nat.mod_add_mod, show r.clock_hand_ + 1 + (r.num_pages - 1) = r.clock_hand_ + r.num_pages by omega,
          Nat.add_mod_right, Nat.mod_eq_of_lt hh]
      have := FindVictim_of_clear (r.num_pages - 1)
        (Step { r with frame_infos_ := Function.update r.frame_infos_ r.clock_hand_ ⟨true, false⟩ }) k
        (by simpa [Step] using Nat.mod_lt _ hN)
        (by simp only [Step]; rw [key]; simp)
        (by simp only [Step]; rw [key]; simp)
      rw [show r.num_pages - 1 + 1 + k = r.num_pages + k by omega] at this
      exact this
    · simp [hf, hr0]
  | succ d ih =>
    intro r k hh hf
    have hN : 0 < r.num_pages := by omega
    rw [show d + 1 + 1 + r.num_pages + k = (d + 1 + r.num_pages + k) + 1 by omega, FindVictim]
    by_cases hf0 : (r.frame_infos_ r.clock_hand_).free = true
    · by_cases hr0 : (r.frame_infos_ r.clock_hand_).ref = true
      · simp only [hf0, hr0, if_true]
        apply ih (Step { r with frame_infos_ := Function.update r.frame_infos_ r.clock_hand_ ⟨true, false⟩ }) k
        · simpa [Step] using Nat.mod_lt _ hN
        · simp only [Step, Nat.mod_add_mod]
          rw [show r.clock_hand_ + 1 + d = r.clock_hand_ + (d + 1) by omega]
          by_cases e : (r.clock_hand_ + (d + 1)) % r.num_pages = r.clock_hand_
          · rw [e]; simp
          · simpa [Function.update_apply, e] using hf
      · simp [hf0, hr0]
    · simp only [hf0]
      apply ih (Step r) k
      · simpa [Step] using Nat.mod_lt _ hN
      · simp only [Step, Nat.mod_add_mod]
        rw [show r.clock_hand_ + 1 + d = r.clock_hand_ + (d + 1) by omega]
        exact hf

/-- With a candidate among the frames the sweep returns within `2 * num_pages`
visited positions. -/
theorem FindVictim_total (r : ClockReplacer) (hh : r.clock_hand_ < r.num_pages)
    (f : Nat) (hf : f < r.num_pages) (hfree : (r.frame_infos_ f).free = true) :
    ∃ res, FindVictim (2 * r.num_pages) r = some res := by
  have hd : (f + r.num_pages - r.clock_hand_) % r.num_pages < r.num_pages :=
    Nat.mod_lt _ (by omega)
  have key : (r.clock_hand_ + (f + r.num_pages - r.clock_hand_) % r.num_pages) % r.num_pages = f := by
    rw [Nat.add_mod_mod, show r.clock_hand_ + (f + r.num_pages - r.clock_hand_) = f + r.num_pages by omega,
      Nat.add_mod_right, Nat.mod_eq_of_lt hf]
  generalize (f + r.num_pages - r.clock_hand_) % r.num_pages = d at hd key
  have := FindVictim_of_candidate d r (2 * r.num_pages - (d + 1 + r.num_pages)) hh
    (by rw [key]; exact hfree)
  rw [show d + 1 + r.num_pages + (2 * r.num_pages - (d + 1 + r.num_pages))
    = 2 * r.num_pages by omega] at this
  exact this

end ClockReplacer

namespace ClockReplacer

theorem Pin_free (r : ClockReplacer) (f g : Nat) :
    ((Pin r f).frame_infos_ g).free = if g = f then false else (r.frame_infos_ g).free := by
  unfold Pin
  by_cases h : (r.frame_infos_ f).free = true
  · by_cases e : g = f
    · subst e; simp [h]
    · simp [h, e, Function.update_apply]
  · by_cases e : g = f
    · subst e
      simp only [Bool.not_eq_true] at h
      simp [h]
    · simp [h, e]

theorem Unpin_free (r : ClockReplacer) (f g : Nat) :
    ((Unpin r f).frame_infos_ g).free = if g = f then true else (r.frame_infos_ g).free := by
  unfold Unpin
  by_cases h : (r.frame_infos_ f).free = true
  · by_cases e : g = f
    · subst e; simp [h]
    · simp [h, e]
  · by_cases e : g = f
    · subst e; simp [h]
    · simp [h, e, Function.update_apply]

theorem candidates_clear (n : Nat) (infos infos1 : Nat → ClockReplacerFrameInfo) (f : Nat)
    (h : ∀ g, (infos1 g).free = if g = f then false else (infos g).free) :
    (Finset.range n).filter (fun g => (infos1 g).free = true) =
      ((Finset.range n).filter (fun g => (infos g).free = true)).erase f := by
  ext g
  simp only [Finset.mem_filter, Finset.mem_range, Finset.mem_erase, h g]
  by_cases e : g = f
  · simp [e]
  · simp [e]

theorem candidates_set (n : Nat) (infos infos1 : Nat → ClockReplacerFrameInfo) (f : Nat)
    (hf : f < n) (h : ∀ g, (infos1 g).free = if g = f then true else (infos g).free) :
    (Finset.range n).filter (fun g => (infos1 g).free = true) =
      insert f ((Finset.range n).filter (fun g => (infos g).free = true)) := by
  ext g
  simp only [Finset.mem_filter, Finset.mem_range, Finset.mem_insert, h g]
  by_cases e : g = f
  · simp [e, hf]
  · simp [e]

theorem Pin_num_pages (r : ClockReplacer) (f : Nat) : (Pin r f).num_pages = r.num_pages := by
  unfold Pin; split <;> rfl

theorem Unpin_num_pages (r : ClockReplacer) (f : Nat) : (Unpin r f).num_pages = r.num_pages := by
  unfold Unpin; split <;> rfl

theorem Pin_WF (r : ClockReplacer) (f : Nat) (h : r.WF) : (Pin r f).WF := by
  by_cases hf : (r.frame_infos_ f).free = true
  · have hfree := Pin_free r f
    refine ⟨?_, ?_, ?_⟩
    · simpa [Pin, hf] using h.hand
    · intro g hg
      rw [hfree g] at hg
      by_cases e : g = f
      · simp [e] at hg
      · simp only [e, if_false] at hg
        rw [Pin_num_pages]; exact h.range g hg
    · have hc : candidates (Pin r f) = (candidates r).erase f := by
        unfold candidates
        rw [Pin_num_pages]
        exact candidates_clear _ _ _ f hfree
      have hmem : f ∈ candidates r := by
        simp [candidates, hf, h.range f hf]
      rw [hc, Finset.card_erase_of_mem hmem]
      simp [Pin, hf, h.size]
  · have : Pin r f = r := by simp [Pin, hf]
    rw [this]; exact h

theorem Unpin_WF (r : ClockReplacer) (f : Nat) (h : r.WF) (hf : f < r.num_pages) : (Unpin r f).WF := by
  by_cases hfr : (r.frame_infos_ f).free = true
  · have : Unpin r f = r := by simp [Unpin, hfr]
    rw [this]; exact h
  · have hfree := Unpin_free r f
    refine ⟨?_, ?_, ?_⟩
    · have hh := h.hand
      simp only [Unpin, hfr]
      simpa using hh
    · intro g hg
      rw [hfree g] at hg
      rw [Unpin_num_pages]
      by_cases e : g = f
      · rw [e]; exact hf
      · simp only [e, if_false] at hg
        exact h.range g hg
    · have hc : candidates (Unpin r f) = insert f (candidates r) := by
        unfold candidates
        rw [Unpin_num_pages]
        exact candidates_set _ _ _ f hf hfree
      have hmem : f ∉ candidates r := by
        simp [candidates, hfr]
      rw [hc, Finset.card_insert_of_not_mem hmem]
      simp [Unpin, hfr, h.size]

/-- With no candidate `Victim` returns false and changes nothing. -/
theorem Victim_none (r : ClockReplacer) (h : r.WF)
    (hnone : ∀ f, (r.frame_infos_ f).free = false) : Victim r = some (none, r) := by
  have : candidates r = ∅ := by
    unfold candidates
    apply Finset.filter_eq_empty_iff.mpr
    intro g _; simp [hnone g]
  have hs : r.size_ = 0 := by rw [h.size, this]; rfl
  simp [Victim, hs]

/-- With a candidate `Victim` returns one: the returned frame was a candidate,
it is no candidate afterwards and no other `free` flag changes. -/
theorem Victim_some (r : ClockReplacer) (h : r.WF) (f0 : Nat)
    (hf0 : (r.frame_infos_ f0).free = true) :
    ∃ f r1, Victim r = some (some f, r1) ∧ f < r.num_pages ∧ (r.frame_infos_ f).free = true ∧
      r1.WF ∧ r1.num_pages = r.num_pages ∧
      (∀ g, (r1.frame_infos_ g).free = if g = f then false else (r.frame_infos_ g).free) := by
  have hlt := h.range f0 hf0
  have hhand : r.clock_hand_ < r.num_pages := by
    rcases h.hand with h0 | h0
    · omega
    · exact h0
  have hmem : f0 ∈ candidates r := by simp [candidates, hf0, hlt]
  have hs : r.size_ ≠ 0 := by
    rw [h.size]; exact Finset.card_ne_zero_of_mem hmem
  obtain ⟨⟨f, r1⟩, hres⟩ := FindVictim_total r hhand f0 hlt hf0
  obtain ⟨h1, h2, h3, h4, h5, h6⟩ := FindVictim_sound _ r f r1 hhand hres
  have hfree : ∀ g, ((Function.update r1.frame_infos_ f
      (⟨false, (r1.frame_infos_ f).ref⟩ : ClockReplacerFrameInfo)) g).free =
      if g = f then false else (r.frame_infos_ g).free := by
    intro g
    by_cases e : g = f
    · subst e; simp
    · simp [Function.update_apply, e, h6 g]
  refine ⟨f, { r1 with
      frame_infos_ := Function.update r1.frame_infos_ f
        (⟨false, (r1.frame_infos_ f).ref⟩ : ClockReplacerFrameInfo),
      size_ := r1.size_ - 1 }, ?_, h1, h2, ?_, ?_, ?_⟩
  · simp only [Victim, hs, if_false, hres]
  · refine ⟨?_, ?_, ?_⟩
    · right; simpa [h3] using h5
    · intro g hg
      simp only at hg
      rw [hfree g] at hg
      by_cases e : g = f
      · simp [e] at hg
      · simp only [e, if_false] at hg
        simpa [h3] using h.range g hg
    · have hc : candidates { r1 with
          frame_infos_ := Function.update r1.frame_infos_ f
            (⟨false, (r1.frame_infos_ f).ref⟩ : ClockReplacerFrameInfo),
          size_ := r1.size_ - 1 } = (candidates r).erase f := by
        unfold candidates
        simp only [h3]
        exact candidates_clear _ _ _ f hfree
      have hm : f ∈ candidates r := by simp [candidates, h2, h1]
      rw [hc, Finset.card_erase_of_mem hm]
      simp [h4, h.size]
  · simpa using h3
  · exact hfree

end ClockReplacer

/-! ## The page table -/

namespace PageTable

theorem find_some_mem (pt : PageTable) (p : Int) (f : Nat) (h : find pt p = some f) :
    (p, f) ∈ pt := by
  induction pt with
  | nil => simp [find] at h
  | cons e rest ih =>
    obtain ⟨q, g⟩ := e
    simp only [find] at h
    by_cases e : q = p
    · simp only [e, if_true, Option.some.injEq] at h
      simp [e, h]
    · simp only [e, if_false] at h
      exact List.mem_cons_of_mem _ (ih h)

theorem find_none_iff (pt : PageTable) (p : Int) : find pt p = none ↔ ∀ f, (p, f) ∉ pt := by
  induction pt with
  | nil => simp [find]
  | cons e rest ih =>
    obtain ⟨q, g⟩ := e
    simp only [find]
    by_cases e : q = p
    · simp only [e, if_true]
      constructor
      · intro h; cases h
      · intro h; exact absurd (List.mem_cons_self _ _) (h g)
    · simp only [e, if_false, ih]
      constructor
      · intro h f hm
        rcases List.mem_cons.mp hm with h1 | h1
        · exact e (by injection h1 with h2 h3; exact h2.symm)
        · exact h f h1
      · intro h f hm
        exact h f (List.mem_cons_of_mem _ hm)

theorem mem_find (pt : PageTable) (hk : (pt.map Prod.fst).Nodup) (p : Int) (f : Nat)
    (h : (p, f) ∈ pt) : find pt p = some f := by
  induction pt with
  | nil => cases h
  | cons e rest ih =>
    obtain ⟨q, g⟩ := e
    simp only [List.map_cons, List.nodup_cons] at hk
    simp only [find]
    rcases List.mem_cons.mp h with h1 | h1
    · injection h1 with h2 h3
      simp [h2, h3]
    · have : q ≠ p := by
        intro e
        apply hk.1
        rw [e]
        exact List.mem_map.mpr ⟨(p, f), h1, rfl⟩
      simp only [this, if_false]
      exact ih hk.2 h1

theorem mem_erase (pt : PageTable) (p q : Int) (f : Nat) :
    (q, f) ∈ erase pt p ↔ (q, f) ∈ pt ∧ q ≠ p := by
  simp [erase, List.mem_filter]

theorem erase_keys_nodup (pt : PageTable) (p : Int) (h : (pt.map Prod.fst).Nodup) :
    ((erase pt p).map Prod.fst).Nodup :=
  List.Nodup.sublist (List.Sublist.map _ (List.filter_sublist _)) h

theorem mem_assign (pt : PageTable) (p q : Int) (f g : Nat) :
    (q, g) ∈ assign pt p f ↔ (q = p ∧ g = f) ∨ ((q, g) ∈ pt ∧ q ≠ p) := by
  simp [assign, mem_erase]

theorem assign_keys_nodup (pt : PageTable) (p : Int) (f : Nat) (h : (pt.map Prod.fst).Nodup) :
    ((assign pt p f).map Prod.fst).Nodup := by
  simp only [assign, List.map_cons, List.nodup_cons]
  refine ⟨?_, erase_keys_nodup pt p h⟩
  intro hm
  obtain ⟨⟨q, g⟩, h1, h2⟩ := List.mem_map.mp hm
  simp only at h2
  rw [h2] at h1
  exact ((mem_erase pt p p g).mp h1).2 rfl

theorem find_erase_self (pt : PageTable) (p : Int) : find (erase pt p) p = none := by
  rw [find_none_iff]
  intro f hm
  exact ((mem_erase pt p p f).mp hm).2 rfl

end PageTable

/-! ## The buffer-pool invariant -/

namespace BufferPoolManager

variable {D : Type}

theorem new_WF [Zero D] (pool_size : Nat) (disk_manager : DiskManager D) :
    WF (BufferPoolManager.new pool_size disk_manager) := by
  refine ⟨⟨⟨?_, ?_, ?_⟩, rfl, ?_, ?_, ?_, ?_, ?_, ?_, ?_, ?_, ?_⟩, ?_⟩
  · by_cases h : pool_size = 0
    · left; exact h
    · right; simp only [BufferPoolManager.new, ClockReplacer.new]; omega
  · intro f hf; simp [BufferPoolManager.new, ClockReplacer.new, ClockReplacer.initialFrameInfo] at hf
  · simp [BufferPoolManager.new, ClockReplacer.new, ClockReplacer.candidates,
      ClockReplacer.initialFrameInfo]
  · simp [BufferPoolManager.new]
  · intro p f h; simp [BufferPoolManager.new] at h
  · exact List.nodup_range _
  · intro f hf; simpa [BufferPoolManager.new] using hf
  · intro f _ p h; simp [BufferPoolManager.new] at h
  · intro f _; rfl
  · intro p f h; simp [BufferPoolManager.new] at h
  · intro p f h; simp [BufferPoolManager.new] at h
  · intro f _; exact ⟨rfl, rfl⟩
  · intro f hf; left; simpa [BufferPoolManager.new] using hf

theorem evictVictim_page (s : BufferPoolManager D) (f : Nat) (r : ClockReplacer) (g : Nat) :
    ((evictVictim s f r).pages_ g).page_id_ = (s.pages_ g).page_id_ ∧
    ((evictVictim s f r).pages_ g).pin_count_ = (s.pages_ g).pin_count_ ∧
    ((evictVictim s f r).pages_ g).data_ = (s.pages_ g).data_ ∧
    ((evictVictim s f r).pages_ g).is_dirty_ = (if g = f then false else (s.pages_ g).is_dirty_) := by
  unfold evictVictim
  by_cases hd : (s.pages_ f).is_dirty_ = true
  · by_cases e : g = f
    · subst e; simp [hd]
    · simp [hd, e, Function.update_apply]
  · by_cases e : g = f
    · subst e
      simp only [Bool.not_eq_true] at hd
      simp [hd]
    · simp [hd, e]

/-- The three ways `GetUsableFrameImpl` ends in a well-formed state: the head of
the free list, no frame at all (empty free list and no candidate), or a victim
of the replacer (empty free list). It always returns. -/
theorem GetUsableFrameImpl_cases (s : BufferPoolManager D) (h : WF s) :
    (∃ f rest, s.free_list_ = f :: rest ∧
      GetUsableFrameImpl s = some (some f, { s with free_list_ := rest })) ∨
    (s.free_list_ = [] ∧ (∀ f, (s.replacer_.frame_infos_ f).free = false) ∧
      GetUsableFrameImpl s = some (none, s)) ∨
    (s.free_list_ = [] ∧ ∃ f r1, (s.replacer_.frame_infos_ f).free = true ∧ f < s.pool_size_ ∧
      r1.WF ∧ r1.num_pages = s.pool_size_ ∧
      (∀ g, (r1.frame_infos_ g).free = if g = f then false else (s.replacer_.frame_infos_ g).free) ∧
      GetUsableFrameImpl s = some (some f, evictVictim s f r1)) := by
  cases hfl : s.free_list_ with
  | cons f rest =>
    left
    exact ⟨f, rest, rfl, by simp [GetUsableFrameImpl, hfl]⟩
  | nil =>
    right
    by_cases hc : ∃ f, (s.replacer_.frame_infos_ f).free = true
    · right
      obtain ⟨f0, hf0⟩ := hc
      obtain ⟨f, r1, hv, h1, h2, h3, h4, h5⟩ := ClockReplacer.Victim_some s.replacer_ h.core.rep f0 hf0
      refine ⟨rfl, f, r1, h2, ?_, h3, ?_, h5, ?_⟩
      · rw [← h.core.rep_n]; exact h1
      · rw [h4, h.core.rep_n]
      · simp [GetUsableFrameImpl, hfl, hv]
    · left
      have hnone : ∀ f, (s.replacer_.frame_infos_ f).free = false := by
        intro f
        by_contra hne
        exact hc ⟨f, by simpa using hne⟩
      refine ⟨rfl, hnone, ?_⟩
      simp only [GetUsableFrameImpl, hfl, ClockReplacer.Victim_none s.replacer_ h.core.rep hnone]
      rw [← hfl]

theorem Hole_of_pop (s : BufferPoolManager D) (h : WF s) (f : Nat) (rest : List Nat)
    (hfl : s.free_list_ = f :: rest) : Hole { s with free_list_ := rest } f := by
  have hc := h.core
  have hnd : (f :: rest).Nodup := hfl ▸ hc.free_nodup
  have hsub : ∀ g, g ∈ rest → g ∈ s.free_list_ := fun g hg => hfl ▸ List.mem_cons_of_mem _ hg
  have hfm : f ∈ s.free_list_ := hfl ▸ List.mem_cons_self _ _
  refine ⟨⟨hc.rep, hc.rep_n, hc.keys_nodup, hc.entry, ?_, ?_, ?_, hc.cand_pin, hc.pin_nonneg,
    hc.unpinned_cand, ?_⟩, ?_, ?_, ?_, ?_, ?_, ?_⟩
  · exact (List.nodup_cons.mp hnd).2
  · intro g hg; exact hc.free_range g (hsub g hg)
  · intro g hg; exact hc.disjoint g (hsub g hg)
  · intro g hg; exact hc.free_clean g (hsub g hg)
  · exact hc.free_range f hfm
  · exact (List.nodup_cons.mp hnd).1
  · exact hc.disjoint f hfm
  · exact (hc.free_clean f hfm).1
  · exact (hc.free_clean f hfm).2
  · intro g hg hne
    rcases h.cover g hg with h1 | h1
    · left
      rw [hfl] at h1
      rcases List.mem_cons.mp h1 with h2 | h2
      · exact absurd h2 hne
      · exact h2
    · right; exact h1

theorem Hole_of_evict (s : BufferPoolManager D) (h : WF s) (f : Nat) (r1 : ClockReplacer)
    (hfl : s.free_list_ = []) (hfree : (s.replacer_.frame_infos_ f).free = true)
    (hlt : f < s.pool_size_) (hr1 : r1.WF) (hn : r1.num_pages = s.pool_size_)
    (hfr : ∀ g, (r1.frame_infos_ g).free = if g = f then false else (s.replacer_.frame_infos_ g).free) :
    Hole (evictVictim s f r1) f := by
  have hc := h.core
  have hpg := evictVictim_page s f r1
  have hpt : (evictVictim s f r1).page_table_ = s.page_table_.erase (s.pages_ f).page_id_ := rfl
  have hrep : (evictVictim s f r1).replacer_ = r1 := rfl
  have hfl1 : (evictVictim s f r1).free_list_ = s.free_list_ := rfl
  have hps : (evictVictim s f r1).pool_size_ = s.pool_size_ := rfl
  have hmem : ∀ q g, (q, g) ∈ (evictVictim s f r1).page_table_ → (q, g) ∈ s.page_table_ ∧ g ≠ f := by
    intro q g hm
    rw [hpt, PageTable.mem_erase] at hm
    refine ⟨hm.1, ?_⟩
    intro e
    rw [e] at hm
    exact hm.2 (hc.entry q f hm.1).2.symm
  refine ⟨⟨?_, ?_, ?_, ?_, ?_, ?_, ?_, ?_, ?_, ?_, ?_⟩, hlt, ?_, ?_, ?_, ?_, ?_⟩
  · rw [hrep]; exact hr1
  · rw [hrep, hps]; exact hn
  · rw [hpt]; exact PageTable.erase_keys_nodup _ _ hc.keys_nodup
  · intro q g hm
    obtain ⟨h1, _⟩ := hmem q g hm
    rw [hps, (hpg g).1]
    exact hc.entry q g h1
  · rw [hfl1]; exact hc.free_nodup
  · intro g hg; rw [hfl1, hfl] at hg; cases hg
  · intro g hg; rw [hfl1, hfl] at hg; cases hg
  · intro g hg
    rw [hrep, hfr g] at hg
    by_cases e : g = f
    · simp [e] at hg
    · simp only [e, if_false] at hg
      rw [(hpg g).2.1]; exact hc.cand_pin g hg
  · intro q g hm
    rw [(hpg g).2.1]; exact hc.pin_nonneg q g (hmem q g hm).1
  · intro q g hm hz
    obtain ⟨h1, h2⟩ := hmem q g hm
    rw [(hpg g).2.1] at hz
    rw [hrep, hfr g]
    simp only [h2, if_false]
    exact hc.unpinned_cand q g h1 hz
  · intro g hg; rw [hfl1, hfl] at hg; cases hg
  · rw [hfl1, hfl]; simp
  · intro q hm; exact (hmem q f hm).2 rfl
  · rw [(hpg f).2.1]; exact hc.cand_pin f hfree
  · rw [(hpg f).2.2.2]; simp
  · intro g hg hne
    right
    rcases h.cover g hg with h1 | ⟨q, h1⟩
    · rw [hfl] at h1; cases h1
    · refine ⟨q, ?_⟩
      rw [hpt, PageTable.mem_erase]
      refine ⟨h1, ?_⟩
      intro e
      rcases h.cover f hlt with h2 | ⟨q2, h2⟩
      · rw [hfl] at h2; cases h2
      · have e2 := (hc.entry q2 f h2).2
        rw [e, e2] at h1
        have a := PageTable.mem_find _ hc.keys_nodup _ _ h1
        have b := PageTable.mem_find _ hc.keys_nodup _ _ h2
        rw [a] at b
        exact hne (Option.some.inj b)

end BufferPoolManager

namespace BufferPoolManager

variable {D : Type}

/-- Installing a page id in the frame handed out by `GetUsableFrameImpl`
(the tail of `FetchPageImpl` on a miss and of `NewPageImpl`) restores the invariant. -/
theorem WF_install (s1 s2 : BufferPoolManager D) (f : Nat) (p : Int) (h : Hole s1 f)
    (hp : ∀ g, (p, g) ∉ s1.page_table_)
    (h1 : s2.pool_size_ = s1.pool_size_) (h2 : s2.replacer_ = s1.replacer_.Pin f)
    (h3 : s2.free_list_ = s1.free_list_) (h4 : s2.page_table_ = s1.page_table_.assign p f)
    (h5 : ∀ g, g ≠ f → s2.pages_ g = s1.pages_ g)
    (h6 : (s2.pages_ f).page_id_ = p) (h7 : (s2.pages_ f).pin_count_ = 1) : WF s2 := by
  have hc := h.core
  have hmem : ∀ q g, (q, g) ∈ s2.page_table_ →
      (q = p ∧ g = f) ∨ ((q, g) ∈ s1.page_table_ ∧ g ≠ f) := by
    intro q g hm
    rw [h4, PageTable.mem_assign] at hm
    rcases hm with hm | hm
    · left; exact hm
    · right
      refine ⟨hm.1, ?_⟩
      intro e; rw [e] at hm; exact h.not_mapped q hm.1
  have hfree : ∀ g, (s2.replacer_.frame_infos_ g).free =
      if g = f then false else (s1.replacer_.frame_infos_ g).free := by
    intro g; rw [h2]; exact ClockReplacer.Pin_free _ f g
  refine ⟨⟨?_, ?_, ?_, ?_, ?_, ?_, ?_, ?_, ?_, ?_, ?_⟩, ?_⟩
  · rw [h2]; exact ClockReplacer.Pin_WF _ f hc.rep
  · rw [h2, ClockReplacer.Pin_num_pages, h1]; exact hc.rep_n
  · rw [h4]; exact PageTable.assign_keys_nodup _ _ _ hc.keys_nodup
  · intro q g hm
    rcases hmem q g hm with ⟨e1, e2⟩ | ⟨hm1, hne⟩
    · rw [e1, e2, h1]; exact ⟨h.lt, h6⟩
    · rw [h1, h5 g hne]; exact hc.entry q g hm1
  · rw [h3]; exact hc.free_nodup
  · intro g hg; rw [h3] at hg; rw [h1]; exact hc.free_range g hg
  · intro g hg q hm
    rw [h3] at hg
    rcases hmem q g hm with ⟨_, e2⟩ | ⟨hm1, _⟩
    · rw [e2] at hg; exact h.not_free hg
    · exact hc.disjoint g hg q hm1
  · intro g hg
    rw [hfree g] at hg
    by_cases e : g = f
    · simp [e] at hg
    · simp only [e, if_false] at hg
      rw [h5 g e]; exact hc.cand_pin g hg
  · intro q g hm
    rcases hmem q g hm with ⟨_, e2⟩ | ⟨hm1, hne⟩
    · rw [e2, h7]; decide
    · rw [h5 g hne]; exact hc.pin_nonneg q g hm1
  · intro q g hm hz
    rcases hmem q g hm with ⟨_, e2⟩ | ⟨hm1, hne⟩
    · rw [e2, h7] at hz; exact absurd hz (by decide)
    · rw [h5 g hne] at hz
      rw [hfree g]
      simp only [hne, if_false]
      exact hc.unpinned_cand q g hm1 hz
  · intro g hg
    rw [h3] at hg
    have hne : g ≠ f := fun e => h.not_free (e ▸ hg)
    rw [h5 g hne]; exact hc.free_clean g hg
  · intro g hg
    rw [h1] at hg
    by_cases e : g = f
    · right; refine ⟨p, ?_⟩
      rw [h4, PageTable.mem_assign]; left; exact ⟨rfl, e⟩
    · rcases h.cover g hg e with hh | ⟨q, hh⟩
      · left; rw [h3]; exact hh
      · right; refine ⟨q, ?_⟩
        rw [h4, PageTable.mem_assign]; right
        refine ⟨hh, ?_⟩
        intro e2; rw [e2] at hh; exact hp g hh

/-- A change that touches neither the page table, the free list, the replacer,
the page ids nor the pin counts and that sets no dirty flag keeps the invariant
(`FlushPageImpl`, `FlushAllPagesImpl`, a write through a handle). -/
theorem WF_of_same_meta (s s2 : BufferPoolManager D) (h : WF s)
    (h1 : s2.pool_size_ = s.pool_size_) (h2 : s2.replacer_ = s.replacer_)
    (h3 : s2.free_list_ = s.free_list_) (h4 : s2.page_table_ = s.page_table_)
    (h5 : ∀ g, (s2.pages_ g).page_id_ = (s.pages_ g).page_id_ ∧
      (s2.pages_ g).pin_count_ = (s.pages_ g).pin_count_ ∧
      ((s2.pages_ g).is_dirty_ = true → (s.pages_ g).is_dirty_ = true)) : WF s2 := by
  have hc := h.core
  refine ⟨⟨?_, ?_, ?_, ?_, ?_, ?_, ?_, ?_, ?_, ?_, ?_⟩, ?_⟩
  · rw [h2]; exact hc.rep
  · rw [h2, h1]; exact hc.rep_n
  · rw [h4]; exact hc.keys_nodup
  · intro q g hm; rw [h4] at hm; rw [h1, (h5 g).1]; exact hc.entry q g hm
  · rw [h3]; exact hc.free_nodup
  · intro g hg; rw [h3] at hg; rw [h1]; exact hc.free_range g hg
  · intro g hg q; rw [h3] at hg; rw [h4]; exact hc.disjoint g hg q
  · intro g hg; rw [h2] at hg; rw [(h5 g).2.1]; exact hc.cand_pin g hg
  · intro q g hm; rw [h4] at hm; rw [(h5 g).2.1]; exact hc.pin_nonneg q g hm
  · intro q g hm hz; rw [h4] at hm; rw [(h5 g).2.1] at hz; rw [h2]
    exact hc.unpinned_cand q g hm hz
  · intro g hg
    rw [h3] at hg
    have := hc.free_clean g hg
    refine ⟨by rw [(h5 g).2.1]; exact this.1, ?_⟩
    by_contra hd
    have hd2 := (h5 g).2.2 (by simpa using hd)
    rw [this.2] at hd2; exact Bool.noConfusion hd2
  · intro g hg; rw [h1] at hg; rw [h3, h4]; exact h.cover g hg

end BufferPoolManager

namespace BufferPoolManager

variable {D : Type}

theorem FetchPageImpl_hit_WF (s : BufferPoolManager D) (h : WF s) (p : Int) (f : Nat)
    (hf : s.page_table_.find p = some f) :
    WF { s with
      replacer_ := if (s.pages_ f).pin_count_ = 0 then s.replacer_.Pin f else s.replacer_
      pages_ := Function.update s.pages_ f
        { (s.pages_ f) with pin_count_ := (s.pages_ f).pin_count_ + 1 } } := by
  have hc := h.core
  have hm := PageTable.find_some_mem _ _ _ hf
  have hpin := hc.pin_nonneg p f hm
  have hfree : ∀ g, g ≠ f →
      ((if (s.pages_ f).pin_count_ = 0 then s.replacer_.Pin f else s.replacer_).frame_infos_ g).free
        = (s.replacer_.frame_infos_ g).free := by
    intro g hne
    split
    · rw [ClockReplacer.Pin_free]; simp [hne]
    · rfl
  have hfree2 : ((if (s.pages_ f).pin_count_ = 0 then s.replacer_.Pin f
      else s.replacer_).frame_infos_ f).free = false := by
    split
    · rw [ClockReplacer.Pin_free]; simp
    · rename_i hz
      by_contra hne
      exact hz (hc.cand_pin f (by simpa using hne))
  refine ⟨⟨?_, ?_, hc.keys_nodup, ?_, hc.free_nodup, hc.free_range, hc.disjoint, ?_, ?_, ?_, ?_⟩,
    h.cover⟩
  · show ClockReplacer.WF (if _ then _ else _)
    split
    · exact ClockReplacer.Pin_WF _ _ hc.rep
    · exact hc.rep
  · show ClockReplacer.num_pages (if _ then _ else _) = _
    split
    · rw [ClockReplacer.Pin_num_pages]; exact hc.rep_n
    · exact hc.rep_n
  · intro q g hmq
    refine ⟨(hc.entry q g hmq).1, ?_⟩
    show ((Function.update s.pages_ f _) g).page_id_ = q
    by_cases e : g = f
    · rw [e, Function.update_same]; rw [e] at hmq; exact (hc.entry q f hmq).2
    · rw [Function.update_noteq e]; exact (hc.entry q g hmq).2
  · intro g hg
    by_cases e : g = f
    · rw [e] at hg
      have hg2 : ((if (s.pages_ f).pin_count_ = 0 then s.replacer_.Pin f
        else s.replacer_).frame_infos_ f).free = true := hg
      rw [hfree2] at hg2; exact Bool.noConfusion hg2
    · show ((Function.update s.pages_ f _) g).pin_count_ = 0
      rw [Function.update_noteq e]
      have hg2 := hfree g e ▸ hg
      exact hc.cand_pin g hg2
  · intro q g hmq
    show 0 ≤ ((Function.update s.pages_ f _) g).pin_count_
    by_cases e : g = f
    · rw [e, Function.update_same]; show 0 ≤ (s.pages_ f).pin_count_ + 1; omega
    · rw [Function.update_noteq e]; exact hc.pin_nonneg q g hmq
  · intro q g hmq hz
    by_cases e : g = f
    · exfalso
      rw [e] at hz
      have hz2 : ((Function.update s.pages_ f
        { (s.pages_ f) with pin_count_ := (s.pages_ f).pin_count_ + 1 }) f).pin_count_ = 0 := hz
      rw [Function.update_same] at hz2
      have hz3 : (s.pages_ f).pin_count_ + 1 = 0 := hz2
      omega
    · have hz2 : ((Function.update s.pages_ f
        { (s.pages_ f) with pin_count_ := (s.pages_ f).pin_count_ + 1 }) g).pin_count_ = 0 := hz
      rw [Function.update_noteq e] at hz2
      exact (hfree g e).trans (hc.unpinned_cand q g hmq hz2)
  · intro g hg
    have hne : g ≠ f := fun e => hc.disjoint g hg p (e ▸ hm)
    show ((Function.update s.pages_ f _) g).pin_count_ = 0 ∧
      ((Function.update s.pages_ f _) g).is_dirty_ = false
    rw [Function.update_noteq hne]; exact hc.free_clean g hg

/-- `FetchPageImpl` returns in every well-formed state and keeps the invariant. -/
theorem FetchPageImpl_WF (s : BufferPoolManager D) (h : WF s) (p : Int) :
    ∃ res s1, FetchPageImpl s p = some (res, s1) ∧ WF s1 := by
  cases hf : s.page_table_.find p with
  | some f =>
    refine ⟨some f, _, by simp only [FetchPageImpl, hf]; try rfl, FetchPageImpl_hit_WF s h p f hf⟩
  | none =>
    have hp := (PageTable.find_none_iff _ _).mp hf
    rcases GetUsableFrameImpl_cases s h with ⟨f, rest, hfl, hg⟩ | ⟨_, _, hg⟩ |
      ⟨hfl, f, r1, hfree, hlt, hr1, hn, hfr, hg⟩
    · refine ⟨some f, _, by simp only [FetchPageImpl, hf, hg]; try rfl, ?_⟩
      refine WF_install { s with free_list_ := rest } _ f p (Hole_of_pop s h f rest hfl) hp
        rfl rfl rfl rfl ?_ ?_ ?_
      · intro g hne; exact Function.update_noteq hne _ _
      · simp
      · simp
    · exact ⟨none, s, by simp only [FetchPageImpl, hf, hg], h⟩
    · refine ⟨some f, _, by simp only [FetchPageImpl, hf, hg]; try rfl, ?_⟩
      refine WF_install (evictVictim s f r1) _ f p
        (Hole_of_evict s h f r1 hfl hfree hlt hr1 hn hfr) ?_ rfl rfl rfl rfl ?_ ?_ ?_
      · intro g hm
        exact hp g ((PageTable.mem_erase _ _ _ _).mp hm).1
      · intro g hne; exact Function.update_noteq hne _ _
      · simp
      · simp

/-- `NewPageImpl` returns in every well-formed state and keeps the invariant
when the id handed out by the disk manager is not resident. -/
theorem NewPageImpl_WF [Zero D] (s : BufferPoolManager D) (h : WF s)
    (hp : s.page_table_.find s.disk_manager_.next_page_id_ = none) :
    ∃ res s1, NewPageImpl s = some (res, s1) ∧ WF s1 := by
  have hp := (PageTable.find_none_iff _ _).mp hp
  rcases GetUsableFrameImpl_cases s h with ⟨f, rest, hfl, hg⟩ | ⟨_, _, hg⟩ |
    ⟨hfl, f, r1, hfree, hlt, hr1, hn, hfr, hg⟩
  · refine ⟨some (f, s.disk_manager_.next_page_id_), _,
      by simp only [NewPageImpl, hg, DiskManager.AllocatePage]; try rfl, ?_⟩
    refine WF_install { s with free_list_ := rest } _ f s.disk_manager_.next_page_id_
      (Hole_of_pop s h f rest hfl) hp rfl rfl rfl rfl ?_ ?_ ?_
    · intro g hne; exact Function.update_noteq hne _ _
    · simp
    · simp
  · exact ⟨none, s, by simp only [NewPageImpl, hg], h⟩
  · have hdm : (evictVictim s f r1).disk_manager_.next_page_id_ = s.disk_manager_.next_page_id_ := by
      unfold evictVictim; simp only; split <;> rfl
    refine ⟨some (f, (evictVictim s f r1).disk_manager_.next_page_id_), _,
      by simp only [NewPageImpl, hg, DiskManager.AllocatePage]; try rfl, ?_⟩
    refine WF_install (evictVictim s f r1) _ f (evictVictim s f r1).disk_manager_.next_page_id_
      (Hole_of_evict s h f r1 hfl hfree hlt hr1 hn hfr) ?_ rfl rfl rfl rfl ?_ ?_ ?_
    · intro g hm
      rw [hdm] at hm
      exact hp g ((PageTable.mem_erase _ _ _ _).mp hm).1
    · intro g hne; exact Function.update_noteq hne _ _
    · simp
    · simp

end BufferPoolManager

namespace BufferPoolManager

variable {D : Type}

theorem UnpinPageImpl_WF (s : BufferPoolManager D) (h : WF s) (p : Int) (d : Bool) :
    WF (UnpinPageImpl s p d).2 := by
  have hc := h.core
  unfold UnpinPageImpl
  cases hf : s.page_table_.find p with
  | none => exact h
  | some f =>
    simp only
    by_cases hpos : 0 < (s.pages_ f).pin_count_
    · simp only [hpos, if_true]
      have hm := PageTable.find_some_mem _ _ _ hf
      have hlt := (hc.entry p f hm).1
      have hnf : (s.replacer_.frame_infos_ f).free = false := by
        by_contra hne
        have := hc.cand_pin f (by simpa using hne)
        omega
      have hfree : ∀ g, g ≠ f →
          ((if (s.pages_ f).pin_count_ - 1 = 0 then s.replacer_.Unpin f
            else s.replacer_).frame_infos_ g).free = (s.replacer_.frame_infos_ g).free := by
        intro g hne
        split
        · rw [ClockReplacer.Unpin_free]; simp [hne]
        · rfl
      refine ⟨⟨?_, ?_, hc.keys_nodup, ?_, hc.free_nodup, hc.free_range, hc.disjoint, ?_, ?_, ?_, ?_⟩,
        h.cover⟩
      · show ClockReplacer.WF (if _ then _ else _)
        split
        · exact ClockReplacer.Unpin_WF _ _ hc.rep (by rw [hc.rep_n]; exact hlt)
        · exact hc.rep
      · show ClockReplacer.num_pages (if _ then _ else _) = _
        split
        · rw [ClockReplacer.Unpin_num_pages]; exact hc.rep_n
        · exact hc.rep_n
      · intro q g hmq
        refine ⟨(hc.entry q g hmq).1, ?_⟩
        show ((Function.update s.pages_ f _) g).page_id_ = q
        by_cases e : g = f
        · rw [e, Function.update_same]; rw [e] at hmq; exact (hc.entry q f hmq).2
        · rw [Function.update_noteq e]; exact (hc.entry q g hmq).2
      · intro g hg
        show ((Function.update s.pages_ f _) g).pin_count_ = 0
        by_cases e : g = f
        · rw [e, Function.update_same]
          show (s.pages_ f).pin_count_ - 1 = 0
          rw [e] at hg
          have hg2 : ((if (s.pages_ f).pin_count_ - 1 = 0 then s.replacer_.Unpin f
            else s.replacer_).frame_infos_ f).free = true := hg
          by_contra hne
          rw [if_neg hne, hnf] at hg2
          exact Bool.noConfusion hg2
        · rw [Function.update_noteq e]
          exact hc.cand_pin g ((hfree g e) ▸ hg)
      · intro q g hmq
        show 0 ≤ ((Function.update s.pages_ f _) g).pin_count_
        by_cases e : g = f
        · rw [e, Function.update_same]; show 0 ≤ (s.pages_ f).pin_count_ - 1; omega
        · rw [Function.update_noteq e]; exact hc.pin_nonneg q g hmq
      · intro q g hmq hz
        have hz2 : ((Function.update s.pages_ f
          { (s.pages_ f) with
            pin_count_ := (s.pages_ f).pin_count_ - 1
            is_dirty_ := if d = true then d else (s.pages_ f).is_dirty_ }) g).pin_count_ = 0 := hz
        by_cases e : g = f
        · rw [e, Function.update_same] at hz2
          have hz3 : (s.pages_ f).pin_count_ - 1 = 0 := hz2
          rw [e]
          show ((if (s.pages_ f).pin_count_ - 1 = 0 then s.replacer_.Unpin f
            else s.replacer_).frame_infos_ f).free = true
          rw [if_pos hz3, ClockReplacer.Unpin_free]; simp
        · rw [Function.update_noteq e] at hz2
          exact (hfree g e).trans (hc.unpinned_cand q g hmq hz2)
      · intro g hg
        have hne : g ≠ f := fun e => hc.disjoint g hg p (e ▸ hm)
        show ((Function.update s.pages_ f _) g).pin_count_ = 0 ∧
          ((Function.update s.pages_ f _) g).is_dirty_ = false
        rw [Function.update_noteq hne]; exact hc.free_clean g hg
    · simp only [hpos, if_false]; exact h

theorem FlushPageImpl_WF (s : BufferPoolManager D) (h : WF s) (p : Int) :
    WF (FlushPageImpl s p).2 := by
  unfold FlushPageImpl
  cases hf : s.page_table_.find p with
  | none => exact h
  | some f =>
    refine WF_of_same_meta s _ h rfl rfl rfl rfl ?_
    intro g
    show ((Function.update s.pages_ f _) g).page_id_ = _ ∧
      ((Function.update s.pages_ f _) g).pin_count_ = _ ∧
      (((Function.update s.pages_ f _) g).is_dirty_ = true → _)
    by_cases e : g = f
    · rw [e, Function.update_same]; simp
    · rw [Function.update_noteq e]; simp

theorem FlushAllPagesStep_meta (s : BufferPoolManager D) (e : Int × Nat) :
    (FlushAllPagesStep s e).pool_size_ = s.pool_size_ ∧
    (FlushAllPagesStep s e).replacer_ = s.replacer_ ∧
    (FlushAllPagesStep s e).free_list_ = s.free_list_ ∧
    (FlushAllPagesStep s e).page_table_ = s.page_table_ ∧
    (FlushAllPagesStep s e).disk_manager_.next_page_id_ = s.disk_manager_.next_page_id_ ∧
    ∀ g, ((FlushAllPagesStep s e).pages_ g).page_id_ = (s.pages_ g).page_id_ ∧
      ((FlushAllPagesStep s e).pages_ g).pin_count_ = (s.pages_ g).pin_count_ ∧
      ((FlushAllPagesStep s e).pages_ g).data_ = (s.pages_ g).data_ ∧
      (((FlushAllPagesStep s e).pages_ g).is_dirty_ = true → (s.pages_ g).is_dirty_ = true) := by
  refine ⟨rfl, rfl, rfl, rfl, rfl, ?_⟩
  intro g
  show ((Function.update s.pages_ e.2 _) g).page_id_ = _ ∧
    ((Function.update s.pages_ e.2 _) g).pin_count_ = _ ∧
    ((Function.update s.pages_ e.2 _) g).data_ = _ ∧
    (((Function.update s.pages_ e.2 _) g).is_dirty_ = true → _)
  by_cases h : g = e.2
  · rw [h, Function.update_same]; simp
  · rw [Function.update_noteq h]; simp

/-- The loop of `FlushAllPagesImpl` over any list of entries changes only disk
images and dirty flags. -/
theorem FlushAllPages_fold_meta (l : List (Int × Nat)) : ∀ (s : BufferPoolManager D),
    (l.foldl FlushAllPagesStep s).pool_size_ = s.pool_size_ ∧
    (l.foldl FlushAllPagesStep s).replacer_ = s.replacer_ ∧
    (l.foldl FlushAllPagesStep s).free_list_ = s.free_list_ ∧
    (l.foldl FlushAllPagesStep s).page_table_ = s.page_table_ ∧
    (l.foldl FlushAllPagesStep s).disk_manager_.next_page_id_ = s.disk_manager_.next_page_id_ ∧
    ∀ g, ((l.foldl FlushAllPagesStep s).pages_ g).page_id_ = (s.pages_ g).page_id_ ∧
      ((l.foldl FlushAllPagesStep s).pages_ g).pin_count_ = (s.pages_ g).pin_count_ ∧
      ((l.foldl FlushAllPagesStep s).pages_ g).data_ = (s.pages_ g).data_ ∧
      (((l.foldl FlushAllPagesStep s).pages_ g).is_dirty_ = true → (s.pages_ g).is_dirty_ = true) := by
  induction l with
  | nil => intro s; simp
  | cons e rest ih =>
    intro s
    rw [List.foldl_cons]
    obtain ⟨a1, a2, a3, a4, a5, a6⟩ := ih (FlushAllPagesStep s e)
    obtain ⟨b1, b2, b3, b4, b5, b6⟩ := FlushAllPagesStep_meta s e
    refine ⟨a1.trans b1, a2.trans b2, a3.trans b3, a4.trans b4, a5.trans b5, ?_⟩
    intro g
    refine ⟨(a6 g).1.trans (b6 g).1, (a6 g).2.1.trans (b6 g).2.1,
      (a6 g).2.2.1.trans (b6 g).2.2.1, fun hd => (b6 g).2.2.2 ((a6 g).2.2.2 hd)⟩

theorem FlushAllPagesImpl_WF (s : BufferPoolManager D) (h : WF s) : WF (FlushAllPagesImpl s) := by
  obtain ⟨a1, a2, a3, a4, _, a6⟩ := FlushAllPages_fold_meta s.page_table_ s
  exact WF_of_same_meta s _ h a1 a2 a3 a4 (fun g => ⟨(a6 g).1, (a6 g).2.1, (a6 g).2.2.2⟩)

theorem WriteData_WF (s : BufferPoolManager D) (h : WF s) (f : Nat) (d : D) :
    WF (WriteData s f d) := by
  refine WF_of_same_meta s _ h rfl rfl rfl rfl ?_
  intro g
  show ((Function.update s.pages_ f _) g).page_id_ = _ ∧
    ((Function.update s.pages_ f _) g).pin_count_ = _ ∧
    (((Function.update s.pages_ f _) g).is_dirty_ = true → _)
  by_cases e : g = f
  · rw [e, Function.update_same]; simp
  · rw [Function.update_noteq e]; simp

theorem DeletePageImpl_WF (s : BufferPoolManager D) (h : WF s) (p : Int) :
    WF (DeletePageImpl s p).2 := by
  have hc := h.core
  unfold DeletePageImpl
  cases hf : s.page_table_.find p with
  | none => exact h
  | some f =>
    simp only
    by_cases hz : (s.pages_ f).pin_count_ = 0
    · simp only [hz, if_true]
      have hm := PageTable.find_some_mem _ _ _ hf
      have hmem : ∀ q g, (q, g) ∈ s.page_table_.erase p → (q, g) ∈ s.page_table_ ∧ g ≠ f := by
        intro q g hmq
        rw [PageTable.mem_erase] at hmq
        refine ⟨hmq.1, ?_⟩
        intro e
        rw [e] at hmq
        have := (hc.entry q f hmq.1).2
        rw [(hc.entry p f hm).2] at this
        exact hmq.2 this.symm
      have hnf : f ∉ s.free_list_ := fun hfm => hc.disjoint f hfm p hm
      refine ⟨⟨hc.rep, hc.rep_n, PageTable.erase_keys_nodup _ _ hc.keys_nodup,
        ?_, ?_, ?_, ?_, ?_, ?_, ?_, ?_⟩, ?_⟩
      · intro q g hmq
        obtain ⟨h1, h2⟩ := hmem q g hmq
        refine ⟨(hc.entry q g h1).1, ?_⟩
        show ((Function.update s.pages_ f _) g).page_id_ = q
        rw [Function.update_noteq h2]; exact (hc.entry q g h1).2
      · show (s.free_list_ ++ [f]).Nodup
        rw [List.nodup_append]
        refine ⟨hc.free_nodup, List.nodup_singleton f, ?_⟩
        intro a ha hb
        rw [List.mem_singleton] at hb
        exact hnf (hb ▸ ha)
      · intro g hg
        have hg2 : g ∈ s.free_list_ ++ [f] := hg
        rw [List.mem_append, List.mem_singleton] at hg2
        rcases hg2 with h1 | h1
        · exact hc.free_range g h1
        · rw [h1]; exact (hc.entry p f hm).1
      · intro g hg q hmq
        have hg2 : g ∈ s.free_list_ ++ [f] := hg
        obtain ⟨h1, h2⟩ := hmem q g hmq
        rw [List.mem_append, List.mem_singleton] at hg2
        rcases hg2 with h3 | h3
        · exact hc.disjoint g h3 q h1
        · exact h2 h3
      · intro g hg
        show ((Function.update s.pages_ f _) g).pin_count_ = 0
        by_cases e : g = f
        · rw [e, Function.update_same]
        · rw [Function.update_noteq e]; exact hc.cand_pin g hg
      · intro q g hmq
        obtain ⟨h1, h2⟩ := hmem q g hmq
        show 0 ≤ ((Function.update s.pages_ f _) g).pin_count_
        rw [Function.update_noteq h2]; exact hc.pin_nonneg q g h1
      · intro q g hmq hzz
        obtain ⟨h1, h2⟩ := hmem q g hmq
        have hz2 : ((Function.update s.pages_ f
          { (s.pages_ f) with page_id_ := INVALID_PAGE_ID, pin_count_ := 0, is_dirty_ := false })
          g).pin_count_ = 0 := hzz
        rw [Function.update_noteq h2] at hz2
        exact hc.unpinned_cand q g h1 hz2
      · intro g hg
        have hg2 : g ∈ s.free_list_ ++ [f] := hg
        show ((Function.update s.pages_ f _) g).pin_count_ = 0 ∧
          ((Function.update s.pages_ f _) g).is_dirty_ = false
        by_cases e : g = f
        · rw [e, Function.update_same]; exact ⟨rfl, rfl⟩
        · rw [Function.update_noteq e]
          rw [List.mem_append, List.mem_singleton] at hg2
          rcases hg2 with h3 | h3
          · exact hc.free_clean g h3
          · exact absurd h3 e
      · intro g hg
        show g ∈ s.free_list_ ++ [f] ∨ ∃ q, (q, g) ∈ s.page_table_.erase p
        rcases h.cover g hg with h1 | ⟨q, h1⟩
        · left; exact List.mem_append_left _ h1
        · by_cases e : q = p
          · left
            rw [e] at h1
            have a := PageTable.mem_find _ hc.keys_nodup _ _ h1
            rw [hf] at a
            rw [← Option.some.inj a]
            exact List.mem_append_right _ (List.mem_singleton_self f)
          · right; exact ⟨q, (PageTable.mem_erase _ _ _ _).mpr ⟨h1, e⟩⟩
    · simp only [hz, if_false]; exact h

/-- Every reachable state of the buffer pool is well-formed. -/
theorem Reachable.wf [Zero D] {s : BufferPoolManager D} (h : Reachable s) : WF s := by
  induction h with
  | init n dm => exact new_WF n dm
  | fetch s p res s1 _ hstep ih =>
    obtain ⟨res2, s2, h2, hw⟩ := FetchPageImpl_WF s ih p
    rw [hstep] at h2
    have := (Prod.mk.inj (Option.some.inj h2)).2
    rw [this]; exact hw
  | new_page s res s1 _ hfresh hstep ih =>
    obtain ⟨res2, s2, h2, hw⟩ := NewPageImpl_WF s ih hfresh
    rw [hstep] at h2
    have := (Prod.mk.inj (Option.some.inj h2)).2
    rw [this]; exact hw
  | unpin s p d _ ih => exact UnpinPageImpl_WF s ih p d
  | flush s p _ ih => exact FlushPageImpl_WF s ih p
  | flush_all s _ ih => exact FlushAllPagesImpl_WF s ih
  | delete s p _ ih => exact DeletePageImpl_WF s ih p
  | write s f d _ ih => exact WriteData_WF s ih f d

end BufferPoolManager

namespace PageTable

theorem find_erase_ne (pt : PageTable) (p q : Int) (h : q ≠ p) :
    find (erase pt p) q = find pt q := by
  induction pt with
  | nil => rfl
  | cons e rest ih =>
    obtain ⟨a, g⟩ := e
    by_cases e1 : a = p
    · have : erase ((a, g) :: rest) p = erase rest p := by
        simp [erase, e1]
      rw [this, ih]
      have hne : a ≠ q := fun e2 => h (e2 ▸ e1)
      simp [find, hne]
    · have : erase ((a, g) :: rest) p = (a, g) :: erase rest p := by
        simp [erase, e1]
      rw [this]
      simp only [find]
      by_cases e2 : a = q
      · simp [e2]
      · simp only [e2, if_false]; exact ih

theorem find_assign_ne (pt : PageTable) (p q : Int) (f : Nat) (h : q ≠ p) :
    find (assign pt p f) q = find pt q := by
  have hne : p ≠ q := fun e => h e.symm
  simp only [assign, find, hne, if_false]
  exact find_erase_ne pt p q h

theorem find_assign_self (pt : PageTable) (p : Int) (f : Nat) :
    find (assign pt p f) p = some f := by
  simp [assign, find]

end PageTable

namespace BufferPoolManager

variable {D : Type}

/-- In a well-formed state the frame of a resident page is found by `find`
exactly when the pair is an entry of the table. -/
theorem WF.find_iff {s : BufferPoolManager D} (h : WF s) (p : Int) (f : Nat) :
    s.page_table_.find p = some f ↔ (p, f) ∈ s.page_table_ :=
  ⟨PageTable.find_some_mem _ _ _, PageTable.mem_find _ h.core.keys_nodup _ _⟩

/-- A frame handed out by the replacer in a well-formed state with an empty
free list holds the resident page `pages_[f].page_id_`. -/
theorem WF.victim_resident {s : BufferPoolManager D} (h : WF s) (hfl : s.free_list_ = [])
    (f : Nat) (hlt : f < s.pool_size_) : s.page_table_.find (s.pages_ f).page_id_ = some f := by
  rcases h.cover f hlt with h1 | ⟨q, h1⟩
  · rw [hfl] at h1; cases h1
  · have := (h.core.entry q f h1).2
    rw [this]; exact (h.find_iff q f).mpr h1

/-- `GetUsableFrameImpl` keeps every pinned page resident in its frame. -/
theorem GetUsableFrameImpl_keeps_pinned (s : BufferPoolManager D) (h : WF s)
    (res : Option Nat) (s1 : BufferPoolManager D) (hg : GetUsableFrameImpl s = some (res, s1))
    (p : Int) (f : Nat) (hres : s.page_table_.find p = some f)
    (hpin : 0 < (s.pages_ f).pin_count_) : s1.page_table_.find p = some f := by
  rcases GetUsableFrameImpl_cases s h with ⟨f1, rest, hfl, hg1⟩ | ⟨_, _, hg1⟩ |
    ⟨hfl, v, r1, hfree, hlt, hr1, hn, hfr, hg1⟩
  · rw [hg1] at hg
    have := (Prod.mk.inj (Option.some.inj hg)).2
    rw [← this]; exact hres
  · rw [hg1] at hg
    have := (Prod.mk.inj (Option.some.inj hg)).2
    rw [← this]; exact hres
  · rw [hg1] at hg
    have := (Prod.mk.inj (Option.some.inj hg)).2
    rw [← this]
    show (s.page_table_.erase (s.pages_ v).page_id_).find p = some f
    have hv := h.victim_resident hfl v hlt
    have hne : p ≠ (s.pages_ v).page_id_ := by
      intro e
      rw [e, hv] at hres
      have e2 := Option.some.inj hres
      have := h.core.cand_pin v hfree
      rw [e2] at this
      omega
    rw [PageTable.find_erase_ne _ _ _ hne]; exact hres

end BufferPoolManager

namespace BufferPoolManager

variable {D : Type}

/-- The two ways `FetchPageImpl` ends on a miss. -/
theorem FetchPageImpl_miss (s : BufferPoolManager D) (q : Int) (hq : s.page_table_.find q = none)
    (res : Option Nat) (s1 : BufferPoolManager D) (hstep : FetchPageImpl s q = some (res, s1)) :
    (res = none ∧ GetUsableFrameImpl s = some (none, s1)) ∨
    (∃ f sm, res = some f ∧ GetUsableFrameImpl s = some (some f, sm) ∧
      s1 = { sm with
        page_table_ := sm.page_table_.assign q f
        replacer_ := sm.replacer_.Pin f
        pages_ := Function.update sm.pages_ f
          { (sm.pages_ f) with
            page_id_ := q
            pin_count_ := 1
            data_ := sm.disk_manager_.ReadPage q } }) := by
  simp only [FetchPageImpl, hq] at hstep
  cases hg : GetUsableFrameImpl s with
  | none => rw [hg] at hstep; cases hstep
  | some r =>
    obtain ⟨r1, sm⟩ := r
    rw [hg] at hstep
    cases r1 with
    | none =>
      left
      simp only [Option.some.injEq, Prod.mk.injEq] at hstep
      exact ⟨hstep.1.symm, by rw [hstep.2]⟩
    | some f =>
      right
      simp only [Option.some.injEq, Prod.mk.injEq] at hstep
      exact ⟨f, sm, hstep.1.symm, rfl, hstep.2.symm⟩

/-- The two ways `NewPageImpl` ends. -/
theorem NewPageImpl_cases [Zero D] (s : BufferPoolManager D)
    (res : Option (Nat × Int)) (s1 : BufferPoolManager D) (hstep : NewPageImpl s = some (res, s1)) :
    (res = none ∧ GetUsableFrameImpl s = some (none, s1)) ∨
    (∃ f sm, res = some (f, sm.disk_manager_.next_page_id_) ∧
      GetUsableFrameImpl s = some (some f, sm) ∧
      s1 = { sm with
        page_table_ := sm.page_table_.assign sm.disk_manager_.next_page_id_ f
        disk_manager_ := (sm.disk_manager_.AllocatePage).2.WritePage sm.disk_manager_.next_page_id_ 0
        replacer_ := sm.replacer_.Pin f
        pages_ := Function.update sm.pages_ f
          { data_ := 0, page_id_ := sm.disk_manager_.next_page_id_, pin_count_ := 1,
            is_dirty_ := false } }) := by
  simp only [NewPageImpl] at hstep
  cases hg : GetUsableFrameImpl s with
  | none => rw [hg] at hstep; cases hstep
  | some r =>
    obtain ⟨r1, sm⟩ := r
    rw [hg] at hstep
    cases r1 with
    | none =>
      left
      simp only [Option.some.injEq, Prod.mk.injEq] at hstep
      exact ⟨hstep.1.symm, by rw [hstep.2]⟩
    | some f =>
      right
      simp only [DiskManager.AllocatePage, Option.some.injEq, Prod.mk.injEq] at hstep
      exact ⟨f, sm, hstep.1.symm, rfl, hstep.2.symm⟩

theorem evictVictim_disk (s : BufferPoolManager D) (f : Nat) (r : ClockReplacer) :
    (evictVictim s f r).disk_manager_.next_page_id_ = s.disk_manager_.next_page_id_ ∧
    ∀ p, (evictVictim s f r).disk_manager_.image p =
      if (s.pages_ f).is_dirty_ = true ∧ p = (s.pages_ f).page_id_ then (s.pages_ f).data_
      else s.disk_manager_.image p := by
  unfold evictVictim
  by_cases hd : (s.pages_ f).is_dirty_ = true
  · refine ⟨by simp [hd, DiskManager.WritePage], ?_⟩
    intro p
    by_cases e : p = (s.pages_ f).page_id_
    · simp [hd, e, DiskManager.WritePage]
    · simp [hd, e, DiskManager.WritePage, Function.update_apply]
  · refine ⟨by simp [hd], ?_⟩
    intro p; simp [hd]

/-- `GetUsableFrameImpl` does not touch the disk image of a page that is not
resident, and allocates no page id. -/
theorem GetUsableFrameImpl_image (s : BufferPoolManager D) (h : WF s)
    (res : Option Nat) (sm : BufferPoolManager D) (hg : GetUsableFrameImpl s = some (res, sm))
    (p : Int) (hp : s.page_table_.find p = none) :
    sm.disk_manager_.image p = s.disk_manager_.image p := by
  rcases GetUsableFrameImpl_cases s h with ⟨f1, rest, hfl, hg1⟩ | ⟨_, _, hg1⟩ |
    ⟨hfl, v, r1, hfree, hlt, hr1, hn, hfr, hg1⟩
  · rw [hg1] at hg
    rw [← (Prod.mk.inj (Option.some.inj hg)).2]
  · rw [hg1] at hg
    rw [← (Prod.mk.inj (Option.some.inj hg)).2]
  · rw [hg1] at hg
    rw [← (Prod.mk.inj (Option.some.inj hg)).2, (evictVictim_disk s v r1).2 p]
    have hv := h.victim_resident hfl v hlt
    have hne : p ≠ (s.pages_ v).page_id_ := by
      intro e; rw [e, hv] at hp; cases hp
    simp [hne]

end BufferPoolManager

/-! ## Scenario states -/

namespace Scenario

open BufferPoolManager

theorem pool1A_step : NewPageImpl pool1 = some (some (0, 0), pool1A) := by rfl

theorem pool1A_reachable : Reachable pool1A :=
  Reachable.new_page pool1 _ _ (Reachable.init 1 disk0) (by rfl) pool1A_step

theorem pool1B_reachable : Reachable pool1B :=
  Reachable.unpin _ 0 true (Reachable.write _ 0 42 pool1A_reachable)

theorem pool1C_step : NewPageImpl pool1B = some (some (0, 1), pool1C) := by rfl

theorem pool1E_reachable : Reachable pool1E :=
  Reachable.unpin _ 0 false pool1A_reachable

theorem pool2A_reachable : Reachable pool2A :=
  Reachable.new_page (afterNewPage (BufferPoolManager.new 2 disk0)) (some (1, 1)) _
    (Reachable.new_page (BufferPoolManager.new 2 disk0) (some (0, 0)) _
      (Reachable.init 2 disk0) (by rfl) (by rfl))
    (by rfl) (by rfl)

theorem pool2B_reachable : Reachable pool2B := Reachable.write _ 1 77 pool2A_reachable

end Scenario

/-! ## Claims on the buffer pool -/

namespace BufferPoolManager

variable {D : Type}

/-- The loop of `FlushAllPagesImpl` writes only under the page id of frame 0:
the disk image of every other page id is left as it was. -/
theorem FlushAllPages_fold_image (l : List (Int × Nat)) : ∀ (s : BufferPoolManager D) (p : Int),
    p ≠ (s.pages_ 0).page_id_ →
    (l.foldl FlushAllPagesStep s).disk_manager_.image p = s.disk_manager_.image p := by
  induction l with
  | nil => intro s p _; rfl
  | cons e rest ih =>
    intro s p hne
    rw [List.foldl_cons]
    have hid : ((FlushAllPagesStep s e).pages_ 0).page_id_ = (s.pages_ 0).page_id_ :=
      ((FlushAllPagesStep_meta s e).2.2.2.2.2 0).1
    rw [ih (FlushAllPagesStep s e) p (by rw [hid]; exact hne)]
    show (Function.update s.disk_manager_.image (s.pages_ 0).page_id_ _) p = _
    exact Function.update_noteq hne _ _

end BufferPoolManager

/-- C5 (evaluation at the failing input): pool of two frames, page 0 in frame 0
and page 1 in frame 1, the image of page 1 overwritten with 77. Page 1 is
resident in frame 1 with the bytes 77; after `FlushAllPagesImpl` frame 1 is
marked clean but the disk image of page 1 is still the zeroed image, and this is
so for every order in which the loop visits the page table (for every list of
entries the loop runs over). -/
theorem C5_flush_all_writes_under_frame0_id :
    Scenario.pool2B.page_table_.find 1 = some 1 ∧
    (Scenario.pool2B.pages_ 1).data_ = 77 ∧
    ((BufferPoolManager.FlushAllPagesImpl Scenario.pool2B).pages_ 1).data_ = 77 ∧
    ((BufferPoolManager.FlushAllPagesImpl Scenario.pool2B).pages_ 1).is_dirty_ = false ∧
    (BufferPoolManager.FlushAllPagesImpl Scenario.pool2B).disk_manager_.image 1 = 0 ∧
    (∀ l : List (Int × Nat),
      (l.foldl BufferPoolManager.FlushAllPagesStep Scenario.pool2B).disk_manager_.image 1 = 0) := by
  refine ⟨by decide, by rfl, by rfl, by rfl, by rfl, ?_⟩
  intro l
  rw [BufferPoolManager.FlushAllPages_fold_image l Scenario.pool2B 1 (by decide)]
  rfl

namespace BufferPoolManager

/-- C6: in every reachable state of the buffer pool the page table is injective
on frames, every entry `p -> f` has `pages_[f].page_id_ = p` (with `f` a frame of
the pool), the free list has no duplicates, and every frame of the pool is in
the free list or a value of the page table, never both. -/
theorem C6_buffer_pool_well_formed [Zero D] (s : BufferPoolManager D) (h : Reachable s) :
    (∀ p q f, s.page_table_.find p = some f → s.page_table_.find q = some f → p = q) ∧
    (∀ p f, s.page_table_.find p = some f → f < s.pool_size_ ∧ (s.pages_ f).page_id_ = p) ∧
    s.free_list_.Nodup ∧
    (∀ f, f < s.pool_size_ →
      (f ∈ s.free_list_ ∨ ∃ p, s.page_table_.find p = some f) ∧
      ¬ (f ∈ s.free_list_ ∧ ∃ p, s.page_table_.find p = some f)) := by
  have hw := h.wf
  have hc := hw.core
  refine ⟨?_, ?_, hc.free_nodup, ?_⟩
  · intro p q f hp hq
    have e1 := (hc.entry p f ((hw.find_iff p f).mp hp)).2
    have e2 := (hc.entry q f ((hw.find_iff q f).mp hq)).2
    rw [← e1, ← e2]
  · intro p f hp
    exact hc.entry p f ((hw.find_iff p f).mp hp)
  · intro f hf
    constructor
    · rcases hw.cover f hf with h1 | ⟨p, h1⟩
      · left; exact h1
      · right; exact ⟨p, (hw.find_iff p f).mpr h1⟩
    · rintro ⟨h1, p, h2⟩
      exact hc.disjoint f h1 p ((hw.find_iff p f).mp h2)

end BufferPoolManager

/-- Witness of C6: the pool of two frames with pages 0 and 1 resident. -/
theorem C6_witness :
    BufferPoolManager.Reachable Scenario.pool2B ∧
    ((∀ p q f, Scenario.pool2B.page_table_.find p = some f →
        Scenario.pool2B.page_table_.find q = some f → p = q) ∧
    (∀ p f, Scenario.pool2B.page_table_.find p = some f →
        f < Scenario.pool2B.pool_size_ ∧ (Scenario.pool2B.pages_ f).page_id_ = p) ∧
    Scenario.pool2B.free_list_.Nodup ∧
    (∀ f, f < Scenario.pool2B.pool_size_ →
      (f ∈ Scenario.pool2B.free_list_ ∨ ∃ p, Scenario.pool2B.page_table_.find p = some f) ∧
      ¬ (f ∈ Scenario.pool2B.free_list_ ∧ ∃ p, Scenario.pool2B.page_table_.find p = some f))) :=
  ⟨Scenario.pool2B_reachable,
    BufferPoolManager.C6_buffer_pool_well_formed Scenario.pool2B Scenario.pool2B_reachable⟩

namespace BufferPoolManager

variable {D : Type}

/-- `GetUsableFrameImpl` always returns in a well-formed state; it returns no
frame exactly when the free list is empty and every resident page is pinned, and
then the state is unchanged. -/
theorem GetUsableFrameImpl_none_iff (s : BufferPoolManager D) (h : WF s) :
    ∃ res sm, GetUsableFrameImpl s = some (res, sm) ∧
      (res = none ↔ (s.free_list_ = [] ∧
        ∀ p f, s.page_table_.find p = some f → 0 < (s.pages_ f).pin_count_)) ∧
      (res = none → sm = s) := by
  rcases GetUsableFrameImpl_cases s h with ⟨f1, rest, hfl, hg1⟩ | ⟨hfl, hnone, hg1⟩ |
    ⟨hfl, v, r1, hfree, hlt, hr1, hn, hfr, hg1⟩
  · refine ⟨_, _, hg1, ⟨(fun e => by cases e), ?_⟩, (fun e => by cases e)⟩
    rintro ⟨e, _⟩; rw [hfl] at e; cases e
  · refine ⟨_, _, hg1, ⟨fun _ => ⟨hfl, ?_⟩, fun _ => rfl⟩, fun _ => rfl⟩
    intro p f hp
    have hm := (h.find_iff p f).mp hp
    have h0 := h.core.pin_nonneg p f hm
    by_contra hlt
    have h1 : (s.pages_ f).pin_count_ = 0 := by omega
    have := h.core.unpinned_cand p f hm h1
    rw [hnone f] at this; exact Bool.noConfusion this
  · refine ⟨_, _, hg1, ⟨(fun e => by cases e), ?_⟩, (fun e => by cases e)⟩
    rintro ⟨_, hall⟩
    have hv := h.victim_resident hfl v hlt
    have := hall _ v hv
    rw [h.core.cand_pin v hfree] at this
    exact absurd this (by decide)

end BufferPoolManager

/-! ## Claims on the hash table: evaluation at failing inputs -/

set_option maxRecDepth 100000 in
/-- C1 (evaluation at the failing input): table of 4 buckets built by
`Insert(7, 100)` and `Insert(15, 200)` (both return true, hash = key).
`GetValue(7)` returns `[100]` before `Resize(8)` and `[]` after it: `InsertToNew`
scans block 0 up to `BLOCK_ARRAY_SIZE` and puts `(7, 100)` into slot 8, which is
not below `max_bucket_index = 8` of the resized table. -/
theorem C1_resize_loses_entry :
    (LinearProbeHashTable.Insert 496 2 (Scenario.emptyTable 4) 7 100).map Prod.fst = some true ∧
    (LinearProbeHashTable.Insert 496 2 (Scenario.afterInsert (Scenario.emptyTable 4) 7 100) 15 200).map
      Prod.fst = some true ∧
    Scenario.tableC1.GetSize = 4 ∧
    LinearProbeHashTable.GetValue 496 Scenario.tableC1 7 = some (true, [100]) ∧
    (LinearProbeHashTable.Resize 496 Scenario.tableC1 8).isSome = true ∧
    (Scenario.afterResize Scenario.tableC1 8).GetSize = 8 ∧
    LinearProbeHashTable.GetValue 496 (Scenario.afterResize Scenario.tableC1 8) 7 = some (true, []) ∧
    (Scenario.blockOf (Scenario.afterResize Scenario.tableC1 8) 0).IsReadable 8 = true ∧
    (Scenario.blockOf (Scenario.afterResize Scenario.tableC1 8) 0).array_ 8 = (7, 100) := by
  decide

set_option maxRecDepth 100000 in
/-- C2 (evaluation at the failing input): table of 4 buckets after
`Insert(0, 1)`, `Insert(0, 2)`, `Remove(0, 1)` (all return true). `GetValue(0)`
returns `[2]`, yet `Insert(0, 2)` returns true, writes the tombstone slot 0, and
`GetValue(0)` then returns `[2, 2]`. -/
theorem C2_duplicate_pair_accepted_after_remove :
    (LinearProbeHashTable.Insert 496 2 (Scenario.emptyTable 4) 0 1).map Prod.fst = some true ∧
    (LinearProbeHashTable.Insert 496 2 (Scenario.afterInsert (Scenario.emptyTable 4) 0 1) 0 2).map
      Prod.fst = some true ∧
    (LinearProbeHashTable.Remove 496
      (Scenario.afterInsert (Scenario.afterInsert (Scenario.emptyTable 4) 0 1) 0 2) 0 1).map
      Prod.fst = some true ∧
    LinearProbeHashTable.GetValue 496 Scenario.tableC2 0 = some (true, [2]) ∧
    (Scenario.blockOf Scenario.tableC2 0).IsReadable 0 = false ∧
    (LinearProbeHashTable.Insert 496 2 Scenario.tableC2 0 2).map Prod.fst = some true ∧
    (Scenario.blockOf (Scenario.afterInsert Scenario.tableC2 0 2) 0).IsReadable 0 = true ∧
    LinearProbeHashTable.GetValue 496 (Scenario.afterInsert Scenario.tableC2 0 2) 0
      = some (true, [2, 2]) := by
  decide

set_option maxRecDepth 100000 in
/-- C3 (evaluation at the failing input): table of 4 buckets, `Insert(7, 100)`,
`Insert(15, 200)`, `Insert(1, 300)`, `Insert(2, 400)` and `Insert(4, 500)` all
return true, the fifth after a `Resize` to 8 buckets; no `Remove` is called, yet
`GetValue(7)` returns true with an empty result. -/
theorem C3_insert_not_visible_after_resize :
    (LinearProbeHashTable.Insert 496 2 (Scenario.emptyTable 4) 7 100).map Prod.fst = some true ∧
    (LinearProbeHashTable.Insert 496 2 (Scenario.afterInsert (Scenario.emptyTable 4) 7 100) 15 200).map
      Prod.fst = some true ∧
    (LinearProbeHashTable.Insert 496 2 Scenario.tableC1 1 300).map Prod.fst = some true ∧
    (LinearProbeHashTable.Insert 496 2 (Scenario.afterInsert Scenario.tableC1 1 300) 2 400).map
      Prod.fst = some true ∧
    LinearProbeHashTable.GetValue 496 Scenario.tableC3 7 = some (true, [100]) ∧
    (LinearProbeHashTable.Insert 496 1 Scenario.tableC3 4 500).isNone = true ∧
    (LinearProbeHashTable.Insert 496 2 Scenario.tableC3 4 500).map Prod.fst = some true ∧
    (Scenario.afterInsert Scenario.tableC3 4 500).GetSize = 8 ∧
    LinearProbeHashTable.GetValue 496 (Scenario.afterInsert Scenario.tableC3 4 500) 4
      = some (true, [500]) ∧
    LinearProbeHashTable.GetValue 496 (Scenario.afterInsert Scenario.tableC3 4 500) 7
      = some (true, []) := by
  decide

set_option maxRecDepth 100000 in
/-- C4 (evaluation at the failing input): from a fresh table of 2 buckets,
`Insert(3, 30)`, `Insert(7, 70)` and `Insert(0, 5)` return true (the third after a
`Resize` to 4 buckets) and no `Remove` has returned true, so the claimed result of
`GetValue(3)` is `[30]`; the code returns `[]`, and `Remove(3, 30)` returns false. -/
theorem C4_round_trip_broken_by_resize :
    (LinearProbeHashTable.Insert 496 2 (Scenario.emptyTable 2) 3 30).map Prod.fst = some true ∧
    (LinearProbeHashTable.Insert 496 2 (Scenario.afterInsert (Scenario.emptyTable 2) 3 30) 7 70).map
      Prod.fst = some true ∧
    LinearProbeHashTable.GetValue 496 Scenario.tableC4 3 = some (true, [30]) ∧
    (LinearProbeHashTable.Insert 496 2 Scenario.tableC4 0 5).map Prod.fst = some true ∧
    (Scenario.afterInsert Scenario.tableC4 0 5).GetSize = 4 ∧
    LinearProbeHashTable.GetValue 496 (Scenario.afterInsert Scenario.tableC4 0 5) 3
      = some (true, []) ∧
    LinearProbeHashTable.GetValue 496 (Scenario.afterInsert Scenario.tableC4 0 5) 7
      = some (true, [70]) ∧
    (LinearProbeHashTable.Remove 496 (Scenario.afterInsert Scenario.tableC4 0 5) 3 30).map Prod.fst
      = some false := by
  decide

/-! ## Contracts of the public operations of the buffer pool -/

namespace BufferPoolManager

variable {D : Type}

/-- `GetUsableFrameImpl` allocates no page id. -/
theorem GetUsableFrameImpl_next_page_id (s : BufferPoolManager D) (res : Option Nat)
    (sm : BufferPoolManager D) (hg : GetUsableFrameImpl s = some (res, sm)) :
    sm.disk_manager_.next_page_id_ = s.disk_manager_.next_page_id_ := by
  unfold GetUsableFrameImpl at hg
  cases hfl : s.free_list_ with
  | cons f rest =>
    simp only [hfl, Option.some.injEq, Prod.mk.injEq] at hg
    rw [← hg.2]
  | nil =>
    simp only [hfl] at hg
    cases hv : s.replacer_.Victim with
    | none => rw [hv] at hg; cases hg
    | some r =>
      obtain ⟨r1, r2⟩ := r
      rw [hv] at hg
      cases r1 with
      | none =>
        simp only [Option.some.injEq, Prod.mk.injEq] at hg
        rw [← hg.2]
      | some v =>
        simp only [Option.some.injEq, Prod.mk.injEq] at hg
        rw [← hg.2]
        exact (evictVictim_disk s v r2).1

/-- C15: if `p` is resident in frame `f`, `FlushPageImpl(p)` returns true,
afterwards the disk image of `p` is `pages_[f].data_` and `is_dirty_` is false,
and pin counts, bytes, page ids, page table, free list, replacer and every other
disk image are unchanged; if `p` is not resident it returns false and the state
(disk included) is unchanged. -/
theorem C15_flush_page_contract (s : BufferPoolManager D) (p : Int) :
    (∀ f, s.page_table_.find p = some f →
      (FlushPageImpl s p).1 = true ∧
      (FlushPageImpl s p).2.disk_manager_.image p = ((FlushPageImpl s p).2.pages_ f).data_ ∧
      ((FlushPageImpl s p).2.pages_ f).is_dirty_ = false ∧
      (∀ g, ((FlushPageImpl s p).2.pages_ g).pin_count_ = (s.pages_ g).pin_count_ ∧
        ((FlushPageImpl s p).2.pages_ g).data_ = (s.pages_ g).data_ ∧
        ((FlushPageImpl s p).2.pages_ g).page_id_ = (s.pages_ g).page_id_ ∧
        (g ≠ f → (FlushPageImpl s p).2.pages_ g = s.pages_ g)) ∧
      (FlushPageImpl s p).2.page_table_ = s.page_table_ ∧
      (FlushPageImpl s p).2.free_list_ = s.free_list_ ∧
      (FlushPageImpl s p).2.replacer_ = s.replacer_ ∧
      (FlushPageImpl s p).2.pool_size_ = s.pool_size_ ∧
      (FlushPageImpl s p).2.disk_manager_.next_page_id_ = s.disk_manager_.next_page_id_ ∧
      (∀ q, q ≠ p → (FlushPageImpl s p).2.disk_manager_.image q = s.disk_manager_.image q)) ∧
    (s.page_table_.find p = none → FlushPageImpl s p = (false, s)) := by
  constructor
  · intro f hf
    simp only [FlushPageImpl, hf]
    refine ⟨trivial, ?_, ?_, ?_, trivial, trivial, trivial, trivial, rfl, ?_⟩
    · simp only [DiskManager.WritePage, Function.update_same]
    · simp only [Function.update_same]
    · intro g
      by_cases e : g = f
      · subst e
        simp only [Function.update_same, true_and]
        intro hne; exact absurd rfl hne
      · simp only [Function.update_noteq e, true_and]
        intro _; trivial
    · intro q hq
      simp only [DiskManager.WritePage, Function.update_noteq hq]
  · intro hp
    simp only [FlushPageImpl, hp]

end BufferPoolManager

namespace PageTable

theorem find_erase_none (pt : PageTable) (p q : Int) (h : find pt q = none) :
    find (erase pt p) q = none := by
  by_cases e : q = p
  · rw [e]; exact find_erase_self pt p
  · rw [find_erase_ne pt p q e]; exact h

end PageTable

namespace BufferPoolManager

variable {D : Type}

/-- `GetUsableFrameImpl` maps no page that was not resident. -/
theorem GetUsableFrameImpl_find_none (s : BufferPoolManager D) (res : Option Nat)
    (sm : BufferPoolManager D) (hg : GetUsableFrameImpl s = some (res, sm))
    (q : Int) (hq : s.page_table_.find q = none) : sm.page_table_.find q = none := by
  unfold GetUsableFrameImpl at hg
  cases hfl : s.free_list_ with
  | cons f rest =>
    simp only [hfl, Option.some.injEq, Prod.mk.injEq] at hg
    rw [← hg.2]; exact hq
  | nil =>
    simp only [hfl] at hg
    cases hv : s.replacer_.Victim with
    | none => rw [hv] at hg; cases hg
    | some r =>
      obtain ⟨r1, r2⟩ := r
      rw [hv] at hg
      cases r1 with
      | none =>
        simp only [Option.some.injEq, Prod.mk.injEq] at hg
        rw [← hg.2]; exact hq
      | some v =>
        simp only [Option.some.injEq, Prod.mk.injEq] at hg
        rw [← hg.2]
        exact PageTable.find_erase_none _ _ _ hq

theorem UnpinPageImpl_table (s : BufferPoolManager D) (p : Int) (d : Bool) :
    (UnpinPageImpl s p d).2.page_table_ = s.page_table_ ∧
    (UnpinPageImpl s p d).2.disk_manager_ = s.disk_manager_ := by
  unfold UnpinPageImpl
  cases s.page_table_.find p with
  | none => exact ⟨rfl, rfl⟩
  | some f =>
    simp only
    split <;> exact ⟨rfl, rfl⟩

theorem FlushPageImpl_table (s : BufferPoolManager D) (p : Int) :
    (FlushPageImpl s p).2.page_table_ = s.page_table_ ∧
    (FlushPageImpl s p).2.disk_manager_.next_page_id_ = s.disk_manager_.next_page_id_ := by
  unfold FlushPageImpl
  cases s.page_table_.find p with
  | none => exact ⟨rfl, rfl⟩
  | some f => exact ⟨rfl, rfl⟩

theorem DeletePageImpl_table (s : BufferPoolManager D) (p : Int) :
    ((DeletePageImpl s p).2.page_table_ = s.page_table_ ∨
      (DeletePageImpl s p).2.page_table_ = s.page_table_.erase p) ∧
    (DeletePageImpl s p).2.disk_manager_.next_page_id_ = s.disk_manager_.next_page_id_ := by
  unfold DeletePageImpl
  cases s.page_table_.find p with
  | none => exact ⟨Or.inl rfl, rfl⟩
  | some f =>
    simp only
    split
    · refine ⟨Or.inr rfl, ?_⟩
      simp only
      split <;> rfl
    · exact ⟨Or.inl rfl, rfl⟩

end BufferPoolManager

/-- C16 (counterexample): `FetchPage(INVALID_PAGE_ID)` on a pool of one frame
makes `INVALID_PAGE_ID` resident; after its holder has written the image 42, the
state is reachable, `FlushPage(INVALID_PAGE_ID)` returns true and the disk image
stored under `INVALID_PAGE_ID` changes from the zeroed image to 42. -/
theorem C16_flush_accepts_resident_invalid_id :
    BufferPoolManager.Reachable Scenario.poolInvalid ∧
    Scenario.poolInvalid.page_table_.find INVALID_PAGE_ID = some 0 ∧
    Scenario.poolInvalid.disk_manager_.image INVALID_PAGE_ID = 0 ∧
    (BufferPoolManager.FlushPageImpl Scenario.poolInvalid INVALID_PAGE_ID).1 = true ∧
    (BufferPoolManager.FlushPageImpl Scenario.poolInvalid INVALID_PAGE_ID).2.disk_manager_.image
      INVALID_PAGE_ID = 42 :=
  ⟨BufferPoolManager.Reachable.write _ 0 42
      (BufferPoolManager.Reachable.fetch Scenario.pool1 INVALID_PAGE_ID (some 0) _
        (BufferPoolManager.Reachable.init 1 Scenario.disk0) (by rfl)),
    by decide, by rfl, by rfl, by rfl⟩

/-! ## The probe loops of the hash table -/

namespace LinearProbeHashTable

variable {K V : Type}

/-- The bucket loop of `GetValue` only appends to `result`. -/
theorem getValueScan_mono (cmp : K → K → Int) (key : K) (page : HashTableBlockPage K V)
    (bi bu cb : Nat) (x : V) (n : Nat) : ∀ (i : Nat) (first : Bool) (acc : List V),
    x ∈ acc → x ∈ (getValueScan cmp key page bi bu cb n i first acc).values := by
  induction n with
  | zero => intro i first acc h; simpa [getValueScan, ScanExit.values] using h
  | succ n ih =>
    intro i first acc h
    rw [getValueScan]
    simp only
    split
    · simpa [ScanExit.values] using h
    · split
      · split
        · split
          · exact ih _ _ _ (List.mem_append_left _ h)
          · exact ih _ _ _ h
        · exact ih _ _ _ h
      · simpa [ScanExit.values] using h

/-- If the bucket loop runs to its bound, `first` can only have been cleared. -/
theorem getValueScan_finished_first (cmp : K → K → Int) (key : K) (page : HashTableBlockPage K V)
    (bi bu cb : Nat) (n : Nat) : ∀ (i : Nat) (first : Bool) (acc : List V) (f1 : Bool) (r : List V),
    getValueScan cmp key page bi bu cb n i first acc = ScanExit.finished f1 r →
    first = false → f1 = false := by
  induction n with
  | zero =>
    intro i first acc f1 r h hf
    simp only [getValueScan, ScanExit.finished.injEq] at h
    rw [← h.1]; exact hf
  | succ n ih =>
    intro i first acc f1 r h hf
    rw [getValueScan] at h
    simp only at h
    split at h
    · cases h
    · have hf1 : (if decide (cb = bi ∧ i = bu) = true then false else first) = false := by
        split
        · rfl
        · exact hf
      split at h
      · split at h
        · split at h
          · exact ih _ _ _ _ _ h hf1
          · exact ih _ _ _ _ _ h hf1
        · exact ih _ _ _ _ _ h hf1
      · cases h

/-- If the bucket loop passes the start position and runs to its bound, it was
the first visit of the start position: `first` was true and is false now. -/
theorem getValueScan_finished_start (cmp : K → K → Int) (key : K) (page : HashTableBlockPage K V)
    (bi bu cb : Nat) (n : Nat) : ∀ (i : Nat) (first : Bool) (acc : List V) (f1 : Bool) (r : List V),
    getValueScan cmp key page bi bu cb n i first acc = ScanExit.finished f1 r →
    cb = bi → i ≤ bu → bu < i + n → first = true ∧ f1 = false := by
  induction n with
  | zero => intro i first acc f1 r _ _ h1 h2; omega
  | succ n ih =>
    intro i first acc f1 r h hcb h1 h2
    rw [getValueScan] at h
    simp only at h
    by_cases hi : i = bu
    · have hat : decide (cb = bi ∧ i = bu) = true := by simp [hcb, hi]
      simp only [hat, Bool.true_and, if_true] at h
      split at h
      · cases h
      · rename_i hnf
        have hft : first = true := by
          cases first
          · simp at hnf
          · rfl
        refine ⟨hft, ?_⟩
        split at h
        · split at h
          · split at h
            · exact getValueScan_finished_first cmp key page bi bu cb n _ _ _ _ _ h rfl
            · exact getValueScan_finished_first cmp key page bi bu cb n _ _ _ _ _ h rfl
          · exact getValueScan_finished_first cmp key page bi bu cb n _ _ _ _ _ h rfl
        · cases h
    · have hat : decide (cb = bi ∧ i = bu) = false := by simp [hi]
      simp only [hat, Bool.false_and, if_false] at h
      simp only [Bool.false_eq_true, if_false] at h
      split at h
      · split at h
        · split at h
          · exact ih _ _ _ _ _ h hcb (by omega) (by omega)
          · exact ih _ _ _ _ _ h hcb (by omega) (by omega)
        · exact ih _ _ _ _ _ h hcb (by omega) (by omega)
      · cases h

end LinearProbeHashTable

namespace LinearProbeHashTable

variable {K V : Type}

theorem Geometry.blocks_pos {B nb nblk : Nat} (g : Geometry B nb nblk) : 0 < nblk := by
  have hB := g.block_pos
  have hn := g.buckets_pos
  by_cases h : nb % B = 0
  · have h1 := g.full_last h
    have h2 : 0 < nb / B := by
      apply Nat.div_pos _ hB
      exact Nat.le_of_dvd hn (Nat.dvd_of_mod_eq_zero h)
    omega
  · have := g.partial_last h
    generalize nb / B = q at this
    omega

/-- The home block of every slot below `num_buckets` is a block of the table. -/
theorem Geometry.home_block_lt {B nb nblk : Nat} (g : Geometry B nb nblk) (s : Nat) (hs : s < nb) :
    s / B < nblk := by
  have hB := g.block_pos
  by_cases h : nb % B = 0
  · have h1 := g.full_last h
    have h2 : s / B < nb / B := by
      rw [Nat.div_lt_iff_lt_mul hB]
      have := Nat.div_mul_cancel (Nat.dvd_of_mod_eq_zero h)
      omega
    omega
  · have h1 := g.partial_last h
    have h2 : s / B ≤ nb / B := Nat.div_le_div_right (Nat.le_of_lt hs)
    generalize nb / B = q at h1 h2
    generalize s / B = q2 at h2 ⊢
    omega

/-- The home bucket of every slot below `num_buckets` is below the
`max_bucket_index` of its block. -/
theorem Geometry.home_bucket_lt {B nb nblk : Nat} (g : Geometry B nb nblk) (s : Nat) (hs : s < nb) :
    s % B < maxBucketIndex B nb nblk (s / B) := by
  have hB := g.block_pos
  unfold maxBucketIndex
  split
  · rename_i hc
    obtain ⟨h1, h2⟩ := hc
    have h3 := g.partial_last h1
    have h4 : s / B = nb / B := by
      rw [h3, Nat.add_sub_cancel] at h2; exact h2
    have e1 := Nat.div_add_mod s B
    have e2 := Nat.div_add_mod nb B
    rw [h4] at e1
    generalize B * (nb / B) = m at e1 e2
    omega
  · exact Nat.mod_lt _ hB

/-- After the first visit (`first = false`, bucket 0) the probe loop of
`GetValue` ends within `d + 1` fetched block pages when the start block is `d`
blocks ahead. -/
theorem getValueProbe_returns_from (B : Nat) (t : LinearProbeHashTable K V) (key : K)
    (hdr : HashTableHeaderPage) (nb nblk bi bu : Nat) (hnblk : 0 < nblk)
    (hbu : bu < maxBucketIndex B nb nblk bi) (d : Nat) :
    ∀ (fuel cb : Nat) (acc : List V), d + 1 ≤ fuel → cb < nblk → (cb + d) % nblk = bi →
    (getValueProbe B t key hdr nb nblk bi bu fuel cb 0 false acc).isSome = true := by
  induction d with
  | zero =>
    intro fuel cb acc hfuel hcb hd
    obtain ⟨fuel, rfl⟩ : ∃ k, fuel = k + 1 := ⟨fuel - 1, by omega⟩
    rw [Nat.add_zero, Nat.mod_eq_of_lt hcb] at hd
    rw [getValueProbe]
    cases hs : getValueScan t.comparator_ key (t.block_pages (hdr.GetBlockPageId cb)) bi bu cb
        (maxBucketIndex B nb nblk cb - 0) 0 false acc with
    | returned r => rfl
    | cycled r => rfl
    | finished f1 r =>
      exfalso
      have := getValueScan_finished_start _ _ _ _ _ _ _ _ _ _ _ _ hs hd (by omega)
        (by rw [hd]; omega)
      exact Bool.noConfusion this.1
  | succ d ih =>
    intro fuel cb acc hfuel hcb hd
    obtain ⟨fuel, rfl⟩ : ∃ k, fuel = k + 1 := ⟨fuel - 1, by omega⟩
    rw [getValueProbe]
    cases hs : getValueScan t.comparator_ key (t.block_pages (hdr.GetBlockPageId cb)) bi bu cb
        (maxBucketIndex B nb nblk cb - 0) 0 false acc with
    | returned r => rfl
    | cycled r => rfl
    | finished f1 r =>
      have hf1 := getValueScan_finished_first _ _ _ _ _ _ _ _ _ _ _ _ hs rfl
      simp only [hf1]
      apply ih fuel _ r (by omega) (Nat.mod_lt _ hnblk)
      rw [Nat.mod_add_mod, ← hd]
      congr 1
      omega

/-- The probe loop of `GetValue` ends within `num_blocks + 1` fetched block
pages when it starts at the home slot of a bucket below `num_buckets`. -/
theorem getValueProbe_returns (B : Nat) (t : LinearProbeHashTable K V) (key : K)
    (hdr : HashTableHeaderPage) (nb nblk : Nat) (g : Geometry B nb nblk) (s : Nat) (hs : s < nb) :
    (getValueProbe B t key hdr nb nblk (s / B) (s % B) (nblk + 1) (s / B) (s % B) true []).isSome
      = true := by
  have hnblk := g.blocks_pos
  have hbi := g.home_block_lt s hs
  have hbu := g.home_bucket_lt s hs
  rw [getValueProbe]
  cases hsc : getValueScan t.comparator_ key (t.block_pages (hdr.GetBlockPageId (s / B))) (s / B)
      (s % B) (s / B) (maxBucketIndex B nb nblk (s / B) - s % B) (s % B) true [] with
  | returned r => rfl
  | cycled r => rfl
  | finished f1 r =>
    have hf1 := (getValueScan_finished_start _ _ _ _ _ _ _ _ _ _ _ _ hsc rfl (le_refl _)
      (by omega)).2
    simp only [hf1]
    apply getValueProbe_returns_from B t key hdr nb nblk (s / B) (s % B) hnblk hbu (nblk - 1)
      nblk _ r (by omega) (Nat.mod_lt _ hnblk)
    rw [Nat.mod_add_mod, show s / B + 1 + (nblk - 1) = s / B + nblk by omega, Nat.add_mod_right,
      Nat.mod_eq_of_lt hbi]

end LinearProbeHashTable

namespace LinearProbeHashTable

variable {K V : Type}

/-! ### One iteration of the bucket loops -/

theorem getValueScan_zero (cmp : K → K → Int) (key : K) (page : HashTableBlockPage K V)
    (bi bu cb i : Nat) (first : Bool) (acc : List V) :
    getValueScan cmp key page bi bu cb 0 i first acc = ScanExit.finished first acc := rfl

theorem getValueScan_cycle (cmp : K → K → Int) (key : K) (page : HashTableBlockPage K V)
    (bi bu cb n i : Nat) (first : Bool) (acc : List V)
    (hc : (decide (cb = bi ∧ i = bu) && !first) = true) :
    getValueScan cmp key page bi bu cb (n + 1) i first acc = ScanExit.cycled acc := by
  rw [getValueScan, if_pos hc]

theorem getValueScan_unoccupied (cmp : K → K → Int) (key : K) (page : HashTableBlockPage K V)
    (bi bu cb n i : Nat) (first : Bool) (acc : List V)
    (hc : ¬ (decide (cb = bi ∧ i = bu) && !first) = true) (ho : page.IsOccupied i = false) :
    getValueScan cmp key page bi bu cb (n + 1) i first acc = ScanExit.returned acc := by
  rw [getValueScan, if_neg hc, if_neg (by rw [ho]; exact Bool.false_ne_true)]

theorem getValueScan_push (cmp : K → K → Int) (key : K) (page : HashTableBlockPage K V)
    (bi bu cb n i : Nat) (first : Bool) (acc : List V)
    (hc : ¬ (decide (cb = bi ∧ i = bu) && !first) = true) (ho : page.IsOccupied i = true)
    (hr : page.IsReadable i = true) (hk : cmp key (page.KeyAt i) = 0) :
    getValueScan cmp key page bi bu cb (n + 1) i first acc =
      getValueScan cmp key page bi bu cb n (i + 1) (nextFirst bi bu cb i first)
        (acc ++ [page.ValueAt i]) := by
  rw [getValueScan, if_neg hc, if_pos ho, if_pos hr, if_pos hk]
  rfl

theorem getValueScan_skip (cmp : K → K → Int) (key : K) (page : HashTableBlockPage K V)
    (bi bu cb n i : Nat) (first : Bool) (acc : List V)
    (hc : ¬ (decide (cb = bi ∧ i = bu) && !first) = true) (ho : page.IsOccupied i = true)
    (hs : ¬ (page.IsReadable i = true ∧ cmp key (page.KeyAt i) = 0)) :
    getValueScan cmp key page bi bu cb (n + 1) i first acc =
      getValueScan cmp key page bi bu cb n (i + 1) (nextFirst bi bu cb i first) acc := by
  rw [getValueScan, if_neg hc, if_pos ho]
  by_cases hr : page.IsReadable i = true
  · have hk : ¬ cmp key (page.KeyAt i) = 0 := fun h => hs ⟨hr, h⟩
    rw [if_pos hr, if_neg hk]; rfl
  · rw [if_neg hr]; rfl

theorem removeScan_zero [DecidableEq V] (cmp : K → K → Int) (key : K) (value : V)
    (page : HashTableBlockPage K V) (bi bu cb i : Nat) (first : Bool) :
    removeScan cmp key value page bi bu cb 0 i first = ScanExit.finished first () := rfl

theorem removeScan_cycle [DecidableEq V] (cmp : K → K → Int) (key : K) (value : V)
    (page : HashTableBlockPage K V) (bi bu cb n i : Nat) (first : Bool)
    (hc : (decide (cb = bi ∧ i = bu) && !first) = true) :
    removeScan cmp key value page bi bu cb (n + 1) i first = ScanExit.cycled () := by
  rw [removeScan, if_pos hc]

theorem removeScan_unoccupied [DecidableEq V] (cmp : K → K → Int) (key : K) (value : V)
    (page : HashTableBlockPage K V) (bi bu cb n i : Nat) (first : Bool)
    (hc : ¬ (decide (cb = bi ∧ i = bu) && !first) = true) (ho : page.IsOccupied i = false) :
    removeScan cmp key value page bi bu cb (n + 1) i first = ScanExit.returned (false, page) := by
  rw [removeScan, if_neg hc, if_neg (by rw [ho]; exact Bool.false_ne_true)]

theorem removeScan_hit [DecidableEq V] (cmp : K → K → Int) (key : K) (value : V)
    (page : HashTableBlockPage K V) (bi bu cb n i : Nat) (first : Bool)
    (hc : ¬ (decide (cb = bi ∧ i = bu) && !first) = true) (ho : page.IsOccupied i = true)
    (hr : page.IsReadable i = true) (hk : cmp key (page.KeyAt i) = 0)
    (hv : value = page.ValueAt i) :
    removeScan cmp key value page bi bu cb (n + 1) i first
      = ScanExit.returned (true, page.Remove i) := by
  rw [removeScan, if_neg hc, if_pos ho, if_pos hr, if_pos ⟨hk, hv⟩]

theorem removeScan_skip [DecidableEq V] (cmp : K → K → Int) (key : K) (value : V)
    (page : HashTableBlockPage K V) (bi bu cb n i : Nat) (first : Bool)
    (hc : ¬ (decide (cb = bi ∧ i = bu) && !first) = true) (ho : page.IsOccupied i = true)
    (hs : ¬ (page.IsReadable i = true ∧ cmp key (page.KeyAt i) = 0 ∧ value = page.ValueAt i)) :
    removeScan cmp key value page bi bu cb (n + 1) i first =
      removeScan cmp key value page bi bu cb n (i + 1) (nextFirst bi bu cb i first) := by
  rw [removeScan, if_neg hc, if_pos ho]
  by_cases hr : page.IsReadable i = true
  · have hkv : ¬ (cmp key (page.KeyAt i) = 0 ∧ value = page.ValueAt i) := fun h => hs ⟨hr, h⟩
    rw [if_pos hr, if_neg hkv]; rfl
  · rw [if_neg hr]; rfl

end LinearProbeHashTable

namespace LinearProbeHashTable

variable {K V : Type}

/-- The bucket loops of `Remove` and `GetValue` over the same block page run in
step: `Remove` returns true at the first readable slot that holds the pair, and
`GetValue` pushes that value; as long as `Remove` finds no such slot both loops
leave the page in the same way and `GetValue` pushes no value equal to `value`. -/
theorem removeScan_spec [DecidableEq V] (cmp : K → K → Int) (key : K) (value : V) (page : HashTableBlockPage K V)
    (bi bu cb : Nat) (n : Nat) : ∀ (i : Nat) (first : Bool) (acc : List V),
    (∃ j, i ≤ j ∧ j < i + n ∧ page.IsOccupied j = true ∧ page.IsReadable j = true ∧
      cmp key (page.KeyAt j) = 0 ∧ value = page.ValueAt j ∧
      removeScan cmp key value page bi bu cb n i first = ScanExit.returned (true, page.Remove j) ∧
      value ∈ (getValueScan cmp key page bi bu cb n i first acc).values) ∨
    (removeScan cmp key value page bi bu cb n i first = ScanExit.returned (false, page) ∧
      ∃ r, getValueScan cmp key page bi bu cb n i first acc = ScanExit.returned r ∧
        (value ∈ r → value ∈ acc)) ∨
    (removeScan cmp key value page bi bu cb n i first = ScanExit.cycled () ∧
      ∃ r, getValueScan cmp key page bi bu cb n i first acc = ScanExit.cycled r ∧
        (value ∈ r → value ∈ acc)) ∨
    (∃ f1, removeScan cmp key value page bi bu cb n i first = ScanExit.finished f1 () ∧
      ∃ r, getValueScan cmp key page bi bu cb n i first acc = ScanExit.finished f1 r ∧
        (value ∈ r → value ∈ acc)) := by
  induction n with
  | zero =>
    intro i first acc
    right; right; right
    exact ⟨first, rfl, acc, rfl, id⟩
  | succ n ih =>
    intro i first acc
    by_cases hc : (decide (cb = bi ∧ i = bu) && !first) = true
    · right; right; left
      exact ⟨removeScan_cycle _ _ _ _ _ _ _ _ _ _ hc, acc, getValueScan_cycle _ _ _ _ _ _ _ _ _ _ hc, id⟩
    · by_cases ho : page.IsOccupied i = true
      · by_cases hr : page.IsReadable i = true ∧ cmp key (page.KeyAt i) = 0
        · by_cases hv : value = page.ValueAt i
          · left
            refine ⟨i, le_refl _, by omega, ho, hr.1, hr.2, hv,
              removeScan_hit _ _ _ _ _ _ _ _ _ _ hc ho hr.1 hr.2 hv, ?_⟩
            rw [getValueScan_push _ _ _ _ _ _ _ _ _ _ hc ho hr.1 hr.2]
            apply getValueScan_mono
            rw [hv]; simp
          · have hs : ¬ (page.IsReadable i = true ∧ cmp key (page.KeyAt i) = 0 ∧
                value = page.ValueAt i) := fun h => hv h.2.2
            rw [removeScan_skip _ _ _ _ _ _ _ _ _ _ hc ho hs,
              getValueScan_push _ _ _ _ _ _ _ _ _ _ hc ho hr.1 hr.2]
            have hback : ∀ r : List V, (value ∈ r → value ∈ acc ++ [page.ValueAt i]) →
                value ∈ r → value ∈ acc := by
              intro r h3 hm
              rcases List.mem_append.mp (h3 hm) with h | h
              · exact h
              · exact absurd (List.mem_singleton.mp h) hv
            rcases ih (i + 1) (nextFirst bi bu cb i first) (acc ++ [page.ValueAt i]) with
              ⟨j, h1, h2, h3, h4, h5, h6, h7, h8⟩ | ⟨h1, r, h2, h3⟩ | ⟨h1, r, h2, h3⟩ |
              ⟨f1, h1, r, h2, h3⟩
            · left
              exact ⟨j, by omega, by omega, h3, h4, h5, h6, h7, h8⟩
            · right; left
              exact ⟨h1, r, h2, hback r h3⟩
            · right; right; left
              exact ⟨h1, r, h2, hback r h3⟩
            · right; right; right
              exact ⟨f1, h1, r, h2, hback r h3⟩
        · have hs : ¬ (page.IsReadable i = true ∧ cmp key (page.KeyAt i) = 0 ∧
              value = page.ValueAt i) := fun h => hr ⟨h.1, h.2.1⟩
          rw [removeScan_skip _ _ _ _ _ _ _ _ _ _ hc ho hs,
            getValueScan_skip _ _ _ _ _ _ _ _ _ _ hc ho hr]
          rcases ih (i + 1) (nextFirst bi bu cb i first) acc with
            ⟨j, h1, h2, h3, h4, h5, h6, h7, h8⟩ | h | h | h
          · left
            exact ⟨j, by omega, by omega, h3, h4, h5, h6, h7, h8⟩
          · right; left; exact h
          · right; right; left; exact h
          · right; right; right; exact h
      · have ho2 : page.IsOccupied i = false := by simpa using ho
        right; left
        exact ⟨removeScan_unoccupied _ _ _ _ _ _ _ _ _ _ hc ho2, acc,
          getValueScan_unoccupied _ _ _ _ _ _ _ _ _ _ hc ho2, id⟩

/-- The probe loop of `GetValue` only appends to `result`. -/
theorem getValueProbe_mono (B : Nat) (t : LinearProbeHashTable K V) (key : K)
    (hdr : HashTableHeaderPage) (nb nblk bi bu : Nat) (x : V) (fuel : Nat) :
    ∀ (cb ci : Nat) (first : Bool) (acc : List V) (b : Bool) (r : List V),
    getValueProbe B t key hdr nb nblk bi bu fuel cb ci first acc = some (b, r) →
    x ∈ acc → x ∈ r := by
  induction fuel with
  | zero => intro cb ci first acc b r h; simp [getValueProbe] at h
  | succ fuel ih =>
    intro cb ci first acc b r h hx
    rw [getValueProbe] at h
    have hm := getValueScan_mono t.comparator_ key (t.block_pages (hdr.GetBlockPageId cb)) bi bu cb x
      (maxBucketIndex B nb nblk cb - ci) ci first acc hx
    cases hs : getValueScan t.comparator_ key (t.block_pages (hdr.GetBlockPageId cb)) bi bu cb
        (maxBucketIndex B nb nblk cb - ci) ci first acc with
    | returned r0 =>
      rw [hs] at h hm
      simp only [Option.some.injEq, Prod.mk.injEq] at h
      rw [← h.2]; exact hm
    | cycled r0 =>
      rw [hs] at h hm
      simp only [Option.some.injEq, Prod.mk.injEq] at h
      rw [← h.2]; exact hm
    | finished f1 r0 =>
      rw [hs] at h hm
      exact ih _ _ _ _ _ _ h hm

end LinearProbeHashTable

namespace LinearProbeHashTable

variable {K V : Type}

/-- The probe loops of `Remove` and `GetValue` run in step: whenever the loop of
`GetValue` ends, the loop of `Remove` ends too, either clearing the readable bit
of one readable slot below `max_bucket_index` that holds the pair (then the
value is among the values `GetValue` pushes), or leaving the table as it is
(then `GetValue` pushes no value equal to `value`). -/
theorem removeProbe_spec [DecidableEq V] (B : Nat) (t : LinearProbeHashTable K V) (key : K)
    (value : V) (hdr : HashTableHeaderPage) (nb nblk bi bu : Nat) (fuel : Nat) :
    ∀ (cb ci : Nat) (first : Bool) (acc : List V) (b : Bool) (r : List V),
    getValueProbe B t key hdr nb nblk bi bu fuel cb ci first acc = some (b, r) →
    (∃ cb1 j, j < maxBucketIndex B nb nblk cb1 ∧
      (t.block_pages (hdr.GetBlockPageId cb1)).IsOccupied j = true ∧
      (t.block_pages (hdr.GetBlockPageId cb1)).IsReadable j = true ∧
      t.comparator_ key ((t.block_pages (hdr.GetBlockPageId cb1)).KeyAt j) = 0 ∧
      value = (t.block_pages (hdr.GetBlockPageId cb1)).ValueAt j ∧
      removeProbe B t key value hdr nb nblk bi bu fuel cb ci first =
        some (true, { t with block_pages := (Function.update t.block_pages (hdr.GetBlockPageId cb1)
          ((t.block_pages (hdr.GetBlockPageId cb1)).Remove j)) }) ∧
      value ∈ r) ∨
    (removeProbe B t key value hdr nb nblk bi bu fuel cb ci first = some (false, t) ∧
      (value ∈ r → value ∈ acc)) := by
  induction fuel with
  | zero => intro cb ci first acc b r h; simp [getValueProbe] at h
  | succ fuel ih =>
    intro cb ci first acc b r h
    rw [getValueProbe] at h
    rw [removeProbe]
    rcases removeScan_spec t.comparator_ key value (t.block_pages (hdr.GetBlockPageId cb)) bi bu cb
        (maxBucketIndex B nb nblk cb - ci) ci first acc with
      ⟨j, h1, h2, h3, h4, h5, h6, h7, h8⟩ | ⟨h1, r0, h2, h3⟩ | ⟨h1, r0, h2, h3⟩ |
      ⟨f1, h1, r0, h2, h3⟩
    · left
      refine ⟨cb, j, by omega, h3, h4, h5, h6, ?_, ?_⟩
      · rw [h7]
      · cases hs : getValueScan t.comparator_ key (t.block_pages (hdr.GetBlockPageId cb)) bi bu cb
            (maxBucketIndex B nb nblk cb - ci) ci first acc with
        | returned r1 =>
          rw [hs] at h h8
          simp only [Option.some.injEq, Prod.mk.injEq] at h
          rw [← h.2]; exact h8
        | cycled r1 =>
          rw [hs] at h h8
          simp only [Option.some.injEq, Prod.mk.injEq] at h
          rw [← h.2]; exact h8
        | finished f1 r1 =>
          rw [hs] at h h8
          exact getValueProbe_mono B t key hdr nb nblk bi bu value fuel _ _ _ _ _ _ h h8
    · right
      rw [h1]
      rw [h2] at h
      simp only [Option.some.injEq, Prod.mk.injEq] at h
      refine ⟨?_, ?_⟩
      · simp only [Function.update_eq_self]
      · rw [← h.2]; exact h3
    · right
      rw [h1]
      rw [h2] at h
      simp only [Option.some.injEq, Prod.mk.injEq] at h
      refine ⟨rfl, ?_⟩
      rw [← h.2]; exact h3
    · rw [h1]
      rw [h2] at h
      rcases ih _ _ _ _ _ _ h with ⟨cb1, j, g1, g2, g3, g4, g5, g6, g7⟩ | ⟨g1, g2⟩
      · left
        exact ⟨cb1, j, g1, g2, g3, g4, g5, g6, g7⟩
      · right
        exact ⟨g1, fun hm => h3 (g2 hm)⟩

end LinearProbeHashTable

namespace LinearProbeHashTable

variable {K V : Type}

theorem SameMeta.refl (t : LinearProbeHashTable K V) : SameMeta t t :=
  ⟨rfl, rfl, rfl, rfl, rfl, rfl⟩

theorem SameMeta.trans {t t1 t2 : LinearProbeHashTable K V} (h1 : SameMeta t t1)
    (h2 : SameMeta t1 t2) : SameMeta t t2 :=
  ⟨h2.header_pages.trans h1.header_pages, h2.header_page_id.trans h1.header_page_id,
    h2.next_page_id.trans h1.next_page_id, h2.size.trans h1.size,
    h2.comparator.trans h1.comparator, h2.hash_fn.trans h1.hash_fn⟩

theorem SameMeta.set_block (t : LinearProbeHashTable K V) (id : Int)
    (page : HashTableBlockPage K V) :
    SameMeta t { t with block_pages := Function.update t.block_pages id page } :=
  ⟨rfl, rfl, rfl, rfl, rfl, rfl⟩

/-- The probe loop of `Insert` writes block pages only. -/
theorem insertProbe_meta [DecidableEq V] (B : Nat) (t : LinearProbeHashTable K V) (key : K)
    (value : V) (hdr : HashTableHeaderPage) (nb nblk bi bu : Nat) (fuel : Nat) :
    ∀ (cb ci : Nat) (first : Bool) (ob : Option Bool) (t1 : LinearProbeHashTable K V),
    insertProbe B t key value hdr nb nblk bi bu fuel cb ci first = some (ob, t1) →
    SameMeta t t1 := by
  induction fuel with
  | zero => intro cb ci first ob t1 h; simp [insertProbe] at h
  | succ fuel ih =>
    intro cb ci first ob t1 h
    rw [insertProbe] at h
    cases hs : insertScan t.comparator_ key value (t.block_pages (hdr.GetBlockPageId cb)) bi bu cb
        (maxBucketIndex B nb nblk cb - ci) ci first with
    | returned r =>
      obtain ⟨b, page⟩ := r
      rw [hs] at h
      simp only [Option.some.injEq, Prod.mk.injEq] at h
      rw [← h.2]; exact SameMeta.set_block t _ _
    | cycled u =>
      rw [hs] at h
      simp only [Option.some.injEq, Prod.mk.injEq] at h
      rw [← h.2]; exact SameMeta.refl t
    | finished f1 u =>
      rw [hs] at h
      exact ih _ _ _ _ _ h

/-- The probe loop of `InsertToNew` writes block pages only. -/
theorem insertToNewProbe_meta [DecidableEq V] (B : Nat) (t : LinearProbeHashTable K V) (key : K)
    (value : V) (hdr : HashTableHeaderPage) (nblk bi bu : Nat) (fuel : Nat) :
    ∀ (cb ci : Nat) (first : Bool) (b : Bool) (t1 : LinearProbeHashTable K V),
    insertToNewProbe B t key value hdr nblk bi bu fuel cb ci first = some (b, t1) →
    SameMeta t t1 := by
  induction fuel with
  | zero => intro cb ci first b t1 h; simp [insertToNewProbe] at h
  | succ fuel ih =>
    intro cb ci first b t1 h
    rw [insertToNewProbe] at h
    cases hs : insertScan t.comparator_ key value (t.block_pages (hdr.GetBlockPageId cb)) bi bu cb
        (B - ci) ci first with
    | returned r =>
      obtain ⟨b0, page⟩ := r
      rw [hs] at h
      simp only [Option.some.injEq, Prod.mk.injEq] at h
      rw [← h.2]; exact SameMeta.set_block t _ _
    | cycled u =>
      rw [hs] at h
      simp only [Option.some.injEq, Prod.mk.injEq] at h
      rw [← h.2]; exact SameMeta.refl t
    | finished f1 u =>
      rw [hs] at h
      exact ih _ _ _ _ _ h

/-- The probe loop of `Remove` writes block pages only. -/
theorem removeProbe_meta [DecidableEq V] (B : Nat) (t : LinearProbeHashTable K V) (key : K)
    (value : V) (hdr : HashTableHeaderPage) (nb nblk bi bu : Nat) (fuel : Nat) :
    ∀ (cb ci : Nat) (first : Bool) (b : Bool) (t1 : LinearProbeHashTable K V),
    removeProbe B t key value hdr nb nblk bi bu fuel cb ci first = some (b, t1) →
    SameMeta t t1 := by
  induction fuel with
  | zero => intro cb ci first b t1 h; simp [removeProbe] at h
  | succ fuel ih =>
    intro cb ci first b t1 h
    rw [removeProbe] at h
    cases hs : removeScan t.comparator_ key value (t.block_pages (hdr.GetBlockPageId cb)) bi bu cb
        (maxBucketIndex B nb nblk cb - ci) ci first with
    | returned r =>
      obtain ⟨b0, page⟩ := r
      rw [hs] at h
      simp only [Option.some.injEq, Prod.mk.injEq] at h
      rw [← h.2]; exact SameMeta.set_block t _ _
    | cycled u =>
      rw [hs] at h
      simp only [Option.some.injEq, Prod.mk.injEq] at h
      rw [← h.2]; exact SameMeta.refl t
    | finished f1 u =>
      rw [hs] at h
      exact ih _ _ _ _ _ h

theorem InsertToNew_meta [DecidableEq V] (B : Nat) (id : Int) (t : LinearProbeHashTable K V)
    (key : K) (value : V) (b : Bool) (t1 : LinearProbeHashTable K V)
    (h : InsertToNew B id t key value = some (b, t1)) : SameMeta t t1 :=
  insertToNewProbe_meta B t key value _ _ _ _ _ _ _ _ _ _ h

theorem resizeBuckets_meta [DecidableEq V] (B : Nat) (id bid : Int) (n : Nat) :
    ∀ (i : Nat) (t t1 : LinearProbeHashTable K V),
    resizeBuckets B id bid n i t = some t1 → SameMeta t t1 := by
  induction n with
  | zero =>
    intro i t t1 h
    simp only [resizeBuckets, Option.some.injEq] at h
    rw [← h]; exact SameMeta.refl t
  | succ n ih =>
    intro i t t1 h
    rw [resizeBuckets] at h
    by_cases hr : (t.block_pages bid).IsReadable i = true
    · rw [if_pos hr] at h
      cases hi : InsertToNew B id t ((t.block_pages bid).KeyAt i) ((t.block_pages bid).ValueAt i) with
      | none => rw [hi] at h; cases h
      | some r =>
        obtain ⟨b, t2⟩ := r
        rw [hi] at h
        exact (InsertToNew_meta B id t _ _ b t2 hi).trans (ih _ _ _ h)
    · rw [if_neg hr] at h
      exact ih _ _ _ h

theorem resizeBlocks_meta [DecidableEq V] (B : Nat) (id : Int) (hdr : HashTableHeaderPage)
    (n : Nat) : ∀ (i : Nat) (t t1 : LinearProbeHashTable K V),
    resizeBlocks B id hdr n i t = some t1 → SameMeta t t1 := by
  induction n with
  | zero =>
    intro i t t1 h
    simp only [resizeBlocks, Option.some.injEq] at h
    rw [← h]; exact SameMeta.refl t
  | succ n ih =>
    intro i t t1 h
    rw [resizeBlocks] at h
    cases hb : resizeBuckets B id (hdr.GetBlockPageId i) B 0 t with
    | none => rw [hb] at h; cases h
    | some t2 =>
      rw [hb] at h
      exact (resizeBuckets_meta B id _ B 0 t t2 hb).trans (ih _ _ _ h)

/-- The allocation loop appends `n` block page ids to the header page
`header_page_id` and keeps its size, as long as that page is older than the
pages the loop creates. -/
theorem allocateBlocks_spec [Inhabited K] [Inhabited V] (hid : Int) (n : Nat) :
    ∀ (t : LinearProbeHashTable K V), hid < t.next_page_id_ →
    ((allocateBlocks hid n t).header_pages hid).size_ = (t.header_pages hid).size_ ∧
    ((allocateBlocks hid n t).header_pages hid).next_ind_ = (t.header_pages hid).next_ind_ + n ∧
    (allocateBlocks hid n t).next_page_id_ = t.next_page_id_ + n ∧
    (allocateBlocks hid n t).header_page_id_ = t.header_page_id_ ∧
    (allocateBlocks hid n t).size_ = t.size_ ∧
    (allocateBlocks hid n t).comparator_ = t.comparator_ ∧
    (allocateBlocks hid n t).hash_fn_ = t.hash_fn_ := by
  induction n with
  | zero => intro t _; simp [allocateBlocks]
  | succ n ih =>
    intro t ht
    rw [allocateBlocks]
    simp only [NewPage]
    have hne : hid ≠ t.next_page_id_ := by omega
    generalize hT : (
      { header_page_id_ := t.header_page_id_, size_ := t.size_,
        comparator_ := t.comparator_, hash_fn_ := t.hash_fn_,
        header_pages := Function.update
          (Function.update t.header_pages t.next_page_id_ HashTableHeaderPage.zeroed) hid
          ((Function.update t.header_pages t.next_page_id_ HashTableHeaderPage.zeroed
            hid).AddBlockPageId t.next_page_id_),
        block_pages := Function.update t.block_pages t.next_page_id_ HashTableBlockPage.zeroed,
        next_page_id_ := t.next_page_id_ + 1 } : LinearProbeHashTable K V) = T
    have e1 : (T.header_pages hid).size_ = (t.header_pages hid).size_ := by
      rw [← hT]
      simp only [Function.update_same, Function.update_noteq hne,
        HashTableHeaderPage.AddBlockPageId]
    have e2 : (T.header_pages hid).next_ind_ = (t.header_pages hid).next_ind_ + 1 := by
      rw [← hT]
      simp only [Function.update_same, Function.update_noteq hne,
        HashTableHeaderPage.AddBlockPageId]
    have e3 : T.next_page_id_ = t.next_page_id_ + 1 := by rw [← hT]
    have e4 : T.header_page_id_ = t.header_page_id_ := by rw [← hT]
    have e5 : T.size_ = t.size_ := by rw [← hT]
    have e6 : T.comparator_ = t.comparator_ := by rw [← hT]
    have e7 : T.hash_fn_ = t.hash_fn_ := by rw [← hT]
    obtain ⟨h1, h2, h3, h4, h5, h6, h7⟩ := ih T (by rw [e3]; omega)
    refine ⟨h1.trans e1, ?_, ?_, h4.trans e4, h5.trans e5, h6.trans e6, h7.trans e7⟩
    · rw [h2, e2]; omega
    · rw [h3, e3]; push_cast; omega

end LinearProbeHashTable

namespace LinearProbeHashTable

variable {K V : Type}

theorem TableWF.of_sameMeta {B : Nat} {t t1 : LinearProbeHashTable K V} (h : TableWF B t)
    (hm : SameMeta t t1) : TableWF B t1 := by
  obtain ⟨g, s, l⟩ := h
  refine ⟨?_, ?_, ?_⟩
  · rw [hm.header_pages, hm.header_page_id]; exact g
  · rw [hm.header_pages, hm.header_page_id, hm.size]; exact s
  · rw [hm.header_page_id, hm.next_page_id]; exact l

/-- The constructor builds a table whose header page records `num_buckets`
buckets in `ceil(num_buckets / BLOCK_ARRAY_SIZE)` block pages. -/
theorem new_wf [Inhabited K] [Inhabited V] (B : Nat) (comparator : K → K → Int)
    (num_buckets : Nat) (hash_fn : K → Nat) (first_page_id : Int) (hB : 0 < B)
    (hn : 0 < num_buckets) :
    TableWF B (new B comparator num_buckets hash_fn first_page_id : LinearProbeHashTable K V) := by
  unfold new
  simp only [NewPage]
  generalize hT : (
    { header_page_id_ := first_page_id, size_ := num_buckets, comparator_ := comparator,
      hash_fn_ := hash_fn,
      header_pages := Function.update
        (Function.update (fun _ => HashTableHeaderPage.zeroed) first_page_id
          HashTableHeaderPage.zeroed) first_page_id
        (((Function.update (fun _ => HashTableHeaderPage.zeroed) first_page_id
          HashTableHeaderPage.zeroed first_page_id).SetPageId first_page_id).SetSize num_buckets),
      block_pages := Function.update (fun _ => HashTableBlockPage.zeroed) first_page_id
        HashTableBlockPage.zeroed,
      next_page_id_ := first_page_id + 1 } : LinearProbeHashTable K V) = T
  have e1 : (T.header_pages first_page_id).size_ = num_buckets := by
    rw [← hT]
    simp only [Function.update_same, HashTableHeaderPage.SetSize]
  have e2 : (T.header_pages first_page_id).next_ind_ = 0 := by
    rw [← hT]
    simp only [Function.update_same, HashTableHeaderPage.SetSize, HashTableHeaderPage.SetPageId,
      HashTableHeaderPage.zeroed]
  have e3 : T.next_page_id_ = first_page_id + 1 := by rw [← hT]
  have e4 : T.header_page_id_ = first_page_id := by rw [← hT]
  have e5 : T.size_ = num_buckets := by rw [← hT]
  obtain ⟨h1, h2, h3, h4, h5, -, -⟩ := allocateBlocks_spec first_page_id
    (if num_buckets % B = 0 then num_buckets / B else num_buckets / B + 1) T (by rw [e3]; omega)
  rw [e1] at h1
  rw [e2, Nat.zero_add] at h2
  rw [e3] at h3
  rw [e4] at h4
  rw [e5] at h5
  refine ⟨?_, ?_, ?_⟩
  · rw [h4, HashTableHeaderPage.GetSize, HashTableHeaderPage.NumBlocks, h1, h2]
    refine ⟨hB, hn, ?_, ?_⟩
    · intro h; rw [if_neg h]
    · intro h; rw [if_pos h]
  · rw [h4, h5, HashTableHeaderPage.GetSize, h1]
  · rw [h4, h3]; omega

/-- A `Resize` that returns leaves a table whose header page records
`initial_size` buckets in `initial_size / BLOCK_ARRAY_SIZE + 1` block pages. -/
theorem Resize_wf [Inhabited K] [Inhabited V] [DecidableEq V] (B : Nat)
    (t : LinearProbeHashTable K V) (initial_size : Nat) (t1 : LinearProbeHashTable K V)
    (hw : TableWF B t) (h : Resize B t initial_size = some t1) : TableWF B t1 := by
  unfold Resize at h
  by_cases hle : initial_size ≤ t.size_
  · rw [if_pos hle] at h
    simp only [Option.some.injEq] at h
    rw [← h]; exact hw
  · rw [if_neg hle] at h
    simp only [NewPage] at h
    generalize hT : (
      { header_page_id_ := t.header_page_id_, size_ := t.size_, comparator_ := t.comparator_,
        hash_fn_ := t.hash_fn_,
        header_pages := Function.update
          (Function.update t.header_pages t.next_page_id_ HashTableHeaderPage.zeroed)
          t.next_page_id_
          (((Function.update t.header_pages t.next_page_id_ HashTableHeaderPage.zeroed
            t.next_page_id_).SetPageId t.next_page_id_).SetSize initial_size),
        block_pages := Function.update t.block_pages t.next_page_id_ HashTableBlockPage.zeroed,
        next_page_id_ := t.next_page_id_ + 1 } : LinearProbeHashTable K V) = T at h
    have e1 : (T.header_pages t.next_page_id_).size_ = initial_size := by
      rw [← hT]
      simp only [Function.update_same, HashTableHeaderPage.SetSize]
    have e2 : (T.header_pages t.next_page_id_).next_ind_ = 0 := by
      rw [← hT]
      simp only [Function.update_same, HashTableHeaderPage.SetSize,
        HashTableHeaderPage.SetPageId, HashTableHeaderPage.zeroed]
    have e3 : T.next_page_id_ = t.next_page_id_ + 1 := by rw [← hT]
    obtain ⟨h1, h2, h3, -, -, -, -⟩ := allocateBlocks_spec t.next_page_id_
      (initial_size / B + 1) T (by rw [e3]; omega)
    rw [e1] at h1
    rw [e2, Nat.zero_add] at h2
    rw [e3] at h3
    cases hr : resizeBlocks B t.next_page_id_ (t.header_pages t.header_page_id_)
        (t.header_pages t.header_page_id_).NumBlocks 0
        (allocateBlocks t.next_page_id_ (initial_size / B + 1) T) with
    | none => rw [hr] at h; cases h
    | some t4 =>
      rw [hr] at h
      simp only [Option.some.injEq] at h
      have hm := resizeBlocks_meta B _ _ _ _ _ _ hr
      rw [← h]
      refine ⟨?_, ?_, ?_⟩
      · show Geometry B (t4.header_pages t.next_page_id_).GetSize
          (t4.header_pages t.next_page_id_).NumBlocks
        rw [hm.header_pages, HashTableHeaderPage.GetSize, HashTableHeaderPage.NumBlocks, h1, h2]
        refine ⟨hw.geometry.block_pos, by omega, fun _ => rfl, fun _ => by omega⟩
      · show initial_size = (t4.header_pages t.next_page_id_).GetSize
        rw [hm.header_pages, HashTableHeaderPage.GetSize, h1]
      · show t.next_page_id_ < t4.next_page_id_
        rw [hm.next_page_id, h3]; omega

/-- An `Insert` that returns leaves a well-formed table. -/
theorem Insert_wf [Inhabited K] [Inhabited V] [DecidableEq V] (B : Nat) (passes : Nat) :
    ∀ (t : LinearProbeHashTable K V) (key : K) (value : V) (b : Bool)
      (t1 : LinearProbeHashTable K V),
    TableWF B t → Insert B passes t key value = some (b, t1) → TableWF B t1 := by
  induction passes with
  | zero => intro t key value b t1 _ h; simp [Insert] at h
  | succ passes ih =>
    intro t key value b t1 hw h
    rw [Insert] at h
    cases hp : insertProbe B t key value (t.header_pages t.header_page_id_)
        (t.header_pages t.header_page_id_).GetSize (t.header_pages t.header_page_id_).NumBlocks
        ((t.hash_fn_ key % (t.header_pages t.header_page_id_).GetSize) / B)
        ((t.hash_fn_ key % (t.header_pages t.header_page_id_).GetSize) % B)
        ((t.header_pages t.header_page_id_).NumBlocks + 1)
        ((t.hash_fn_ key % (t.header_pages t.header_page_id_).GetSize) / B)
        ((t.hash_fn_ key % (t.header_pages t.header_page_id_).GetSize) % B) true with
    | none => rw [hp] at h; cases h
    | some r =>
      obtain ⟨ob, t2⟩ := r
      have hm := insertProbe_meta B t key value _ _ _ _ _ _ _ _ _ _ _ hp
      rw [hp] at h
      cases ob with
      | some b0 =>
        simp only [Option.some.injEq, Prod.mk.injEq] at h
        rw [← h.2]; exact hw.of_sameMeta hm
      | none =>
        simp only at h
        cases hr : Resize B t2 (t2.size_ * 2) with
        | none => rw [hr] at h; cases h
        | some t3 =>
          rw [hr] at h
          exact ih _ _ _ _ _ (Resize_wf B t2 _ t3 (hw.of_sameMeta hm) hr) h

/-- A `Remove` that returns changes block pages only. -/
theorem Remove_meta [DecidableEq V] (B : Nat) (t : LinearProbeHashTable K V) (key : K)
    (value : V) (b : Bool) (t1 : LinearProbeHashTable K V)
    (h : Remove B t key value = some (b, t1)) : SameMeta t t1 :=
  removeProbe_meta B t key value _ _ _ _ _ _ _ _ _ _ _ h

/-- Every table built by the constructor and changed by `Insert`, `Remove` and
`Resize` calls that return is well-formed. -/
theorem Reachable.tableWF [Inhabited K] [Inhabited V] [DecidableEq V] {B : Nat}
    {t : LinearProbeHashTable K V} (h : Reachable B t) : TableWF B t := by
  induction h with
  | init comparator num_buckets hash_fn first_page_id hB hn =>
    exact new_wf B comparator num_buckets hash_fn first_page_id hB hn
  | insert t passes key value b t1 _ hi ih => exact Insert_wf B passes t key value b t1 ih hi
  | remove t key value b t1 _ hr ih => exact ih.of_sameMeta (Remove_meta B t key value b t1 hr)
  | resize t initial_size t1 _ hr ih => exact Resize_wf B t initial_size t1 ih hr

end LinearProbeHashTable

namespace LinearProbeHashTable

variable {K V : Type}

/-- C17 (Remove contract): for every table built by the constructor and changed
by `Insert`, `Remove` and `Resize` calls, `GetValue(key)` and
`Remove(key, value)` both return, and `Remove` returns true exactly when `value`
is among the values `GetValue(key)` collects. When `Remove` returns false the
table is unchanged. When it returns true there is one slot `j`, below
`max_bucket_index` of a block page of the table, that was occupied and readable
and held `value` under a key comparing equal to `key`; afterwards that page has
the same occupied bits and the same slot array, its readable bits differ only
in that bit `j` is cleared, and every other page image and every member of the
table is unchanged. -/
theorem C17_remove_contract [Inhabited K] [Inhabited V] [DecidableEq V] (B : Nat)
    (t : LinearProbeHashTable K V) (h : Reachable B t) (key : K) (value : V) :
    ∃ (f : Bool) (r : List V) (b : Bool) (t1 : LinearProbeHashTable K V),
      GetValue B t key = some (f, r) ∧ Remove B t key value = some (b, t1) ∧
      (b = true ↔ value ∈ r) ∧
      (b = false → t1 = t) ∧
      (b = true → ∃ (cur_block_index j : Nat) (id : Int),
        id = (t.header_pages t.header_page_id_).GetBlockPageId cur_block_index ∧
        j < maxBucketIndex B (t.header_pages t.header_page_id_).GetSize
          (t.header_pages t.header_page_id_).NumBlocks cur_block_index ∧
        (t.block_pages id).IsOccupied j = true ∧ (t.block_pages id).IsReadable j = true ∧
        t.comparator_ key ((t.block_pages id).KeyAt j) = 0 ∧
        (t.block_pages id).ValueAt j = value ∧
        (t1.block_pages id).occupied_ = (t.block_pages id).occupied_ ∧
        (t1.block_pages id).array_ = (t.block_pages id).array_ ∧
        (t1.block_pages id).readable_ = Function.update (t.block_pages id).readable_ j false ∧
        (∀ id1, id1 ≠ id → t1.block_pages id1 = t.block_pages id1) ∧
        SameMeta t t1) := by
  have hw := h.tableWF
  have hs : t.hash_fn_ key % (t.header_pages t.header_page_id_).GetSize <
      (t.header_pages t.header_page_id_).GetSize := Nat.mod_lt _ hw.geometry.buckets_pos
  have hret := getValueProbe_returns B t key (t.header_pages t.header_page_id_) _ _ hw.geometry _ hs
  cases hg : getValueProbe B t key (t.header_pages t.header_page_id_)
      (t.header_pages t.header_page_id_).GetSize (t.header_pages t.header_page_id_).NumBlocks
      ((t.hash_fn_ key % (t.header_pages t.header_page_id_).GetSize) / B)
      ((t.hash_fn_ key % (t.header_pages t.header_page_id_).GetSize) % B)
      ((t.header_pages t.header_page_id_).NumBlocks + 1)
      ((t.hash_fn_ key % (t.header_pages t.header_page_id_).GetSize) / B)
      ((t.hash_fn_ key % (t.header_pages t.header_page_id_).GetSize) % B) true [] with
  | none => rw [hg] at hret; cases hret
  | some fr =>
    obtain ⟨f, r⟩ := fr
    rcases removeProbe_spec B t key value _ _ _ _ _ _ _ _ _ _ _ _ hg with
      ⟨cb, j, g1, g2, g3, g4, g5, g6, g7⟩ | ⟨g1, g2⟩
    · refine ⟨f, r, true, _, hg, g6, ⟨fun _ => g7, fun _ => rfl⟩, (fun e => by cases e), fun _ => ?_⟩
      refine ⟨cb, j, _, rfl, g1, g2, g3, g4, g5.symm, ?_, ?_, ?_, ?_, SameMeta.set_block t _ _⟩
      · simp [HashTableBlockPage.Remove, HashTableBlockPage.SetReadable]
      · simp [HashTableBlockPage.Remove, HashTableBlockPage.SetReadable]
      · simp [HashTableBlockPage.Remove, HashTableBlockPage.SetReadable]
      · intro id1 hne
        simp [Function.update_noteq hne]
    · refine ⟨f, r, false, t, hg, g1, ⟨(fun e => by cases e), fun hm => ?_⟩, (fun _ => rfl),
        (fun e => by cases e)⟩
      exact absurd (g2 hm) (List.not_mem_nil _)

end LinearProbeHashTable

namespace Scenario

open LinearProbeHashTable

theorem afterInsert_reachable (t : LinearProbeHashTable Int Int) (key value : Int)
    (h : Reachable 496 t) (hi : (Insert 496 2 t key value).isSome = true) :
    Reachable 496 (afterInsert t key value) := by
  unfold afterInsert
  cases hI : Insert 496 2 t key value with
  | none => rw [hI] at hi; cases hi
  | some r =>
    obtain ⟨b, t1⟩ := r
    exact Reachable.insert t 2 key value b t1 h hI

theorem afterRemove_reachable (t : LinearProbeHashTable Int Int) (key value : Int)
    (h : Reachable 496 t) (hi : (Remove 496 t key value).isSome = true) :
    Reachable 496 (afterRemove t key value) := by
  unfold afterRemove
  cases hI : Remove 496 t key value with
  | none => rw [hI] at hi; cases hi
  | some r =>
    obtain ⟨b, t1⟩ := r
    exact Reachable.remove t key value b t1 h hI

theorem afterResize_reachable (t : LinearProbeHashTable Int Int) (initial_size : Nat)
    (h : Reachable 496 t) (hi : (Resize 496 t initial_size).isSome = true) :
    Reachable 496 (afterResize t initial_size) := by
  unfold afterResize
  cases hI : Resize 496 t initial_size with
  | none => rw [hI] at hi; cases hi
  | some t1 => exact Reachable.resize t initial_size t1 h hI

theorem emptyTable_reachable (num_buckets : Nat) (h : 0 < num_buckets) :
    Reachable 496 (emptyTable num_buckets) :=
  Reachable.init _ _ _ _ (by decide) h

set_option maxRecDepth 100000 in
theorem tableC2_reachable : Reachable 496 tableC2 := by
  refine afterRemove_reachable _ _ _ (afterInsert_reachable _ _ _ (afterInsert_reachable _ _ _
    (emptyTable_reachable 4 (by decide)) ?_) ?_) ?_
  · decide
  · decide
  · decide

end Scenario

/-- Witness for C17: the four-bucket table after `Insert(0, 1)`, `Insert(0, 2)`,
`Remove(0, 1)` is reachable, and the contract holds for `Remove(0, 2)` on it. -/
theorem C17_witness :
    LinearProbeHashTable.Reachable 496 Scenario.tableC2 ∧
    ∃ (f : Bool) (r : List Int) (b : Bool) (t1 : LinearProbeHashTable Int Int),
      LinearProbeHashTable.GetValue 496 Scenario.tableC2 0 = some (f, r) ∧
      LinearProbeHashTable.Remove 496 Scenario.tableC2 0 2 = some (b, t1) ∧
      (b = true ↔ (2 : Int) ∈ r) :=
  ⟨Scenario.tableC2_reachable,
    (LinearProbeHashTable.C17_remove_contract 496 Scenario.tableC2 Scenario.tableC2_reachable
      0 2).imp fun _ hf => hf.imp fun _ hr => hr.imp fun _ hb => hb.imp fun _ ht =>
        ⟨ht.1, ht.2.1, ht.2.2.1⟩⟩

namespace LinearProbeHashTable

variable {K V : Type}

/-- Clearing the readable bit of a slot whose key does not compare equal to
`key` does not change what the bucket loop of `GetValue(key)` does. -/
theorem getValueScan_remove (cmp : K → K → Int) (key : K) (page : HashTableBlockPage K V)
    (j : Nat) (hj : cmp key (page.KeyAt j) ≠ 0) (bi bu cb : Nat) (n : Nat) :
    ∀ (i : Nat) (first : Bool) (acc : List V),
    getValueScan cmp key (page.Remove j) bi bu cb n i first acc =
      getValueScan cmp key page bi bu cb n i first acc := by
  induction n with
  | zero => intro i first acc; rfl
  | succ n ih =>
    intro i first acc
    have eo : (page.Remove j).IsOccupied i = page.IsOccupied i := rfl
    have ek : (page.Remove j).KeyAt i = page.KeyAt i := rfl
    have ev : (page.Remove j).ValueAt i = page.ValueAt i := rfl
    by_cases hc : (decide (cb = bi ∧ i = bu) && !first) = true
    · rw [getValueScan_cycle _ _ _ _ _ _ _ _ _ _ hc, getValueScan_cycle _ _ _ _ _ _ _ _ _ _ hc]
    · by_cases ho : page.IsOccupied i = true
      · by_cases hij : i = j
        · have er : (page.Remove j).IsReadable i = false := by
            simp [HashTableBlockPage.Remove, HashTableBlockPage.SetReadable,
              HashTableBlockPage.IsReadable, hij]
          rw [getValueScan_skip _ _ (page.Remove j) _ _ _ _ _ _ _ hc (eo.trans ho)
              (fun h => by rw [er] at h; exact Bool.false_ne_true h.1),
            getValueScan_skip _ _ page _ _ _ _ _ _ _ hc ho (fun h => hj (hij ▸ h.2))]
          exact ih _ _ _
        · have er : (page.Remove j).IsReadable i = page.IsReadable i := by
            simp [HashTableBlockPage.Remove, HashTableBlockPage.SetReadable,
              HashTableBlockPage.IsReadable, Function.update_noteq hij]
          by_cases hr : page.IsReadable i = true ∧ cmp key (page.KeyAt i) = 0
          · rw [getValueScan_push _ _ (page.Remove j) _ _ _ _ _ _ _ hc (eo.trans ho)
                (er.trans hr.1) (by rw [ek]; exact hr.2),
              getValueScan_push _ _ page _ _ _ _ _ _ _ hc ho hr.1 hr.2, ev]
            exact ih _ _ _
          · rw [getValueScan_skip _ _ (page.Remove j) _ _ _ _ _ _ _ hc (eo.trans ho)
                (by rw [er, ek]; exact hr),
              getValueScan_skip _ _ page _ _ _ _ _ _ _ hc ho hr]
            exact ih _ _ _
      · have ho2 : page.IsOccupied i = false := by simpa using ho
        rw [getValueScan_unoccupied _ _ (page.Remove j) _ _ _ _ _ _ _ hc (eo.trans ho2),
          getValueScan_unoccupied _ _ page _ _ _ _ _ _ _ hc ho2]

/-- The probe loop of `GetValue(key)` does the same on a table in which the
readable bit of one slot, whose key does not compare equal to `key`, has been
cleared. -/
theorem getValueProbe_remove (B : Nat) (t : LinearProbeHashTable K V) (key : K) (id : Int)
    (j : Nat) (hj : t.comparator_ key ((t.block_pages id).KeyAt j) ≠ 0)
    (hdr : HashTableHeaderPage) (nb nblk bi bu : Nat) (fuel : Nat) :
    ∀ (cb ci : Nat) (first : Bool) (acc : List V),
    getValueProbe B
        { t with block_pages := Function.update t.block_pages id ((t.block_pages id).Remove j) }
        key hdr nb nblk bi bu fuel cb ci first acc =
      getValueProbe B t key hdr nb nblk bi bu fuel cb ci first acc := by
  induction fuel with
  | zero => intro cb ci first acc; rfl
  | succ fuel ih =>
    intro cb ci first acc
    rw [getValueProbe, getValueProbe]
    have e : getValueScan t.comparator_ key
        (Function.update t.block_pages id ((t.block_pages id).Remove j) (hdr.GetBlockPageId cb))
        bi bu cb (maxBucketIndex B nb nblk cb - ci) ci first acc =
        getValueScan t.comparator_ key (t.block_pages (hdr.GetBlockPageId cb))
        bi bu cb (maxBucketIndex B nb nblk cb - ci) ci first acc := by
      by_cases hid : hdr.GetBlockPageId cb = id
      · rw [hid, Function.update_same]
        exact getValueScan_remove _ _ _ _ hj _ _ _ _ _ _ _
      · rw [Function.update_noteq hid]
    show (match getValueScan t.comparator_ key
        (Function.update t.block_pages id ((t.block_pages id).Remove j) (hdr.GetBlockPageId cb))
        bi bu cb (maxBucketIndex B nb nblk cb - ci) ci first acc with
      | ScanExit.returned r => some (true, r)
      | ScanExit.cycled r => some (true, r)
      | ScanExit.finished first1 r => getValueProbe B
          { t with block_pages := Function.update t.block_pages id ((t.block_pages id).Remove j) }
          key hdr nb nblk bi bu fuel ((cb + 1) % nblk) 0 first1 r) = _
    rw [e]
    cases getValueScan t.comparator_ key (t.block_pages (hdr.GetBlockPageId cb))
        bi bu cb (maxBucketIndex B nb nblk cb - ci) ci first acc with
    | returned r => rfl
    | cycled r => rfl
    | finished f1 r => exact ih _ _ _ _

/-- C18 (tombstone continuity): for every table built by the constructor and
changed by `Insert`, `Remove` and `Resize` calls, over a comparator under which
two keys that compare equal to a common key compare equal to each other:
`Remove(key, value)` returns, and for every `key1` that does not compare equal
to `key`, `GetValue(key1)` on the table after the `Remove` returns the same
flag and the same values as on the table before it. -/
theorem C18_tombstone_continuity [Inhabited K] [Inhabited V] [DecidableEq V] (B : Nat)
    (t : LinearProbeHashTable K V) (h : Reachable B t)
    (hcmp : ∀ a b c, t.comparator_ a c = 0 → t.comparator_ b c = 0 → t.comparator_ a b = 0)
    (key : K) (value : V) (key1 : K) (hne : t.comparator_ key1 key ≠ 0) :
    ∃ (b : Bool) (t1 : LinearProbeHashTable K V),
      Remove B t key value = some (b, t1) ∧
      (GetValue B t key1).isSome = true ∧
      GetValue B t1 key1 = GetValue B t key1 := by
  have hw := h.tableWF
  have hs : ∀ k : K, t.hash_fn_ k % (t.header_pages t.header_page_id_).GetSize <
      (t.header_pages t.header_page_id_).GetSize := fun k => Nat.mod_lt _ hw.geometry.buckets_pos
  have hret1 : (GetValue B t key1).isSome = true :=
    getValueProbe_returns B t key1 (t.header_pages t.header_page_id_) _ _ hw.geometry _ (hs key1)
  have hret := getValueProbe_returns B t key (t.header_pages t.header_page_id_) _ _ hw.geometry _
    (hs key)
  cases hg : getValueProbe B t key (t.header_pages t.header_page_id_)
      (t.header_pages t.header_page_id_).GetSize (t.header_pages t.header_page_id_).NumBlocks
      ((t.hash_fn_ key % (t.header_pages t.header_page_id_).GetSize) / B)
      ((t.hash_fn_ key % (t.header_pages t.header_page_id_).GetSize) % B)
      ((t.header_pages t.header_page_id_).NumBlocks + 1)
      ((t.hash_fn_ key % (t.header_pages t.header_page_id_).GetSize) / B)
      ((t.hash_fn_ key % (t.header_pages t.header_page_id_).GetSize) % B) true [] with
  | none => rw [hg] at hret; cases hret
  | some fr =>
    obtain ⟨f, r⟩ := fr
    rcases removeProbe_spec B t key value _ _ _ _ _ _ _ _ _ _ _ _ hg with
      ⟨cb, j, -, -, -, g4, -, g6, -⟩ | ⟨g1, -⟩
    · refine ⟨true, _, g6, hret1, ?_⟩
      have hj : t.comparator_ key1 ((t.block_pages
          ((t.header_pages t.header_page_id_).GetBlockPageId cb)).KeyAt j) ≠ 0 :=
        fun h0 => hne (hcmp _ _ _ h0 g4)
      exact getValueProbe_remove B t key1 _ j hj _ _ _ _ _ _ _ _ _ _
    · exact ⟨false, t, g1, hret1, rfl⟩

end LinearProbeHashTable

namespace Scenario

open LinearProbeHashTable

theorem IntComparator_equal_trans (a b c : Int) (h1 : IntComparator a c = 0)
    (h2 : IntComparator b c = 0) : IntComparator a b = 0 := by
  unfold IntComparator at *
  split_ifs at h1 h2 ⊢ <;> omega

set_option maxRecDepth 100000 in
theorem tableC18_reachable : Reachable 496 tableC18 := by
  refine afterInsert_reachable _ _ _ (afterInsert_reachable _ _ _
    (emptyTable_reachable 4 (by decide)) ?_) ?_
  · decide
  · decide

end Scenario

set_option maxRecDepth 100000 in
/-- Witness for C18: in the four-bucket table holding `(3, 30)` in slot 3 and
`(7, 70)` in slot 0 (both keys have home slot 3), `Remove(3, 30)` returns true
and `GetValue(7)` returns `[70]` before and after it. -/
theorem C18_witness :
    LinearProbeHashTable.Reachable 496 Scenario.tableC18 ∧
    Scenario.tableC18.comparator_ 7 3 ≠ 0 ∧
    (LinearProbeHashTable.Remove 496 Scenario.tableC18 3 30).map Prod.fst = some true ∧
    LinearProbeHashTable.GetValue 496 Scenario.tableC18 7 = some (true, [70]) ∧
    LinearProbeHashTable.GetValue 496 (Scenario.afterRemove Scenario.tableC18 3 30) 7
      = some (true, [70]) ∧
    ∃ (b : Bool) (t1 : LinearProbeHashTable Int Int),
      LinearProbeHashTable.Remove 496 Scenario.tableC18 3 30 = some (b, t1) ∧
      (LinearProbeHashTable.GetValue 496 Scenario.tableC18 7).isSome = true ∧
      LinearProbeHashTable.GetValue 496 t1 7 = LinearProbeHashTable.GetValue 496 Scenario.tableC18 7 :=
  ⟨Scenario.tableC18_reachable, by decide, by decide, by decide, by decide,
    LinearProbeHashTable.C18_tombstone_continuity 496 Scenario.tableC18
      Scenario.tableC18_reachable Scenario.IntComparator_equal_trans 3 30 7 (by decide)⟩

namespace Scenario

open LinearProbeHashTable

set_option maxRecDepth 100000 in
theorem tableC19_reachable : Reachable 496 tableC19 := by
  refine afterInsert_reachable _ _ _ (afterInsert_reachable _ _ _ (afterInsert_reachable _ _ _
    (afterInsert_reachable _ _ _ (afterInsert_reachable _ _ _ (afterInsert_reachable _ _ _
    (afterInsert_reachable _ _ _ (afterInsert_reachable _ _ _ (afterInsert_reachable _ _ _
    (emptyTable_reachable 4 (by decide)) ?_) ?_) ?_) ?_) ?_) ?_) ?_) ?_) ?_ <;> decide!

end Scenario

set_option maxRecDepth 100000 in
/-- C19 (evaluation at the failing input): the table `Scenario.tableC19` has
size 8, each of its 8 addressable slots is readable, and `GetValue(7)` returns
no value, so `(7, 100)` is not present. `Insert(7, 100)` runs one `Resize`,
after which `GetSize()` is 16 and `GetValue(7)` returns `[100]`, yet it returns
false: the pair sat in slot 8 of the only block, behind `max_bucket_index`, and
the `Resize` copied it into the new table before the retry. -/
theorem C19_insert_into_full_table_returns_false :
    LinearProbeHashTable.Reachable 496 Scenario.tableC19 ∧
    (LinearProbeHashTable.Insert 496 2 Scenario.tableC3 4 500).map Prod.fst = some true ∧
    (LinearProbeHashTable.Insert 496 2 (Scenario.afterInsert Scenario.tableC3 4 500) 0 600).map
      Prod.fst = some true ∧
    Scenario.tableC19.GetSize = 8 ∧
    (∀ i, i < 8 → (Scenario.blockOf Scenario.tableC19 0).IsReadable i = true) ∧
    LinearProbeHashTable.GetValue 496 Scenario.tableC19 7 = some (true, []) ∧
    (Scenario.blockOf Scenario.tableC19 0).IsReadable 8 = true ∧
    (Scenario.blockOf Scenario.tableC19 0).array_ 8 = (7, 100) ∧
    (LinearProbeHashTable.Insert 496 1 Scenario.tableC19 7 100).isNone = true ∧
    (LinearProbeHashTable.Insert 496 2 Scenario.tableC19 7 100).map Prod.fst = some false ∧
    (Scenario.afterInsert Scenario.tableC19 7 100).GetSize = 16 ∧
    LinearProbeHashTable.GetValue 496 (Scenario.afterInsert Scenario.tableC19 7 100) 7
      = some (true, [100]) := by
  refine ⟨Scenario.tableC19_reachable, ?_, ?_, ?_, ?_, ?_, ?_, ?_, ?_, ?_, ?_, ?_⟩ <;> decide!

namespace Scenario

theorem pool2C_reachable : BufferPoolManager.Reachable pool2C :=
  BufferPoolManager.Reachable.unpin _ 0 true pool2A_reachable

end Scenario

set_option maxRecDepth 100000 in
/-- C20 (evaluation at the failing input): in the reachable pool
`Scenario.pool2C` page 0 is resident in frame 0 with `pin_count_ = 0` and frame
1 is pinned. `Resize(8)` of a table with `header_page_id_ = 0` and `size_ = 4`
fetches page 0, gets null from `NewPage` and returns; page 0 is still resident
in frame 0 and its `pin_count_` is 1. -/
theorem C20_resize_early_return_keeps_header_pinned :
    BufferPoolManager.Reachable Scenario.pool2C ∧
    Scenario.pool2C.page_table_.find 0 = some 0 ∧
    (Scenario.pool2C.pages_ 0).pin_count_ = 0 ∧
    (Scenario.pool2C.pages_ 1).pin_count_ = 1 ∧
    (LinearProbeHashTable.ResizeOpen Scenario.pool2C 0 4 8).map
      (fun e => (e.isReturn, e.pool.page_table_.find 0, (e.pool.pages_ 0).pin_count_))
      = some (true, some 0, 1) := by
  refine ⟨Scenario.pool2C_reachable, ?_, ?_, ?_, ?_⟩ <;> decide

namespace ClockReplacer

theorem new_replacer_WF (num_pages : Nat) : (ClockReplacer.new num_pages).WF := by
  refine ⟨?_, ?_, ?_⟩
  · by_cases h : num_pages = 0
    · left; exact h
    · right; simp only [ClockReplacer.new]; omega
  · intro f hf; simp [ClockReplacer.new, initialFrameInfo] at hf
  · simp [ClockReplacer.new, candidates, initialFrameInfo]

/-- A `Victim` call that returns is one of the two cases of `Victim_none` and
`Victim_some`. -/
theorem Victim_cases (r : ClockReplacer) (h : r.WF) (res : Option Nat) (r1 : ClockReplacer)
    (hv : Victim r = some (res, r1)) :
    (res = none ∧ r1 = r ∧ ∀ f, (r.frame_infos_ f).free = false) ∨
    (∃ f, res = some f ∧ f < r.num_pages ∧ (r.frame_infos_ f).free = true ∧ r1.WF ∧
      r1.num_pages = r.num_pages ∧
      ∀ g, (r1.frame_infos_ g).free = if g = f then false else (r.frame_infos_ g).free) := by
  by_cases hc : ∃ f0, (r.frame_infos_ f0).free = true
  · obtain ⟨f0, hf0⟩ := hc
    obtain ⟨f, r2, e, h1, h2, h3, h4, h5⟩ := Victim_some r h f0 hf0
    rw [e] at hv
    simp only [Option.some.injEq, Prod.mk.injEq] at hv
    right
    refine ⟨f, hv.1.symm, h1, h2, ?_, ?_, ?_⟩
    · rw [← hv.2]; exact h3
    · rw [← hv.2]; exact h4
    · rw [← hv.2]; exact h5
  · have hnone : ∀ f, (r.frame_infos_ f).free = false := by
      intro f
      cases hf : (r.frame_infos_ f).free with
      | false => rfl
      | true => exact absurd ⟨f, hf⟩ hc
    rw [Victim_none r h hnone] at hv
    simp only [Option.some.injEq, Prod.mk.injEq] at hv
    left
    exact ⟨hv.1.symm, hv.2.symm, hnone⟩

theorem Victim_num_pages (r : ClockReplacer) (h : r.WF) (res : Option Nat) (r1 : ClockReplacer)
    (hv : Victim r = some (res, r1)) : r1.WF ∧ r1.num_pages = r.num_pages := by
  rcases Victim_cases r h res r1 hv with ⟨-, e, -⟩ | ⟨f, -, -, -, h1, h2, -⟩
  · rw [e]; exact ⟨h, rfl⟩
  · exact ⟨h1, h2⟩

/-- Every replacer state of a run is well-formed. -/
theorem Reachable.replacerWF {r : ClockReplacer} (h : Reachable r) : r.WF := by
  induction h with
  | init num_pages => exact new_replacer_WF num_pages
  | victim r res r1 _ hv ih => exact (Victim_num_pages r ih res r1 hv).1
  | pin r frame_id _ _ ih => exact Pin_WF r frame_id ih
  | unpin r frame_id _ hf ih => exact Unpin_WF r frame_id ih hf

/-- C22 (replacer size invariant): in every replacer state reached from the
constructor by `Victim`, `Pin` and `Unpin` calls with frame ids inside the
vector, `Size()` is the number of frames of the vector with `free = true`, and
no record outside the vector has `free = true`. -/
theorem C22_replacer_size_invariant (r : ClockReplacer) (h : Reachable r) :
    r.Size = ((Finset.range r.num_pages).filter (fun f => (r.frame_infos_ f).free = true)).card ∧
    ∀ f, (r.frame_infos_ f).free = true → f < r.num_pages :=
  ⟨h.replacerWF.size, h.replacerWF.range⟩

/-- C23 (Victim contract): in every reachable replacer state, if no frame has
`free = true` then `Victim` returns false and leaves the replacer as it is;
otherwise `Victim` returns a frame `f` that had `free = true`, afterwards
`free[f] = false`, `Size()` is one less and the `free` flag of every other
frame is unchanged. -/
theorem C23_victim_contract (r : ClockReplacer) (h : Reachable r) :
    ((∀ f, (r.frame_infos_ f).free = false) → Victim r = some (none, r)) ∧
    ((∃ f0, (r.frame_infos_ f0).free = true) →
      ∃ f r1, Victim r = some (some f, r1) ∧ (r.frame_infos_ f).free = true ∧
        (r1.frame_infos_ f).free = false ∧ r1.Size + 1 = r.Size ∧
        ∀ g, g ≠ f → (r1.frame_infos_ g).free = (r.frame_infos_ g).free) := by
  have hw := h.replacerWF
  refine ⟨fun hnone => Victim_none r hw hnone, ?_⟩
  rintro ⟨f0, hf0⟩
  obtain ⟨f, r1, e, h1, h2, h3, h4, h5⟩ := Victim_some r hw f0 hf0
  refine ⟨f, r1, e, h2, ?_, ?_, ?_⟩
  · rw [h5 f]; simp
  · have hc : candidates r1 = (candidates r).erase f := by
      unfold candidates
      rw [h4]
      exact candidates_clear _ _ _ f h5
    have hm : f ∈ candidates r := by simp [candidates, h2, h1]
    have hpos : 0 < (candidates r).card := Finset.card_pos.mpr ⟨f, hm⟩
    show r1.size_ + 1 = r.size_
    rw [h3.size, hw.size, hc, Finset.card_erase_of_mem hm]
    omega
  · intro g hg
    rw [h5 g, if_neg hg]

/-- C24 (two revolutions): for a replacer whose hand is inside the vector of
`num_pages` frames (so `num_pages >= 1`) and in which some frame of the vector
has `free = true`, the sweep of `FindVictim` returns within `2 * num_pages`
visited clock positions; the frame it returns is a frame of the vector that has
`free = true`. -/
theorem C24_find_victim_within_two_revolutions (r : ClockReplacer)
    (hh : r.clock_hand_ < r.num_pages) (f : Nat) (hf : f < r.num_pages)
    (hfree : (r.frame_infos_ f).free = true) :
    ∃ f1 r1, FindVictim (2 * r.num_pages) r = some (f1, r1) ∧ f1 < r.num_pages ∧
      (r.frame_infos_ f1).free = true := by
  obtain ⟨⟨f1, r1⟩, hres⟩ := FindVictim_total r hh f hf hfree
  obtain ⟨h1, h2, -⟩ := FindVictim_sound _ r f1 r1 hh hres
  exact ⟨f1, r1, hres, h1, h2⟩

end ClockReplacer

namespace Scenario

open ClockReplacer

theorem replacer3_reachable : Reachable replacer3 :=
  Reachable.pin _ 1 (Reachable.unpin _ 2 (Reachable.unpin _ 1 (Reachable.unpin _ 0
    (Reachable.init 3) (by decide)) (by decide)) (by decide)) (by decide)

end Scenario

/-- Witness for C22: the replacer of size 3 after `Unpin(0)`, `Unpin(1)`,
`Unpin(2)`, `Pin(1)` has `Size() = 2`, the number of its frames with
`free = true`. -/
theorem C22_witness :
    ClockReplacer.Reachable Scenario.replacer3 ∧ Scenario.replacer3.Size = 2 ∧
    (Scenario.replacer3.Size = ((Finset.range Scenario.replacer3.num_pages).filter
      (fun f => (Scenario.replacer3.frame_infos_ f).free = true)).card ∧
    ∀ f, (Scenario.replacer3.frame_infos_ f).free = true → f < Scenario.replacer3.num_pages) :=
  ⟨Scenario.replacer3_reachable, by decide,
    ClockReplacer.C22_replacer_size_invariant Scenario.replacer3 Scenario.replacer3_reachable⟩

/-- Witness for C23: on the replacer of size 3 after `Unpin(0)`, `Unpin(1)`,
`Unpin(2)`, `Pin(1)`, frame 0 has `free = true` and `Victim` returns a frame. -/
theorem C23_witness :
    ClockReplacer.Reachable Scenario.replacer3 ∧
    (Scenario.replacer3.frame_infos_ 0).free = true ∧
    ∃ f r1, ClockReplacer.Victim Scenario.replacer3 = some (some f, r1) ∧
      (Scenario.replacer3.frame_infos_ f).free = true ∧
      (r1.frame_infos_ f).free = false ∧ r1.Size + 1 = Scenario.replacer3.Size ∧
      ∀ g, g ≠ f → (r1.frame_infos_ g).free = (Scenario.replacer3.frame_infos_ g).free :=
  ⟨Scenario.replacer3_reachable, by decide,
    (ClockReplacer.C23_victim_contract Scenario.replacer3 Scenario.replacer3_reachable).2
      ⟨0, by decide⟩⟩

/-- Witness for C24: on the replacer of size 3 after `Unpin(0)`, `Unpin(1)`,
`Unpin(2)`, `Pin(1)` the sweep returns within 6 positions; it does not return
within 3, so the second revolution is needed. -/
theorem C24_witness :
    Scenario.replacer3.clock_hand_ < Scenario.replacer3.num_pages ∧
    (ClockReplacer.FindVictim 3 Scenario.replacer3).isNone = true ∧
    ∃ f1 r1, ClockReplacer.FindVictim (2 * Scenario.replacer3.num_pages) Scenario.replacer3
        = some (f1, r1) ∧ f1 < Scenario.replacer3.num_pages ∧
      (Scenario.replacer3.frame_infos_ f1).free = true :=
  ⟨by decide, by decide,
    ClockReplacer.C24_find_victim_within_two_revolutions Scenario.replacer3 (by decide) 0
      (by decide) (by decide)⟩

namespace Scenario

set_option maxRecDepth 100000 in
theorem tableC27_reachable : LinearProbeHashTable.Reachable 496 tableC27 := by
  refine afterInsert_reachable _ _ _ (afterInsert_reachable _ _ _ (afterInsert_reachable _ _ _
    (afterInsert_reachable _ _ _ (afterInsert_reachable _ _ _
    (emptyTable_reachable 4 (by decide)) ?_) ?_) ?_) ?_) ?_ <;> decide!

theorem pool1F_reachable : BufferPoolManager.Reachable pool1F :=
  BufferPoolManager.Reachable.delete _ 0 pool1E_reachable

end Scenario

set_option maxRecDepth 100000 in
/-- C27 (evaluation at the failing input): the table `Scenario.tableC27` is
reached from the constructor by five `Insert` calls, the last of which resizes
it from 4 to 8 buckets. It has one block page and `8 % 496 = 8` addressable
slots in it, yet slot 8 of that block is occupied and readable and holds
`(7, 100)`. -/
theorem C27_tail_slot_used_after_resize :
    LinearProbeHashTable.Reachable 496 Scenario.tableC27 ∧
    (Scenario.tableC27.header_pages Scenario.tableC27.header_page_id_).GetSize = 8 ∧
    (Scenario.tableC27.header_pages Scenario.tableC27.header_page_id_).NumBlocks = 1 ∧
    8 % 496 ≠ 0 ∧ 8 % 496 ≤ 8 ∧
    (Scenario.blockOf Scenario.tableC27 0).IsOccupied 8 = true ∧
    (Scenario.blockOf Scenario.tableC27 0).IsReadable 8 = true ∧
    (Scenario.blockOf Scenario.tableC27 0).array_ 8 = (7, 100) := by
  refine ⟨Scenario.tableC27_reachable, ?_, ?_, ?_, ?_, ?_, ?_, ?_⟩ <;> decide!

/-- C28 (evaluation at the failing input): in the reachable pool
`Scenario.pool1E` page 0 is resident in frame 0 with `pin_count_ = 0` and frame
0 is a candidate of the replacer. `DeletePage(0)` returns true; afterwards no
page is resident and frame 0 is in the free list, yet the replacer still has
`free = true` for frame 0 and `Size() = 1`. -/
theorem C28_deleted_frame_stays_candidate :
    BufferPoolManager.Reachable Scenario.pool1E ∧
    Scenario.pool1E.page_table_ = [(0, 0)] ∧
    (Scenario.pool1E.pages_ 0).pin_count_ = 0 ∧
    (Scenario.pool1E.replacer_.frame_infos_ 0).free = true ∧
    (BufferPoolManager.DeletePageImpl Scenario.pool1E 0).1 = true ∧
    BufferPoolManager.Reachable Scenario.pool1F ∧
    Scenario.pool1F.page_table_ = [] ∧
    Scenario.pool1F.free_list_ = [0] ∧
    (Scenario.pool1F.replacer_.frame_infos_ 0).free = true ∧
    Scenario.pool1F.replacer_.Size = 1 := by
  refine ⟨Scenario.pool1E_reachable, ?_, ?_, ?_, ?_, Scenario.pool1F_reachable, ?_, ?_, ?_, ?_⟩ <;>
    decide

namespace LinearProbeHashTable

variable {K V : Type}

/-- The allocation loop hands out the page ids `next_page_id_`,
`next_page_id_ + 1`, ... and appends them to the header page in that order. -/
theorem allocateBlocks_ids [Inhabited K] [Inhabited V] (hid : Int) (n : Nat) :
    ∀ (t : LinearProbeHashTable K V), hid < t.next_page_id_ →
    ∀ i, ((allocateBlocks hid n t).header_pages hid).block_page_ids_ i =
      if (t.header_pages hid).next_ind_ ≤ i ∧ i < (t.header_pages hid).next_ind_ + n then
        t.next_page_id_ + ((i - (t.header_pages hid).next_ind_ : Nat) : Int)
      else (t.header_pages hid).block_page_ids_ i := by
  induction n with
  | zero =>
    intro t _ i
    rw [if_neg (by omega)]
    rfl
  | succ n ih =>
    intro t ht i
    rw [allocateBlocks]
    simp only [NewPage]
    have hne : hid ≠ t.next_page_id_ := by omega
    generalize hT : (
      { header_page_id_ := t.header_page_id_, size_ := t.size_,
        comparator_ := t.comparator_, hash_fn_ := t.hash_fn_,
        header_pages := Function.update
          (Function.update t.header_pages t.next_page_id_ HashTableHeaderPage.zeroed) hid
          ((Function.update t.header_pages t.next_page_id_ HashTableHeaderPage.zeroed
            hid).AddBlockPageId t.next_page_id_),
        block_pages := Function.update t.block_pages t.next_page_id_ HashTableBlockPage.zeroed,
        next_page_id_ := t.next_page_id_ + 1 } : LinearProbeHashTable K V) = T
    have e2 : (T.header_pages hid).next_ind_ = (t.header_pages hid).next_ind_ + 1 := by
      rw [← hT]
      simp only [Function.update_same, Function.update_noteq hne,
        HashTableHeaderPage.AddBlockPageId]
    have e3 : T.next_page_id_ = t.next_page_id_ + 1 := by rw [← hT]
    have e4 : ∀ j, (T.header_pages hid).block_page_ids_ j =
        if j = (t.header_pages hid).next_ind_ then t.next_page_id_
        else (t.header_pages hid).block_page_ids_ j := by
      intro j
      rw [← hT]
      simp only [Function.update_same, Function.update_noteq hne,
        HashTableHeaderPage.AddBlockPageId, Function.update_apply]
    rw [ih T (by rw [e3]; omega) i, e2, e3, e4 i]
    generalize (t.header_pages hid).next_ind_ = a
    by_cases h1 : a + 1 ≤ i ∧ i < a + 1 + n
    · rw [if_pos h1, if_pos (by omega)]
      omega
    · rw [if_neg h1]
      by_cases h2 : i = a
      · rw [if_pos h2, if_pos (by omega), h2]
        simp
      · rw [if_neg h2, if_neg (by omega)]

/-- The allocation loop creates zeroed pages only. -/
theorem allocateBlocks_zeroed [Inhabited K] [Inhabited V] (hid : Int) (n : Nat) :
    ∀ (t : LinearProbeHashTable K V), (∀ id, t.block_pages id = HashTableBlockPage.zeroed) →
    ∀ id, (allocateBlocks hid n t).block_pages id = HashTableBlockPage.zeroed := by
  induction n with
  | zero => intro t h id; exact h id
  | succ n ih =>
    intro t h id
    rw [allocateBlocks]
    simp only [NewPage]
    apply ih
    intro id1
    show Function.update t.block_pages t.next_page_id_ HashTableBlockPage.zeroed id1 = _
    rw [Function.update_apply]
    split
    · rfl
    · exact h id1

/-- The number of block pages of the constructor is `ceil(num_buckets / B)`. -/
theorem ceil_div_eq (B n : Nat) (hB : 0 < B) :
    (if n % B = 0 then n / B else n / B + 1) = (n + B - 1) / B := by
  have hd := Nat.div_add_mod n B
  have hm := Nat.mod_lt n hB
  have hc : B * (n / B) = n / B * B := Nat.mul_comm _ _
  symm
  by_cases h : n % B = 0
  · rw [if_pos h]
    apply Nat.div_eq_of_lt_le
    · omega
    · rw [Nat.succ_mul]; omega
  · rw [if_neg h]
    apply Nat.div_eq_of_lt_le
    · rw [Nat.succ_mul]; omega
    · rw [Nat.succ_mul, Nat.succ_mul]; omega

/-- On a table whose block pages are all zeroed `GetValue` stops at the home
slot with an empty result. -/
theorem GetValue_of_zeroed [Inhabited K] [Inhabited V] (B : Nat) (t : LinearProbeHashTable K V)
    (hw : TableWF B t) (hz : ∀ id, t.block_pages id = HashTableBlockPage.zeroed) (key : K) :
    GetValue B t key = some (true, []) := by
  have hs : t.hash_fn_ key % (t.header_pages t.header_page_id_).GetSize <
      (t.header_pages t.header_page_id_).GetSize := Nat.mod_lt _ hw.geometry.buckets_pos
  have hb := hw.geometry.home_bucket_lt _ hs
  unfold GetValue
  simp only []
  rw [getValueProbe]
  obtain ⟨n, hn⟩ : ∃ n, maxBucketIndex B (t.header_pages t.header_page_id_).GetSize
      (t.header_pages t.header_page_id_).NumBlocks
      (t.hash_fn_ key % (t.header_pages t.header_page_id_).GetSize / B) -
      t.hash_fn_ key % (t.header_pages t.header_page_id_).GetSize % B = n + 1 :=
    ⟨_, (Nat.succ_pred_eq_of_pos (by omega)).symm⟩
  rw [hn, getValueScan_unoccupied _ _ _ _ _ _ _ _ _ _ (by simp) (by rw [hz]; rfl)]

/-- C21 (initial construction): for `BLOCK_ARRAY_SIZE = B > 0` and every
`num_buckets >= 1` the constructed table has `size_` and the size of its header
page equal to `num_buckets`, the header page has the id handed out first, its
number of block pages is `ceil(num_buckets / B)`, the block page with index `i`
is the page handed out `i + 1` allocations after the header page, every slot of
every block page has `occupied = 0` and `readable = 0`, and `GetValue(key)`
returns true with an empty result for every key. -/
theorem C21_initial_construction [Inhabited K] [Inhabited V] (B : Nat)
    (comparator : K → K → Int) (num_buckets : Nat) (hash_fn : K → Nat) (first_page_id : Int)
    (hB : 0 < B) (hn : 1 ≤ num_buckets) (t : LinearProbeHashTable K V)
    (ht : t = new B comparator num_buckets hash_fn first_page_id) :
    t.GetSize = num_buckets ∧
    t.header_page_id_ = first_page_id ∧
    (t.header_pages t.header_page_id_).GetSize = num_buckets ∧
    (t.header_pages t.header_page_id_).NumBlocks = (num_buckets + B - 1) / B ∧
    (∀ i, i < (t.header_pages t.header_page_id_).NumBlocks →
      (t.header_pages t.header_page_id_).GetBlockPageId i = first_page_id + 1 + (i : Int)) ∧
    (∀ i j, (t.block_pages ((t.header_pages t.header_page_id_).GetBlockPageId i)).IsOccupied j
        = false ∧
      (t.block_pages ((t.header_pages t.header_page_id_).GetBlockPageId i)).IsReadable j
        = false) ∧
    ∀ key, GetValue B t key = some (true, []) := by
  have hw : TableWF B t := by rw [ht]; exact new_wf B comparator num_buckets hash_fn first_page_id hB hn
  have hz : ∀ id, t.block_pages id = HashTableBlockPage.zeroed := by
    rw [ht]
    unfold new
    simp only [NewPage]
    apply allocateBlocks_zeroed
    intro id
    show Function.update (fun _ => HashTableBlockPage.zeroed) first_page_id
      HashTableBlockPage.zeroed id = _
    rw [Function.update_apply]
    split <;> rfl
  have hfacts : t.header_page_id_ = first_page_id ∧ t.size_ = num_buckets ∧
      (t.header_pages first_page_id).size_ = num_buckets ∧
      (t.header_pages first_page_id).next_ind_ =
        (if num_buckets % B = 0 then num_buckets / B else num_buckets / B + 1) ∧
      ∀ i, i < (if num_buckets % B = 0 then num_buckets / B else num_buckets / B + 1) →
        (t.header_pages first_page_id).block_page_ids_ i = first_page_id + 1 + (i : Int) := by
    rw [ht]
    unfold new
    simp only [NewPage]
    generalize hT : (
      { header_page_id_ := first_page_id, size_ := num_buckets, comparator_ := comparator,
        hash_fn_ := hash_fn,
        header_pages := Function.update
          (Function.update (fun _ => HashTableHeaderPage.zeroed) first_page_id
            HashTableHeaderPage.zeroed) first_page_id
          (((Function.update (fun _ => HashTableHeaderPage.zeroed) first_page_id
            HashTableHeaderPage.zeroed first_page_id).SetPageId first_page_id).SetSize num_buckets),
        block_pages := Function.update (fun _ => HashTableBlockPage.zeroed) first_page_id
          HashTableBlockPage.zeroed,
        next_page_id_ := first_page_id + 1 } : LinearProbeHashTable K V) = T
    have e1 : (T.header_pages first_page_id).size_ = num_buckets := by
      rw [← hT]
      simp only [Function.update_same, HashTableHeaderPage.SetSize]
    have e2 : (T.header_pages first_page_id).next_ind_ = 0 := by
      rw [← hT]
      simp only [Function.update_same, HashTableHeaderPage.SetSize, HashTableHeaderPage.SetPageId,
        HashTableHeaderPage.zeroed]
    have e3 : T.next_page_id_ = first_page_id + 1 := by rw [← hT]
    have e4 : T.header_page_id_ = first_page_id := by rw [← hT]
    have e5 : T.size_ = num_buckets := by rw [← hT]
    obtain ⟨h1, h2, -, h4, h5, -, -⟩ := allocateBlocks_spec first_page_id
      (if num_buckets % B = 0 then num_buckets / B else num_buckets / B + 1) T (by rw [e3]; omega)
    have hids := allocateBlocks_ids first_page_id
      (if num_buckets % B = 0 then num_buckets / B else num_buckets / B + 1) T (by rw [e3]; omega)
    refine ⟨h4.trans e4, h5.trans e5, h1.trans e1, ?_, ?_⟩
    · rw [h2, e2, Nat.zero_add]
    · intro i hi
      rw [hids i, e2, e3, if_pos ⟨Nat.zero_le _, by omega⟩, Nat.sub_zero]
  obtain ⟨f1, f2, f3, f4, f5⟩ := hfacts
  refine ⟨f2, f1, ?_, ?_, ?_, ?_, fun key => GetValue_of_zeroed B t hw hz key⟩
  · rw [f1]; exact f3
  · rw [f1, HashTableHeaderPage.NumBlocks, f4]; exact ceil_div_eq B num_buckets hB
  · intro i hi
    rw [f1, HashTableHeaderPage.NumBlocks, f4] at hi
    rw [f1]; exact f5 i hi
  · intro i j
    rw [hz]
    exact ⟨rfl, rfl⟩

end LinearProbeHashTable

set_option maxRecDepth 100000 in
/-- Witness for C21: the `<int, int>` table with `BLOCK_ARRAY_SIZE = 496` and
1000 buckets, constructed when the next page id is 0: header page 0 and the
three block pages 1, 2, 3. -/
theorem C21_witness :
    (0 < 496 ∧ 1 ≤ 1000) ∧
    ((Scenario.emptyTable 1000).header_pages (Scenario.emptyTable 1000).header_page_id_).NumBlocks
      = 3 ∧
    ((Scenario.emptyTable 1000).GetSize = 1000 ∧
    (Scenario.emptyTable 1000).header_page_id_ = 0 ∧
    ((Scenario.emptyTable 1000).header_pages (Scenario.emptyTable 1000).header_page_id_).GetSize
      = 1000 ∧
    ((Scenario.emptyTable 1000).header_pages (Scenario.emptyTable 1000).header_page_id_).NumBlocks
      = (1000 + 496 - 1) / 496 ∧
    (∀ i, i < ((Scenario.emptyTable 1000).header_pages
        (Scenario.emptyTable 1000).header_page_id_).NumBlocks →
      ((Scenario.emptyTable 1000).header_pages
        (Scenario.emptyTable 1000).header_page_id_).GetBlockPageId i = 0 + 1 + (i : Int)) ∧
    (∀ i j, ((Scenario.emptyTable 1000).block_pages (((Scenario.emptyTable 1000).header_pages
        (Scenario.emptyTable 1000).header_page_id_).GetBlockPageId i)).IsOccupied j = false ∧
      ((Scenario.emptyTable 1000).block_pages (((Scenario.emptyTable 1000).header_pages
        (Scenario.emptyTable 1000).header_page_id_).GetBlockPageId i)).IsReadable j = false) ∧
    ∀ key, LinearProbeHashTable.GetValue 496 (Scenario.emptyTable 1000) key = some (true, [])) :=
  ⟨⟨by decide, by decide⟩, by decide,
    LinearProbeHashTable.C21_initial_construction 496 Scenario.IntComparator 1000 Scenario.idHash 0
      (by decide) (by decide) (Scenario.emptyTable 1000) rfl⟩

namespace LinearProbeHashTable

/-! ## The probe sequence -/

theorem maxBucketIndex_pos (B nb nblk cb : Nat) (hB : 0 < B) :
    0 < maxBucketIndex B nb nblk cb := by
  unfold maxBucketIndex
  split
  · rename_i h; omega
  · exact hB

theorem maxBucketIndex_le (B nb nblk cb : Nat) (hB : 0 < B) :
    maxBucketIndex B nb nblk cb ≤ B := by
  unfold maxBucketIndex
  split
  · exact Nat.le_of_lt (Nat.mod_lt _ hB)
  · exact Nat.le_refl _

theorem maxBucketIndex_of_ne_last (B nb nblk cb : Nat) (h : cb ≠ nblk - 1) :
    maxBucketIndex B nb nblk cb = B := by
  unfold maxBucketIndex
  rw [if_neg (fun hc => h hc.2)]

/-- The slots of block `cb` end at or before the capacity. -/
theorem block_bound (B nb nblk cb : Nat) (hB : 0 < B) (hcb : cb < nblk) :
    cb * B + maxBucketIndex B nb nblk cb ≤ probeCapacity B nb nblk := by
  unfold probeCapacity
  by_cases h : cb = nblk - 1
  · rw [h]
  · have h1 : (cb + 1) * B ≤ (nblk - 1) * B := Nat.mul_le_mul_right B (by omega)
    have h2 := maxBucketIndex_le B nb nblk cb hB
    rw [Nat.add_mul, Nat.one_mul] at h1
    omega

theorem probeCapacity_pos (B nb nblk : Nat) (hB : 0 < B) : 0 < probeCapacity B nb nblk := by
  unfold probeCapacity
  have := maxBucketIndex_pos B nb nblk (nblk - 1) hB
  omega

/-- One step in probe order stays inside the table and adds one to the slot
number `block * B + bucket`, modulo the capacity. -/
theorem nextSlot_valid (B nb nblk : Nat) (hB : 0 < B) (p : Nat × Nat)
    (hp : SlotValid B nb nblk p) :
    SlotValid B nb nblk (nextSlot B nb nblk p) ∧
    (nextSlot B nb nblk p).1 * B + (nextSlot B nb nblk p).2 =
      (p.1 * B + p.2 + 1) % probeCapacity B nb nblk := by
  obtain ⟨cb, ci⟩ := p
  obtain ⟨h1, h2⟩ := hp
  simp only at h1 h2
  have hbb := block_bound B nb nblk cb hB h1
  unfold nextSlot
  simp only
  by_cases hin : ci + 1 < maxBucketIndex B nb nblk cb
  · rw [if_pos hin]
    refine ⟨⟨h1, hin⟩, ?_⟩
    simp only
    rw [Nat.mod_eq_of_lt (by omega)]
    omega
  · rw [if_neg hin]
    have hnb : 0 < nblk := by omega
    refine ⟨⟨Nat.mod_lt _ hnb, maxBucketIndex_pos _ _ _ _ hB⟩, ?_⟩
    simp only
    by_cases hl : cb = nblk - 1
    · have e : (cb + 1) % nblk = 0 := by
        rw [hl, Nat.sub_add_cancel hnb, Nat.mod_self]
      rw [e]
      have e2 : cb * B + ci + 1 = probeCapacity B nb nblk := by
        unfold probeCapacity
        rw [← hl]
        omega
      rw [e2, Nat.mod_self]
      omega
    · have e : (cb + 1) % nblk = cb + 1 := Nat.mod_eq_of_lt (by omega)
      rw [e]
      have hm := maxBucketIndex_of_ne_last B nb nblk cb hl
      have hb2 := block_bound B nb nblk (cb + 1) hB (by omega)
      have hp2 := maxBucketIndex_pos B nb nblk (cb + 1) hB
      have e3 : (cb + 1) * B = cb * B + B := by rw [Nat.add_mul, Nat.one_mul]
      rw [Nat.mod_eq_of_lt (by omega)]
      omega

/-- The `j`-th slot of a probe sequence is a slot of the table with slot number
`(start number + j) mod capacity`. -/
theorem probeSlot_valid (B nb nblk : Nat) (hB : 0 < B) (p : Nat × Nat)
    (hp : SlotValid B nb nblk p) (j : Nat) :
    SlotValid B nb nblk (probeSlot B nb nblk p j) ∧
    (probeSlot B nb nblk p j).1 * B + (probeSlot B nb nblk p j).2 =
      (p.1 * B + p.2 + j) % probeCapacity B nb nblk := by
  induction j with
  | zero =>
    refine ⟨hp, ?_⟩
    have := block_bound B nb nblk p.1 hB hp.1
    have := hp.2
    rw [Nat.add_zero, Nat.mod_eq_of_lt (by omega)]
    rfl
  | succ j ih =>
    obtain ⟨h1, h2⟩ := nextSlot_valid B nb nblk hB _ ih.1
    refine ⟨h1, ?_⟩
    show (nextSlot B nb nblk (probeSlot B nb nblk p j)).1 * B +
      (nextSlot B nb nblk (probeSlot B nb nblk p j)).2 = _
    rw [h2, ih.2, Nat.mod_add_mod]
    rfl

/-- Two slots of the table with the same slot number are the same slot. -/
theorem slot_eq_of_number (B nb nblk : Nat) (hB : 0 < B) (p q : Nat × Nat)
    (hp : SlotValid B nb nblk p) (hq : SlotValid B nb nblk q)
    (h : p.1 * B + p.2 = q.1 * B + q.2) : p = q := by
  have hp2 := Nat.lt_of_lt_of_le hp.2 (maxBucketIndex_le B nb nblk p.1 hB)
  have hq2 := Nat.lt_of_lt_of_le hq.2 (maxBucketIndex_le B nb nblk q.1 hB)
  have e1 : (p.1 * B + p.2) / B = p.1 := by
    rw [Nat.mul_comm, Nat.mul_add_div hB, Nat.div_eq_of_lt hp2, Nat.add_zero]
  have e2 : (q.1 * B + q.2) / B = q.1 := by
    rw [Nat.mul_comm, Nat.mul_add_div hB, Nat.div_eq_of_lt hq2, Nat.add_zero]
  have e3 : p.1 = q.1 := by rw [← e1, ← e2, h]
  have e4 : p.2 = q.2 := by
    rw [e3] at h
    omega
  exact Prod.ext e3 e4

/-- The first `capacity` slots of a probe sequence are pairwise different. -/
theorem probeSlot_injective (B nb nblk : Nat) (hB : 0 < B) (p : Nat × Nat)
    (hp : SlotValid B nb nblk p) (i j : Nat) (hi : i < probeCapacity B nb nblk)
    (hj : j < probeCapacity B nb nblk)
    (h : probeSlot B nb nblk p i = probeSlot B nb nblk p j) : i = j := by
  have h1 := (probeSlot_valid B nb nblk hB p hp i).2
  have h2 := (probeSlot_valid B nb nblk hB p hp j).2
  rw [h, h2] at h1
  have h3 : i ≡ j [MOD probeCapacity B nb nblk] := Nat.ModEq.add_left_cancel' _ h1.symm
  unfold Nat.ModEq at h3
  rw [Nat.mod_eq_of_lt hi, Nat.mod_eq_of_lt hj] at h3
  exact h3

/-- After `capacity` steps a probe sequence is back at its start, and so on. -/
theorem probeSlot_period (B nb nblk : Nat) (hB : 0 < B) (p : Nat × Nat)
    (hp : SlotValid B nb nblk p) (j : Nat) :
    probeSlot B nb nblk p (j % probeCapacity B nb nblk) = probeSlot B nb nblk p j := by
  obtain ⟨v1, h1⟩ := probeSlot_valid B nb nblk hB p hp (j % probeCapacity B nb nblk)
  obtain ⟨v2, h2⟩ := probeSlot_valid B nb nblk hB p hp j
  apply slot_eq_of_number B nb nblk hB _ _ v1 v2
  rw [h1, h2, Nat.add_mod_mod]

theorem probeSlot_capacity (B nb nblk : Nat) (hB : 0 < B) (p : Nat × Nat)
    (hp : SlotValid B nb nblk p) :
    probeSlot B nb nblk p (probeCapacity B nb nblk) = p := by
  rw [← probeSlot_period B nb nblk hB p hp, Nat.mod_self]
  rfl

theorem probeSlot_ne_start (B nb nblk : Nat) (hB : 0 < B) (p : Nat × Nat)
    (hp : SlotValid B nb nblk p) (j : Nat) (h0 : 0 < j) (hj : j < probeCapacity B nb nblk) :
    probeSlot B nb nblk p j ≠ p := by
  intro h
  have := probeSlot_injective B nb nblk hB p hp j 0 hj (probeCapacity_pos B nb nblk hB) h
  omega

end LinearProbeHashTable

namespace LinearProbeHashTable

variable {K V : Type}

/-- The probe loop of `GetValue` at a slot that is not the end of the cycle and
is not occupied: it returns what it has collected. -/
theorem getValueProbe_stop (B : Nat) (t : LinearProbeHashTable K V) (key : K)
    (hdr : HashTableHeaderPage) (nb nblk bi bu fuel cb ci : Nat) (first : Bool) (acc : List V)
    (hci : ci < maxBucketIndex B nb nblk cb)
    (hc : ¬ (decide (cb = bi ∧ ci = bu) && !first) = true)
    (ho : (t.block_pages (hdr.GetBlockPageId cb)).IsOccupied ci = false) :
    getValueProbe B t key hdr nb nblk bi bu (fuel + 1) cb ci first acc = some (true, acc) := by
  obtain ⟨n, hn⟩ : ∃ n, maxBucketIndex B nb nblk cb - ci = n + 1 := ⟨_, (Nat.succ_pred_eq_of_pos
    (by omega)).symm⟩
  rw [getValueProbe, hn, getValueScan_unoccupied _ _ _ _ _ _ _ _ _ _ hc ho]

/-- The probe loop of `GetValue` back at its start position: it returns what it
has collected. -/
theorem getValueProbe_cycle (B : Nat) (t : LinearProbeHashTable K V) (key : K)
    (hdr : HashTableHeaderPage) (nb nblk bi bu fuel cb ci : Nat) (first : Bool) (acc : List V)
    (hci : ci < maxBucketIndex B nb nblk cb)
    (hc : (decide (cb = bi ∧ ci = bu) && !first) = true) :
    getValueProbe B t key hdr nb nblk bi bu (fuel + 1) cb ci first acc = some (true, acc) := by
  obtain ⟨n, hn⟩ : ∃ n, maxBucketIndex B nb nblk cb - ci = n + 1 := ⟨_, (Nat.succ_pred_eq_of_pos
    (by omega)).symm⟩
  rw [getValueProbe, hn, getValueScan_cycle _ _ _ _ _ _ _ _ _ _ hc]

/-- One step of the probe loop of `GetValue` over an occupied slot: the loop
goes on at the next slot in probe order, with the value of the slot appended if
the slot is readable and its key compares equal. -/
theorem getValueProbe_step (B : Nat) (t : LinearProbeHashTable K V) (key : K)
    (hdr : HashTableHeaderPage) (nb nblk bi bu fuel cb ci : Nat) (first : Bool) (acc : List V)
    (x : Bool × List V)
    (hci : ci < maxBucketIndex B nb nblk cb)
    (hc : ¬ (decide (cb = bi ∧ ci = bu) && !first) = true)
    (ho : (t.block_pages (hdr.GetBlockPageId cb)).IsOccupied ci = true)
    (h : getValueProbe B t key hdr nb nblk bi bu (fuel + 1) cb ci first acc = some x) :
    ∃ fuel1, getValueProbe B t key hdr nb nblk bi bu fuel1 (nextSlot B nb nblk (cb, ci)).1
      (nextSlot B nb nblk (cb, ci)).2 (nextFirst bi bu cb ci first)
      (if (t.block_pages (hdr.GetBlockPageId cb)).IsReadable ci = true ∧
          t.comparator_ key ((t.block_pages (hdr.GetBlockPageId cb)).KeyAt ci) = 0
        then acc ++ [(t.block_pages (hdr.GetBlockPageId cb)).ValueAt ci] else acc) = some x := by
  obtain ⟨n, hn⟩ : ∃ n, maxBucketIndex B nb nblk cb - ci = n + 1 := ⟨_, (Nat.succ_pred_eq_of_pos
    (by omega)).symm⟩
  rw [getValueProbe, hn] at h
  have hscan : getValueScan t.comparator_ key (t.block_pages (hdr.GetBlockPageId cb)) bi bu cb
      (n + 1) ci first acc =
      getValueScan t.comparator_ key (t.block_pages (hdr.GetBlockPageId cb)) bi bu cb
      n (ci + 1) (nextFirst bi bu cb ci first)
      (if (t.block_pages (hdr.GetBlockPageId cb)).IsReadable ci = true ∧
          t.comparator_ key ((t.block_pages (hdr.GetBlockPageId cb)).KeyAt ci) = 0
        then acc ++ [(t.block_pages (hdr.GetBlockPageId cb)).ValueAt ci] else acc) := by
    by_cases hr : (t.block_pages (hdr.GetBlockPageId cb)).IsReadable ci = true ∧
        t.comparator_ key ((t.block_pages (hdr.GetBlockPageId cb)).KeyAt ci) = 0
    · rw [if_pos hr, getValueScan_push _ _ _ _ _ _ _ _ _ _ hc ho hr.1 hr.2]
    · rw [if_neg hr, getValueScan_skip _ _ _ _ _ _ _ _ _ _ hc ho hr]
  rw [hscan] at h
  unfold nextSlot
  simp only
  by_cases hin : ci + 1 < maxBucketIndex B nb nblk cb
  · rw [if_pos hin]
    refine ⟨fuel + 1, ?_⟩
    rw [getValueProbe]
    have e : maxBucketIndex B nb nblk cb - (ci + 1) = n := by omega
    rw [e]
    exact h
  · rw [if_neg hin]
    have e : n = 0 := by omega
    rw [e, getValueScan_zero] at h
    exact ⟨fuel, h⟩

/-- From the `m`-th slot of its probe sequence on, the probe loop of `GetValue`
collects what one pass over the remaining slots of the cycle collects. -/
theorem getValueProbe_collect (B : Nat) (t : LinearProbeHashTable K V) (key : K)
    (hdr : HashTableHeaderPage) (nb nblk bi bu : Nat) (hB : 0 < B)
    (hv : SlotValid B nb nblk (bi, bu)) (k : Nat) :
    ∀ (m fuel : Nat) (acc : List V) (x : Bool × List V),
    m + k = probeCapacity B nb nblk →
    getValueProbe B t key hdr nb nblk bi bu fuel (probeSlot B nb nblk (bi, bu) m).1
      (probeSlot B nb nblk (bi, bu) m).2 (decide (m = 0)) acc = some x →
    x = (true, acc ++ collectValues t.comparator_ key
      (fun cb => t.block_pages (hdr.GetBlockPageId cb))
      ((List.range' m k).map (probeSlot B nb nblk (bi, bu)))) := by
  induction k with
  | zero =>
    intro m fuel acc x hm h
    rw [Nat.add_zero] at hm
    subst hm
    have hpos := probeCapacity_pos B nb nblk hB
    have hm0 : decide (probeCapacity B nb nblk = 0) = false := by
      rw [decide_eq_false_iff_not]; omega
    rw [probeSlot_capacity B nb nblk hB _ hv, hm0] at h
    cases fuel with
    | zero => simp [getValueProbe] at h
    | succ fuel =>
      rw [getValueProbe_cycle B t key hdr nb nblk bi bu fuel bi bu false acc hv.2 (by simp)] at h
      simp only [Option.some.injEq] at h
      rw [← h]
      simp [collectValues]
  | succ k ih =>
    intro m fuel acc x hm h
    obtain ⟨valid, -⟩ := probeSlot_valid B nb nblk hB (bi, bu) hv m
    have hc : ¬ (decide ((probeSlot B nb nblk (bi, bu) m).1 = bi ∧
        (probeSlot B nb nblk (bi, bu) m).2 = bu) && !(decide (m = 0))) = true := by
      by_cases h0 : m = 0
      · simp [h0]
      · have hne := probeSlot_ne_start B nb nblk hB (bi, bu) hv m (by omega) (by omega)
        have : ¬ ((probeSlot B nb nblk (bi, bu) m).1 = bi ∧
            (probeSlot B nb nblk (bi, bu) m).2 = bu) := fun hh => hne (Prod.ext hh.1 hh.2)
        simp [this]
    rw [List.range'_succ, List.map_cons, collectValues]
    cases fuel with
    | zero => simp [getValueProbe] at h
    | succ fuel =>
      cases ho : (t.block_pages (hdr.GetBlockPageId (probeSlot B nb nblk (bi, bu) m).1)).IsOccupied
          (probeSlot B nb nblk (bi, bu) m).2 with
      | false =>
        rw [getValueProbe_stop B t key hdr nb nblk bi bu fuel _ _ _ acc valid.2 hc ho] at h
        simp only [Option.some.injEq] at h
        rw [← h]
        simp
      | true =>
        obtain ⟨fuel1, h1⟩ := getValueProbe_step B t key hdr nb nblk bi bu fuel _ _ _ acc x
          valid.2 hc ho h
        have hf : nextFirst bi bu (probeSlot B nb nblk (bi, bu) m).1
            (probeSlot B nb nblk (bi, bu) m).2 (decide (m = 0)) = decide (m + 1 = 0) := by
          unfold nextFirst
          by_cases h0 : m = 0
          · subst h0
            simp [probeSlot]
          · simp [h0]
        rw [hf] at h1
        have := ih (m + 1) fuel1 _ x (by omega) h1
        rw [this]
        simp only [if_true]
        split
        · simp
        · rfl

/-- `GetValue` returns true with the values that one pass over the first
`capacity` slots of the probe sequence of `key` collects. -/
theorem GetValue_eq_collect (B : Nat) (t : LinearProbeHashTable K V)
    (g : Geometry B (t.header_pages t.header_page_id_).GetSize
      (t.header_pages t.header_page_id_).NumBlocks) (key : K) :
    GetValue B t key = some (true,
      collectValues t.comparator_ key (blockAt t) (probeSlots B t key)) := by
  have hs : t.hash_fn_ key % (t.header_pages t.header_page_id_).GetSize <
      (t.header_pages t.header_page_id_).GetSize := Nat.mod_lt _ g.buckets_pos
  have hv : SlotValid B (t.header_pages t.header_page_id_).GetSize
      (t.header_pages t.header_page_id_).NumBlocks (homeSlot B t key) :=
    ⟨g.home_block_lt _ hs, g.home_bucket_lt _ hs⟩
  have hret := getValueProbe_returns B t key (t.header_pages t.header_page_id_) _ _ g _ hs
  cases hg : getValueProbe B t key (t.header_pages t.header_page_id_)
      (t.header_pages t.header_page_id_).GetSize (t.header_pages t.header_page_id_).NumBlocks
      ((t.hash_fn_ key % (t.header_pages t.header_page_id_).GetSize) / B)
      ((t.hash_fn_ key % (t.header_pages t.header_page_id_).GetSize) % B)
      ((t.header_pages t.header_page_id_).NumBlocks + 1)
      ((t.hash_fn_ key % (t.header_pages t.header_page_id_).GetSize) / B)
      ((t.hash_fn_ key % (t.header_pages t.header_page_id_).GetSize) % B) true [] with
  | none => rw [hg] at hret; cases hret
  | some x =>
    have := getValueProbe_collect B t key (t.header_pages t.header_page_id_) _ _ _ _ g.block_pos hv
      (probeCapacity B (t.header_pages t.header_page_id_).GetSize
        (t.header_pages t.header_page_id_).NumBlocks) 0 _ [] x (Nat.zero_add _) hg
    rw [List.nil_append, ← List.range_eq_range'] at this
    show getValueProbe B t key (t.header_pages t.header_page_id_)
      (t.header_pages t.header_page_id_).GetSize (t.header_pages t.header_page_id_).NumBlocks
      ((t.hash_fn_ key % (t.header_pages t.header_page_id_).GetSize) / B)
      ((t.hash_fn_ key % (t.header_pages t.header_page_id_).GetSize) % B)
      ((t.header_pages t.header_page_id_).NumBlocks + 1)
      ((t.hash_fn_ key % (t.header_pages t.header_page_id_).GetSize) / B)
      ((t.hash_fn_ key % (t.header_pages t.header_page_id_).GetSize) % B) true [] = _
    rw [hg, this]
    rfl

end LinearProbeHashTable

namespace LinearProbeHashTable

variable {K V : Type}

theorem insertScan_zero [DecidableEq V] (cmp : K → K → Int) (key : K) (value : V)
    (page : HashTableBlockPage K V) (bi bu cb i : Nat) (first : Bool) :
    insertScan cmp key value page bi bu cb 0 i first = ScanExit.finished first () := rfl

theorem insertScan_cycle [DecidableEq V] (cmp : K → K → Int) (key : K) (value : V)
    (page : HashTableBlockPage K V) (bi bu cb n i : Nat) (first : Bool)
    (hc : (decide (cb = bi ∧ i = bu) && !first) = true) :
    insertScan cmp key value page bi bu cb (n + 1) i first = ScanExit.cycled () := by
  rw [insertScan, if_pos hc]

theorem insertScan_write [DecidableEq V] (cmp : K → K → Int) (key : K) (value : V)
    (page : HashTableBlockPage K V) (bi bu cb n i : Nat) (first : Bool)
    (hc : ¬ (decide (cb = bi ∧ i = bu) && !first) = true) (hr : page.IsReadable i = false) :
    insertScan cmp key value page bi bu cb (n + 1) i first
      = ScanExit.returned (true, (page.Insert i key value).2) := by
  rw [insertScan, if_neg hc, if_neg (by rw [hr]; exact Bool.false_ne_true)]

theorem insertScan_dup [DecidableEq V] (cmp : K → K → Int) (key : K) (value : V)
    (page : HashTableBlockPage K V) (bi bu cb n i : Nat) (first : Bool)
    (hc : ¬ (decide (cb = bi ∧ i = bu) && !first) = true) (hr : page.IsReadable i = true)
    (hk : cmp key (page.KeyAt i) = 0 ∧ value = page.ValueAt i) :
    insertScan cmp key value page bi bu cb (n + 1) i first = ScanExit.returned (false, page) := by
  rw [insertScan, if_neg hc, if_pos hr, if_pos hk]

theorem insertScan_skip [DecidableEq V] (cmp : K → K → Int) (key : K) (value : V)
    (page : HashTableBlockPage K V) (bi bu cb n i : Nat) (first : Bool)
    (hc : ¬ (decide (cb = bi ∧ i = bu) && !first) = true) (hr : page.IsReadable i = true)
    (hk : ¬ (cmp key (page.KeyAt i) = 0 ∧ value = page.ValueAt i)) :
    insertScan cmp key value page bi bu cb (n + 1) i first =
      insertScan cmp key value page bi bu cb n (i + 1) (nextFirst bi bu cb i first) := by
  rw [insertScan, if_neg hc, if_pos hr, if_neg hk]
  rfl

/-- The probe loop of `Insert` back at its start position: a full cycle. -/
theorem insertProbe_cycle [DecidableEq V] (B : Nat) (t : LinearProbeHashTable K V) (key : K)
    (value : V) (hdr : HashTableHeaderPage) (nb nblk bi bu fuel cb ci : Nat) (first : Bool)
    (hci : ci < maxBucketIndex B nb nblk cb)
    (hc : (decide (cb = bi ∧ ci = bu) && !first) = true) :
    insertProbe B t key value hdr nb nblk bi bu (fuel + 1) cb ci first = some (none, t) := by
  obtain ⟨n, hn⟩ : ∃ n, maxBucketIndex B nb nblk cb - ci = n + 1 := ⟨_, (Nat.succ_pred_eq_of_pos
    (by omega)).symm⟩
  rw [insertProbe, hn, insertScan_cycle _ _ _ _ _ _ _ _ _ _ hc]

/-- The probe loop of `Insert` at a slot that is not readable: the pair is
written into that slot. -/
theorem insertProbe_write [DecidableEq V] (B : Nat) (t : LinearProbeHashTable K V) (key : K)
    (value : V) (hdr : HashTableHeaderPage) (nb nblk bi bu fuel cb ci : Nat) (first : Bool)
    (hci : ci < maxBucketIndex B nb nblk cb)
    (hc : ¬ (decide (cb = bi ∧ ci = bu) && !first) = true)
    (hr : (t.block_pages (hdr.GetBlockPageId cb)).IsReadable ci = false) :
    insertProbe B t key value hdr nb nblk bi bu (fuel + 1) cb ci first =
      some (some true, { t with block_pages := (Function.update t.block_pages
        (hdr.GetBlockPageId cb)
        ((t.block_pages (hdr.GetBlockPageId cb)).Insert ci key value).2) }) := by
  obtain ⟨n, hn⟩ : ∃ n, maxBucketIndex B nb nblk cb - ci = n + 1 := ⟨_, (Nat.succ_pred_eq_of_pos
    (by omega)).symm⟩
  rw [insertProbe, hn, insertScan_write _ _ _ _ _ _ _ _ _ _ hc hr]

/-- The probe loop of `Insert` at a readable slot that holds the pair: the
table is left as it is. -/
theorem insertProbe_dup [DecidableEq V] (B : Nat) (t : LinearProbeHashTable K V) (key : K)
    (value : V) (hdr : HashTableHeaderPage) (nb nblk bi bu fuel cb ci : Nat) (first : Bool)
    (hci : ci < maxBucketIndex B nb nblk cb)
    (hc : ¬ (decide (cb = bi ∧ ci = bu) && !first) = true)
    (hr : (t.block_pages (hdr.GetBlockPageId cb)).IsReadable ci = true)
    (hk : t.comparator_ key ((t.block_pages (hdr.GetBlockPageId cb)).KeyAt ci) = 0 ∧
      value = (t.block_pages (hdr.GetBlockPageId cb)).ValueAt ci) :
    insertProbe B t key value hdr nb nblk bi bu (fuel + 1) cb ci first = some (some false, t) := by
  obtain ⟨n, hn⟩ : ∃ n, maxBucketIndex B nb nblk cb - ci = n + 1 := ⟨_, (Nat.succ_pred_eq_of_pos
    (by omega)).symm⟩
  rw [insertProbe, hn, insertScan_dup _ _ _ _ _ _ _ _ _ _ hc hr hk]
  simp only [Function.update_eq_self]

/-- One step of the probe loop of `Insert` over a readable slot that does not
hold the pair: the loop goes on at the next slot in probe order. -/
theorem insertProbe_step [DecidableEq V] (B : Nat) (t : LinearProbeHashTable K V) (key : K)
    (value : V) (hdr : HashTableHeaderPage) (nb nblk bi bu fuel cb ci : Nat) (first : Bool)
    (x : Option Bool × LinearProbeHashTable K V)
    (hci : ci < maxBucketIndex B nb nblk cb)
    (hc : ¬ (decide (cb = bi ∧ ci = bu) && !first) = true)
    (hr : (t.block_pages (hdr.GetBlockPageId cb)).IsReadable ci = true)
    (hk : ¬ (t.comparator_ key ((t.block_pages (hdr.GetBlockPageId cb)).KeyAt ci) = 0 ∧
      value = (t.block_pages (hdr.GetBlockPageId cb)).ValueAt ci))
    (h : insertProbe B t key value hdr nb nblk bi bu (fuel + 1) cb ci first = some x) :
    ∃ fuel1, insertProbe B t key value hdr nb nblk bi bu fuel1 (nextSlot B nb nblk (cb, ci)).1
      (nextSlot B nb nblk (cb, ci)).2 (nextFirst bi bu cb ci first) = some x := by
  obtain ⟨n, hn⟩ : ∃ n, maxBucketIndex B nb nblk cb - ci = n + 1 := ⟨_, (Nat.succ_pred_eq_of_pos
    (by omega)).symm⟩
  rw [insertProbe, hn, insertScan_skip _ _ _ _ _ _ _ _ _ _ hc hr hk] at h
  unfold nextSlot
  simp only
  by_cases hin : ci + 1 < maxBucketIndex B nb nblk cb
  · rw [if_pos hin]
    refine ⟨fuel + 1, ?_⟩
    rw [insertProbe]
    have e : maxBucketIndex B nb nblk cb - (ci + 1) = n := by omega
    rw [e]
    exact h
  · rw [if_neg hin]
    have e : n = 0 := by omega
    rw [e, insertScan_zero] at h
    exact ⟨fuel, h⟩

/-- What the probe loop of `Insert` does from the `m`-th slot of its probe
sequence on: it passes readable slots that do not hold the pair and ends at the
first slot that is not readable (the pair is written there), at the first slot
that holds the pair (nothing changes), or with a full cycle. -/
theorem insertProbe_walk [DecidableEq V] (B : Nat) (t : LinearProbeHashTable K V) (key : K)
    (value : V) (hdr : HashTableHeaderPage) (nb nblk bi bu : Nat) (hB : 0 < B)
    (hv : SlotValid B nb nblk (bi, bu)) (k : Nat) :
    ∀ (m fuel : Nat) (x : Option Bool × LinearProbeHashTable K V),
    m + k = probeCapacity B nb nblk →
    insertProbe B t key value hdr nb nblk bi bu fuel (probeSlot B nb nblk (bi, bu) m).1
      (probeSlot B nb nblk (bi, bu) m).2 (decide (m = 0)) = some x →
    ∃ j, m ≤ j ∧ j ≤ probeCapacity B nb nblk ∧
      (∀ i, m ≤ i → i < j →
        (t.block_pages (hdr.GetBlockPageId (probeSlot B nb nblk (bi, bu) i).1)).IsReadable
          (probeSlot B nb nblk (bi, bu) i).2 = true ∧
        ¬ (t.comparator_ key ((t.block_pages (hdr.GetBlockPageId
            (probeSlot B nb nblk (bi, bu) i).1)).KeyAt (probeSlot B nb nblk (bi, bu) i).2) = 0 ∧
          value = (t.block_pages (hdr.GetBlockPageId
            (probeSlot B nb nblk (bi, bu) i).1)).ValueAt (probeSlot B nb nblk (bi, bu) i).2)) ∧
      ((j = probeCapacity B nb nblk ∧ x = (none, t)) ∨
       (j < probeCapacity B nb nblk ∧
        (t.block_pages (hdr.GetBlockPageId (probeSlot B nb nblk (bi, bu) j).1)).IsReadable
          (probeSlot B nb nblk (bi, bu) j).2 = true ∧
        (t.comparator_ key ((t.block_pages (hdr.GetBlockPageId
            (probeSlot B nb nblk (bi, bu) j).1)).KeyAt (probeSlot B nb nblk (bi, bu) j).2) = 0 ∧
          value = (t.block_pages (hdr.GetBlockPageId
            (probeSlot B nb nblk (bi, bu) j).1)).ValueAt (probeSlot B nb nblk (bi, bu) j).2) ∧
        x = (some false, t)) ∨
       (j < probeCapacity B nb nblk ∧
        (t.block_pages (hdr.GetBlockPageId (probeSlot B nb nblk (bi, bu) j).1)).IsReadable
          (probeSlot B nb nblk (bi, bu) j).2 = false ∧
        x = (some true, { t with block_pages := (Function.update t.block_pages
          (hdr.GetBlockPageId (probeSlot B nb nblk (bi, bu) j).1)
          ((t.block_pages (hdr.GetBlockPageId (probeSlot B nb nblk (bi, bu) j).1)).Insert
            (probeSlot B nb nblk (bi, bu) j).2 key value).2) }))) := by
  induction k with
  | zero =>
    intro m fuel x hm h
    rw [Nat.add_zero] at hm
    subst hm
    have hpos := probeCapacity_pos B nb nblk hB
    have hm0 : decide (probeCapacity B nb nblk = 0) = false := by
      rw [decide_eq_false_iff_not]; omega
    rw [probeSlot_capacity B nb nblk hB _ hv, hm0] at h
    cases fuel with
    | zero => simp [insertProbe] at h
    | succ fuel =>
      rw [insertProbe_cycle B t key value hdr nb nblk bi bu fuel bi bu false hv.2 (by simp)] at h
      simp only [Option.some.injEq] at h
      exact ⟨_, Nat.le_refl _, Nat.le_refl _, fun i h1 h2 => absurd h2 (by omega),
        Or.inl ⟨rfl, h.symm⟩⟩
  | succ k ih =>
    intro m fuel x hm h
    obtain ⟨valid, -⟩ := probeSlot_valid B nb nblk hB (bi, bu) hv m
    have hc : ¬ (decide ((probeSlot B nb nblk (bi, bu) m).1 = bi ∧
        (probeSlot B nb nblk (bi, bu) m).2 = bu) && !(decide (m = 0))) = true := by
      by_cases h0 : m = 0
      · simp [h0]
      · have hne := probeSlot_ne_start B nb nblk hB (bi, bu) hv m (by omega) (by omega)
        have : ¬ ((probeSlot B nb nblk (bi, bu) m).1 = bi ∧
            (probeSlot B nb nblk (bi, bu) m).2 = bu) := fun hh => hne (Prod.ext hh.1 hh.2)
        simp [this]
    cases fuel with
    | zero => simp [insertProbe] at h
    | succ fuel =>
      cases hr : (t.block_pages (hdr.GetBlockPageId (probeSlot B nb nblk (bi, bu) m).1)).IsReadable
          (probeSlot B nb nblk (bi, bu) m).2 with
      | false =>
        rw [insertProbe_write B t key value hdr nb nblk bi bu fuel _ _ _ valid.2 hc hr] at h
        simp only [Option.some.injEq] at h
        exact ⟨m, Nat.le_refl _, by omega, fun i h1 h2 => absurd h2 (by omega),
          Or.inr (Or.inr ⟨by omega, hr, h.symm⟩)⟩
      | true =>
        by_cases hk : t.comparator_ key ((t.block_pages (hdr.GetBlockPageId
              (probeSlot B nb nblk (bi, bu) m).1)).KeyAt (probeSlot B nb nblk (bi, bu) m).2) = 0 ∧
            value = (t.block_pages (hdr.GetBlockPageId
              (probeSlot B nb nblk (bi, bu) m).1)).ValueAt (probeSlot B nb nblk (bi, bu) m).2
        · rw [insertProbe_dup B t key value hdr nb nblk bi bu fuel _ _ _ valid.2 hc hr hk] at h
          simp only [Option.some.injEq] at h
          exact ⟨m, Nat.le_refl _, by omega, fun i h1 h2 => absurd h2 (by omega),
            Or.inr (Or.inl ⟨by omega, hr, hk, h.symm⟩)⟩
        · obtain ⟨fuel1, h1⟩ := insertProbe_step B t key value hdr nb nblk bi bu fuel _ _ _ x
            valid.2 hc hr hk h
          have hf : nextFirst bi bu (probeSlot B nb nblk (bi, bu) m).1
              (probeSlot B nb nblk (bi, bu) m).2 (decide (m = 0)) = decide (m + 1 = 0) := by
            unfold nextFirst
            by_cases h0 : m = 0
            · subst h0
              simp [probeSlot]
            · simp [h0]
          rw [hf] at h1
          obtain ⟨j, g1, g2, g3, g4⟩ := ih (m + 1) fuel1 x (by omega) h1
          refine ⟨j, by omega, g2, ?_, g4⟩
          intro i hi1 hi2
          by_cases e : i = m
          · rw [e]; exact ⟨hr, hk⟩
          · exact g3 i (by omega) hi2

end LinearProbeHashTable

namespace LinearProbeHashTable

variable {K V : Type}

theorem nextFirst_false (bi bu cb i : Nat) : nextFirst bi bu cb i false = false := by
  unfold nextFirst
  split <;> rfl

/-- If the bucket loop of `Insert` runs to its bound, `first` can only have been
cleared. -/
theorem insertScan_finished_first [DecidableEq V] (cmp : K → K → Int) (key : K) (value : V)
    (page : HashTableBlockPage K V) (bi bu cb : Nat) (n : Nat) :
    ∀ (i : Nat) (first : Bool) (f1 : Bool),
    insertScan cmp key value page bi bu cb n i first = ScanExit.finished f1 () →
    first = false → f1 = false := by
  induction n with
  | zero =>
    intro i first f1 h hf
    rw [insertScan_zero] at h
    simp only [ScanExit.finished.injEq] at h
    rw [← h.1]; exact hf
  | succ n ih =>
    intro i first f1 h hf
    by_cases hc : (decide (cb = bi ∧ i = bu) && !first) = true
    · rw [insertScan_cycle _ _ _ _ _ _ _ _ _ _ hc] at h; cases h
    · cases hr : page.IsReadable i with
      | false => rw [insertScan_write _ _ _ _ _ _ _ _ _ _ hc hr] at h; cases h
      | true =>
        by_cases hk : cmp key (page.KeyAt i) = 0 ∧ value = page.ValueAt i
        · rw [insertScan_dup _ _ _ _ _ _ _ _ _ _ hc hr hk] at h; cases h
        · rw [insertScan_skip _ _ _ _ _ _ _ _ _ _ hc hr hk] at h
          exact ih _ _ _ h (by rw [hf]; exact nextFirst_false _ _ _ _)

/-- If the bucket loop of `Insert` passes the start position and runs to its
bound, it was the first visit of the start position. -/
theorem insertScan_finished_start [DecidableEq V] (cmp : K → K → Int) (key : K) (value : V)
    (page : HashTableBlockPage K V) (bi bu cb : Nat) (n : Nat) :
    ∀ (i : Nat) (first : Bool) (f1 : Bool),
    insertScan cmp key value page bi bu cb n i first = ScanExit.finished f1 () →
    cb = bi → i ≤ bu → bu < i + n → first = true ∧ f1 = false := by
  induction n with
  | zero => intro i first f1 _ _ h1 h2; omega
  | succ n ih =>
    intro i first f1 h hcb h1 h2
    by_cases hc : (decide (cb = bi ∧ i = bu) && !first) = true
    · rw [insertScan_cycle _ _ _ _ _ _ _ _ _ _ hc] at h; cases h
    · cases hr : page.IsReadable i with
      | false => rw [insertScan_write _ _ _ _ _ _ _ _ _ _ hc hr] at h; cases h
      | true =>
        by_cases hk : cmp key (page.KeyAt i) = 0 ∧ value = page.ValueAt i
        · rw [insertScan_dup _ _ _ _ _ _ _ _ _ _ hc hr hk] at h; cases h
        · rw [insertScan_skip _ _ _ _ _ _ _ _ _ _ hc hr hk] at h
          by_cases hi : i = bu
          · have hft : first = true := by
              cases first
              · exfalso; apply hc; simp [hcb, hi]
              · rfl
            refine ⟨hft, ?_⟩
            have hnf : nextFirst bi bu cb i first = false := by
              unfold nextFirst
              rw [if_pos (by simp [hcb, hi])]
            rw [hnf] at h
            exact insertScan_finished_first _ _ _ _ _ _ _ _ _ _ _ h rfl
          · have hnf : nextFirst bi bu cb i first = first := by
              unfold nextFirst
              rw [if_neg (by simp [hi])]
            rw [hnf] at h
            exact ih (i + 1) _ _ h hcb (by omega) (by omega)

/-- After the first visit the probe loop of `Insert` ends within `d + 1` fetched
block pages when the start block is `d` blocks ahead. -/
theorem insertProbe_returns_from [DecidableEq V] (B : Nat) (t : LinearProbeHashTable K V)
    (key : K) (value : V) (hdr : HashTableHeaderPage) (nb nblk bi bu : Nat) (hnblk : 0 < nblk)
    (hbu : bu < maxBucketIndex B nb nblk bi) (d : Nat) :
    ∀ (fuel cb : Nat), d + 1 ≤ fuel → cb < nblk → (cb + d) % nblk = bi →
    (insertProbe B t key value hdr nb nblk bi bu fuel cb 0 false).isSome = true := by
  induction d with
  | zero =>
    intro fuel cb hfuel hcb hd
    obtain ⟨fuel, rfl⟩ : ∃ k, fuel = k + 1 := ⟨fuel - 1, by omega⟩
    rw [Nat.add_zero, Nat.mod_eq_of_lt hcb] at hd
    rw [insertProbe]
    cases hs : insertScan t.comparator_ key value (t.block_pages (hdr.GetBlockPageId cb)) bi bu cb
        (maxBucketIndex B nb nblk cb - 0) 0 false with
    | returned r => rfl
    | cycled r => rfl
    | finished f1 r =>
      exfalso
      have := insertScan_finished_start _ _ _ _ _ _ _ _ _ _ _ hs hd (by omega)
        (by rw [hd]; omega)
      exact Bool.noConfusion this.1
  | succ d ih =>
    intro fuel cb hfuel hcb hd
    obtain ⟨fuel, rfl⟩ : ∃ k, fuel = k + 1 := ⟨fuel - 1, by omega⟩
    rw [insertProbe]
    cases hs : insertScan t.comparator_ key value (t.block_pages (hdr.GetBlockPageId cb)) bi bu cb
        (maxBucketIndex B nb nblk cb - 0) 0 false with
    | returned r => rfl
    | cycled r => rfl
    | finished f1 r =>
      have hf1 := insertScan_finished_first _ _ _ _ _ _ _ _ _ _ _ hs rfl
      simp only [hf1]
      apply ih fuel _ (by omega) (Nat.mod_lt _ hnblk)
      rw [Nat.mod_add_mod, ← hd]
      congr 1
      omega

/-- The probe loop of `Insert` ends within `num_blocks + 1` fetched block pages
when it starts at the home slot of a bucket below `num_buckets`. -/
theorem insertProbe_returns [DecidableEq V] (B : Nat) (t : LinearProbeHashTable K V) (key : K)
    (value : V) (hdr : HashTableHeaderPage) (nb nblk : Nat) (g : Geometry B nb nblk) (s : Nat)
    (hs : s < nb) :
    (insertProbe B t key value hdr nb nblk (s / B) (s % B) (nblk + 1) (s / B) (s % B) true).isSome
      = true := by
  have hnblk := g.blocks_pos
  have hbi := g.home_block_lt s hs
  have hbu := g.home_bucket_lt s hs
  rw [insertProbe]
  cases hsc : insertScan t.comparator_ key value (t.block_pages (hdr.GetBlockPageId (s / B)))
      (s / B) (s % B) (s / B) (maxBucketIndex B nb nblk (s / B) - s % B) (s % B) true with
  | returned r => rfl
  | cycled r => rfl
  | finished f1 r =>
    have hf1 := (insertScan_finished_start _ _ _ _ _ _ _ _ _ _ _ hsc rfl (Nat.le_refl _)
      (by omega)).2
    simp only [hf1]
    apply insertProbe_returns_from B t key value hdr nb nblk (s / B) (s % B) hnblk hbu
      (nblk - 1) nblk _ (by omega) (Nat.mod_lt _ hnblk)
    rw [Nat.mod_add_mod, show s / B + 1 + (nblk - 1) = s / B + nblk by omega, Nat.add_mod_right,
      Nat.mod_eq_of_lt hbi]

end LinearProbeHashTable

theorem HashTableBlockPage.Insert_of_not_readable {K V : Type} (page : HashTableBlockPage K V)
    (j : Nat) (key : K) (value : V) (h : page.IsReadable j = false) :
    (page.Insert j key value).2 =
      { occupied_ := Function.update page.occupied_ j true
        readable_ := Function.update page.readable_ j true
        array_ := Function.update page.array_ j (key, value) } := by
  unfold HashTableBlockPage.Insert HashTableBlockPage.SetReadable HashTableBlockPage.SetOccupied
  simp [h]

/-- The page `HashTableBlockPage::Insert` leaves behind when the slot is not
readable: the slot is occupied and readable and holds the pair, every other slot
is as before. -/
theorem HashTableBlockPage.Insert_slots {K V : Type} (page : HashTableBlockPage K V)
    (j : Nat) (key : K) (value : V) (h : page.IsReadable j = false) :
    (page.Insert j key value).2.IsOccupied j = true ∧
    (page.Insert j key value).2.IsReadable j = true ∧
    (page.Insert j key value).2.array_ j = (key, value) ∧
    ∀ i, i ≠ j →
      (page.Insert j key value).2.occupied_ i = page.occupied_ i ∧
      (page.Insert j key value).2.readable_ i = page.readable_ i ∧
      (page.Insert j key value).2.array_ i = page.array_ i := by
  rw [HashTableBlockPage.Insert_of_not_readable page j key value h]
  refine ⟨?_, ?_, ?_, ?_⟩
  · simp [HashTableBlockPage.IsOccupied]
  · simp [HashTableBlockPage.IsReadable]
  · simp
  · intro i hi
    simp [Function.update_noteq hi]

namespace LinearProbeHashTable

variable {K V : Type}

/-- An `Insert` with a bound of one probe pass is the probe loop without the
`Resize` and the retry. -/
theorem Insert_one [Inhabited K] [Inhabited V] [DecidableEq V] (B : Nat)
    (t : LinearProbeHashTable K V) (key : K) (value : V) (b : Bool)
    (t1 : LinearProbeHashTable K V) :
    Insert B 1 t key value = some (b, t1) ↔
    insertProbe B t key value (t.header_pages t.header_page_id_)
      (t.header_pages t.header_page_id_).GetSize (t.header_pages t.header_page_id_).NumBlocks
      (homeSlot B t key).1 (homeSlot B t key).2
      ((t.header_pages t.header_page_id_).NumBlocks + 1)
      (homeSlot B t key).1 (homeSlot B t key).2 true = some (some b, t1) := by
  rw [Insert]
  simp only [homeSlot]
  cases hp : insertProbe B t key value (t.header_pages t.header_page_id_)
      (t.header_pages t.header_page_id_).GetSize (t.header_pages t.header_page_id_).NumBlocks
      ((t.hash_fn_ key % (t.header_pages t.header_page_id_).GetSize) / B)
      ((t.hash_fn_ key % (t.header_pages t.header_page_id_).GetSize) % B)
      ((t.header_pages t.header_page_id_).NumBlocks + 1)
      ((t.hash_fn_ key % (t.header_pages t.header_page_id_).GetSize) / B)
      ((t.hash_fn_ key % (t.header_pages t.header_page_id_).GetSize) % B) true with
  | none => simp
  | some r =>
    obtain ⟨ob, t2⟩ := r
    cases ob with
    | some b0 => simp
    | none =>
      simp only
      cases Resize B t2 (t2.size_ * 2) with
      | none => simp
      | some t3 => simp [Insert]

/-- C26 (Insert placement follows the probe order): on a table whose header
page records at least one bucket and the matching number of block pages, when
`Insert(key, value)` returns true without a `Resize` there is a `j` below the
number of slots the probe loop can reach such that the slots number 0 to
`j - 1` of the probe sequence of `key` (start at the home slot
`hash(key) mod num_buckets`, next bucket within the block, bucket 0 of block
`(block_index + 1) mod num_blocks` on overflow) are readable and slot `j` is
not; afterwards slot `j` is occupied and readable and holds `(key, value)`, and
every other slot of that block page, every other page and every member of the
table is unchanged. -/
theorem C26_insert_placement [Inhabited K] [Inhabited V] [DecidableEq V] (B : Nat)
    (t : LinearProbeHashTable K V)
    (g : Geometry B (t.header_pages t.header_page_id_).GetSize
      (t.header_pages t.header_page_id_).NumBlocks)
    (key : K) (value : V) (h : (Insert B 1 t key value).map Prod.fst = some true) :
    ∃ (t1 : LinearProbeHashTable K V) (j : Nat) (slot : Nat × Nat),
      Insert B 1 t key value = some (true, t1) ∧
      j < probeCapacity B (t.header_pages t.header_page_id_).GetSize
        (t.header_pages t.header_page_id_).NumBlocks ∧
      slot = probeSlot B (t.header_pages t.header_page_id_).GetSize
        (t.header_pages t.header_page_id_).NumBlocks (homeSlot B t key) j ∧
      (∀ i, i < j →
        (blockAt t (probeSlot B (t.header_pages t.header_page_id_).GetSize
          (t.header_pages t.header_page_id_).NumBlocks (homeSlot B t key) i).1).IsReadable
          (probeSlot B (t.header_pages t.header_page_id_).GetSize
          (t.header_pages t.header_page_id_).NumBlocks (homeSlot B t key) i).2 = true) ∧
      (blockAt t slot.1).IsReadable slot.2 = false ∧
      (blockAt t1 slot.1).IsOccupied slot.2 = true ∧
      (blockAt t1 slot.1).IsReadable slot.2 = true ∧
      (blockAt t1 slot.1).array_ slot.2 = (key, value) ∧
      (∀ i, i ≠ slot.2 →
        (blockAt t1 slot.1).occupied_ i = (blockAt t slot.1).occupied_ i ∧
        (blockAt t1 slot.1).readable_ i = (blockAt t slot.1).readable_ i ∧
        (blockAt t1 slot.1).array_ i = (blockAt t slot.1).array_ i) ∧
      (∀ id, id ≠ (t.header_pages t.header_page_id_).GetBlockPageId slot.1 →
        t1.block_pages id = t.block_pages id) ∧
      SameMeta t t1 := by
  have hs : t.hash_fn_ key % (t.header_pages t.header_page_id_).GetSize <
      (t.header_pages t.header_page_id_).GetSize := Nat.mod_lt _ g.buckets_pos
  have hv : SlotValid B (t.header_pages t.header_page_id_).GetSize
      (t.header_pages t.header_page_id_).NumBlocks (homeSlot B t key) :=
    ⟨g.home_block_lt _ hs, g.home_bucket_lt _ hs⟩
  cases hI : Insert B 1 t key value with
  | none => rw [hI] at h; cases h
  | some r =>
    obtain ⟨b, t1⟩ := r
    rw [hI] at h
    simp only [Option.map_some', Option.some.injEq] at h
    subst h
    have hp := (Insert_one B t key value true t1).mp hI
    obtain ⟨j, -, g2, g3, g4⟩ := insertProbe_walk B t key value (t.header_pages t.header_page_id_)
      _ _ _ _ g.block_pos hv _ 0 _ _ (Nat.zero_add _) hp
    rcases g4 with ⟨-, e⟩ | ⟨-, -, -, e⟩ | ⟨hj, hr, e⟩
    · cases e
    · cases e
    · simp only [Prod.mk.injEq, true_and] at e
      obtain ⟨f1, f2, f3, f4⟩ := HashTableBlockPage.Insert_slots _ _ key value hr
      generalize hslot : probeSlot B (t.header_pages t.header_page_id_).GetSize
        (t.header_pages t.header_page_id_).NumBlocks
        (t.hash_fn_ key % (t.header_pages t.header_page_id_).GetSize / B,
          t.hash_fn_ key % (t.header_pages t.header_page_id_).GetSize % B) j = slot
        at e hr f1 f2 f3 f4
      have hb : blockAt t1 slot.1 = ((blockAt t slot.1).Insert slot.2 key value).2 := by
        rw [e]
        show Function.update t.block_pages _ _ _ = _
        rw [Function.update_same]
        rfl
      refine ⟨t1, j, slot, rfl, hj, hslot.symm, fun i hi => (g3 i (Nat.zero_le _) hi).1, hr, ?_, ?_, ?_,
        ?_, ?_, ?_⟩
      · rw [hb]; exact f1
      · rw [hb]; exact f2
      · rw [hb]; exact f3
      · intro i hi
        rw [hb]; exact f4 i hi
      · intro id hid
        rw [e]
        show Function.update t.block_pages _ _ id = _
        rw [Function.update_noteq hid]
      · rw [e]
        exact SameMeta.set_block t _ _

end LinearProbeHashTable

set_option maxRecDepth 100000 in
/-- Witness for C26: four buckets and the keys 3, 7, 11, 15, all with home slot
3. After `Insert(3, 30)`, `Insert(7, 70)`, `Insert(11, 110)` the slots 3, 0, 1
hold these pairs, and `Insert(15, 150)` returns true without a `Resize` and
writes slot 2. -/
theorem C26_witness :
    (Scenario.blockOf Scenario.tableC26 0).array_ 3 = (3, 30) ∧
    (Scenario.blockOf Scenario.tableC26 0).array_ 0 = (7, 70) ∧
    (Scenario.blockOf Scenario.tableC26 0).array_ 1 = (11, 110) ∧
    (Scenario.blockOf Scenario.tableC26 0).IsReadable 2 = false ∧
    (Scenario.blockOf (Scenario.afterInsert Scenario.tableC26 15 150) 0).array_ 2 = (15, 150) ∧
    ∃ (t1 : LinearProbeHashTable Int Int) (j : Nat) (slot : Nat × Nat),
      LinearProbeHashTable.Insert 496 1 Scenario.tableC26 15 150 = some (true, t1) ∧
      j < LinearProbeHashTable.probeCapacity 496
        (Scenario.tableC26.header_pages Scenario.tableC26.header_page_id_).GetSize
        (Scenario.tableC26.header_pages Scenario.tableC26.header_page_id_).NumBlocks ∧
      slot = LinearProbeHashTable.probeSlot 496
        (Scenario.tableC26.header_pages Scenario.tableC26.header_page_id_).GetSize
        (Scenario.tableC26.header_pages Scenario.tableC26.header_page_id_).NumBlocks
        (LinearProbeHashTable.homeSlot 496 Scenario.tableC26 15) j ∧
      (LinearProbeHashTable.blockAt t1 slot.1).array_ slot.2 = (15, 150) :=
  ⟨by decide, by decide, by decide, by decide, by decide,
    (LinearProbeHashTable.C26_insert_placement 496 Scenario.tableC26
      ⟨by decide, by decide, by decide, by decide⟩ 15 150 (by decide)).imp
      fun _ h1 => h1.imp fun _ h2 => h2.imp fun _ h3 =>
        ⟨h3.1, h3.2.1, h3.2.2.1, h3.2.2.2.2.2.2.2.1⟩⟩

namespace LinearProbeHashTable

variable {K V : Type}

/-- Every page image of a freshly constructed table, read as a block page, is
zeroed. -/
theorem new_zeroed [Inhabited K] [Inhabited V] (B : Nat) (comparator : K → K → Int)
    (num_buckets : Nat) (hash_fn : K → Nat) (first_page_id : Int) (id : Int) :
    (new B comparator num_buckets hash_fn first_page_id : LinearProbeHashTable K V).block_pages id
      = HashTableBlockPage.zeroed := by
  unfold new
  simp only [NewPage]
  apply allocateBlocks_zeroed
  intro id1
  show Function.update (fun _ => HashTableBlockPage.zeroed) first_page_id
    HashTableBlockPage.zeroed id1 = _
  rw [Function.update_apply]
  split <;> rfl

/-- The header page of a freshly constructed table: its id, its number of block
pages and the ids of these. -/
theorem new_header [Inhabited K] [Inhabited V] (B : Nat) (comparator : K → K → Int)
    (num_buckets : Nat) (hash_fn : K → Nat) (first_page_id : Int) :
    (new B comparator num_buckets hash_fn first_page_id :
      LinearProbeHashTable K V).header_page_id_ = first_page_id ∧
    ((new B comparator num_buckets hash_fn first_page_id :
      LinearProbeHashTable K V).header_pages first_page_id).next_ind_ =
      (if num_buckets % B = 0 then num_buckets / B else num_buckets / B + 1) ∧
    ∀ i, i < (if num_buckets % B = 0 then num_buckets / B else num_buckets / B + 1) →
      ((new B comparator num_buckets hash_fn first_page_id :
        LinearProbeHashTable K V).header_pages first_page_id).block_page_ids_ i =
        first_page_id + 1 + (i : Int) := by
  unfold new
  simp only [NewPage]
  generalize hT : (
    { header_page_id_ := first_page_id, size_ := num_buckets, comparator_ := comparator,
      hash_fn_ := hash_fn,
      header_pages := Function.update
        (Function.update (fun _ => HashTableHeaderPage.zeroed) first_page_id
          HashTableHeaderPage.zeroed) first_page_id
        (((Function.update (fun _ => HashTableHeaderPage.zeroed) first_page_id
          HashTableHeaderPage.zeroed first_page_id).SetPageId first_page_id).SetSize num_buckets),
      block_pages := Function.update (fun _ => HashTableBlockPage.zeroed) first_page_id
        HashTableBlockPage.zeroed,
      next_page_id_ := first_page_id + 1 } : LinearProbeHashTable K V) = T
  have e2 : (T.header_pages first_page_id).next_ind_ = 0 := by
    rw [← hT]
    simp only [Function.update_same, HashTableHeaderPage.SetSize, HashTableHeaderPage.SetPageId,
      HashTableHeaderPage.zeroed]
  have e3 : T.next_page_id_ = first_page_id + 1 := by rw [← hT]
  have e4 : T.header_page_id_ = first_page_id := by rw [← hT]
  obtain ⟨-, h2, -, h4, -, -, -⟩ := allocateBlocks_spec first_page_id
    (if num_buckets % B = 0 then num_buckets / B else num_buckets / B + 1) T (by rw [e3]; omega)
  have hids := allocateBlocks_ids first_page_id
    (if num_buckets % B = 0 then num_buckets / B else num_buckets / B + 1) T (by rw [e3]; omega)
  refine ⟨h4.trans e4, ?_, ?_⟩
  · rw [h2, e2, Nat.zero_add]
  · intro i hi
    rw [hids i, e2, e3, if_pos ⟨Nat.zero_le _, by omega⟩, Nat.sub_zero]

/-- A `Remove` that returns leaves the table as it is or clears the readable bit
of one slot. -/
theorem Remove_cases [Inhabited K] [Inhabited V] [DecidableEq V] (B : Nat)
    (t : LinearProbeHashTable K V) (hw : TableWF B t) (key : K) (value : V) (b : Bool)
    (t1 : LinearProbeHashTable K V) (h : Remove B t key value = some (b, t1)) :
    t1 = t ∨ ∃ id j, t1 = { t with block_pages := (Function.update t.block_pages id
      ((t.block_pages id).Remove j)) } := by
  have hs : t.hash_fn_ key % (t.header_pages t.header_page_id_).GetSize <
      (t.header_pages t.header_page_id_).GetSize := Nat.mod_lt _ hw.geometry.buckets_pos
  have hret := getValueProbe_returns B t key (t.header_pages t.header_page_id_) _ _ hw.geometry _ hs
  cases hg : getValueProbe B t key (t.header_pages t.header_page_id_)
      (t.header_pages t.header_page_id_).GetSize (t.header_pages t.header_page_id_).NumBlocks
      ((t.hash_fn_ key % (t.header_pages t.header_page_id_).GetSize) / B)
      ((t.hash_fn_ key % (t.header_pages t.header_page_id_).GetSize) % B)
      ((t.header_pages t.header_page_id_).NumBlocks + 1)
      ((t.hash_fn_ key % (t.header_pages t.header_page_id_).GetSize) / B)
      ((t.hash_fn_ key % (t.header_pages t.header_page_id_).GetSize) % B) true [] with
  | none => rw [hg] at hret; cases hret
  | some fr =>
    obtain ⟨f, r⟩ := fr
    rcases removeProbe_spec B t key value _ _ _ _ _ _ _ _ _ _ _ _ hg with
      ⟨cb, j, -, -, -, -, -, g6, -⟩ | ⟨g1, -⟩
    · right
      have e : some (b, t1) = some (true, _) := h.symm.trans g6
      simp only [Option.some.injEq, Prod.mk.injEq] at e
      exact ⟨_, j, e.2⟩
    · left
      have e : some (b, t1) = some (false, t) := h.symm.trans g1
      simp only [Option.some.injEq, Prod.mk.injEq] at e
      exact e.2

/-- One pass over slots `a`, `a + 1`, ... of a sequence collects the value of
slot `m` if the slots up to `m` are occupied and slot `m` is readable with a key
that compares equal. -/
theorem collectValues_mem (cmp : K → K → Int) (key : K) (page : Nat → HashTableBlockPage K V)
    (f : Nat → Nat × Nat) (k : Nat) : ∀ (a m : Nat), a ≤ m → m < a + k →
    (∀ i, a ≤ i → i ≤ m → (page (f i).1).IsOccupied (f i).2 = true) →
    (page (f m).1).IsReadable (f m).2 = true → cmp key ((page (f m).1).KeyAt (f m).2) = 0 →
    (page (f m).1).ValueAt (f m).2 ∈ collectValues cmp key page ((List.range' a k).map f) := by
  induction k with
  | zero => intro a m h1 h2; omega
  | succ k ih =>
    intro a m h1 h2 ho hr hk
    rw [List.range'_succ, List.map_cons, collectValues, if_pos (ho a (Nat.le_refl _) h1)]
    by_cases e : m = a
    · subst e
      rw [if_pos ⟨hr, hk⟩]
      exact List.mem_cons_self _ _
    · have := ih (a + 1) m (by omega) (by omega) (fun i hi1 hi2 => ho i (by omega) hi2) hr hk
      split
      · exact List.mem_cons_of_mem _ this
      · exact this

end LinearProbeHashTable

namespace LinearProbeHashTable

variable {K V : Type}

/-- The probe-chain invariant carries over to a table that differs in block
pages only, in which no occupied bit has been cleared and every readable slot
either was readable with the same key or satisfies the invariant by itself. -/
theorem ProbeChain.step [Inhabited K] [Inhabited V] [DecidableEq V] {B : Nat}
    {t t1 : LinearProbeHashTable K V} (h : ProbeChain B t)
    (hm : SameMeta t t1)
    (hocc : ∀ id j, (t.block_pages id).IsOccupied j = true →
      (t1.block_pages id).IsOccupied j = true)
    (hread : ∀ id j, (t1.block_pages id).IsReadable j = true →
      ((t.block_pages id).IsReadable j = true ∧
        (t1.block_pages id).KeyAt j = (t.block_pages id).KeyAt j) ∨
      ((t1.block_pages id).IsOccupied j = true ∧
        ∃ cb m, (t.header_pages t.header_page_id_).GetBlockPageId cb = id ∧
          probeSlot B (t.header_pages t.header_page_id_).GetSize
            (t.header_pages t.header_page_id_).NumBlocks
            (homeSlot B t ((t1.block_pages id).KeyAt j)) m = (cb, j) ∧
          ∀ i, i ≤ m →
            (t1.block_pages ((t.header_pages t.header_page_id_).GetBlockPageId
              (probeSlot B (t.header_pages t.header_page_id_).GetSize
              (t.header_pages t.header_page_id_).NumBlocks
              (homeSlot B t ((t1.block_pages id).KeyAt j)) i).1)).IsOccupied
              (probeSlot B (t.header_pages t.header_page_id_).GetSize
              (t.header_pages t.header_page_id_).NumBlocks
              (homeSlot B t ((t1.block_pages id).KeyAt j)) i).2 = true)) :
    ProbeChain B t1 := by
  have hhome : ∀ k, homeSlot B t1 k = homeSlot B t k := by
    intro k
    unfold homeSlot
    rw [hm.hash_fn, hm.header_pages, hm.header_page_id]
  refine ⟨h.wf.of_sameMeta hm, ?_, ?_, ?_⟩
  · intro id j hr
    rcases hread id j hr with ⟨h1, -⟩ | ⟨h1, -⟩
    · exact hocc _ _ (h.readable_occupied _ _ h1)
    · exact h1
  · intro id j hr
    unfold blockAt
    rw [hhome, hm.header_pages, hm.header_page_id]
    rcases hread id j hr with ⟨h1, hk⟩ | ⟨-, h2⟩
    · obtain ⟨cb, m, c1, c2, c3⟩ := h.chain id j h1
      rw [hk]
      exact ⟨cb, m, c1, c2, fun i hi => hocc _ _ (c3 i hi)⟩
    · exact h2
  · rw [hm.header_pages, hm.header_page_id]
    exact h.ids_injective

/-- Clearing the readable bit of a slot keeps the probe-chain invariant. -/
theorem ProbeChain.clear [Inhabited K] [Inhabited V] [DecidableEq V] {B : Nat}
    {t : LinearProbeHashTable K V} (h : ProbeChain B t) (id : Int) (j : Nat) :
    ProbeChain B { t with block_pages := (Function.update t.block_pages id
      ((t.block_pages id).Remove j)) } := by
  apply h.step (SameMeta.set_block t _ _)
  · intro id1 j1 ho
    show (Function.update t.block_pages id ((t.block_pages id).Remove j) id1).IsOccupied j1 = true
    by_cases e : id1 = id
    · rw [e, Function.update_same]
      rw [e] at ho
      exact ho
    · rw [Function.update_noteq e]
      exact ho
  · intro id1 j1 hr
    left
    have hr1 : (Function.update t.block_pages id ((t.block_pages id).Remove j) id1).IsReadable j1
        = true := hr
    show (t.block_pages id1).IsReadable j1 = true ∧
      (Function.update t.block_pages id ((t.block_pages id).Remove j) id1).KeyAt j1 =
        (t.block_pages id1).KeyAt j1
    by_cases e : id1 = id
    · rw [e, Function.update_same] at hr1 ⊢
      refine ⟨?_, rfl⟩
      by_cases ej : j1 = j
      · rw [ej] at hr1
        simp [HashTableBlockPage.Remove, HashTableBlockPage.SetReadable,
          HashTableBlockPage.IsReadable] at hr1
      · simpa [HashTableBlockPage.Remove, HashTableBlockPage.SetReadable,
          HashTableBlockPage.IsReadable, Function.update_noteq ej] using hr1
    · rw [Function.update_noteq e] at hr1 ⊢
      exact ⟨hr1, rfl⟩

/-- Writing a pair into the first slot of the probe sequence of its key that
is not readable keeps the probe-chain invariant. -/
theorem ProbeChain.write [Inhabited K] [Inhabited V] [DecidableEq V] {B : Nat}
    {t : LinearProbeHashTable K V} (h : ProbeChain B t) (key : K) (value : V) (j : Nat)
    (slot : Nat × Nat)
    (hslot : probeSlot B (t.header_pages t.header_page_id_).GetSize
      (t.header_pages t.header_page_id_).NumBlocks (homeSlot B t key) j = slot)
    (hbefore : ∀ i, i < j →
      (t.block_pages ((t.header_pages t.header_page_id_).GetBlockPageId
        (probeSlot B (t.header_pages t.header_page_id_).GetSize
        (t.header_pages t.header_page_id_).NumBlocks (homeSlot B t key) i).1)).IsReadable
        (probeSlot B (t.header_pages t.header_page_id_).GetSize
        (t.header_pages t.header_page_id_).NumBlocks (homeSlot B t key) i).2 = true)
    (hr : (t.block_pages ((t.header_pages t.header_page_id_).GetBlockPageId slot.1)).IsReadable
      slot.2 = false) :
    ProbeChain B { t with block_pages := (Function.update t.block_pages
      ((t.header_pages t.header_page_id_).GetBlockPageId slot.1)
      ((t.block_pages ((t.header_pages t.header_page_id_).GetBlockPageId slot.1)).Insert
        slot.2 key value).2) } := by
  obtain ⟨f1, f2, f3, f4⟩ := HashTableBlockPage.Insert_slots _ _ key value hr
  generalize hid : (t.header_pages t.header_page_id_).GetBlockPageId slot.1 = ID at f1 f2 f3 f4 hr ⊢
  generalize hpg : ((t.block_pages ID).Insert slot.2 key value).2 = pg at f1 f2 f3 f4 ⊢
  have hocc : ∀ id1 j1, (t.block_pages id1).IsOccupied j1 = true →
      (Function.update t.block_pages ID pg id1).IsOccupied j1 = true := by
    intro id1 j1 ho
    by_cases e : id1 = ID
    · rw [e, Function.update_same]
      rw [e] at ho
      by_cases ej : j1 = slot.2
      · rw [ej]; exact f1
      · show pg.occupied_ j1 = true
        rw [(f4 j1 ej).1]
        exact ho
    · rw [Function.update_noteq e]
      exact ho
  apply h.step (SameMeta.set_block t _ _) hocc
  intro id1 j1 hr1
  have hr2 : (Function.update t.block_pages ID pg id1).IsReadable j1 = true := hr1
  show ((t.block_pages id1).IsReadable j1 = true ∧
      (Function.update t.block_pages ID pg id1).KeyAt j1 = (t.block_pages id1).KeyAt j1) ∨
    ((Function.update t.block_pages ID pg id1).IsOccupied j1 = true ∧
      ∃ cb m, (t.header_pages t.header_page_id_).GetBlockPageId cb = id1 ∧
        probeSlot B (t.header_pages t.header_page_id_).GetSize
          (t.header_pages t.header_page_id_).NumBlocks
          (homeSlot B t ((Function.update t.block_pages ID pg id1).KeyAt j1)) m = (cb, j1) ∧
        ∀ i, i ≤ m →
          (Function.update t.block_pages ID pg ((t.header_pages t.header_page_id_).GetBlockPageId
            (probeSlot B (t.header_pages t.header_page_id_).GetSize
            (t.header_pages t.header_page_id_).NumBlocks
            (homeSlot B t ((Function.update t.block_pages ID pg id1).KeyAt j1)) i).1)).IsOccupied
            (probeSlot B (t.header_pages t.header_page_id_).GetSize
            (t.header_pages t.header_page_id_).NumBlocks
            (homeSlot B t ((Function.update t.block_pages ID pg id1).KeyAt j1)) i).2 = true)
  by_cases e : id1 = ID
  · by_cases ej : j1 = slot.2
    · right
      rw [e, ej, Function.update_same]
      have hkey : pg.KeyAt slot.2 = key := by
        show (pg.array_ slot.2).1 = key
        rw [f3]
      rw [hkey]
      refine ⟨f1, slot.1, j, hid, ?_, ?_⟩
      · rw [hslot]
      · intro i hi
        by_cases eij : i = j
        · rw [eij, hslot, hid, Function.update_same]
          exact f1
        · exact hocc _ _ (h.readable_occupied _ _ (hbefore i (by omega)))
    · left
      rw [e, Function.update_same] at hr2 ⊢
      refine ⟨?_, ?_⟩
      · show (t.block_pages ID).readable_ j1 = true
        rw [← (f4 j1 ej).2.1]
        exact hr2
      · show (pg.array_ j1).1 = ((t.block_pages ID).array_ j1).1
        rw [(f4 j1 ej).2.2]
  · left
    rw [Function.update_noteq e] at hr2 ⊢
    exact ⟨hr2, rfl⟩

end LinearProbeHashTable

namespace LinearProbeHashTable

variable {K V : Type}

/-- A freshly constructed table satisfies the probe-chain invariant. -/
theorem ProbeChain.of_new [Inhabited K] [Inhabited V] [DecidableEq V] (B : Nat)
    (comparator : K → K → Int) (num_buckets : Nat) (hash_fn : K → Nat) (first_page_id : Int)
    (hB : 0 < B) (hn : 0 < num_buckets) :
    ProbeChain B (new B comparator num_buckets hash_fn first_page_id :
      LinearProbeHashTable K V) := by
  have hz := new_zeroed (V := V) B comparator num_buckets hash_fn first_page_id
  obtain ⟨h1, h2, h3⟩ := new_header (V := V) B comparator num_buckets hash_fn first_page_id
  refine ⟨new_wf B comparator num_buckets hash_fn first_page_id hB hn, ?_, ?_, ?_⟩
  · intro id j hr
    rw [hz id] at hr
    cases hr
  · intro id j hr
    rw [hz id] at hr
    cases hr
  · rw [h1]
    intro cb cb1 hcb hcb1 e
    rw [HashTableHeaderPage.NumBlocks, h2] at hcb hcb1
    rw [HashTableHeaderPage.GetBlockPageId, HashTableHeaderPage.GetBlockPageId, h3 cb hcb,
      h3 cb1 hcb1] at e
    omega

/-- An `Insert` that returns from its first probe pass keeps the probe-chain
invariant. -/
theorem ProbeChain.of_insert [Inhabited K] [Inhabited V] [DecidableEq V] {B : Nat}
    {t : LinearProbeHashTable K V} (h : ProbeChain B t) (key : K) (value : V) (b : Bool)
    (t1 : LinearProbeHashTable K V) (hI : Insert B 1 t key value = some (b, t1)) :
    ProbeChain B t1 := by
  have g := h.wf.geometry
  have hs : t.hash_fn_ key % (t.header_pages t.header_page_id_).GetSize <
      (t.header_pages t.header_page_id_).GetSize := Nat.mod_lt _ g.buckets_pos
  have hv : SlotValid B (t.header_pages t.header_page_id_).GetSize
      (t.header_pages t.header_page_id_).NumBlocks (homeSlot B t key) :=
    ⟨g.home_block_lt _ hs, g.home_bucket_lt _ hs⟩
  have hp := (Insert_one B t key value b t1).mp hI
  obtain ⟨j, -, -, g3, g4⟩ := insertProbe_walk B t key value (t.header_pages t.header_page_id_)
    _ _ _ _ g.block_pos hv _ 0 _ _ (Nat.zero_add _) hp
  rcases g4 with ⟨-, e⟩ | ⟨-, -, -, e⟩ | ⟨-, hr, e⟩
  · cases e
  · simp only [Prod.mk.injEq] at e
    rw [e.2]; exact h
  · simp only [Prod.mk.injEq] at e
    rw [e.2]
    exact h.write key value j _ rfl (fun i hi => (g3 i (Nat.zero_le _) hi).1) hr

/-- A `Remove` that returns keeps the probe-chain invariant. -/
theorem ProbeChain.of_remove [Inhabited K] [Inhabited V] [DecidableEq V] {B : Nat}
    {t : LinearProbeHashTable K V} (h : ProbeChain B t) (key : K) (value : V) (b : Bool)
    (t1 : LinearProbeHashTable K V) (hR : Remove B t key value = some (b, t1)) :
    ProbeChain B t1 := by
  rcases Remove_cases B t h.wf key value b t1 hR with e | ⟨id, j, e⟩
  · rw [e]; exact h
  · rw [e]; exact h.clear id j

/-- Every table state of a run without a `Resize` satisfies the probe-chain
invariant. -/
theorem ReachableNoResize.probeChain [Inhabited K] [Inhabited V] [DecidableEq V] {B : Nat}
    {t : LinearProbeHashTable K V} (h : ReachableNoResize B t) : ProbeChain B t := by
  induction h with
  | init comparator num_buckets hash_fn first_page_id hB hn =>
    exact ProbeChain.of_new B comparator num_buckets hash_fn first_page_id hB hn
  | insert t key value b t1 _ hi ih => exact ih.of_insert key value b t1 hi
  | remove t key value b t1 _ hr ih => exact ih.of_remove key value b t1 hr

end LinearProbeHashTable

namespace LinearProbeHashTable

variable {K V : Type}

/-- An `Insert` that returns from its first probe pass returns the same with
every larger bound on the number of passes. -/
theorem Insert_of_one [Inhabited K] [Inhabited V] [DecidableEq V] (B : Nat)
    (t : LinearProbeHashTable K V) (key : K) (value : V) (b : Bool)
    (t1 : LinearProbeHashTable K V) (h : Insert B 1 t key value = some (b, t1)) (passes : Nat) :
    Insert B (passes + 1) t key value = some (b, t1) := by
  have hp := (Insert_one B t key value b t1).mp h
  simp only [homeSlot] at hp
  rw [Insert, hp]

/-- C29 (probe-chain invariant): in every table state reached from the
constructor by `Remove` calls and by `Insert` calls that return without a
`Resize`, (1) every readable slot of a block page is occupied; (2) every
readable slot `(cb, j)` of a block page of the table is the slot number `m`, for
some `m` below the number of reachable slots, of the probe sequence that starts
at the home slot of the key it holds, and the slots number 0 to `m` of that
sequence are all occupied; (3) hence, if that key compares equal to itself,
`GetValue` for that key returns true and the value of the slot is among the
values it collects. -/
theorem C29_probe_chain_invariant [Inhabited K] [Inhabited V] [DecidableEq V] (B : Nat)
    (t : LinearProbeHashTable K V) (h : ReachableNoResize B t) :
    (∀ cb j, (blockAt t cb).IsReadable j = true → (blockAt t cb).IsOccupied j = true) ∧
    (∀ cb j, cb < (t.header_pages t.header_page_id_).NumBlocks →
      (blockAt t cb).IsReadable j = true →
      ∃ m, m < probeCapacity B (t.header_pages t.header_page_id_).GetSize
          (t.header_pages t.header_page_id_).NumBlocks ∧
        probeSlot B (t.header_pages t.header_page_id_).GetSize
          (t.header_pages t.header_page_id_).NumBlocks
          (homeSlot B t ((blockAt t cb).KeyAt j)) m = (cb, j) ∧
        ∀ i, i ≤ m →
          (blockAt t (probeSlot B (t.header_pages t.header_page_id_).GetSize
            (t.header_pages t.header_page_id_).NumBlocks
            (homeSlot B t ((blockAt t cb).KeyAt j)) i).1).IsOccupied
            (probeSlot B (t.header_pages t.header_page_id_).GetSize
            (t.header_pages t.header_page_id_).NumBlocks
            (homeSlot B t ((blockAt t cb).KeyAt j)) i).2 = true) ∧
    (∀ cb j, cb < (t.header_pages t.header_page_id_).NumBlocks →
      (blockAt t cb).IsReadable j = true →
      t.comparator_ ((blockAt t cb).KeyAt j) ((blockAt t cb).KeyAt j) = 0 →
      ∃ r, GetValue B t ((blockAt t cb).KeyAt j) = some (true, r) ∧
        (blockAt t cb).ValueAt j ∈ r) := by
  have hc := h.probeChain
  have g := hc.wf.geometry
  have hB := g.block_pos
  have hchain : ∀ cb j, cb < (t.header_pages t.header_page_id_).NumBlocks →
      (blockAt t cb).IsReadable j = true →
      ∃ m, m < probeCapacity B (t.header_pages t.header_page_id_).GetSize
          (t.header_pages t.header_page_id_).NumBlocks ∧
        probeSlot B (t.header_pages t.header_page_id_).GetSize
          (t.header_pages t.header_page_id_).NumBlocks
          (homeSlot B t ((blockAt t cb).KeyAt j)) m = (cb, j) ∧
        ∀ i, i ≤ m →
          (blockAt t (probeSlot B (t.header_pages t.header_page_id_).GetSize
            (t.header_pages t.header_page_id_).NumBlocks
            (homeSlot B t ((blockAt t cb).KeyAt j)) i).1).IsOccupied
            (probeSlot B (t.header_pages t.header_page_id_).GetSize
            (t.header_pages t.header_page_id_).NumBlocks
            (homeSlot B t ((blockAt t cb).KeyAt j)) i).2 = true := by
    intro cb j hcb hr
    obtain ⟨cb1, m, c1, c2, c3⟩ := hc.chain _ j hr
    have hs : t.hash_fn_ ((blockAt t cb).KeyAt j) % (t.header_pages t.header_page_id_).GetSize <
        (t.header_pages t.header_page_id_).GetSize := Nat.mod_lt _ g.buckets_pos
    have hv : SlotValid B (t.header_pages t.header_page_id_).GetSize
        (t.header_pages t.header_page_id_).NumBlocks (homeSlot B t ((blockAt t cb).KeyAt j)) :=
      ⟨g.home_block_lt _ hs, g.home_bucket_lt _ hs⟩
    have hval := (probeSlot_valid B _ _ hB _ hv m).1
    rw [show probeSlot B (t.header_pages t.header_page_id_).GetSize
      (t.header_pages t.header_page_id_).NumBlocks
      (homeSlot B t ((blockAt t cb).KeyAt j)) m = (cb1, j) from c2] at hval
    have ecb : cb1 = cb := hc.ids_injective cb1 cb hval.1 hcb c1
    rw [ecb] at c2
    have hper := probeSlot_period B _ _ hB _ hv m
    have hpos := probeCapacity_pos B (t.header_pages t.header_page_id_).GetSize
      (t.header_pages t.header_page_id_).NumBlocks hB
    refine ⟨m % probeCapacity B (t.header_pages t.header_page_id_).GetSize
      (t.header_pages t.header_page_id_).NumBlocks, Nat.mod_lt _ hpos, hper.trans c2, ?_⟩
    intro i hi
    exact c3 i (Nat.le_trans hi (Nat.mod_le _ _))
  refine ⟨fun cb j hr => hc.readable_occupied _ j hr, hchain, ?_⟩
  intro cb j hcb hr hk
  obtain ⟨m, hm, c2, c3⟩ := hchain cb j hcb hr
  refine ⟨_, GetValue_eq_collect B t g _, ?_⟩
  unfold probeSlots
  rw [List.range_eq_range']
  have := collectValues_mem t.comparator_ ((blockAt t cb).KeyAt j) (blockAt t)
    (probeSlot B (t.header_pages t.header_page_id_).GetSize
      (t.header_pages t.header_page_id_).NumBlocks (homeSlot B t ((blockAt t cb).KeyAt j)))
    (probeCapacity B (t.header_pages t.header_page_id_).GetSize
      (t.header_pages t.header_page_id_).NumBlocks) 0 m (Nat.zero_le _) (by omega)
    (fun i _ hi => c3 i hi) (by rw [c2]; exact hr) (by rw [c2]; exact hk)
  rw [c2] at this
  exact this

end LinearProbeHashTable

namespace Scenario

open LinearProbeHashTable

theorem afterInsert_noResize (t : LinearProbeHashTable Int Int) (key value : Int)
    (h : ReachableNoResize 496 t) (hi : (Insert 496 1 t key value).isSome = true) :
    ReachableNoResize 496 (afterInsert t key value) := by
  unfold afterInsert
  cases hI : Insert 496 1 t key value with
  | none => rw [hI] at hi; cases hi
  | some r =>
    obtain ⟨b, t1⟩ := r
    rw [Insert_of_one 496 t key value b t1 hI 1]
    exact ReachableNoResize.insert t key value b t1 h hI

theorem afterRemove_noResize (t : LinearProbeHashTable Int Int) (key value : Int)
    (h : ReachableNoResize 496 t) (hi : (Remove 496 t key value).isSome = true) :
    ReachableNoResize 496 (afterRemove t key value) := by
  unfold afterRemove
  cases hI : Remove 496 t key value with
  | none => rw [hI] at hi; cases hi
  | some r =>
    obtain ⟨b, t1⟩ := r
    exact ReachableNoResize.remove t key value b t1 h hI

set_option maxRecDepth 100000 in
theorem tableC2_noResize : ReachableNoResize 496 tableC2 := by
  refine afterRemove_noResize _ _ _ (afterInsert_noResize _ _ _ (afterInsert_noResize _ _ _
    (ReachableNoResize.init _ _ _ _ (by decide) (by decide)) ?_) ?_) ?_ <;> decide!

end Scenario

set_option maxRecDepth 100000 in
/-- Witness for C29: the four-bucket table after `Insert(0, 1)`, `Insert(0, 2)`,
`Remove(0, 1)` is reached without a `Resize`; its slot 1 is readable and holds
`(0, 2)` behind the tombstone in slot 0, and `GetValue(0)` returns `[2]`. -/
theorem C29_witness :
    LinearProbeHashTable.ReachableNoResize 496 Scenario.tableC2 ∧
    (LinearProbeHashTable.blockAt Scenario.tableC2 0).IsReadable 0 = false ∧
    (LinearProbeHashTable.blockAt Scenario.tableC2 0).IsOccupied 0 = true ∧
    (LinearProbeHashTable.blockAt Scenario.tableC2 0).IsReadable 1 = true ∧
    (LinearProbeHashTable.blockAt Scenario.tableC2 0).array_ 1 = (0, 2) ∧
    LinearProbeHashTable.GetValue 496 Scenario.tableC2 0 = some (true, [2]) ∧
    ∃ r, LinearProbeHashTable.GetValue 496 Scenario.tableC2
        ((LinearProbeHashTable.blockAt Scenario.tableC2 0).KeyAt 1) = some (true, r) ∧
      (LinearProbeHashTable.blockAt Scenario.tableC2 0).ValueAt 1 ∈ r :=
  ⟨Scenario.tableC2_noResize, by decide!, by decide!, by decide!, by decide!, by decide!,
    (LinearProbeHashTable.C29_probe_chain_invariant 496 Scenario.tableC2
      Scenario.tableC2_noResize).2.2 0 1 (by decide!) (by decide!) (by decide!)⟩

namespace LinearProbeHashTable

variable {K V : Type}

/-- The probe loop of `Remove` ends within `num_blocks + 1` fetched block pages
when it starts at the home slot of a bucket below `num_buckets`. -/
theorem removeProbe_returns [DecidableEq V] (B : Nat) (t : LinearProbeHashTable K V) (key : K)
    (value : V) (hdr : HashTableHeaderPage) (nb nblk : Nat) (g : Geometry B nb nblk) (s : Nat)
    (hs : s < nb) :
    (removeProbe B t key value hdr nb nblk (s / B) (s % B) (nblk + 1) (s / B) (s % B) true).isSome
      = true := by
  have hret := getValueProbe_returns B t key hdr nb nblk g s hs
  cases hg : getValueProbe B t key hdr nb nblk (s / B) (s % B) (nblk + 1) (s / B) (s % B)
      true [] with
  | none => rw [hg] at hret; cases hret
  | some fr =>
    obtain ⟨f, r⟩ := fr
    rcases removeProbe_spec B t key value _ _ _ _ _ _ _ _ _ _ _ _ hg with
      ⟨cb, j, -, -, -, -, -, g6, -⟩ | ⟨g1, -⟩
    · rw [g6]; rfl
    · rw [g1]; rfl

/-- C30 (the probe loop ends after one full cycle): for a table whose header
page records at least one bucket and the matching number of block pages, and
for every key: (1) the probe loops of `GetValue`, `Insert` and `Remove` return
within `num_blocks + 1` fetched block pages; (2) the first `capacity` slots of
the probe sequence of the key are slots of the table and pairwise different, and
slot number `capacity` is the start position again; (3) `GetValue` returns what
one pass over these `capacity` slots in this order collects, stopping at the
first slot that is not occupied; (4) the probe loop of `Insert` passes the slots
number 0 to `j - 1` of the sequence, all readable, for some `j <= capacity`: a
full cycle is `j = capacity`, otherwise it returns at slot `j`. -/
theorem C30_probe_loop_one_cycle [DecidableEq V] (B : Nat) (t : LinearProbeHashTable K V)
    (g : Geometry B (t.header_pages t.header_page_id_).GetSize
      (t.header_pages t.header_page_id_).NumBlocks) (key : K) (value : V) :
    ((getValueProbe B t key (t.header_pages t.header_page_id_)
        (t.header_pages t.header_page_id_).GetSize (t.header_pages t.header_page_id_).NumBlocks
        (homeSlot B t key).1 (homeSlot B t key).2
        ((t.header_pages t.header_page_id_).NumBlocks + 1)
        (homeSlot B t key).1 (homeSlot B t key).2 true []).isSome = true ∧
      (insertProbe B t key value (t.header_pages t.header_page_id_)
        (t.header_pages t.header_page_id_).GetSize (t.header_pages t.header_page_id_).NumBlocks
        (homeSlot B t key).1 (homeSlot B t key).2
        ((t.header_pages t.header_page_id_).NumBlocks + 1)
        (homeSlot B t key).1 (homeSlot B t key).2 true).isSome = true ∧
      (removeProbe B t key value (t.header_pages t.header_page_id_)
        (t.header_pages t.header_page_id_).GetSize (t.header_pages t.header_page_id_).NumBlocks
        (homeSlot B t key).1 (homeSlot B t key).2
        ((t.header_pages t.header_page_id_).NumBlocks + 1)
        (homeSlot B t key).1 (homeSlot B t key).2 true).isSome = true) ∧
    ((∀ i, SlotValid B (t.header_pages t.header_page_id_).GetSize
        (t.header_pages t.header_page_id_).NumBlocks
        (probeSlot B (t.header_pages t.header_page_id_).GetSize
          (t.header_pages t.header_page_id_).NumBlocks (homeSlot B t key) i)) ∧
      (∀ i j, i < probeCapacity B (t.header_pages t.header_page_id_).GetSize
          (t.header_pages t.header_page_id_).NumBlocks →
        j < probeCapacity B (t.header_pages t.header_page_id_).GetSize
          (t.header_pages t.header_page_id_).NumBlocks →
        probeSlot B (t.header_pages t.header_page_id_).GetSize
          (t.header_pages t.header_page_id_).NumBlocks (homeSlot B t key) i =
        probeSlot B (t.header_pages t.header_page_id_).GetSize
          (t.header_pages t.header_page_id_).NumBlocks (homeSlot B t key) j → i = j) ∧
      probeSlot B (t.header_pages t.header_page_id_).GetSize
        (t.header_pages t.header_page_id_).NumBlocks (homeSlot B t key)
        (probeCapacity B (t.header_pages t.header_page_id_).GetSize
          (t.header_pages t.header_page_id_).NumBlocks) = homeSlot B t key) ∧
    GetValue B t key = some (true,
      collectValues t.comparator_ key (blockAt t) (probeSlots B t key)) ∧
    ∃ (x : Option Bool × LinearProbeHashTable K V) (j : Nat),
      insertProbe B t key value (t.header_pages t.header_page_id_)
        (t.header_pages t.header_page_id_).GetSize (t.header_pages t.header_page_id_).NumBlocks
        (homeSlot B t key).1 (homeSlot B t key).2
        ((t.header_pages t.header_page_id_).NumBlocks + 1)
        (homeSlot B t key).1 (homeSlot B t key).2 true = some x ∧
      j ≤ probeCapacity B (t.header_pages t.header_page_id_).GetSize
        (t.header_pages t.header_page_id_).NumBlocks ∧
      (∀ i, i < j →
        (blockAt t (probeSlot B (t.header_pages t.header_page_id_).GetSize
          (t.header_pages t.header_page_id_).NumBlocks (homeSlot B t key) i).1).IsReadable
          (probeSlot B (t.header_pages t.header_page_id_).GetSize
          (t.header_pages t.header_page_id_).NumBlocks (homeSlot B t key) i).2 = true) ∧
      (x.1 = none ↔ j = probeCapacity B (t.header_pages t.header_page_id_).GetSize
        (t.header_pages t.header_page_id_).NumBlocks) ∧
      (x.1 = some true →
        (blockAt t (probeSlot B (t.header_pages t.header_page_id_).GetSize
          (t.header_pages t.header_page_id_).NumBlocks (homeSlot B t key) j).1).IsReadable
          (probeSlot B (t.header_pages t.header_page_id_).GetSize
          (t.header_pages t.header_page_id_).NumBlocks (homeSlot B t key) j).2 = false) ∧
      (x.1 = some false →
        (blockAt t (probeSlot B (t.header_pages t.header_page_id_).GetSize
          (t.header_pages t.header_page_id_).NumBlocks (homeSlot B t key) j).1).IsReadable
          (probeSlot B (t.header_pages t.header_page_id_).GetSize
          (t.header_pages t.header_page_id_).NumBlocks (homeSlot B t key) j).2 = true) := by
  have hB := g.block_pos
  have hs : t.hash_fn_ key % (t.header_pages t.header_page_id_).GetSize <
      (t.header_pages t.header_page_id_).GetSize := Nat.mod_lt _ g.buckets_pos
  have hv : SlotValid B (t.header_pages t.header_page_id_).GetSize
      (t.header_pages t.header_page_id_).NumBlocks (homeSlot B t key) :=
    ⟨g.home_block_lt _ hs, g.home_bucket_lt _ hs⟩
  have hins := insertProbe_returns B t key value (t.header_pages t.header_page_id_) _ _ g _ hs
  refine ⟨⟨getValueProbe_returns B t key (t.header_pages t.header_page_id_) _ _ g _ hs, hins,
    removeProbe_returns B t key value (t.header_pages t.header_page_id_) _ _ g _ hs⟩,
    ⟨fun i => (probeSlot_valid B _ _ hB _ hv i).1,
      fun i j hi hj e => probeSlot_injective B _ _ hB _ hv i j hi hj e,
      probeSlot_capacity B _ _ hB _ hv⟩,
    GetValue_eq_collect B t g key, ?_⟩
  cases hp : insertProbe B t key value (t.header_pages t.header_page_id_)
      (t.header_pages t.header_page_id_).GetSize (t.header_pages t.header_page_id_).NumBlocks
      (homeSlot B t key).1 (homeSlot B t key).2
      ((t.header_pages t.header_page_id_).NumBlocks + 1)
      (homeSlot B t key).1 (homeSlot B t key).2 true with
  | none =>
    have : (none : Option (Option Bool × LinearProbeHashTable K V)).isSome = true := by
      rw [← hp]; exact hins
    cases this
  | some x =>
    obtain ⟨j, -, g2, g3, g4⟩ := insertProbe_walk B t key value (t.header_pages t.header_page_id_)
      _ _ _ _ hB hv _ 0 _ _ (Nat.zero_add _) hp
    refine ⟨x, j, rfl, g2, fun i hi => (g3 i (Nat.zero_le _) hi).1, ?_, ?_, ?_⟩
    · rcases g4 with ⟨e1, e2⟩ | ⟨e1, -, -, e2⟩ | ⟨e1, -, e2⟩
      · rw [e2]; exact ⟨fun _ => e1, fun _ => rfl⟩
      · rw [e2]; exact ⟨(fun e => by cases e), (fun e => by omega)⟩
      · rw [e2]; exact ⟨(fun e => by cases e), (fun e => by omega)⟩
    · intro hx
      rcases g4 with ⟨-, e2⟩ | ⟨-, -, -, e2⟩ | ⟨-, hr, -⟩
      · rw [e2] at hx; cases hx
      · rw [e2] at hx; cases hx
      · exact hr
    · intro hx
      rcases g4 with ⟨-, e2⟩ | ⟨-, hr, -, -⟩ | ⟨-, -, e2⟩
      · rw [e2] at hx; cases hx
      · exact hr
      · rw [e2] at hx; cases hx

end LinearProbeHashTable

set_option maxRecDepth 100000 in
/-- Witness for C30: the full four-bucket table `Scenario.tableC3` (one block
page, capacity 4) and key 7 with home slot 3: the probe of `Insert(7, 1)` runs
the full cycle, and `GetValue(7)` collects `[100]` in one pass over the slots
3, 0, 1, 2. -/
theorem C30_witness :
    LinearProbeHashTable.probeSlots 496 Scenario.tableC3 7 = [(0, 3), (0, 0), (0, 1), (0, 2)] ∧
    LinearProbeHashTable.GetValue 496 Scenario.tableC3 7 = some (true, [100]) ∧
    ((LinearProbeHashTable.insertProbe 496 Scenario.tableC3 7 1
      (Scenario.tableC3.header_pages Scenario.tableC3.header_page_id_) 4 1 0 3 2 0 3 true).map
      Prod.fst = some none) ∧
    (LinearProbeHashTable.GetValue 496 Scenario.tableC3 7 = some (true,
      LinearProbeHashTable.collectValues Scenario.tableC3.comparator_ 7
        (LinearProbeHashTable.blockAt Scenario.tableC3)
        (LinearProbeHashTable.probeSlots 496 Scenario.tableC3 7))) :=
  ⟨by decide!, by decide!, by decide!,
    (LinearProbeHashTable.C30_probe_loop_one_cycle 496 Scenario.tableC3
      ⟨by decide!, by decide!, by decide!, by decide!⟩ 7 1).2.2.1⟩

namespace ClockReplacer

/-- A clock position `x` steps ahead of `hand`, with `0 < x < n`, is not `hand`. -/
theorem pos_ne_hand (n hand x : Nat) (hh : hand < n) (h0 : 0 < x) (hx : x < n) :
    (hand + x) % n ≠ hand := by
  intro e
  have h1 : (hand + x) % n = (hand + 0) % n := by
    rw [Nat.add_zero, Nat.mod_eq_of_lt hh]; exact e
  have h2 : x ≡ 0 [MOD n] := Nat.ModEq.add_left_cancel' hand h1
  unfold Nat.ModEq at h2
  rw [Nat.mod_eq_of_lt hx, Nat.zero_mod] at h2
  omega

/-- The position `e` steps ahead of the stepped hand is `e + 1` steps ahead of
the hand. -/
theorem pos_step (n hand e : Nat) : ((hand + 1) % n + e) % n = (hand + (e + 1)) % n := by
  rw [Nat.mod_add_mod]
  congr 1
  omega

/-- Every frame of the vector is less than `n` steps ahead of the hand. -/
theorem pos_surj (n hand g : Nat) (hh : hand < n) (hg : g < n) :
    ∃ x, x < n ∧ (hand + x) % n = g ∧ (g ≠ hand → 0 < x) := by
  by_cases h : hand ≤ g
  · refine ⟨g - hand, by omega, ?_, fun _ => by omega⟩
    rw [show hand + (g - hand) = g by omega, Nat.mod_eq_of_lt hg]
  · refine ⟨g + n - hand, by omega, ?_, fun _ => by omega⟩
    rw [show hand + (g + n - hand) = g + n by omega, Nat.add_mod_right, Nat.mod_eq_of_lt hg]

/-- The sweep when a candidate with `ref = false` is `d` steps ahead and none is
nearer: it returns that frame, leaves the hand one step behind it and has
cleared `ref` of exactly the candidates it passed. -/
theorem FindVictim_first_clear (d : Nat) : ∀ (r : ClockReplacer) (k : Nat),
    r.clock_hand_ < r.num_pages → d < r.num_pages →
    (r.frame_infos_ ((r.clock_hand_ + d) % r.num_pages)).free = true →
    (r.frame_infos_ ((r.clock_hand_ + d) % r.num_pages)).ref = false →
    (∀ e, e < d → ¬ ((r.frame_infos_ ((r.clock_hand_ + e) % r.num_pages)).free = true ∧
      (r.frame_infos_ ((r.clock_hand_ + e) % r.num_pages)).ref = false)) →
    ∃ r1, FindVictim (d + 1 + k) r = some ((r.clock_hand_ + d) % r.num_pages, r1) ∧
      r1.clock_hand_ = ((r.clock_hand_ + d) % r.num_pages + 1) % r.num_pages ∧
      r1.num_pages = r.num_pages ∧ r1.size_ = r.size_ ∧
      (∀ g, (∃ e, e < d ∧ (r.clock_hand_ + e) % r.num_pages = g) →
        (r.frame_infos_ g).free = true → r1.frame_infos_ g = ⟨true, false⟩) ∧
      (∀ g, ¬ ((∃ e, e < d ∧ (r.clock_hand_ + e) % r.num_pages = g) ∧
        (r.frame_infos_ g).free = true) → r1.frame_infos_ g = r.frame_infos_ g) := by
  induction d with
  | zero =>
    intro r k hh _ hf hr _
    have e0 : (r.clock_hand_ + 0) % r.num_pages = r.clock_hand_ := by
      rw [Nat.add_zero, Nat.mod_eq_of_lt hh]
    rw [e0] at hf hr ⊢
    refine ⟨Step r, ?_, rfl, rfl, rfl, ?_, fun _ _ => rfl⟩
    · rw [show 0 + 1 + k = k + 1 by omega, FindVictim]
      simp [hf, hr]
    · rintro g ⟨e, he, -⟩; omega
  | succ d ih =>
    intro r k hh hd hf hr hmin
    have hN : 0 < r.num_pages := by omega
    have h0 := hmin 0 (by omega)
    rw [Nat.add_zero, Nat.mod_eq_of_lt hh] at h0
    have hne : ∀ x, 0 < x → x < r.num_pages → (r.clock_hand_ + x) % r.num_pages ≠ r.clock_hand_ :=
      fun x h1 h2 => pos_ne_hand _ _ x hh h1 h2
    rw [show d + 1 + 1 + k = (d + 1 + k) + 1 by omega, FindVictim]
    by_cases hf0 : (r.frame_infos_ r.clock_hand_).free = true
    · have hr0 : (r.frame_infos_ r.clock_hand_).ref = true := by
        cases hx : (r.frame_infos_ r.clock_hand_).ref with
        | true => rfl
        | false => exact absurd ⟨hf0, hx⟩ h0
      simp only [hf0, hr0, if_true]
      obtain ⟨r1, g1, g2, g3, g4, g5, g6⟩ := ih
        (Step { r with frame_infos_ := Function.update r.frame_infos_ r.clock_hand_ ⟨true, false⟩ }) k
        (by simpa [Step] using Nat.mod_lt _ hN) (by simp only [Step]; omega)
        (by
          simp only [Step]
          rw [pos_step, Function.update_noteq (hne _ (by omega) hd)]
          exact hf)
        (by
          simp only [Step]
          rw [pos_step, Function.update_noteq (hne _ (by omega) hd)]
          exact hr)
        (by
          intro e he
          simp only [Step]
          rw [pos_step, Function.update_noteq (hne _ (by omega) (by omega))]
          exact hmin (e + 1) (by omega))
      simp only [Step, pos_step] at g1 g2 g3 g4 g5 g6
      refine ⟨r1, g1, g2, g3, g4, ?_, ?_⟩
      · rintro g ⟨e, he, hg⟩ hfree
        cases e with
        | zero =>
          rw [Nat.add_zero, Nat.mod_eq_of_lt hh] at hg
          rw [← hg]
          rw [g6 r.clock_hand_ (by
            rintro ⟨⟨e1, he1, hg1⟩, -⟩
            exact hne (e1 + 1) (by omega) (by omega) hg1)]
          rw [Function.update_same]
        | succ e1 =>
          have hgne : g ≠ r.clock_hand_ := by
            rw [← hg]; exact hne (e1 + 1) (by omega) (by omega)
          apply g5 g ⟨e1, by omega, hg⟩
          rw [Function.update_noteq hgne]
          exact hfree
      · intro g hg
        have hgne : g ≠ r.clock_hand_ := by
          intro e
          apply hg
          refine ⟨⟨0, by omega, ?_⟩, ?_⟩
          · rw [Nat.add_zero, Nat.mod_eq_of_lt hh, e]
          · rw [e]; exact hf0
        rw [g6 g (by
          rintro ⟨⟨e1, he1, hg1⟩, hfr⟩
          rw [Function.update_noteq hgne] at hfr
          exact hg ⟨⟨e1 + 1, by omega, hg1⟩, hfr⟩)]
        rw [Function.update_noteq hgne]
    · simp only [hf0]
      obtain ⟨r1, g1, g2, g3, g4, g5, g6⟩ := ih (Step r) k
        (by simpa [Step] using Nat.mod_lt _ hN) (by simp only [Step]; omega)
        (by simp only [Step]; rw [pos_step]; exact hf)
        (by simp only [Step]; rw [pos_step]; exact hr)
        (by
          intro e he
          simp only [Step]
          rw [pos_step]
          exact hmin (e + 1) (by omega))
      simp only [Step, pos_step] at g1 g2 g3 g4 g5 g6
      refine ⟨r1, by simpa using g1, g2, g3, g4, ?_, ?_⟩
      · rintro g ⟨e, he, hg⟩ hfree
        cases e with
        | zero =>
          rw [Nat.add_zero, Nat.mod_eq_of_lt hh] at hg
          rw [← hg] at hfree
          exact absurd hfree hf0
        | succ e1 => exact g5 g ⟨e1, by omega, hg⟩ hfree
      · intro g hg
        exact g6 g (by
          rintro ⟨⟨e1, he1, hg1⟩, hfr⟩
          exact hg ⟨⟨e1 + 1, by omega, hg1⟩, hfr⟩)

end ClockReplacer

namespace ClockReplacer

/-- The sweep when every candidate has `ref = true` and the nearest candidate is
`d` steps ahead: it returns that frame after a full revolution, leaves the hand
one step behind it and has cleared `ref` of every candidate. -/
theorem FindVictim_all_ref (d : Nat) : ∀ (r : ClockReplacer) (k : Nat),
    r.clock_hand_ < r.num_pages → d < r.num_pages →
    (∀ g, (r.frame_infos_ g).free = true → g < r.num_pages) →
    (∀ g, (r.frame_infos_ g).free = true → (r.frame_infos_ g).ref = true) →
    (r.frame_infos_ ((r.clock_hand_ + d) % r.num_pages)).free = true →
    (∀ e, e < d → (r.frame_infos_ ((r.clock_hand_ + e) % r.num_pages)).free = false) →
    ∃ r1, FindVictim (d + 1 + r.num_pages + k) r =
        some ((r.clock_hand_ + d) % r.num_pages, r1) ∧
      r1.clock_hand_ = ((r.clock_hand_ + d) % r.num_pages + 1) % r.num_pages ∧
      r1.num_pages = r.num_pages ∧ r1.size_ = r.size_ ∧
      (∀ g, (r.frame_infos_ g).free = true → r1.frame_infos_ g = ⟨true, false⟩) ∧
      (∀ g, (r.frame_infos_ g).free = false → r1.frame_infos_ g = r.frame_infos_ g) := by
  induction d with
  | zero =>
    intro r k hh _ hrange href hf _
    have hN : 0 < r.num_pages := by omega
    have e0 : (r.clock_hand_ + 0) % r.num_pages = r.clock_hand_ := by
      rw [Nat.add_zero, Nat.mod_eq_of_lt hh]
    rw [e0] at hf ⊢
    have hr0 := href _ hf
    have hne : ∀ x, 0 < x → x < r.num_pages → (r.clock_hand_ + x) % r.num_pages ≠ r.clock_hand_ :=
      fun x h1 h2 => pos_ne_hand _ _ x hh h1 h2
    have hback : (r.clock_hand_ + (r.num_pages - 1 + 1)) % r.num_pages = r.clock_hand_ := by
      rw [show r.clock_hand_ + (r.num_pages - 1 + 1) = r.clock_hand_ + r.num_pages by omega,
        Nat.add_mod_right, Nat.mod_eq_of_lt hh]
    obtain ⟨r1, g1, g2, g3, g4, g5, g6⟩ := FindVictim_first_clear (r.num_pages - 1)
      (Step { r with frame_infos_ := Function.update r.frame_infos_ r.clock_hand_ ⟨true, false⟩ }) k
      (by simpa [Step] using Nat.mod_lt _ hN) (by simp only [Step]; omega)
      (by simp only [Step]; rw [pos_step, hback, Function.update_same])
      (by simp only [Step]; rw [pos_step, hback, Function.update_same])
      (by
        intro e he
        simp only [Step] at he ⊢
        rw [pos_step, Function.update_noteq (hne _ (by omega) (by omega))]
        rintro ⟨h1, h2⟩
        rw [href _ h1] at h2
        cases h2)
    simp only [Step, pos_step, hback] at g1 g2 g3 g4 g5 g6
    rw [show r.num_pages - 1 + 1 + k = r.num_pages + k by omega] at g1
    refine ⟨r1, ?_, g2, g3, g4, ?_, ?_⟩
    · rw [show 0 + 1 + r.num_pages + k = (r.num_pages + k) + 1 by omega, FindVictim]
      simp only [hf, hr0, if_true]
      exact g1
    · intro g hg
      by_cases e : g = r.clock_hand_
      · rw [e, g6 r.clock_hand_ (by
          rintro ⟨⟨e1, he1, hg1⟩, -⟩
          exact hne (e1 + 1) (by omega) (by omega) hg1)]
        rw [Function.update_same]
      · obtain ⟨x, hx1, hx2, hx3⟩ := pos_surj r.num_pages r.clock_hand_ g hh (hrange g hg)
        have hx0 := hx3 e
        apply g5 g ⟨x - 1, by omega, by rw [Nat.sub_add_cancel hx0]; exact hx2⟩
        rw [Function.update_noteq e]
        exact hg
    · intro g hg
      have e : g ≠ r.clock_hand_ := by
        intro e; rw [e, hf] at hg; cases hg
      rw [g6 g (by
        rintro ⟨-, hfr⟩
        rw [Function.update_noteq e, hg] at hfr
        cases hfr)]
      rw [Function.update_noteq e]
  | succ d ih =>
    intro r k hh hd hrange href hf hmin
    have hN : 0 < r.num_pages := by omega
    have h0 := hmin 0 (by omega)
    rw [Nat.add_zero, Nat.mod_eq_of_lt hh] at h0
    obtain ⟨r1, g1, g2, g3, g4, g5, g6⟩ := ih (Step r) k
      (by simpa [Step] using Nat.mod_lt _ hN) (by simp only [Step]; omega)
      hrange href
      (by simp only [Step]; rw [pos_step]; exact hf)
      (by
        intro e he
        simp only [Step]
        rw [pos_step]
        exact hmin (e + 1) (by omega))
    simp only [Step, pos_step] at g1 g2 g3 g4 g5 g6
    refine ⟨r1, ?_, g2, g3, g4, g5, g6⟩
    rw [show d + 1 + 1 + r.num_pages + k = (d + 1 + r.num_pages + k) + 1 by omega, FindVictim]
    simp only [h0]
    simpa using g1

end ClockReplacer

namespace ClockReplacer

/-- `Victim` on top of a sweep that returns `(v, r1)`. -/
theorem Victim_of_FindVictim (r : ClockReplacer) (hs : r.size_ ≠ 0) (v : Nat) (r1 : ClockReplacer)
    (h : FindVictim (2 * r.num_pages) r = some (v, r1)) :
    ∃ r2, Victim r = some (some v, r2) ∧ r2.clock_hand_ = r1.clock_hand_ ∧
      (∀ g, (r2.frame_infos_ g).ref = (r1.frame_infos_ g).ref) ∧
      (∀ g, (r2.frame_infos_ g).free = if g = v then false else (r1.frame_infos_ g).free) := by
  refine ⟨{ r1 with
      frame_infos_ := Function.update r1.frame_infos_ v
        (⟨false, (r1.frame_infos_ v).ref⟩ : ClockReplacerFrameInfo),
      size_ := r1.size_ - 1 }, ?_, rfl, ?_, ?_⟩
  · simp only [Victim, hs, if_false, h]
  · intro g
    by_cases e : g = v
    · subst e; simp
    · simp [Function.update_noteq e]
  · intro g
    by_cases e : g = v
    · subst e; simp
    · simp [Function.update_noteq e, e]

/-- C25 (clock selection rule): in every reachable replacer state with a
candidate, `Victim` returns a frame `v` that is `d < num_pages` steps ahead of
`clock_hand_` in cyclic order, clears `free[v]`, leaves every other `free` flag
as it is and leaves `clock_hand_ = (v + 1) mod num_pages`. Either `v` is the
first candidate with `ref = false` in cyclic order from `clock_hand_`, and then
`ref` has been cleared of exactly the candidates passed before it; or every
candidate has `ref = true`, `v` is the first candidate in cyclic order from
`clock_hand_`, and then `ref` has been cleared of every candidate and of no
other frame. -/
theorem C25_clock_selection_rule (r : ClockReplacer) (h : Reachable r) (f0 : Nat)
    (hf0 : (r.frame_infos_ f0).free = true) :
    ∃ (d v : Nat) (r1 : ClockReplacer),
      d < r.num_pages ∧ v = (r.clock_hand_ + d) % r.num_pages ∧
      Victim r = some (some v, r1) ∧
      (r.frame_infos_ v).free = true ∧
      r1.clock_hand_ = (v + 1) % r.num_pages ∧
      (∀ g, (r1.frame_infos_ g).free = if g = v then false else (r.frame_infos_ g).free) ∧
      (((r.frame_infos_ v).ref = false ∧
        (∀ e, e < d → ¬ ((r.frame_infos_ ((r.clock_hand_ + e) % r.num_pages)).free = true ∧
          (r.frame_infos_ ((r.clock_hand_ + e) % r.num_pages)).ref = false)) ∧
        (∀ g, (∃ e, e < d ∧ (r.clock_hand_ + e) % r.num_pages = g) →
          (r.frame_infos_ g).free = true → (r1.frame_infos_ g).ref = false) ∧
        (∀ g, ¬ ((∃ e, e < d ∧ (r.clock_hand_ + e) % r.num_pages = g) ∧
          (r.frame_infos_ g).free = true) → (r1.frame_infos_ g).ref = (r.frame_infos_ g).ref)) ∨
       ((∀ g, (r.frame_infos_ g).free = true → (r.frame_infos_ g).ref = true) ∧
        (∀ e, e < d → (r.frame_infos_ ((r.clock_hand_ + e) % r.num_pages)).free = false) ∧
        (∀ g, (r.frame_infos_ g).free = true → (r1.frame_infos_ g).ref = false) ∧
        (∀ g, (r.frame_infos_ g).free = false →
          (r1.frame_infos_ g).ref = (r.frame_infos_ g).ref))) := by
  have hw := h.replacerWF
  have hlt := hw.range f0 hf0
  have hhand : r.clock_hand_ < r.num_pages := by
    rcases hw.hand with h0 | h0
    · omega
    · exact h0
  have hmem : f0 ∈ candidates r := by simp [candidates, hf0, hlt]
  have hs : r.size_ ≠ 0 := by
    rw [hw.size]; exact Finset.card_ne_zero_of_mem hmem
  by_cases hclear : ∃ g, (r.frame_infos_ g).free = true ∧ (r.frame_infos_ g).ref = false
  · obtain ⟨g0, hg1, hg2⟩ := hclear
    obtain ⟨x, hx1, hx2, -⟩ := pos_surj r.num_pages r.clock_hand_ g0 hhand (hw.range g0 hg1)
    have hex : ∃ d, (r.frame_infos_ ((r.clock_hand_ + d) % r.num_pages)).free = true ∧
        (r.frame_infos_ ((r.clock_hand_ + d) % r.num_pages)).ref = false :=
      ⟨x, by rw [hx2]; exact ⟨hg1, hg2⟩⟩
    have hd := Nat.find_spec hex
    have hdle : Nat.find hex ≤ x := Nat.find_min' hex (by rw [hx2]; exact ⟨hg1, hg2⟩)
    have hmin : ∀ e, e < Nat.find hex →
        ¬ ((r.frame_infos_ ((r.clock_hand_ + e) % r.num_pages)).free = true ∧
          (r.frame_infos_ ((r.clock_hand_ + e) % r.num_pages)).ref = false) :=
      fun e he => Nat.find_min hex he
    generalize Nat.find hex = d at hd hdle hmin
    obtain ⟨r1, g1, g2, g3, g4, g5, g6⟩ := FindVictim_first_clear d r
      (2 * r.num_pages - (d + 1)) hhand (by omega) hd.1 hd.2 hmin
    rw [show d + 1 + (2 * r.num_pages - (d + 1)) = 2 * r.num_pages by omega] at g1
    obtain ⟨-, -, -, -, -, s6⟩ := FindVictim_sound _ r _ r1 hhand g1
    obtain ⟨r2, v1, v2, v3, v4⟩ := Victim_of_FindVictim r hs _ r1 g1
    refine ⟨d, _, r2, by omega, rfl, v1, hd.1, v2.trans g2, ?_, Or.inl ⟨hd.2, hmin, ?_, ?_⟩⟩
    · intro g
      rw [v4 g, s6 g]
    · intro g hp hfree
      rw [v3 g, g5 g hp hfree]
    · intro g hn
      rw [v3 g, g6 g hn]
  · have href : ∀ g, (r.frame_infos_ g).free = true → (r.frame_infos_ g).ref = true := by
      intro g hg
      cases hx : (r.frame_infos_ g).ref with
      | true => rfl
      | false => exact absurd ⟨g, hg, hx⟩ hclear
    obtain ⟨x, hx1, hx2, -⟩ := pos_surj r.num_pages r.clock_hand_ f0 hhand hlt
    have hex : ∃ d, (r.frame_infos_ ((r.clock_hand_ + d) % r.num_pages)).free = true :=
      ⟨x, by rw [hx2]; exact hf0⟩
    have hd := Nat.find_spec hex
    have hdle : Nat.find hex ≤ x := Nat.find_min' hex (by rw [hx2]; exact hf0)
    have hmin : ∀ e, e < Nat.find hex →
        (r.frame_infos_ ((r.clock_hand_ + e) % r.num_pages)).free = false := by
      intro e he
      have := Nat.find_min hex he
      simpa using this
    generalize Nat.find hex = d at hd hdle hmin
    obtain ⟨r1, g1, g2, g3, g4, g5, g6⟩ := FindVictim_all_ref d r
      (2 * r.num_pages - (d + 1 + r.num_pages)) hhand (by omega) hw.range href hd hmin
    rw [show d + 1 + r.num_pages + (2 * r.num_pages - (d + 1 + r.num_pages)) = 2 * r.num_pages
      by omega] at g1
    obtain ⟨-, -, -, -, -, s6⟩ := FindVictim_sound _ r _ r1 hhand g1
    obtain ⟨r2, v1, v2, v3, v4⟩ := Victim_of_FindVictim r hs _ r1 g1
    refine ⟨d, _, r2, by omega, rfl, v1, hd, v2.trans g2, ?_, Or.inr ⟨href, hmin, ?_, ?_⟩⟩
    · intro g
      rw [v4 g, s6 g]
    · intro g hfree
      rw [v3 g, g5 g hfree]
    · intro g hn
      rw [v3 g, g6 g hn]

end ClockReplacer

/-- Witness for C25: replacer of size 3 after `Unpin(0)`, `Unpin(1)`,
`Unpin(2)`, `Pin(1)`: the `Victim` calls return frame 0 (hand at 1 afterwards),
then frame 2 (hand at 0), then false; the rule holds for the first call. -/
theorem C25_witness :
    ClockReplacer.Reachable Scenario.replacer3 ∧
    (Scenario.replacer3.frame_infos_ 0).free = true ∧
    (ClockReplacer.Victim Scenario.replacer3).map Prod.fst = some (some 0) ∧
    (Scenario.afterVictim Scenario.replacer3).clock_hand_ = 1 ∧
    (ClockReplacer.Victim (Scenario.afterVictim Scenario.replacer3)).map Prod.fst
      = some (some 2) ∧
    (Scenario.afterVictim (Scenario.afterVictim Scenario.replacer3)).clock_hand_ = 0 ∧
    (ClockReplacer.Victim (Scenario.afterVictim (Scenario.afterVictim Scenario.replacer3))).map
      Prod.fst = some none ∧
    ∃ (d v : Nat) (r1 : ClockReplacer),
      d < Scenario.replacer3.num_pages ∧
      v = (Scenario.replacer3.clock_hand_ + d) % Scenario.replacer3.num_pages ∧
      ClockReplacer.Victim Scenario.replacer3 = some (some v, r1) ∧
      (Scenario.replacer3.frame_infos_ v).free = true ∧
      r1.clock_hand_ = (v + 1) % Scenario.replacer3.num_pages :=
  ⟨Scenario.replacer3_reachable, by decide, by decide, by decide, by decide, by decide, by decide,
    (ClockReplacer.C25_clock_selection_rule Scenario.replacer3 Scenario.replacer3_reachable 0
      (by decide)).imp fun _ h1 => h1.imp fun _ h2 => h2.imp fun _ h3 =>
        ⟨h3.1, h3.2.1, h3.2.2.1, h3.2.2.2.1, h3.2.2.2.2.1⟩⟩

namespace LinearProbeHashTable

/-! ## Index safety -/

variable {K V : Type}

/-- With the bucket range of the loop inside the block page the checked bucket
loop of `GetValue` is the unchecked one. -/
theorem getValueScanChecked_eq [Inhabited K] [Inhabited V] [DecidableEq V] (B : Nat)
    (cmp : K → K → Int) (key : K) (page : HashTableBlockPage K V) (bi bu cb : Nat) (n : Nat) :
    ∀ (i : Nat) (first : Bool) (acc : List V), i + n ≤ B →
    getValueScanChecked B cmp key page bi bu cb n i first acc =
      Checked.ok (getValueScan cmp key page bi bu cb n i first acc) := by
  induction n with
  | zero => intro i first acc _; rfl
  | succ n ih =>
    intro i first acc h
    rw [getValueScanChecked, getValueScan]
    simp only []
    split
    · rfl
    · rw [if_pos (by omega : i < B)]
      split
      · split
        · split
          · exact ih _ _ _ (by omega)
          · exact ih _ _ _ (by omega)
        · exact ih _ _ _ (by omega)
      · rfl

theorem insertScanChecked_eq [Inhabited K] [Inhabited V] [DecidableEq V] (B : Nat)
    (cmp : K → K → Int) (key : K) (value : V) (page : HashTableBlockPage K V) (bi bu cb : Nat)
    (n : Nat) : ∀ (i : Nat) (first : Bool), i + n ≤ B →
    insertScanChecked B cmp key value page bi bu cb n i first =
      Checked.ok (insertScan cmp key value page bi bu cb n i first) := by
  induction n with
  | zero => intro i first _; rfl
  | succ n ih =>
    intro i first h
    rw [insertScanChecked, insertScan]
    simp only []
    split
    · rfl
    · rw [if_pos (by omega : i < B)]
      split
      · split
        · rfl
        · exact ih _ _ (by omega)
      · rfl

theorem removeScanChecked_eq [Inhabited K] [Inhabited V] [DecidableEq V] (B : Nat)
    (cmp : K → K → Int) (key : K) (value : V) (page : HashTableBlockPage K V) (bi bu cb : Nat)
    (n : Nat) : ∀ (i : Nat) (first : Bool), i + n ≤ B →
    removeScanChecked B cmp key value page bi bu cb n i first =
      Checked.ok (removeScan cmp key value page bi bu cb n i first) := by
  induction n with
  | zero => intro i first _; rfl
  | succ n ih =>
    intro i first h
    rw [removeScanChecked, removeScan]
    simp only []
    split
    · rfl
    · rw [if_pos (by omega : i < B)]
      split
      · split
        · split
          · rfl
          · exact ih _ _ (by omega)
        · exact ih _ _ (by omega)
      · rfl

/-- The bucket range `[ci, max_bucket_index)` of a probe pass is inside the
block page, or empty. -/
theorem scan_range (B nb nblk cb ci : Nat) (hB : 0 < B) :
    ci + (maxBucketIndex B nb nblk cb - ci) ≤ B ∨ maxBucketIndex B nb nblk cb - ci = 0 := by
  have := maxBucketIndex_le B nb nblk cb hB
  omega

end LinearProbeHashTable

namespace LinearProbeHashTable

variable {K V : Type}

theorem getValueScanChecked_pass [Inhabited K] [Inhabited V] [DecidableEq V] (B : Nat)
    (cmp : K → K → Int) (key : K) (page : HashTableBlockPage K V) (bi bu cb n i : Nat)
    (first : Bool) (acc : List V) (h : i + n ≤ B ∨ n = 0) :
    getValueScanChecked B cmp key page bi bu cb n i first acc =
      Checked.ok (getValueScan cmp key page bi bu cb n i first acc) := by
  rcases h with h | h
  · exact getValueScanChecked_eq B cmp key page bi bu cb n i first acc h
  · subst h; rfl

theorem insertScanChecked_pass [Inhabited K] [Inhabited V] [DecidableEq V] (B : Nat)
    (cmp : K → K → Int) (key : K) (value : V) (page : HashTableBlockPage K V)
    (bi bu cb n i : Nat) (first : Bool) (h : i + n ≤ B ∨ n = 0) :
    insertScanChecked B cmp key value page bi bu cb n i first =
      Checked.ok (insertScan cmp key value page bi bu cb n i first) := by
  rcases h with h | h
  · exact insertScanChecked_eq B cmp key value page bi bu cb n i first h
  · subst h; rfl

theorem removeScanChecked_pass [Inhabited K] [Inhabited V] [DecidableEq V] (B : Nat)
    (cmp : K → K → Int) (key : K) (value : V) (page : HashTableBlockPage K V)
    (bi bu cb n i : Nat) (first : Bool) (h : i + n ≤ B ∨ n = 0) :
    removeScanChecked B cmp key value page bi bu cb n i first =
      Checked.ok (removeScan cmp key value page bi bu cb n i first) := by
  rcases h with h | h
  · exact removeScanChecked_eq B cmp key value page bi bu cb n i first h
  · subst h; rfl

/-- From a block of the table on, the checked probe loop of `GetValue` is the
unchecked one: no check fails. -/
theorem getValueProbeChecked_eq [Inhabited K] [Inhabited V] [DecidableEq V] (B : Nat)
    (t : LinearProbeHashTable K V) (key : K) (hdr : HashTableHeaderPage) (nb nblk bi bu : Nat)
    (hB : 0 < B) (hn : nblk = hdr.NumBlocks) (hpos : 0 < nblk) (fuel : Nat) :
    ∀ (cb ci : Nat) (first : Bool) (acc : List V), cb < nblk →
    getValueProbeChecked B t key hdr nb nblk bi bu fuel cb ci first acc =
      Checked.ofOption (getValueProbe B t key hdr nb nblk bi bu fuel cb ci first acc) := by
  induction fuel with
  | zero => intro cb ci first acc _; rfl
  | succ fuel ih =>
    intro cb ci first acc hcb
    rw [getValueProbeChecked, getValueProbe, if_pos (by rw [← hn]; exact hcb)]
    simp only []
    rw [getValueScanChecked_pass B _ _ _ _ _ _ _ _ _ _ (scan_range B nb nblk cb ci hB)]
    cases getValueScan t.comparator_ key (t.block_pages (hdr.GetBlockPageId cb)) bi bu cb
        (maxBucketIndex B nb nblk cb - ci) ci first acc with
    | returned r => rfl
    | cycled r => rfl
    | finished f1 r =>
      simp only []
      rw [if_neg (by omega)]
      exact ih _ _ _ _ (Nat.mod_lt _ hpos)

theorem insertProbeChecked_eq [Inhabited K] [Inhabited V] [DecidableEq V] (B : Nat)
    (t : LinearProbeHashTable K V) (key : K) (value : V) (hdr : HashTableHeaderPage)
    (nb nblk bi bu : Nat) (hB : 0 < B) (hn : nblk = hdr.NumBlocks) (hpos : 0 < nblk)
    (fuel : Nat) : ∀ (cb ci : Nat) (first : Bool), cb < nblk →
    insertProbeChecked B t key value hdr nb nblk bi bu fuel cb ci first =
      Checked.ofOption (insertProbe B t key value hdr nb nblk bi bu fuel cb ci first) := by
  induction fuel with
  | zero => intro cb ci first _; rfl
  | succ fuel ih =>
    intro cb ci first hcb
    rw [insertProbeChecked, insertProbe, if_pos (by rw [← hn]; exact hcb)]
    simp only []
    rw [insertScanChecked_pass B _ _ _ _ _ _ _ _ _ _ (scan_range B nb nblk cb ci hB)]
    cases insertScan t.comparator_ key value (t.block_pages (hdr.GetBlockPageId cb)) bi bu cb
        (maxBucketIndex B nb nblk cb - ci) ci first with
    | returned r => rfl
    | cycled r => rfl
    | finished f1 r =>
      simp only []
      rw [if_neg (by omega)]
      exact ih _ _ _ (Nat.mod_lt _ hpos)

theorem removeProbeChecked_eq [Inhabited K] [Inhabited V] [DecidableEq V] (B : Nat)
    (t : LinearProbeHashTable K V) (key : K) (value : V) (hdr : HashTableHeaderPage)
    (nb nblk bi bu : Nat) (hB : 0 < B) (hn : nblk = hdr.NumBlocks) (hpos : 0 < nblk)
    (fuel : Nat) : ∀ (cb ci : Nat) (first : Bool), cb < nblk →
    removeProbeChecked B t key value hdr nb nblk bi bu fuel cb ci first =
      Checked.ofOption (removeProbe B t key value hdr nb nblk bi bu fuel cb ci first) := by
  induction fuel with
  | zero => intro cb ci first _; rfl
  | succ fuel ih =>
    intro cb ci first hcb
    rw [removeProbeChecked, removeProbe, if_pos (by rw [← hn]; exact hcb)]
    simp only []
    rw [removeScanChecked_pass B _ _ _ _ _ _ _ _ _ _ (scan_range B nb nblk cb ci hB)]
    cases removeScan t.comparator_ key value (t.block_pages (hdr.GetBlockPageId cb)) bi bu cb
        (maxBucketIndex B nb nblk cb - ci) ci first with
    | returned r => rfl
    | cycled r => rfl
    | finished f1 r =>
      simp only []
      rw [if_neg (by omega)]
      exact ih _ _ _ (Nat.mod_lt _ hpos)

theorem insertToNewProbeChecked_eq [Inhabited K] [Inhabited V] [DecidableEq V] (B : Nat)
    (t : LinearProbeHashTable K V) (key : K) (value : V) (hdr : HashTableHeaderPage)
    (nblk bi bu : Nat) (hn : nblk = hdr.NumBlocks) (hpos : 0 < nblk)
    (fuel : Nat) : ∀ (cb ci : Nat) (first : Bool), cb < nblk →
    insertToNewProbeChecked B t key value hdr nblk bi bu fuel cb ci first =
      Checked.ofOption (insertToNewProbe B t key value hdr nblk bi bu fuel cb ci first) := by
  induction fuel with
  | zero => intro cb ci first _; rfl
  | succ fuel ih =>
    intro cb ci first hcb
    rw [insertToNewProbeChecked, insertToNewProbe, if_pos (by rw [← hn]; exact hcb)]
    simp only []
    rw [insertScanChecked_pass B _ _ _ _ _ _ _ _ _ _ (by omega)]
    cases insertScan t.comparator_ key value (t.block_pages (hdr.GetBlockPageId cb)) bi bu cb
        (B - ci) ci first with
    | returned r => rfl
    | cycled r => rfl
    | finished f1 r =>
      simp only []
      rw [if_neg (by omega)]
      exact ih _ _ _ (Nat.mod_lt _ hpos)

end LinearProbeHashTable

namespace LinearProbeHashTable

variable {K V : Type}

/-- With a header page that records at least one bucket and the matching number
of block pages no check of `GetValue` fails. -/
theorem GetValueChecked_eq [Inhabited K] [Inhabited V] [DecidableEq V] (B : Nat)
    (t : LinearProbeHashTable K V)
    (g : Geometry B (t.header_pages t.header_page_id_).GetSize
      (t.header_pages t.header_page_id_).NumBlocks) (key : K) :
    GetValueChecked B t key = Checked.ofOption (GetValue B t key) := by
  have hs : t.hash_fn_ key % (t.header_pages t.header_page_id_).GetSize <
      (t.header_pages t.header_page_id_).GetSize := Nat.mod_lt _ g.buckets_pos
  unfold GetValueChecked GetValue
  simp only []
  rw [if_neg (Nat.pos_iff_ne_zero.mp g.buckets_pos)]
  exact getValueProbeChecked_eq B t key _ _ _ _ _ g.block_pos rfl g.blocks_pos _ _ _ _ _
    (g.home_block_lt _ hs)

theorem RemoveChecked_eq [Inhabited K] [Inhabited V] [DecidableEq V] (B : Nat)
    (t : LinearProbeHashTable K V)
    (g : Geometry B (t.header_pages t.header_page_id_).GetSize
      (t.header_pages t.header_page_id_).NumBlocks) (key : K) (value : V) :
    RemoveChecked B t key value = Checked.ofOption (Remove B t key value) := by
  have hs : t.hash_fn_ key % (t.header_pages t.header_page_id_).GetSize <
      (t.header_pages t.header_page_id_).GetSize := Nat.mod_lt _ g.buckets_pos
  unfold RemoveChecked Remove
  simp only []
  rw [if_neg (Nat.pos_iff_ne_zero.mp g.buckets_pos)]
  exact removeProbeChecked_eq B t key value _ _ _ _ _ g.block_pos rfl g.blocks_pos _ _ _ _
    (g.home_block_lt _ hs)

theorem InsertToNewChecked_eq [Inhabited K] [Inhabited V] [DecidableEq V] (B : Nat) (id : Int)
    (t : LinearProbeHashTable K V)
    (g : Geometry B (t.header_pages id).GetSize (t.header_pages id).NumBlocks)
    (key : K) (value : V) :
    InsertToNewChecked B id t key value = Checked.ofOption (InsertToNew B id t key value) := by
  have hs : t.hash_fn_ key % (t.header_pages id).GetSize < (t.header_pages id).GetSize :=
    Nat.mod_lt _ g.buckets_pos
  unfold InsertToNewChecked InsertToNew
  simp only []
  rw [if_neg (Nat.pos_iff_ne_zero.mp g.buckets_pos)]
  exact insertToNewProbeChecked_eq B t key value _ _ _ _ rfl g.blocks_pos _ _ _ _
    (g.home_block_lt _ hs)

theorem resizeBucketsChecked_eq [Inhabited K] [Inhabited V] [DecidableEq V] (B : Nat)
    (id bid : Int) (n : Nat) : ∀ (i : Nat) (t : LinearProbeHashTable K V), i + n ≤ B →
    Geometry B (t.header_pages id).GetSize (t.header_pages id).NumBlocks →
    resizeBucketsChecked B id bid n i t = Checked.ofOption (resizeBuckets B id bid n i t) := by
  induction n with
  | zero => intro i t _ _; rfl
  | succ n ih =>
    intro i t h g
    rw [resizeBucketsChecked, resizeBuckets, if_pos (by omega : i < B)]
    simp only []
    by_cases hr : (t.block_pages bid).IsReadable i = true
    · rw [if_pos hr, if_pos hr, InsertToNewChecked_eq B id t g]
      cases hi : InsertToNew B id t ((t.block_pages bid).KeyAt i) ((t.block_pages bid).ValueAt i) with
      | none => rfl
      | some r =>
        obtain ⟨b, t1⟩ := r
        have hm := InsertToNew_meta B id t _ _ b t1 hi
        exact ih _ t1 (by omega) (by rw [hm.header_pages]; exact g)
    · rw [if_neg hr, if_neg hr]
      exact ih _ t (by omega) g

theorem resizeBlocksChecked_eq [Inhabited K] [Inhabited V] [DecidableEq V] (B : Nat)
    (id : Int) (hdr : HashTableHeaderPage) (n : Nat) :
    ∀ (index : Nat) (t : LinearProbeHashTable K V), index + n ≤ hdr.NumBlocks →
    Geometry B (t.header_pages id).GetSize (t.header_pages id).NumBlocks →
    resizeBlocksChecked B id hdr n index t = Checked.ofOption (resizeBlocks B id hdr n index t) := by
  induction n with
  | zero => intro index t _ _; rfl
  | succ n ih =>
    intro index t h g
    rw [resizeBlocksChecked, resizeBlocks, if_pos (by omega : index < hdr.NumBlocks)]
    simp only []
    rw [resizeBucketsChecked_eq B id _ B 0 t (by omega) g]
    cases hb : resizeBuckets B id (hdr.GetBlockPageId index) B 0 t with
    | none => rfl
    | some t1 =>
      have hm := resizeBuckets_meta B id _ B 0 t t1 hb
      exact ih _ t1 (by omega) (by rw [hm.header_pages]; exact g)

/-- On a well-formed table no check of `Resize` fails. -/
theorem ResizeChecked_eq [Inhabited K] [Inhabited V] [DecidableEq V] (B : Nat)
    (t : LinearProbeHashTable K V) (hw : TableWF B t) (initial_size : Nat) :
    ResizeChecked B t initial_size = Checked.ofOption (Resize B t initial_size) := by
  unfold ResizeChecked Resize
  by_cases hle : initial_size ≤ t.size_
  · rw [if_pos hle, if_pos hle]; rfl
  · rw [if_neg hle, if_neg hle]
    simp only [NewPage]
    generalize hT : (
      { header_page_id_ := t.header_page_id_, size_ := t.size_, comparator_ := t.comparator_,
        hash_fn_ := t.hash_fn_,
        header_pages := Function.update
          (Function.update t.header_pages t.next_page_id_ HashTableHeaderPage.zeroed)
          t.next_page_id_
          (((Function.update t.header_pages t.next_page_id_ HashTableHeaderPage.zeroed
            t.next_page_id_).SetPageId t.next_page_id_).SetSize initial_size),
        block_pages := Function.update t.block_pages t.next_page_id_ HashTableBlockPage.zeroed,
        next_page_id_ := t.next_page_id_ + 1 } : LinearProbeHashTable K V) = T
    have e1 : (T.header_pages t.next_page_id_).size_ = initial_size := by
      rw [← hT]
      simp only [Function.update_same, HashTableHeaderPage.SetSize]
    have e2 : (T.header_pages t.next_page_id_).next_ind_ = 0 := by
      rw [← hT]
      simp only [Function.update_same, HashTableHeaderPage.SetSize,
        HashTableHeaderPage.SetPageId, HashTableHeaderPage.zeroed]
    have e3 : T.next_page_id_ = t.next_page_id_ + 1 := by rw [← hT]
    obtain ⟨h1, h2, -, -, -, -, -⟩ := allocateBlocks_spec t.next_page_id_
      (initial_size / B + 1) T (by rw [e3]; omega)
    rw [e1] at h1
    rw [e2, Nat.zero_add] at h2
    have g : Geometry B
        ((allocateBlocks t.next_page_id_ (initial_size / B + 1) T).header_pages
          t.next_page_id_).GetSize
        ((allocateBlocks t.next_page_id_ (initial_size / B + 1) T).header_pages
          t.next_page_id_).NumBlocks := by
      rw [HashTableHeaderPage.GetSize, HashTableHeaderPage.NumBlocks, h1, h2]
      exact ⟨hw.geometry.block_pos, by omega, fun _ => rfl, fun _ => by omega⟩
    rw [resizeBlocksChecked_eq B _ _ _ 0 _ (by omega) g]
    cases resizeBlocks B t.next_page_id_ (t.header_pages t.header_page_id_)
        (t.header_pages t.header_page_id_).NumBlocks 0
        (allocateBlocks t.next_page_id_ (initial_size / B + 1) T) with
    | none => rfl
    | some t4 => rfl

/-- On a well-formed table no check of `Insert` fails, whatever the bound on the
number of probe passes. -/
theorem InsertChecked_eq [Inhabited K] [Inhabited V] [DecidableEq V] (B : Nat) (passes : Nat) :
    ∀ (t : LinearProbeHashTable K V), TableWF B t → ∀ (key : K) (value : V),
    InsertChecked B passes t key value = Checked.ofOption (Insert B passes t key value) := by
  induction passes with
  | zero => intro t _ key value; rfl
  | succ passes ih =>
    intro t hw key value
    have g := hw.geometry
    have hs : t.hash_fn_ key % (t.header_pages t.header_page_id_).GetSize <
        (t.header_pages t.header_page_id_).GetSize := Nat.mod_lt _ g.buckets_pos
    rw [InsertChecked, Insert]
    simp only []
    rw [if_neg (Nat.pos_iff_ne_zero.mp g.buckets_pos),
      insertProbeChecked_eq B t key value _ _ _ _ _ g.block_pos rfl g.blocks_pos _ _ _ _
        (g.home_block_lt _ hs)]
    cases hp : insertProbe B t key value (t.header_pages t.header_page_id_)
        (t.header_pages t.header_page_id_).GetSize (t.header_pages t.header_page_id_).NumBlocks
        ((t.hash_fn_ key % (t.header_pages t.header_page_id_).GetSize) / B)
        ((t.hash_fn_ key % (t.header_pages t.header_page_id_).GetSize) % B)
        ((t.header_pages t.header_page_id_).NumBlocks + 1)
        ((t.hash_fn_ key % (t.header_pages t.header_page_id_).GetSize) / B)
        ((t.hash_fn_ key % (t.header_pages t.header_page_id_).GetSize) % B) true with
    | none => rfl
    | some r =>
      obtain ⟨ob, t1⟩ := r
      have hm := insertProbe_meta B t key value _ _ _ _ _ _ _ _ _ _ _ hp
      have hw1 := hw.of_sameMeta hm
      cases ob with
      | some b => rfl
      | none =>
        simp only [Checked.ofOption]
        rw [ResizeChecked_eq B t1 hw1]
        cases hr : Resize B t1 (t1.size_ * 2) with
        | none => rfl
        | some t2 =>
          simp only [Checked.ofOption]
          exact ih t2 (Resize_wf B t1 _ t2 hw1 hr) key value

end LinearProbeHashTable

/-- A run without checks, read as a checked run, is never a `fault`. -/
theorem Checked.ofOption_ne_fault {α : Type} (o : Option α) :
    Checked.ofOption o ≠ Checked.fault := by
  cases o <;> intro h <;> cases h

namespace LinearProbeHashTable

variable {K V : Type}

/-- C31 (index safety): in every table state reached from a constructor call
with `BLOCK_ARRAY_SIZE > 0` and `num_buckets >= 1` by `Insert`, `Remove` and
`Resize` calls, the size recorded in the header page is not 0, the home block
index of every key is below `NumBlocks()` and its home bucket index below
`BLOCK_ARRAY_SIZE`, and `GetValue`, `Insert` (with every bound on the number of
probe passes), `Remove` and `Resize` run with checked indices behave as without
the checks: no block index passed to `GetBlockPageId` is `NumBlocks()` or more,
no bucket index passed to a block page is `BLOCK_ARRAY_SIZE` or more, no `%`
has the divisor 0, so none of these runs ends with `fault`. -/
theorem C31_index_safety [Inhabited K] [Inhabited V] [DecidableEq V] (B : Nat)
    (t : LinearProbeHashTable K V) (h : Reachable B t) :
    (t.header_pages t.header_page_id_).GetSize ≠ 0 ∧
    (∀ key, (homeSlot B t key).1 < (t.header_pages t.header_page_id_).NumBlocks ∧
      (homeSlot B t key).2 < B) ∧
    ((∀ key, GetValueChecked B t key = Checked.ofOption (GetValue B t key)) ∧
      (∀ passes key value,
        InsertChecked B passes t key value = Checked.ofOption (Insert B passes t key value)) ∧
      (∀ key value, RemoveChecked B t key value = Checked.ofOption (Remove B t key value)) ∧
      (∀ initial_size,
        ResizeChecked B t initial_size = Checked.ofOption (Resize B t initial_size))) ∧
    ((∀ key, GetValueChecked B t key ≠ Checked.fault) ∧
      (∀ passes key value, InsertChecked B passes t key value ≠ Checked.fault) ∧
      (∀ key value, RemoveChecked B t key value ≠ Checked.fault) ∧
      (∀ initial_size, ResizeChecked B t initial_size ≠ Checked.fault)) := by
  have hw := h.tableWF
  have g := hw.geometry
  have hs : ∀ key, t.hash_fn_ key % (t.header_pages t.header_page_id_).GetSize <
      (t.header_pages t.header_page_id_).GetSize := fun key => Nat.mod_lt _ g.buckets_pos
  refine ⟨Nat.pos_iff_ne_zero.mp g.buckets_pos,
    fun key => ⟨g.home_block_lt _ (hs key), Nat.mod_lt _ g.block_pos⟩,
    ⟨fun key => GetValueChecked_eq B t g key,
      fun passes key value => InsertChecked_eq B passes t hw key value,
      fun key value => RemoveChecked_eq B t g key value,
      fun initial_size => ResizeChecked_eq B t hw initial_size⟩,
    ⟨fun key => ?_, fun passes key value => ?_, fun key value => ?_, fun initial_size => ?_⟩⟩
  · rw [GetValueChecked_eq B t g key]; exact Checked.ofOption_ne_fault _
  · rw [InsertChecked_eq B passes t hw key value]; exact Checked.ofOption_ne_fault _
  · rw [RemoveChecked_eq B t g key value]; exact Checked.ofOption_ne_fault _
  · rw [ResizeChecked_eq B t hw initial_size]; exact Checked.ofOption_ne_fault _

end LinearProbeHashTable

set_option maxRecDepth 100000 in
/-- Witness for C31: the table `Scenario.tableC27` (four inserts and a fifth that
resizes from 4 to 8 buckets) is reachable; on it the checked `GetValue(7)`
returns, and the checked `Insert(4, 500)` that led to it, `Resize` included,
returns true. The checks are not idle: on a table constructed with 0 buckets the
checked `GetValue` ends with `fault`. -/
theorem C31_witness :
    LinearProbeHashTable.Reachable 496 Scenario.tableC27 ∧
    LinearProbeHashTable.GetValueChecked 496 Scenario.tableC27 7 = Checked.ok (true, []) ∧
    (LinearProbeHashTable.InsertChecked 496 2 Scenario.tableC3 4 500).toOption.map Prod.fst
      = some true ∧
    LinearProbeHashTable.GetValueChecked 496 (Scenario.emptyTable 0) 7 = Checked.fault ∧
    (Scenario.tableC27.header_pages Scenario.tableC27.header_page_id_).GetSize ≠ 0 ∧
    (∀ key, LinearProbeHashTable.GetValueChecked 496 Scenario.tableC27 key ≠ Checked.fault) ∧
    (∀ passes key value,
      LinearProbeHashTable.InsertChecked 496 passes Scenario.tableC27 key value ≠ Checked.fault) :=
  ⟨Scenario.tableC27_reachable, by decide!, by decide!, by decide!,
    (LinearProbeHashTable.C31_index_safety 496 Scenario.tableC27 Scenario.tableC27_reachable).1,
    (LinearProbeHashTable.C31_index_safety 496 Scenario.tableC27
      Scenario.tableC27_reachable).2.2.2.1,
    (LinearProbeHashTable.C31_index_safety 496 Scenario.tableC27
      Scenario.tableC27_reachable).2.2.2.2.1⟩

/-! ## The buffer-pool invariant in runs with arbitrary page ids

`Core` holds in every state of a run of public operations, also when `NewPage`
receives an id that is resident; only `WF.cover` depends on that assumption. -/

namespace BufferPoolManager

variable {D : Type}

theorem new_Core [Zero D] (pool_size : Nat) (disk_manager : DiskManager D) :
    Core (BufferPoolManager.new pool_size disk_manager) :=
  (new_WF pool_size disk_manager).core

/-- The three ways `GetUsableFrameImpl` ends when the replacer is well-formed:
the head of the free list, no frame at all (empty free list and no candidate),
or a victim of the replacer (empty free list). It always returns. -/
theorem GetUsableFrameImpl_outcomes (s : BufferPoolManager D) (h : Core s) :
    (∃ f rest, s.free_list_ = f :: rest ∧
      GetUsableFrameImpl s = some (some f, { s with free_list_ := rest })) ∨
    (s.free_list_ = [] ∧ (∀ f, (s.replacer_.frame_infos_ f).free = false) ∧
      GetUsableFrameImpl s = some (none, s)) ∨
    (s.free_list_ = [] ∧ ∃ f r1, (s.replacer_.frame_infos_ f).free = true ∧ f < s.pool_size_ ∧
      r1.WF ∧ r1.num_pages = s.pool_size_ ∧
      (∀ g, (r1.frame_infos_ g).free = if g = f then false else (s.replacer_.frame_infos_ g).free) ∧
      GetUsableFrameImpl s = some (some f, evictVictim s f r1)) := by
  cases hfl : s.free_list_ with
  | cons f rest =>
    left
    exact ⟨f, rest, rfl, by simp [GetUsableFrameImpl, hfl]⟩
  | nil =>
    right
    by_cases hc : ∃ f, (s.replacer_.frame_infos_ f).free = true
    · right
      obtain ⟨f0, hf0⟩ := hc
      obtain ⟨f, r1, hv, h1, h2, h3, h4, h5⟩ := ClockReplacer.Victim_some s.replacer_ h.rep f0 hf0
      refine ⟨rfl, f, r1, h2, ?_, h3, ?_, h5, ?_⟩
      · rw [← h.rep_n]; exact h1
      · rw [h4, h.rep_n]
      · simp [GetUsableFrameImpl, hfl, hv]
    · left
      have hnone : ∀ f, (s.replacer_.frame_infos_ f).free = false := by
        intro f
        by_contra hne
        exact hc ⟨f, by simpa using hne⟩
      refine ⟨rfl, hnone, ?_⟩
      simp only [GetUsableFrameImpl, hfl, ClockReplacer.Victim_none s.replacer_ h.rep hnone]
      rw [← hfl]

theorem Vacant_of_pop (s : BufferPoolManager D) (hc : Core s) (f : Nat) (rest : List Nat)
    (hfl : s.free_list_ = f :: rest) : Vacant { s with free_list_ := rest } f := by
  have hnd : (f :: rest).Nodup := hfl ▸ hc.free_nodup
  have hsub : ∀ g, g ∈ rest → g ∈ s.free_list_ := fun g hg => hfl ▸ List.mem_cons_of_mem _ hg
  have hfm : f ∈ s.free_list_ := hfl ▸ List.mem_cons_self _ _
  refine ⟨⟨hc.rep, hc.rep_n, hc.keys_nodup, hc.entry, ?_, ?_, ?_, hc.cand_pin, hc.pin_nonneg,
    hc.unpinned_cand, ?_⟩, ?_, ?_, ?_, ?_, ?_⟩
  · exact (List.nodup_cons.mp hnd).2
  · intro g hg; exact hc.free_range g (hsub g hg)
  · intro g hg; exact hc.disjoint g (hsub g hg)
  · intro g hg; exact hc.free_clean g (hsub g hg)
  · exact hc.free_range f hfm
  · exact (List.nodup_cons.mp hnd).1
  · exact hc.disjoint f hfm
  · exact (hc.free_clean f hfm).1
  · exact (hc.free_clean f hfm).2

theorem Vacant_of_evict (s : BufferPoolManager D) (hc : Core s) (f : Nat) (r1 : ClockReplacer)
    (hfl : s.free_list_ = []) (hfree : (s.replacer_.frame_infos_ f).free = true)
    (hlt : f < s.pool_size_) (hr1 : r1.WF) (hn : r1.num_pages = s.pool_size_)
    (hfr : ∀ g, (r1.frame_infos_ g).free = if g = f then false else (s.replacer_.frame_infos_ g).free) :
    Vacant (evictVictim s f r1) f := by
  have hpg := evictVictim_page s f r1
  have hpt : (evictVictim s f r1).page_table_ = s.page_table_.erase (s.pages_ f).page_id_ := rfl
  have hrep : (evictVictim s f r1).replacer_ = r1 := rfl
  have hfl1 : (evictVictim s f r1).free_list_ = s.free_list_ := rfl
  have hps : (evictVictim s f r1).pool_size_ = s.pool_size_ := rfl
  have hmem : ∀ q g, (q, g) ∈ (evictVictim s f r1).page_table_ → (q, g) ∈ s.page_table_ ∧ g ≠ f := by
    intro q g hm
    rw [hpt, PageTable.mem_erase] at hm
    refine ⟨hm.1, ?_⟩
    intro e
    rw [e] at hm
    exact hm.2 (hc.entry q f hm.1).2.symm
  refine ⟨⟨?_, ?_, ?_, ?_, ?_, ?_, ?_, ?_, ?_, ?_, ?_⟩, hlt, ?_, ?_, ?_, ?_⟩
  · rw [hrep]; exact hr1
  · rw [hrep, hps]; exact hn
  · rw [hpt]; exact PageTable.erase_keys_nodup _ _ hc.keys_nodup
  · intro q g hm
    obtain ⟨h1, _⟩ := hmem q g hm
    rw [hps, (hpg g).1]
    exact hc.entry q g h1
  · rw [hfl1]; exact hc.free_nodup
  · intro g hg; rw [hfl1, hfl] at hg; cases hg
  · intro g hg; rw [hfl1, hfl] at hg; cases hg
  · intro g hg
    rw [hrep, hfr g] at hg
    by_cases e : g = f
    · simp [e] at hg
    · simp only [e, if_false] at hg
      rw [(hpg g).2.1]; exact hc.cand_pin g hg
  · intro q g hm
    rw [(hpg g).2.1]; exact hc.pin_nonneg q g (hmem q g hm).1
  · intro q g hm hz
    obtain ⟨h1, h2⟩ := hmem q g hm
    rw [(hpg g).2.1] at hz
    rw [hrep, hfr g]
    simp only [h2, if_false]
    exact hc.unpinned_cand q g h1 hz
  · intro g hg; rw [hfl1, hfl] at hg; cases hg
  · rw [hfl1, hfl]; simp
  · intro q hm; exact (hmem q f hm).2 rfl
  · rw [(hpg f).2.1]; exact hc.cand_pin f hfree
  · rw [(hpg f).2.2.2]; simp

/-- Installing a page id in the frame handed out by `GetUsableFrameImpl` keeps
`Core`, also when the id is already mapped to another frame (its entry is then
overwritten). -/
theorem Core_install (s1 s2 : BufferPoolManager D) (f : Nat) (p : Int) (h : Vacant s1 f)
    (h1 : s2.pool_size_ = s1.pool_size_) (h2 : s2.replacer_ = s1.replacer_.Pin f)
    (h3 : s2.free_list_ = s1.free_list_) (h4 : s2.page_table_ = s1.page_table_.assign p f)
    (h5 : ∀ g, g ≠ f → s2.pages_ g = s1.pages_ g)
    (h6 : (s2.pages_ f).page_id_ = p) (h7 : (s2.pages_ f).pin_count_ = 1) : Core s2 := by
  have hc := h.core
  have hmem : ∀ q g, (q, g) ∈ s2.page_table_ →
      (q = p ∧ g = f) ∨ ((q, g) ∈ s1.page_table_ ∧ g ≠ f) := by
    intro q g hm
    rw [h4, PageTable.mem_assign] at hm
    rcases hm with hm | hm
    · left; exact hm
    · right
      refine ⟨hm.1, ?_⟩
      intro e; rw [e] at hm; exact h.not_mapped q hm.1
  have hfree : ∀ g, (s2.replacer_.frame_infos_ g).free =
      if g = f then false else (s1.replacer_.frame_infos_ g).free := by
    intro g; rw [h2]; exact ClockReplacer.Pin_free _ f g
  refine ⟨?_, ?_, ?_, ?_, ?_, ?_, ?_, ?_, ?_, ?_, ?_⟩
  · rw [h2]; exact ClockReplacer.Pin_WF _ f hc.rep
  · rw [h2, ClockReplacer.Pin_num_pages, h1]; exact hc.rep_n
  · rw [h4]; exact PageTable.assign_keys_nodup _ _ _ hc.keys_nodup
  · intro q g hm
    rcases hmem q g hm with ⟨e1, e2⟩ | ⟨hm1, hne⟩
    · rw [e1, e2, h1]; exact ⟨h.lt, h6⟩
    · rw [h1, h5 g hne]; exact hc.entry q g hm1
  · rw [h3]; exact hc.free_nodup
  · intro g hg; rw [h3] at hg; rw [h1]; exact hc.free_range g hg
  · intro g hg q hm
    rw [h3] at hg
    rcases hmem q g hm with ⟨_, e2⟩ | ⟨hm1, _⟩
    · rw [e2] at hg; exact h.not_free hg
    · exact hc.disjoint g hg q hm1
  · intro g hg
    rw [hfree g] at hg
    by_cases e : g = f
    · simp [e] at hg
    · simp only [e, if_false] at hg
      rw [h5 g e]; exact hc.cand_pin g hg
  · intro q g hm
    rcases hmem q g hm with ⟨_, e2⟩ | ⟨hm1, hne⟩
    · rw [e2, h7]; decide
    · rw [h5 g hne]; exact hc.pin_nonneg q g hm1
  · intro q g hm hz
    rcases hmem q g hm with ⟨_, e2⟩ | ⟨hm1, hne⟩
    · rw [e2, h7] at hz; exact absurd hz (by decide)
    · rw [h5 g hne] at hz
      rw [hfree g]
      simp only [hne, if_false]
      exact hc.unpinned_cand q g hm1 hz
  · intro g hg
    rw [h3] at hg
    have hne : g ≠ f := fun e => h.not_free (e ▸ hg)
    rw [h5 g hne]; exact hc.free_clean g hg

/-- A change that touches neither the page table, the free list, the replacer,
the page ids nor the pin counts and that sets no dirty flag keeps `Core`. -/
theorem Core_of_same_meta (s s2 : BufferPoolManager D) (hc : Core s)
    (h1 : s2.pool_size_ = s.pool_size_) (h2 : s2.replacer_ = s.replacer_)
    (h3 : s2.free_list_ = s.free_list_) (h4 : s2.page_table_ = s.page_table_)
    (h5 : ∀ g, (s2.pages_ g).page_id_ = (s.pages_ g).page_id_ ∧
      (s2.pages_ g).pin_count_ = (s.pages_ g).pin_count_ ∧
      ((s2.pages_ g).is_dirty_ = true → (s.pages_ g).is_dirty_ = true)) : Core s2 := by
  refine ⟨?_, ?_, ?_, ?_, ?_, ?_, ?_, ?_, ?_, ?_, ?_⟩
  · rw [h2]; exact hc.rep
  · rw [h2, h1]; exact hc.rep_n
  · rw [h4]; exact hc.keys_nodup
  · intro q g hm; rw [h4] at hm; rw [h1, (h5 g).1]; exact hc.entry q g hm
  · rw [h3]; exact hc.free_nodup
  · intro g hg; rw [h3] at hg; rw [h1]; exact hc.free_range g hg
  · intro g hg q; rw [h3] at hg; rw [h4]; exact hc.disjoint g hg q
  · intro g hg; rw [h2] at hg; rw [(h5 g).2.1]; exact hc.cand_pin g hg
  · intro q g hm; rw [h4] at hm; rw [(h5 g).2.1]; exact hc.pin_nonneg q g hm
  · intro q g hm hz; rw [h4] at hm; rw [(h5 g).2.1] at hz; rw [h2]
    exact hc.unpinned_cand q g hm hz
  · intro g hg
    rw [h3] at hg
    have := hc.free_clean g hg
    refine ⟨by rw [(h5 g).2.1]; exact this.1, ?_⟩
    by_contra hd
    have hd2 := (h5 g).2.2 (by simpa using hd)
    rw [this.2] at hd2; exact Bool.noConfusion hd2

end BufferPoolManager

namespace BufferPoolManager

variable {D : Type}

theorem FetchPageImpl_hit_Core (s : BufferPoolManager D) (hc : Core s) (p : Int) (f : Nat)
    (hf : s.page_table_.find p = some f) :
    Core { s with
      replacer_ := if (s.pages_ f).pin_count_ = 0 then s.replacer_.Pin f else s.replacer_
      pages_ := Function.update s.pages_ f
        { (s.pages_ f) with pin_count_ := (s.pages_ f).pin_count_ + 1 } } := by
  have hm := PageTable.find_some_mem _ _ _ hf
  have hpin := hc.pin_nonneg p f hm
  have hfree : ∀ g, g ≠ f →
      ((if (s.pages_ f).pin_count_ = 0 then s.replacer_.Pin f else s.replacer_).frame_infos_ g).free
        = (s.replacer_.frame_infos_ g).free := by
    intro g hne
    split
    · rw [ClockReplacer.Pin_free]; simp [hne]
    · rfl
  have hfree2 : ((if (s.pages_ f).pin_count_ = 0 then s.replacer_.Pin f
      else s.replacer_).frame_infos_ f).free = false := by
    split
    · rw [ClockReplacer.Pin_free]; simp
    · rename_i hz
      by_contra hne
      exact hz (hc.cand_pin f (by simpa using hne))
  refine ⟨?_, ?_, hc.keys_nodup, ?_, hc.free_nodup, hc.free_range, hc.disjoint, ?_, ?_, ?_, ?_⟩
  · show ClockReplacer.WF (if _ then _ else _)
    split
    · exact ClockReplacer.Pin_WF _ _ hc.rep
    · exact hc.rep
  · show ClockReplacer.num_pages (if _ then _ else _) = _
    split
    · rw [ClockReplacer.Pin_num_pages]; exact hc.rep_n
    · exact hc.rep_n
  · intro q g hmq
    refine ⟨(hc.entry q g hmq).1, ?_⟩
    show ((Function.update s.pages_ f _) g).page_id_ = q
    by_cases e : g = f
    · rw [e, Function.update_same]; rw [e] at hmq; exact (hc.entry q f hmq).2
    · rw [Function.update_noteq e]; exact (hc.entry q g hmq).2
  · intro g hg
    by_cases e : g = f
    · rw [e] at hg
      have hg2 : ((if (s.pages_ f).pin_count_ = 0 then s.replacer_.Pin f
        else s.replacer_).frame_infos_ f).free = true := hg
      rw [hfree2] at hg2; exact Bool.noConfusion hg2
    · show ((Function.update s.pages_ f _) g).pin_count_ = 0
      rw [Function.update_noteq e]
      have hg2 := hfree g e ▸ hg
      exact hc.cand_pin g hg2
  · intro q g hmq
    show 0 ≤ ((Function.update s.pages_ f _) g).pin_count_
    by_cases e : g = f
    · rw [e, Function.update_same]; show 0 ≤ (s.pages_ f).pin_count_ + 1; omega
    · rw [Function.update_noteq e]; exact hc.pin_nonneg q g hmq
  · intro q g hmq hz
    by_cases e : g = f
    · exfalso
      rw [e] at hz
      have hz2 : ((Function.update s.pages_ f
        { (s.pages_ f) with pin_count_ := (s.pages_ f).pin_count_ + 1 }) f).pin_count_ = 0 := hz
      rw [Function.update_same] at hz2
      have hz3 : (s.pages_ f).pin_count_ + 1 = 0 := hz2
      omega
    · have hz2 : ((Function.update s.pages_ f
        { (s.pages_ f) with pin_count_ := (s.pages_ f).pin_count_ + 1 }) g).pin_count_ = 0 := hz
      rw [Function.update_noteq e] at hz2
      exact (hfree g e).trans (hc.unpinned_cand q g hmq hz2)
  · intro g hg
    have hne : g ≠ f := fun e => hc.disjoint g hg p (e ▸ hm)
    show ((Function.update s.pages_ f _) g).pin_count_ = 0 ∧
      ((Function.update s.pages_ f _) g).is_dirty_ = false
    rw [Function.update_noteq hne]; exact hc.free_clean g hg

/-- `FetchPageImpl` returns in every state that satisfies `Core` and keeps it. -/
theorem FetchPageImpl_Core (s : BufferPoolManager D) (h : Core s) (p : Int) :
    ∃ res s1, FetchPageImpl s p = some (res, s1) ∧ Core s1 := by
  cases hf : s.page_table_.find p with
  | some f =>
    refine ⟨some f, _, by simp only [FetchPageImpl, hf]; try rfl, FetchPageImpl_hit_Core s h p f hf⟩
  | none =>
    rcases GetUsableFrameImpl_outcomes s h with ⟨f, rest, hfl, hg⟩ | ⟨_, _, hg⟩ |
      ⟨hfl, f, r1, hfree, hlt, hr1, hn, hfr, hg⟩
    · refine ⟨some f, _, by simp only [FetchPageImpl, hf, hg]; try rfl, ?_⟩
      refine Core_install { s with free_list_ := rest } _ f p (Vacant_of_pop s h f rest hfl)
        rfl rfl rfl rfl ?_ ?_ ?_
      · intro g hne; exact Function.update_noteq hne _ _
      · simp
      · simp
    · exact ⟨none, s, by simp only [FetchPageImpl, hf, hg], h⟩
    · refine ⟨some f, _, by simp only [FetchPageImpl, hf, hg]; try rfl, ?_⟩
      refine Core_install (evictVictim s f r1) _ f p
        (Vacant_of_evict s h f r1 hfl hfree hlt hr1 hn hfr) rfl rfl rfl rfl ?_ ?_ ?_
      · intro g hne; exact Function.update_noteq hne _ _
      · simp
      · simp

/-- `NewPageImpl` returns in every state that satisfies `Core` and keeps it,
whatever id the disk manager hands out. -/
theorem NewPageImpl_Core [Zero D] (s : BufferPoolManager D) (h : Core s) :
    ∃ res s1, NewPageImpl s = some (res, s1) ∧ Core s1 := by
  rcases GetUsableFrameImpl_outcomes s h with ⟨f, rest, hfl, hg⟩ | ⟨_, _, hg⟩ |
    ⟨hfl, f, r1, hfree, hlt, hr1, hn, hfr, hg⟩
  · refine ⟨some (f, s.disk_manager_.next_page_id_), _,
      by simp only [NewPageImpl, hg, DiskManager.AllocatePage]; try rfl, ?_⟩
    refine Core_install { s with free_list_ := rest } _ f s.disk_manager_.next_page_id_
      (Vacant_of_pop s h f rest hfl) rfl rfl rfl rfl ?_ ?_ ?_
    · intro g hne; exact Function.update_noteq hne _ _
    · simp
    · simp
  · exact ⟨none, s, by simp only [NewPageImpl, hg], h⟩
  · refine ⟨some (f, (evictVictim s f r1).disk_manager_.next_page_id_), _,
      by simp only [NewPageImpl, hg, DiskManager.AllocatePage]; try rfl, ?_⟩
    refine Core_install (evictVictim s f r1) _ f (evictVictim s f r1).disk_manager_.next_page_id_
      (Vacant_of_evict s h f r1 hfl hfree hlt hr1 hn hfr) rfl rfl rfl rfl ?_ ?_ ?_
    · intro g hne; exact Function.update_noteq hne _ _
    · simp
    · simp

theorem UnpinPageImpl_Core (s : BufferPoolManager D) (hc : Core s) (p : Int) (d : Bool) :
    Core (UnpinPageImpl s p d).2 := by
  unfold UnpinPageImpl
  cases hf : s.page_table_.find p with
  | none => exact hc
  | some f =>
    simp only
    by_cases hpos : 0 < (s.pages_ f).pin_count_
    · simp only [hpos, if_true]
      have hm := PageTable.find_some_mem _ _ _ hf
      have hlt := (hc.entry p f hm).1
      have hnf : (s.replacer_.frame_infos_ f).free = false := by
        by_contra hne
        have := hc.cand_pin f (by simpa using hne)
        omega
      have hfree : ∀ g, g ≠ f →
          ((if (s.pages_ f).pin_count_ - 1 = 0 then s.replacer_.Unpin f
            else s.replacer_).frame_infos_ g).free = (s.replacer_.frame_infos_ g).free := by
        intro g hne
        split
        · rw [ClockReplacer.Unpin_free]; simp [hne]
        · rfl
      refine ⟨?_, ?_, hc.keys_nodup, ?_, hc.free_nodup, hc.free_range, hc.disjoint, ?_, ?_, ?_, ?_⟩
      · show ClockReplacer.WF (if _ then _ else _)
        split
        · exact ClockReplacer.Unpin_WF _ _ hc.rep (by rw [hc.rep_n]; exact hlt)
        · exact hc.rep
      · show ClockReplacer.num_pages (if _ then _ else _) = _
        split
        · rw [ClockReplacer.Unpin_num_pages]; exact hc.rep_n
        · exact hc.rep_n
      · intro q g hmq
        refine ⟨(hc.entry q g hmq).1, ?_⟩
        show ((Function.update s.pages_ f _) g).page_id_ = q
        by_cases e : g = f
        · rw [e, Function.update_same]; rw [e] at hmq; exact (hc.entry q f hmq).2
        · rw [Function.update_noteq e]; exact (hc.entry q g hmq).2
      · intro g hg
        show ((Function.update s.pages_ f _) g).pin_count_ = 0
        by_cases e : g = f
        · rw [e, Function.update_same]
          show (s.pages_ f).pin_count_ - 1 = 0
          rw [e] at hg
          have hg2 : ((if (s.pages_ f).pin_count_ - 1 = 0 then s.replacer_.Unpin f
            else s.replacer_).frame_infos_ f).free = true := hg
          by_contra hne
          rw [if_neg hne, hnf] at hg2
          exact Bool.noConfusion hg2
        · rw [Function.update_noteq e]
          exact hc.cand_pin g ((hfree g e) ▸ hg)
      · intro q g hmq
        show 0 ≤ ((Function.update s.pages_ f _) g).pin_count_
        by_cases e : g = f
        · rw [e, Function.update_same]; show 0 ≤ (s.pages_ f).pin_count_ - 1; omega
        · rw [Function.update_noteq e]; exact hc.pin_nonneg q g hmq
      · intro q g hmq hz
        have hz2 : ((Function.update s.pages_ f
          { (s.pages_ f) with
            pin_count_ := (s.pages_ f).pin_count_ - 1
            is_dirty_ := if d = true then d else (s.pages_ f).is_dirty_ }) g).pin_count_ = 0 := hz
        by_cases e : g = f
        · rw [e, Function.update_same] at hz2
          have hz3 : (s.pages_ f).pin_count_ - 1 = 0 := hz2
          rw [e]
          show ((if (s.pages_ f).pin_count_ - 1 = 0 then s.replacer_.Unpin f
            else s.replacer_).frame_infos_ f).free = true
          rw [if_pos hz3, ClockReplacer.Unpin_free]; simp
        · rw [Function.update_noteq e] at hz2
          exact (hfree g e).trans (hc.unpinned_cand q g hmq hz2)
      · intro g hg
        have hne : g ≠ f := fun e => hc.disjoint g hg p (e ▸ hm)
        show ((Function.update s.pages_ f _) g).pin_count_ = 0 ∧
          ((Function.update s.pages_ f _) g).is_dirty_ = false
        rw [Function.update_noteq hne]; exact hc.free_clean g hg
    · simp only [hpos, if_false]; exact hc

theorem FlushPageImpl_Core (s : BufferPoolManager D) (h : Core s) (p : Int) :
    Core (FlushPageImpl s p).2 := by
  unfold FlushPageImpl
  cases hf : s.page_table_.find p with
  | none => exact h
  | some f =>
    refine Core_of_same_meta s _ h rfl rfl rfl rfl ?_
    intro g
    show ((Function.update s.pages_ f _) g).page_id_ = _ ∧
      ((Function.update s.pages_ f _) g).pin_count_ = _ ∧
      (((Function.update s.pages_ f _) g).is_dirty_ = true → _)
    by_cases e : g = f
    · rw [e, Function.update_same]; simp
    · rw [Function.update_noteq e]; simp

theorem FlushAllPagesImpl_Core (s : BufferPoolManager D) (h : Core s) :
    Core (FlushAllPagesImpl s) := by
  obtain ⟨a1, a2, a3, a4, _, a6⟩ := FlushAllPages_fold_meta s.page_table_ s
  exact Core_of_same_meta s _ h a1 a2 a3 a4 (fun g => ⟨(a6 g).1, (a6 g).2.1, (a6 g).2.2.2⟩)

theorem WriteData_Core (s : BufferPoolManager D) (h : Core s) (f : Nat) (d : D) :
    Core (WriteData s f d) := by
  refine Core_of_same_meta s _ h rfl rfl rfl rfl ?_
  intro g
  show ((Function.update s.pages_ f _) g).page_id_ = _ ∧
    ((Function.update s.pages_ f _) g).pin_count_ = _ ∧
    (((Function.update s.pages_ f _) g).is_dirty_ = true → _)
  by_cases e : g = f
  · rw [e, Function.update_same]; simp
  · rw [Function.update_noteq e]; simp

theorem DeletePageImpl_Core (s : BufferPoolManager D) (hc : Core s) (p : Int) :
    Core (DeletePageImpl s p).2 := by
  unfold DeletePageImpl
  cases hf : s.page_table_.find p with
  | none => exact hc
  | some f =>
    simp only
    by_cases hz : (s.pages_ f).pin_count_ = 0
    · simp only [hz, if_true]
      have hm := PageTable.find_some_mem _ _ _ hf
      have hmem : ∀ q g, (q, g) ∈ s.page_table_.erase p → (q, g) ∈ s.page_table_ ∧ g ≠ f := by
        intro q g hmq
        rw [PageTable.mem_erase] at hmq
        refine ⟨hmq.1, ?_⟩
        intro e
        rw [e] at hmq
        have := (hc.entry q f hmq.1).2
        rw [(hc.entry p f hm).2] at this
        exact hmq.2 this.symm
      have hnf : f ∉ s.free_list_ := fun hfm => hc.disjoint f hfm p hm
      refine ⟨hc.rep, hc.rep_n, PageTable.erase_keys_nodup _ _ hc.keys_nodup,
        ?_, ?_, ?_, ?_, ?_, ?_, ?_, ?_⟩
      · intro q g hmq
        obtain ⟨h1, h2⟩ := hmem q g hmq
        refine ⟨(hc.entry q g h1).1, ?_⟩
        show ((Function.update s.pages_ f _) g).page_id_ = q
        rw [Function.update_noteq h2]; exact (hc.entry q g h1).2
      · show (s.free_list_ ++ [f]).Nodup
        rw [List.nodup_append]
        refine ⟨hc.free_nodup, List.nodup_singleton f, ?_⟩
        intro a ha hb
        rw [List.mem_singleton] at hb
        exact hnf (hb ▸ ha)
      · intro g hg
        have hg2 : g ∈ s.free_list_ ++ [f] := hg
        rw [List.mem_append, List.mem_singleton] at hg2
        rcases hg2 with h1 | h1
        · exact hc.free_range g h1
        · rw [h1]; exact (hc.entry p f hm).1
      · intro g hg q hmq
        have hg2 : g ∈ s.free_list_ ++ [f] := hg
        obtain ⟨h1, h2⟩ := hmem q g hmq
        rw [List.mem_append, List.mem_singleton] at hg2
        rcases hg2 with h3 | h3
        · exact hc.disjoint g h3 q h1
        · exact h2 h3
      · intro g hg
        show ((Function.update s.pages_ f _) g).pin_count_ = 0
        by_cases e : g = f
        · rw [e, Function.update_same]
        · rw [Function.update_noteq e]; exact hc.cand_pin g hg
      · intro q g hmq
        obtain ⟨h1, h2⟩ := hmem q g hmq
        show 0 ≤ ((Function.update s.pages_ f _) g).pin_count_
        rw [Function.update_noteq h2]; exact hc.pin_nonneg q g h1
      · intro q g hmq hzz
        obtain ⟨h1, h2⟩ := hmem q g hmq
        have hz2 : ((Function.update s.pages_ f
          { (s.pages_ f) with page_id_ := INVALID_PAGE_ID, pin_count_ := 0, is_dirty_ := false })
          g).pin_count_ = 0 := hzz
        rw [Function.update_noteq h2] at hz2
        exact hc.unpinned_cand q g h1 hz2
      · intro g hg
        have hg2 : g ∈ s.free_list_ ++ [f] := hg
        show ((Function.update s.pages_ f _) g).pin_count_ = 0 ∧
          ((Function.update s.pages_ f _) g).is_dirty_ = false
        by_cases e : g = f
        · rw [e, Function.update_same]; exact ⟨rfl, rfl⟩
        · rw [Function.update_noteq e]
          rw [List.mem_append, List.mem_singleton] at hg2
          rcases hg2 with h3 | h3
          · exact hc.free_clean g h3
          · exact absurd h3 e
    · simp only [hz, if_false]; exact hc

/-- Every state of a run of public operations satisfies `Core`, with no
assumption on the page ids. -/
theorem PublicRun.core [Zero D] {s : BufferPoolManager D} (h : PublicRun s) : Core s := by
  induction h with
  | init n dm => exact new_Core n dm
  | fetch s p res s1 _ hstep ih =>
    obtain ⟨res2, s2, h2, hw⟩ := FetchPageImpl_Core s ih p
    rw [hstep] at h2
    have := (Prod.mk.inj (Option.some.inj h2)).2
    rw [this]; exact hw
  | new_page s res s1 _ hstep ih =>
    obtain ⟨res2, s2, h2, hw⟩ := NewPageImpl_Core s ih
    rw [hstep] at h2
    have := (Prod.mk.inj (Option.some.inj h2)).2
    rw [this]; exact hw
  | unpin s p d _ ih => exact UnpinPageImpl_Core s ih p d
  | flush s p _ ih => exact FlushPageImpl_Core s ih p
  | flush_all s _ ih => exact FlushAllPagesImpl_Core s ih
  | delete s p _ ih => exact DeletePageImpl_Core s ih p
  | write s f d _ ih => exact WriteData_Core s ih f d

/-- A run in which the allocated ids are never resident is a run. -/
theorem Reachable.publicRun [Zero D] {s : BufferPoolManager D} (h : Reachable s) :
    PublicRun s := by
  induction h with
  | init n dm => exact PublicRun.init n dm
  | fetch s p res s1 _ hstep ih => exact PublicRun.fetch s p res s1 ih hstep
  | new_page s res s1 _ _ hstep ih => exact PublicRun.new_page s res s1 ih hstep
  | unpin s p d _ ih => exact PublicRun.unpin s p d ih
  | flush s p _ ih => exact PublicRun.flush s p ih
  | flush_all s _ ih => exact PublicRun.flush_all s ih
  | delete s p _ ih => exact PublicRun.delete s p ih
  | write s f d _ ih => exact PublicRun.write s f d ih

/-- The frame handed out by `GetUsableFrameImpl` is unmapped, unpinned and clean. -/
theorem GetUsableFrameImpl_vacant (s : BufferPoolManager D) (h : Core s) (f : Nat)
    (sm : BufferPoolManager D) (hg : GetUsableFrameImpl s = some (some f, sm)) : Vacant sm f := by
  rcases GetUsableFrameImpl_outcomes s h with ⟨f1, rest, hfl, hg1⟩ | ⟨_, _, hg1⟩ |
    ⟨hfl, v, r1, hfree, hlt, hr1, hn, hfr, hg1⟩
  · rw [hg1] at hg
    have e := Prod.mk.inj (Option.some.inj hg)
    rw [← e.2, ← Option.some.inj e.1]
    exact Vacant_of_pop s h f1 rest hfl
  · rw [hg1] at hg
    have e := Prod.mk.inj (Option.some.inj hg)
    cases e.1
  · rw [hg1] at hg
    have e := Prod.mk.inj (Option.some.inj hg)
    rw [← e.2, ← Option.some.inj e.1]
    exact Vacant_of_evict s h v r1 hfl hfree hlt hr1 hn hfr

end BufferPoolManager

/-! ## Claims on the buffer pool that hold in every run -/

namespace Scenario

open BufferPoolManager

theorem poolReuseA_step :
    FetchPageImpl (BufferPoolManager.new 2 disk0) 0 = some (some 0, poolReuseA) := by rfl

theorem poolReuseC_step : NewPageImpl poolReuseB = some (some (1, 0), poolReuseC) := by rfl

theorem poolReuseD_step : FetchPageImpl poolReuseC 5 = some (some 0, poolReuseD) := by rfl

theorem poolReuseC_run : PublicRun poolReuseC :=
  PublicRun.new_page poolReuseB _ _
    (PublicRun.unpin poolReuseA 0 false
      (PublicRun.fetch _ 0 _ _ (PublicRun.init 2 disk0) poolReuseA_step))
    poolReuseC_step

theorem poolReuseE_run : PublicRun poolReuseE := PublicRun.unpin poolReuseC 0 false poolReuseC_run

end Scenario

namespace BufferPoolManager

variable {D : Type}

/-- C10: in every state reachable through the public operations, whatever
page ids they are given or the disk manager hands out, a resident page has
`pin_count_ >= 0`, and if its `pin_count_` is 0 its frame is marked `free = true`
in the replacer. -/
theorem C10_unpinned_resident_is_candidate [Zero D] (s : BufferPoolManager D)
    (h : PublicRun s) (p : Int) (f : Nat) (hres : s.page_table_.find p = some f) :
    0 ≤ (s.pages_ f).pin_count_ ∧
    ((s.pages_ f).pin_count_ = 0 → (s.replacer_.frame_infos_ f).free = true) := by
  have hc := h.core
  have hm := PageTable.find_some_mem _ _ _ hres
  exact ⟨hc.pin_nonneg p f hm, hc.unpinned_cand p f hm⟩

end BufferPoolManager

/-- Witness of C10: the pool of two frames after `FetchPage(0)`,
`UnpinPage(0, false)`, `NewPage` (which hands out the resident id 0 and remaps
page 0 to frame 1) and `UnpinPage(0, false)`: page 0 is resident in frame 1 with
`pin_count_ = 0` and frame 1 is a candidate. -/
theorem C10_witness :
    BufferPoolManager.PublicRun Scenario.poolReuseE ∧
    Scenario.poolReuseE.page_table_.find 0 = some 1 ∧
    (Scenario.poolReuseE.pages_ 1).pin_count_ = 0 ∧
    (0 ≤ (Scenario.poolReuseE.pages_ 1).pin_count_ ∧
      ((Scenario.poolReuseE.pages_ 1).pin_count_ = 0 →
        (Scenario.poolReuseE.replacer_.frame_infos_ 1).free = true)) :=
  ⟨Scenario.poolReuseE_run, by decide, by decide,
    BufferPoolManager.C10_unpinned_resident_is_candidate Scenario.poolReuseE
      Scenario.poolReuseE_run 0 1 (by decide)⟩

namespace BufferPoolManager

variable {D : Type}

/-- C11: in every state reachable through the public operations, whatever
page ids they are given or the disk manager hands out, `FetchPageImpl(p)` for a
non-resident `p` returns; it returns a frame exactly when one is available (the
free list is not empty or the replacer has a candidate); and when it returns the
frame `f`, then afterwards `f` is a frame of the pool, the page table maps `p` to
`f`, `pages_[f]` has `page_id_ = p`, `pin_count_ = 1`, `is_dirty_ = false`, `f` is
not a replacer candidate, and `pages_[f].data_` is the disk image of `p` (the
image after the call, which is the image before the call in a run in which the
disk manager never hands out a resident id). -/
theorem C11_fetch_miss_postcondition [Zero D] (s : BufferPoolManager D) (h : PublicRun s)
    (p : Int) (hp : s.page_table_.find p = none) :
    (∃ res s1, FetchPageImpl s p = some (res, s1) ∧
      (res ≠ none ↔
        (s.free_list_ ≠ [] ∨ ∃ g, (s.replacer_.frame_infos_ g).free = true))) ∧
    (∀ f s1, FetchPageImpl s p = some (some f, s1) →
      f < s1.pool_size_ ∧
      s1.page_table_.find p = some f ∧
      (s1.pages_ f).page_id_ = p ∧
      (s1.pages_ f).pin_count_ = 1 ∧
      (s1.pages_ f).is_dirty_ = false ∧
      (s1.replacer_.frame_infos_ f).free = false ∧
      (s1.pages_ f).data_ = s1.disk_manager_.image p ∧
      (Reachable s → s1.disk_manager_.image p = s.disk_manager_.image p)) := by
  have hc := h.core
  constructor
  · rcases GetUsableFrameImpl_outcomes s hc with ⟨f, rest, hfl, hg⟩ | ⟨hfl, hnone, hg⟩ |
      ⟨hfl, f, r1, hfree, hlt, hr1, hn, hfr, hg⟩
    · refine ⟨some f, _, by simp only [FetchPageImpl, hp, hg]; try rfl, ?_⟩
      refine ⟨fun _ => Or.inl ?_, fun _ => by simp⟩
      rw [hfl]; simp
    · refine ⟨none, s, by simp only [FetchPageImpl, hp, hg], ?_⟩
      refine ⟨fun e => absurd rfl e, ?_⟩
      rintro (e | ⟨g, hg2⟩)
      · exact absurd hfl e
      · rw [hnone g] at hg2; exact Bool.noConfusion hg2
    · refine ⟨some f, _, by simp only [FetchPageImpl, hp, hg]; try rfl, ?_⟩
      exact ⟨fun _ => Or.inr ⟨f, hfree⟩, fun _ => by simp⟩
  · intro f s1 hstep
    rcases FetchPageImpl_miss s p hp _ _ hstep with ⟨h1, _⟩ | ⟨f1, sm, h1, hg, hs1⟩
    · cases h1
    · have hf : f = f1 := Option.some.inj h1
      subst hf
      have hh := GetUsableFrameImpl_vacant s hc f sm hg
      rw [hs1]
      refine ⟨hh.lt, PageTable.find_assign_self _ _ _, ?_, ?_, ?_, ?_, ?_,
        fun hr => GetUsableFrameImpl_image s hr.wf _ sm hg p hp⟩
      · simp only [Function.update_same]
      · simp only [Function.update_same]
      · simp only [Function.update_same]; exact hh.clean
      · show ((sm.replacer_.Pin f).frame_infos_ f).free = false
        rw [ClockReplacer.Pin_free]; simp
      · simp only [Function.update_same, DiskManager.ReadPage]

end BufferPoolManager

/-- Witness of C11: in the pool of two frames after `FetchPage(0)`,
`UnpinPage(0, false)` and `NewPage` (which hands out the resident id 0), the free
list is empty and frame 0 is a candidate; `FetchPage(5)` misses and returns
frame 0, which then holds page 5 with the zeroed disk image. In the pool of one
frame whose page 0 (image 42) has been evicted for page 1, `FetchPage(0)` returns
frame 0 with the image 42 that the disk held before the call. -/
theorem C11_witness :
    BufferPoolManager.PublicRun Scenario.poolReuseC ∧
    Scenario.poolReuseC.page_table_.find 5 = none ∧
    (Scenario.poolReuseC.free_list_ ≠ [] ∨
      ∃ g, (Scenario.poolReuseC.replacer_.frame_infos_ g).free = true) ∧
    BufferPoolManager.FetchPageImpl Scenario.poolReuseC 5 = some (some 0, Scenario.poolReuseD) ∧
    0 < Scenario.poolReuseD.pool_size_ ∧
    Scenario.poolReuseD.page_table_.find 5 = some 0 ∧
    (Scenario.poolReuseD.pages_ 0).page_id_ = 5 ∧
    (Scenario.poolReuseD.pages_ 0).pin_count_ = 1 ∧
    (Scenario.poolReuseD.pages_ 0).is_dirty_ = false ∧
    (Scenario.poolReuseD.replacer_.frame_infos_ 0).free = false ∧
    (Scenario.poolReuseD.pages_ 0).data_ = Scenario.poolReuseD.disk_manager_.image 5 ∧
    BufferPoolManager.Reachable Scenario.pool1D ∧
    Scenario.pool1D.page_table_.find 0 = none ∧
    BufferPoolManager.FetchPageImpl Scenario.pool1D 0 =
      some (some 0, Scenario.afterFetchPage Scenario.pool1D 0) ∧
    ((Scenario.afterFetchPage Scenario.pool1D 0).pages_ 0).data_ = 42 ∧
    (Scenario.afterFetchPage Scenario.pool1D 0).disk_manager_.image 0
      = Scenario.pool1D.disk_manager_.image 0 := by
  have hC := (BufferPoolManager.C11_fetch_miss_postcondition Scenario.poolReuseC
    Scenario.poolReuseC_run 5 (by decide)).2 0 _ Scenario.poolReuseD_step
  have hD : BufferPoolManager.Reachable Scenario.pool1D :=
    BufferPoolManager.Reachable.unpin _ 1 false
      (BufferPoolManager.Reachable.new_page _ _ _ Scenario.pool1B_reachable (by rfl)
        Scenario.pool1C_step)
  have hF : BufferPoolManager.FetchPageImpl Scenario.pool1D 0 =
      some (some 0, Scenario.afterFetchPage Scenario.pool1D 0) := by rfl
  have hE := (BufferPoolManager.C11_fetch_miss_postcondition Scenario.pool1D hD.publicRun 0
    (by decide)).2 0 _ hF
  exact ⟨Scenario.poolReuseC_run, by decide, Or.inr ⟨0, by decide⟩, Scenario.poolReuseD_step,
    hC.1, hC.2.1, hC.2.2.1, hC.2.2.2.1, hC.2.2.2.2.1, hC.2.2.2.2.2.1, hC.2.2.2.2.2.2.1,
    hD, by decide, hF, by rfl, hE.2.2.2.2.2.2.2 hD⟩

namespace BufferPoolManager

variable {D : Type}

/-- C12: in every state, `DeletePageImpl(p)` returns true with the state
unchanged when `p` is not resident; returns false with the state unchanged when
`p` is resident with `pin_count_ > 0`; when `p` is resident in frame `f` with
`pin_count_ = 0` it returns true, `p` is no longer in the page table, `f` is in the
free list with `page_id_ = INVALID_PAGE_ID`, `pin_count_ = 0`, `is_dirty_ = false`,
and if the frame was dirty the disk image of `p` is the content of the frame
(otherwise the disk is unchanged). In every state reachable through the public
operations, whatever the page ids, a resident page is in one of the last two
cases: its `pin_count_` is not negative. -/
theorem C12_delete_page_contract [Zero D] (s : BufferPoolManager D) (p : Int) :
    (s.page_table_.find p = none → DeletePageImpl s p = (true, s)) ∧
    (∀ f, s.page_table_.find p = some f → 0 < (s.pages_ f).pin_count_ →
      DeletePageImpl s p = (false, s)) ∧
    (∀ f, s.page_table_.find p = some f → (s.pages_ f).pin_count_ = 0 →
      (DeletePageImpl s p).1 = true ∧
      (DeletePageImpl s p).2.page_table_.find p = none ∧
      f ∈ (DeletePageImpl s p).2.free_list_ ∧
      ((DeletePageImpl s p).2.pages_ f).page_id_ = INVALID_PAGE_ID ∧
      ((DeletePageImpl s p).2.pages_ f).pin_count_ = 0 ∧
      ((DeletePageImpl s p).2.pages_ f).is_dirty_ = false ∧
      ((s.pages_ f).is_dirty_ = true →
        (DeletePageImpl s p).2.disk_manager_.image p = (s.pages_ f).data_) ∧
      ((s.pages_ f).is_dirty_ = false →
        (DeletePageImpl s p).2.disk_manager_ = s.disk_manager_)) ∧
    (PublicRun s → ∀ f, s.page_table_.find p = some f →
      0 < (s.pages_ f).pin_count_ ∨ (s.pages_ f).pin_count_ = 0) := by
  refine ⟨?_, ?_, ?_, ?_⟩
  · intro hp
    simp only [DeletePageImpl, hp]
  · intro f hf hpin
    have hz : ¬ (s.pages_ f).pin_count_ = 0 := by omega
    simp only [DeletePageImpl, hf, hz, if_false]
  · intro f hf hz
    simp only [DeletePageImpl, hf, hz, if_true]
    refine ⟨trivial, PageTable.find_erase_self _ _, ?_, ?_, ?_, ?_, ?_, ?_⟩
    · exact List.mem_append_right _ (List.mem_singleton_self f)
    · simp only [Function.update_same]
    · simp only [Function.update_same]
    · simp only [Function.update_same]
    · intro hd
      simp only [hd, if_true, DiskManager.WritePage, Function.update_same]
    · intro hd
      simp [hd]
  · intro h f hf
    have := h.core.pin_nonneg p f (PageTable.find_some_mem _ _ _ hf)
    omega

/-- C13: in every state, `UnpinPageImpl(p, d)` returns false and changes
nothing when `p` is not resident or its `pin_count_` is 0; when `pin_count_ > 0` it
returns true, decreases `pin_count_` by exactly 1, makes the frame a replacer
candidate when the new `pin_count_` is 0 and leaves its `free` flag alone
otherwise, sets `is_dirty_` to (old `is_dirty_` or `d`), and changes neither the
page table, the free list, the disk, the bytes and page id of the frame, nor any
other frame or any other `free` flag of the replacer. In every state reachable
through the public operations, whatever the page ids, a resident page whose
`pin_count_` is not 0 has `pin_count_ > 0`, and after the call its frame is a
replacer candidate exactly when the new `pin_count_` is 0. -/
theorem C13_unpin_page_contract [Zero D] (s : BufferPoolManager D) (p : Int) (d : Bool) :
    (s.page_table_.find p = none → UnpinPageImpl s p d = (false, s)) ∧
    (∀ f, s.page_table_.find p = some f → (s.pages_ f).pin_count_ = 0 →
      UnpinPageImpl s p d = (false, s)) ∧
    (∀ f, s.page_table_.find p = some f → 0 < (s.pages_ f).pin_count_ →
      (UnpinPageImpl s p d).1 = true ∧
      ((UnpinPageImpl s p d).2.pages_ f).pin_count_ = (s.pages_ f).pin_count_ - 1 ∧
      ((s.pages_ f).pin_count_ - 1 = 0 →
        ((UnpinPageImpl s p d).2.replacer_.frame_infos_ f).free = true) ∧
      ((s.pages_ f).pin_count_ - 1 ≠ 0 →
        ((UnpinPageImpl s p d).2.replacer_.frame_infos_ f).free
          = (s.replacer_.frame_infos_ f).free) ∧
      ((UnpinPageImpl s p d).2.pages_ f).is_dirty_ = ((s.pages_ f).is_dirty_ || d) ∧
      ((UnpinPageImpl s p d).2.pages_ f).data_ = (s.pages_ f).data_ ∧
      ((UnpinPageImpl s p d).2.pages_ f).page_id_ = (s.pages_ f).page_id_ ∧
      (∀ g, g ≠ f → (UnpinPageImpl s p d).2.pages_ g = s.pages_ g) ∧
      (∀ g, g ≠ f → ((UnpinPageImpl s p d).2.replacer_.frame_infos_ g).free
        = (s.replacer_.frame_infos_ g).free) ∧
      (UnpinPageImpl s p d).2.page_table_ = s.page_table_ ∧
      (UnpinPageImpl s p d).2.free_list_ = s.free_list_ ∧
      (UnpinPageImpl s p d).2.disk_manager_ = s.disk_manager_) ∧
    (PublicRun s → ∀ f, s.page_table_.find p = some f → (s.pages_ f).pin_count_ ≠ 0 →
      0 < (s.pages_ f).pin_count_ ∧
      (((UnpinPageImpl s p d).2.replacer_.frame_infos_ f).free = true ↔
        (s.pages_ f).pin_count_ - 1 = 0)) := by
  refine ⟨?_, ?_, ?_, ?_⟩
  · intro hp
    simp only [UnpinPageImpl, hp]
  · intro f hf hz
    have : ¬ 0 < (s.pages_ f).pin_count_ := by omega
    simp only [UnpinPageImpl, hf, this, if_false]
  · intro f hf hpos
    simp only [UnpinPageImpl, hf, hpos, if_true]
    refine ⟨trivial, ?_, ?_, ?_, ?_, ?_, ?_, ?_, ?_, trivial, trivial, trivial⟩
    · simp only [Function.update_same]
    · intro hz
      simp only [hz, if_true, ClockReplacer.Unpin_free]
    · intro hz
      simp only [hz, if_false]
    · simp only [Function.update_same]
      cases d <;> simp
    · simp only [Function.update_same]
    · simp only [Function.update_same]
    · intro g hne; exact Function.update_noteq hne _ _
    · intro g hne
      by_cases hz : (s.pages_ f).pin_count_ - 1 = 0
      · simp only [hz, if_true, ClockReplacer.Unpin_free, hne, if_false]
      · simp only [hz, if_false]
  · intro h f hf hnz
    have hc := h.core
    have hm := PageTable.find_some_mem _ _ _ hf
    have hpos : 0 < (s.pages_ f).pin_count_ := by
      have := hc.pin_nonneg p f hm
      omega
    have hnf : (s.replacer_.frame_infos_ f).free = false := by
      by_contra hne
      have := hc.cand_pin f (by simpa using hne)
      omega
    refine ⟨hpos, ?_⟩
    simp only [UnpinPageImpl, hf, hpos, if_true]
    by_cases hz : (s.pages_ f).pin_count_ - 1 = 0
    · simp only [hz, if_true, ClockReplacer.Unpin_free]
    · simp only [hz, if_false, hnf]
      simp

end BufferPoolManager

/-- Witness of C12 (pool of size 1): `DeletePage(5)` of a page that is not
resident returns true and changes nothing; `DeletePage(0)` of the pinned page 0
returns false and changes nothing; after the holder has written 42 and called
`UnpinPage(0, true)`, `DeletePage(0)` returns true, unmaps the page, puts frame 0
on the free list with reset metadata and writes 42 to disk. -/
theorem C12_witness :
    BufferPoolManager.PublicRun Scenario.pool1B ∧
    Scenario.pool1A.page_table_.find 5 = none ∧
    BufferPoolManager.DeletePageImpl Scenario.pool1A 5 = (true, Scenario.pool1A) ∧
    Scenario.pool1A.page_table_.find 0 = some 0 ∧
    0 < (Scenario.pool1A.pages_ 0).pin_count_ ∧
    BufferPoolManager.DeletePageImpl Scenario.pool1A 0 = (false, Scenario.pool1A) ∧
    Scenario.pool1B.page_table_.find 0 = some 0 ∧
    (Scenario.pool1B.pages_ 0).pin_count_ = 0 ∧
    (Scenario.pool1B.pages_ 0).is_dirty_ = true ∧
    (Scenario.pool1B.pages_ 0).data_ = 42 ∧
    (BufferPoolManager.DeletePageImpl Scenario.pool1B 0).1 = true ∧
    (BufferPoolManager.DeletePageImpl Scenario.pool1B 0).2.page_table_.find 0 = none ∧
    0 ∈ (BufferPoolManager.DeletePageImpl Scenario.pool1B 0).2.free_list_ ∧
    ((BufferPoolManager.DeletePageImpl Scenario.pool1B 0).2.pages_ 0).page_id_ = INVALID_PAGE_ID ∧
    ((BufferPoolManager.DeletePageImpl Scenario.pool1B 0).2.pages_ 0).pin_count_ = 0 ∧
    ((BufferPoolManager.DeletePageImpl Scenario.pool1B 0).2.pages_ 0).is_dirty_ = false ∧
    (BufferPoolManager.DeletePageImpl Scenario.pool1B 0).2.disk_manager_.image 0
      = (Scenario.pool1B.pages_ 0).data_ ∧
    (0 < (Scenario.pool1B.pages_ 0).pin_count_ ∨ (Scenario.pool1B.pages_ 0).pin_count_ = 0) := by
  have hR : BufferPoolManager.PublicRun Scenario.pool1B := Scenario.pool1B_reachable.publicRun
  have hA := BufferPoolManager.C12_delete_page_contract Scenario.pool1A
  have hC := (BufferPoolManager.C12_delete_page_contract Scenario.pool1B 0).2.2.1 0
    (by decide) (by rfl)
  exact ⟨hR, by decide, (hA 5).1 (by decide), by decide, by decide,
    (hA 0).2.1 0 (by decide) (by decide), by decide, by rfl, by rfl, by rfl,
    hC.1, hC.2.1, hC.2.2.1, hC.2.2.2.1, hC.2.2.2.2.1, hC.2.2.2.2.2.1, hC.2.2.2.2.2.2.1 (by rfl),
    (BufferPoolManager.C12_delete_page_contract Scenario.pool1B 0).2.2.2 hR 0 (by decide)⟩

/-- Witness of C13 (pool of size 1, page 0 pinned once in frame 0):
`UnpinPage(5, true)` of a page that is not resident returns false and changes
nothing; `UnpinPage(0, true)` returns true, the pin count drops to 0, the frame
becomes a replacer candidate and the page is dirty; a second `UnpinPage(0, false)`
returns false and changes nothing, so the page stays dirty. -/
theorem C13_witness :
    BufferPoolManager.PublicRun Scenario.pool1A ∧
    Scenario.pool1A.page_table_.find 5 = none ∧
    BufferPoolManager.UnpinPageImpl Scenario.pool1A 5 true = (false, Scenario.pool1A) ∧
    Scenario.pool1A.page_table_.find 0 = some 0 ∧
    (Scenario.pool1A.pages_ 0).pin_count_ = 1 ∧
    ((BufferPoolManager.UnpinPageImpl Scenario.pool1A 0 true).1 = true ∧
      ((BufferPoolManager.UnpinPageImpl Scenario.pool1A 0 true).2.pages_ 0).pin_count_
        = (Scenario.pool1A.pages_ 0).pin_count_ - 1 ∧
      ((BufferPoolManager.UnpinPageImpl Scenario.pool1A 0 true).2.replacer_.frame_infos_ 0).free
        = true ∧
      ((BufferPoolManager.UnpinPageImpl Scenario.pool1A 0 true).2.pages_ 0).is_dirty_
        = ((Scenario.pool1A.pages_ 0).is_dirty_ || true)) ∧
    (0 < (Scenario.pool1A.pages_ 0).pin_count_ ∧
      (((BufferPoolManager.UnpinPageImpl Scenario.pool1A 0 true).2.replacer_.frame_infos_ 0).free
        = true ↔ (Scenario.pool1A.pages_ 0).pin_count_ - 1 = 0)) ∧
    BufferPoolManager.UnpinPageImpl (BufferPoolManager.UnpinPageImpl Scenario.pool1A 0 true).2 0 false
      = (false, (BufferPoolManager.UnpinPageImpl Scenario.pool1A 0 true).2) := by
  have hR : BufferPoolManager.PublicRun Scenario.pool1A := Scenario.pool1A_reachable.publicRun
  have hC := (BufferPoolManager.C13_unpin_page_contract Scenario.pool1A 0 true).2.2.1 0
    (by decide) (by decide)
  exact ⟨hR, by decide,
    (BufferPoolManager.C13_unpin_page_contract Scenario.pool1A 5 true).1 (by decide),
    by decide, by rfl,
    ⟨hC.1, hC.2.1, hC.2.2.1 (by rfl), hC.2.2.2.2.1⟩,
    (BufferPoolManager.C13_unpin_page_contract Scenario.pool1A 0 true).2.2.2 hR 0 (by decide)
      (by decide),
    (BufferPoolManager.C13_unpin_page_contract _ 0 false).2.1 0 (by decide) (by rfl)⟩

namespace BufferPoolManager

variable {D : Type}

/-- In a run that never brings `INVALID_PAGE_ID` into the pool,
`INVALID_PAGE_ID` is not resident and the disk manager's next page id is not
negative. -/
theorem ReachableValid.invalid_not_resident [Zero D] {s : BufferPoolManager D}
    (h : ReachableValid s) :
    s.page_table_.find INVALID_PAGE_ID = none ∧ 0 ≤ s.disk_manager_.next_page_id_ := by
  induction h with
  | init n dm hdm => exact ⟨rfl, hdm⟩
  | fetch s p res s1 _ hne hstep ih =>
    obtain ⟨hinv, hnext⟩ := ih
    refine ⟨?_, ?_⟩
    · cases hp : s.page_table_.find p with
      | some fq =>
        simp only [FetchPageImpl, hp, Option.some.injEq, Prod.mk.injEq] at hstep
        rw [← hstep.2]; exact hinv
      | none =>
        rcases FetchPageImpl_miss s p hp res s1 hstep with ⟨_, hg⟩ | ⟨f1, sm, _, hg, hs1⟩
        · exact GetUsableFrameImpl_find_none s _ s1 hg _ hinv
        · rw [hs1]
          show (sm.page_table_.assign p f1).find INVALID_PAGE_ID = none
          rw [PageTable.find_assign_ne _ _ _ _ (fun e => hne e.symm)]
          exact GetUsableFrameImpl_find_none s _ sm hg _ hinv
    · cases hp : s.page_table_.find p with
      | some fq =>
        simp only [FetchPageImpl, hp, Option.some.injEq, Prod.mk.injEq] at hstep
        rw [← hstep.2]; exact hnext
      | none =>
        rcases FetchPageImpl_miss s p hp res s1 hstep with ⟨_, hg⟩ | ⟨f1, sm, _, hg, hs1⟩
        · rw [GetUsableFrameImpl_next_page_id s _ s1 hg]; exact hnext
        · rw [hs1]
          show 0 ≤ sm.disk_manager_.next_page_id_
          rw [GetUsableFrameImpl_next_page_id s _ sm hg]; exact hnext
  | new_page s res s1 _ hstep ih =>
    obtain ⟨hinv, hnext⟩ := ih
    refine ⟨?_, ?_⟩
    · rcases NewPageImpl_cases s res s1 hstep with ⟨_, hg⟩ | ⟨f1, sm, _, hg, hs1⟩
      · exact GetUsableFrameImpl_find_none s _ s1 hg _ hinv
      · have hn := GetUsableFrameImpl_next_page_id s _ sm hg
        rw [hs1]
        show (sm.page_table_.assign sm.disk_manager_.next_page_id_ f1).find INVALID_PAGE_ID = none
        have hne : INVALID_PAGE_ID ≠ sm.disk_manager_.next_page_id_ := by
          rw [hn]; unfold INVALID_PAGE_ID; omega
        rw [PageTable.find_assign_ne _ _ _ _ hne]
        exact GetUsableFrameImpl_find_none s _ sm hg _ hinv
    · rcases NewPageImpl_cases s res s1 hstep with ⟨_, hg⟩ | ⟨f1, sm, _, hg, hs1⟩
      · rw [GetUsableFrameImpl_next_page_id s _ s1 hg]; exact hnext
      · have hn := GetUsableFrameImpl_next_page_id s _ sm hg
        rw [hs1]
        show 0 ≤ sm.disk_manager_.next_page_id_ + 1
        rw [hn]; omega
  | unpin s p d _ ih =>
    obtain ⟨hinv, hnext⟩ := ih
    have ht := UnpinPageImpl_table s p d
    exact ⟨by rw [ht.1]; exact hinv, by rw [ht.2]; exact hnext⟩
  | flush s p _ ih =>
    obtain ⟨hinv, hnext⟩ := ih
    have ht := FlushPageImpl_table s p
    exact ⟨by rw [ht.1]; exact hinv, by rw [ht.2]; exact hnext⟩
  | flush_all s _ ih =>
    obtain ⟨hinv, hnext⟩ := ih
    obtain ⟨_, _, _, a4, a5, _⟩ := FlushAllPages_fold_meta s.page_table_ s
    refine ⟨?_, ?_⟩
    · show (s.page_table_.foldl FlushAllPagesStep s).page_table_.find INVALID_PAGE_ID = none
      rw [a4]; exact hinv
    · show 0 ≤ (s.page_table_.foldl FlushAllPagesStep s).disk_manager_.next_page_id_
      rw [a5]; exact hnext
  | delete s p _ ih =>
    obtain ⟨hinv, hnext⟩ := ih
    have ht := DeletePageImpl_table s p
    refine ⟨?_, by rw [ht.2]; exact hnext⟩
    rcases ht.1 with e | e
    · rw [e]; exact hinv
    · rw [e]; exact PageTable.find_erase_none _ _ _ hinv
  | write s f d _ ih => exact ih

/-- C16 (amended): in every state reachable through the public operations in
a run where `FetchPage` is never called with `INVALID_PAGE_ID` and the disk
manager starts with a next page id that is not negative (nothing else is assumed
of the page ids), `INVALID_PAGE_ID` is not resident and
`FlushPageImpl(INVALID_PAGE_ID)` returns false and leaves the state, the disk
included, unchanged. -/
theorem C16_flush_invalid_id_when_never_fetched [Zero D] (s : BufferPoolManager D)
    (h : ReachableValid s) :
    s.page_table_.find INVALID_PAGE_ID = none ∧
    FlushPageImpl s INVALID_PAGE_ID = (false, s) := by
  have hinv := h.invalid_not_resident.1
  refine ⟨hinv, ?_⟩
  simp only [FlushPageImpl, hinv]

end BufferPoolManager

/-- Witness of C16 (amended): the pool of two frames after `FetchPage(0)`,
`UnpinPage(0, false)` and a `NewPage` that is handed the resident id 0. -/
theorem C16_witness :
    BufferPoolManager.ReachableValid Scenario.poolReuseC ∧
    (Scenario.poolReuseC.page_table_.find INVALID_PAGE_ID = none ∧
    BufferPoolManager.FlushPageImpl Scenario.poolReuseC INVALID_PAGE_ID
      = (false, Scenario.poolReuseC)) := by
  have hR : BufferPoolManager.ReachableValid Scenario.poolReuseC :=
    BufferPoolManager.ReachableValid.new_page Scenario.poolReuseB _ _
      (BufferPoolManager.ReachableValid.unpin Scenario.poolReuseA 0 false
        (BufferPoolManager.ReachableValid.fetch _ 0 _ _
          (BufferPoolManager.ReachableValid.init 2 Scenario.disk0 (by decide)) (by decide)
          Scenario.poolReuseA_step))
      Scenario.poolReuseC_step
  exact ⟨hR, BufferPoolManager.C16_flush_invalid_id_when_never_fetched Scenario.poolReuseC hR⟩

/-! ## Claims on the buffer pool that depend on the allocated page ids -/

/-- C7 (counterexample): in the pool of two frames after `FetchPage(0)`,
`UnpinPage(0, false)` and `NewPage` (the disk manager hands out the resident id
0), page 0 is resident in frame 1 with `pin_count_ = 1`; `FetchPage(5)` takes frame
0 as victim, `GetUsableFrameImpl` erases the entry of `pages_[0].page_id_ = 0`, and
the pinned page 0 is no longer in the page table although frame 1 still holds it
with `pin_count_ = 1`. -/
theorem C7_pinned_page_unmapped_by_stale_frame :
    BufferPoolManager.PublicRun Scenario.poolReuseC ∧
    Scenario.poolReuseC.page_table_.find 0 = some 1 ∧
    (Scenario.poolReuseC.pages_ 1).pin_count_ = 1 ∧
    BufferPoolManager.FetchPageImpl Scenario.poolReuseC 5 = some (some 0, Scenario.poolReuseD) ∧
    Scenario.poolReuseD.page_table_.find 0 = none ∧
    (Scenario.poolReuseD.pages_ 1).page_id_ = 0 ∧
    (Scenario.poolReuseD.pages_ 1).pin_count_ = 1 :=
  ⟨Scenario.poolReuseC_run, by decide, by decide, Scenario.poolReuseD_step, by decide, by decide,
    by decide⟩

namespace BufferPoolManager

variable {D : Type}

/-- C7 (amended): for a resident page `p` in frame `f` with `pin_count_ > 0`:
in every state reachable in a run in which the disk manager never hands out a
resident id, `p` stays mapped to `f` across `GetUsableFrameImpl`, and hence across
`FetchPageImpl` and `NewPageImpl` (the latter when the id it is handed is not
resident); and in every state `DeletePageImpl(p)` returns false and leaves the
whole state (page table, free list, frame metadata, replacer, disk) unchanged. -/
theorem C7_pinned_page_never_evicted_or_deleted [Zero D] (s : BufferPoolManager D)
    (p : Int) (f : Nat) (hres : s.page_table_.find p = some f)
    (hpin : 0 < (s.pages_ f).pin_count_) :
    (Reachable s →
      (∀ res s1, GetUsableFrameImpl s = some (res, s1) → s1.page_table_.find p = some f) ∧
      (∀ q res s1, FetchPageImpl s q = some (res, s1) → s1.page_table_.find p = some f) ∧
      (s.page_table_.find s.disk_manager_.next_page_id_ = none →
        ∀ res s1, NewPageImpl s = some (res, s1) → s1.page_table_.find p = some f)) ∧
    DeletePageImpl s p = (false, s) := by
  refine ⟨fun h => ?_, ?_⟩
  · have hw := h.wf
    refine ⟨?_, ?_, ?_⟩
    · intro res s1 hg
      exact GetUsableFrameImpl_keeps_pinned s hw res s1 hg p f hres hpin
    · intro q res s1 hstep
      cases hq : s.page_table_.find q with
      | some fq =>
        simp only [FetchPageImpl, hq, Option.some.injEq, Prod.mk.injEq] at hstep
        rw [← hstep.2]; exact hres
      | none =>
        have hne : p ≠ q := by intro e; rw [e, hq] at hres; cases hres
        rcases FetchPageImpl_miss s q hq res s1 hstep with ⟨_, hg⟩ | ⟨f1, sm, _, hg, hs1⟩
        · exact GetUsableFrameImpl_keeps_pinned s hw _ s1 hg p f hres hpin
        · rw [hs1]
          show (sm.page_table_.assign q f1).find p = some f
          rw [PageTable.find_assign_ne _ _ _ _ hne]
          exact GetUsableFrameImpl_keeps_pinned s hw _ sm hg p f hres hpin
    · intro hfresh res s1 hstep
      rcases NewPageImpl_cases s res s1 hstep with ⟨_, hg⟩ | ⟨f1, sm, _, hg, hs1⟩
      · exact GetUsableFrameImpl_keeps_pinned s hw _ s1 hg p f hres hpin
      · have hnext := GetUsableFrameImpl_next_page_id s _ sm hg
        have hne : p ≠ sm.disk_manager_.next_page_id_ := by
          intro e; rw [e, hnext, hfresh] at hres; cases hres
        rw [hs1]
        show (sm.page_table_.assign sm.disk_manager_.next_page_id_ f1).find p = some f
        rw [PageTable.find_assign_ne _ _ _ _ hne]
        exact GetUsableFrameImpl_keeps_pinned s hw _ sm hg p f hres hpin
  · have hz : ¬ (s.pages_ f).pin_count_ = 0 := by omega
    simp only [DeletePageImpl, hres, hz, if_false]

end BufferPoolManager

/-- Witness of C7 (amended): page 0 pinned in the only frame of a pool of size 1. -/
theorem C7_witness :
    BufferPoolManager.Reachable Scenario.pool1A ∧
    Scenario.pool1A.page_table_.find 0 = some 0 ∧
    0 < (Scenario.pool1A.pages_ 0).pin_count_ ∧
    Scenario.pool1A.page_table_.find Scenario.pool1A.disk_manager_.next_page_id_ = none ∧
    (∀ res s1, BufferPoolManager.GetUsableFrameImpl Scenario.pool1A = some (res, s1) →
        s1.page_table_.find 0 = some 0) ∧
    (∀ q res s1, BufferPoolManager.FetchPageImpl Scenario.pool1A q = some (res, s1) →
        s1.page_table_.find 0 = some 0) ∧
    (∀ res s1, BufferPoolManager.NewPageImpl Scenario.pool1A = some (res, s1) →
        s1.page_table_.find 0 = some 0) ∧
    BufferPoolManager.DeletePageImpl Scenario.pool1A 0 = (false, Scenario.pool1A) := by
  have hC := BufferPoolManager.C7_pinned_page_never_evicted_or_deleted Scenario.pool1A 0 0
    (by decide) (by decide)
  have hR := hC.1 Scenario.pool1A_reachable
  exact ⟨Scenario.pool1A_reachable, by decide, by decide, by decide, hR.1, hR.2.1,
    hR.2.2 (by decide), hC.2⟩

/-- C9 (counterexample): in the pool of two frames after `FetchPage(0)`,
`UnpinPage(0, false)` and `NewPage` (the disk manager hands out the resident id
0), the free list is empty and the only resident page, page 0 in frame 1, has
`pin_count_ = 1`; yet `NewPage` and `FetchPage(5)` return frame 0, which is still a
replacer candidate. -/
theorem C9_frame_returned_although_all_resident_pinned :
    BufferPoolManager.PublicRun Scenario.poolReuseC ∧
    Scenario.poolReuseC.free_list_ = [] ∧
    Scenario.poolReuseC.page_table_ = [(0, 1)] ∧
    (Scenario.poolReuseC.pages_ 1).pin_count_ = 1 ∧
    (Scenario.poolReuseC.replacer_.frame_infos_ 0).free = true ∧
    (BufferPoolManager.NewPageImpl Scenario.poolReuseC).map Prod.fst = some (some (0, 1)) ∧
    (BufferPoolManager.FetchPageImpl Scenario.poolReuseC 5).map Prod.fst = some (some 0) :=
  ⟨Scenario.poolReuseC_run, by decide, by decide, by decide, by decide, by decide, by decide⟩

namespace BufferPoolManager

variable {D : Type}

/-- `GetUsableFrameImpl` always returns in a state that satisfies `Core`; if
it returns no frame, the free list is empty, every resident page is pinned and
the state is unchanged. -/
theorem GetUsableFrameImpl_none_only_if (s : BufferPoolManager D) (h : Core s) :
    ∃ res sm, GetUsableFrameImpl s = some (res, sm) ∧
      (res = none → (s.free_list_ = [] ∧
        ∀ p f, s.page_table_.find p = some f → 0 < (s.pages_ f).pin_count_)) ∧
      (res = none → sm = s) := by
  rcases GetUsableFrameImpl_outcomes s h with ⟨f1, rest, hfl, hg1⟩ | ⟨hfl, hnone, hg1⟩ |
    ⟨hfl, v, r1, hfree, hlt, hr1, hn, hfr, hg1⟩
  · exact ⟨_, _, hg1, (fun e => by cases e), (fun e => by cases e)⟩
  · refine ⟨_, _, hg1, fun _ => ⟨hfl, ?_⟩, fun _ => rfl⟩
    intro p f hp
    have hm := PageTable.find_some_mem _ _ _ hp
    have h0 := h.pin_nonneg p f hm
    by_contra hlt
    have h1 : (s.pages_ f).pin_count_ = 0 := by omega
    have := h.unpinned_cand p f hm h1
    rw [hnone f] at this; exact Bool.noConfusion this
  · exact ⟨_, _, hg1, (fun e => by cases e), (fun e => by cases e)⟩

/-- C9 (amended): in every state reachable through the public operations,
whatever the page ids, `FetchPageImpl` of a non-resident page and `NewPageImpl`
return; they return null only if the free list is empty and every resident page
has `pin_count_ > 0`; in a state reachable in a run in which the disk manager
never hands out a resident id they also return null whenever that is the case;
and when they return null the state (page table, free list, frame metadata,
replacer, disk, next page id) is unchanged. -/
theorem C9_no_free_frame_signalling [Zero D] (s : BufferPoolManager D) (h : PublicRun s) :
    (∀ p, s.page_table_.find p = none →
      ∃ res s1, FetchPageImpl s p = some (res, s1) ∧
        (res = none → (s.free_list_ = [] ∧
          ∀ q f, s.page_table_.find q = some f → 0 < (s.pages_ f).pin_count_)) ∧
        (Reachable s → (s.free_list_ = [] ∧
          ∀ q f, s.page_table_.find q = some f → 0 < (s.pages_ f).pin_count_) → res = none) ∧
        (res = none → s1 = s)) ∧
    (∃ res s1, NewPageImpl s = some (res, s1) ∧
      (res = none → (s.free_list_ = [] ∧
        ∀ q f, s.page_table_.find q = some f → 0 < (s.pages_ f).pin_count_)) ∧
      (Reachable s → (s.free_list_ = [] ∧
        ∀ q f, s.page_table_.find q = some f → 0 < (s.pages_ f).pin_count_) → res = none) ∧
      (res = none → s1 = s)) := by
  obtain ⟨res, sm, hg, honly, hsame⟩ := GetUsableFrameImpl_none_only_if s h.core
  have hif : Reachable s → (s.free_list_ = [] ∧
      ∀ q f, s.page_table_.find q = some f → 0 < (s.pages_ f).pin_count_) → res = none := by
    intro hr hh
    obtain ⟨res2, sm2, hg2, hiff, _⟩ := GetUsableFrameImpl_none_iff s hr.wf
    rw [hg] at hg2
    rw [(Prod.mk.inj (Option.some.inj hg2)).1]
    exact hiff.mpr hh
  constructor
  · intro p hp
    cases res with
    | none =>
      exact ⟨none, sm, by simp only [FetchPageImpl, hp, hg], fun _ => honly rfl, fun _ _ => rfl,
        fun _ => hsame rfl⟩
    | some f =>
      refine ⟨some f, _, by simp only [FetchPageImpl, hp, hg]; try rfl,
        (fun e => by cases e), fun hr hh => ?_, (fun e => by cases e)⟩
      have := hif hr hh
      cases this
  · cases res with
    | none =>
      exact ⟨none, sm, by simp only [NewPageImpl, hg], fun _ => honly rfl, fun _ _ => rfl,
        fun _ => hsame rfl⟩
    | some f =>
      refine ⟨some (f, sm.disk_manager_.next_page_id_), _,
        by simp only [NewPageImpl, hg, DiskManager.AllocatePage]; try rfl,
        (fun e => by cases e), fun hr hh => ?_, (fun e => by cases e)⟩
      have := hif hr hh
      cases this

end BufferPoolManager

/-- Witness of C9 (amended, pool of size 1): `NewPage` succeeds with frame 0
and page id 0; a second `NewPage` returns null and changes nothing; after
`UnpinPage(0, false)` a third `NewPage` reuses frame 0 with the different id 1 and
page 0 is no longer mapped. -/
theorem C9_witness :
    BufferPoolManager.PublicRun Scenario.pool1A ∧
    BufferPoolManager.Reachable Scenario.pool1A ∧
    BufferPoolManager.NewPageImpl Scenario.pool1 = some (some (0, 0), Scenario.pool1A) ∧
    BufferPoolManager.NewPageImpl Scenario.pool1A = some (none, Scenario.pool1A) ∧
    (BufferPoolManager.UnpinPageImpl Scenario.pool1A 0 false).1 = true ∧
    BufferPoolManager.NewPageImpl Scenario.pool1E =
      some (some (0, 1), Scenario.afterNewPage Scenario.pool1E) ∧
    (Scenario.afterNewPage Scenario.pool1E).page_table_.find 0 = none ∧
    (Scenario.afterNewPage Scenario.pool1E).page_table_.find 1 = some 0 ∧
    (∃ res s1, BufferPoolManager.NewPageImpl Scenario.pool1A = some (res, s1) ∧
      (res = none → (Scenario.pool1A.free_list_ = [] ∧
        ∀ q f, Scenario.pool1A.page_table_.find q = some f →
          0 < (Scenario.pool1A.pages_ f).pin_count_)) ∧
      (BufferPoolManager.Reachable Scenario.pool1A → (Scenario.pool1A.free_list_ = [] ∧
        ∀ q f, Scenario.pool1A.page_table_.find q = some f →
          0 < (Scenario.pool1A.pages_ f).pin_count_) → res = none) ∧
      (res = none → s1 = Scenario.pool1A)) :=
  ⟨Scenario.pool1A_reachable.publicRun, Scenario.pool1A_reachable, Scenario.pool1A_step, by rfl,
    by rfl, by rfl, by decide, by decide,
    (BufferPoolManager.C9_no_free_frame_signalling Scenario.pool1A
      Scenario.pool1A_reachable.publicRun).2⟩

namespace Scenario

open BufferPoolManager

end Scenario

namespace BufferPoolManager

variable {D : Type}

end BufferPoolManager

end bustub
